import Mathlib

/-! Simple C compiler: types, storage allocation, semantic checks, code generation.

A shallow embedding of the Simple C compiler (`allocator.cpp`, `checker.cpp`,
`generator.cpp`, `parser.cpp`, `Tree.h`, `machine.h`) together with the
properties established about it.

Conventions of the embedding:

* `unsigned` sizes and lengths are natural numbers reduced modulo `2^32`;
  `int` values are integers wrapped into `[-2^31, 2^31)` by `toInt32`;
  the indirection of a type (a count of `*`) is a natural number.
* A failed `assert` (and any other abort) is the result `none`.
* `Symbol` objects live in a heap indexed by a handle; a `Symbol *` is a handle.
* `report` appends the formatted message to the diagnostics and increments
  the error count.
* The generator returns the operand string it stores in the node.
* The scopes are kept as the chain that `toplevel` reaches, innermost first,
  and the scope of `outermost`; a scope is the list of the handles of its
  symbols in insertion order.
* The output is the list of the texts written, one entry per output statement.
* `Label::counter` and `numErrors` are natural numbers without a bound.
* The lexer is not among the sources: the driver (`globalDeclaration`, `main`)
  takes each global declaration by what its parse leaves, and the parse of a
  function definition (`parameters`, `BlockParse`) enters by its calls of the
  checker.
* The name of a symbol is any string; a property that needs the name of a
  function to start as an identifier does say so.
-/

namespace SimpleC

/-! ## machine.h -/

def SIZEOF_INT : Nat := 4
def SIZEOF_PTR : Nat := 4
def SIZEOF_DOUBLE : Nat := 8
def INIT_PARAM_OFFSET : Int := 8

/-- Number of values of a 32-bit `unsigned`. -/
def UINT_RANGE : Nat := 4294967296

/-- Value of a C `unsigned` expression: reduction modulo `2^32`. -/
def toUInt32 (n : Nat) : Nat := n % UINT_RANGE

/-- Value of a C `int` obtained by converting an out-of-range result:
two's complement wrap into `[-2^31, 2^31)`. -/
def toInt32 (x : Int) : Int := (x + 2147483648) % 4294967296 - 2147483648

/-! ## Types -/

inductive Specifier
  | INT
  | DOUBLE
  | ERROR
deriving DecidableEq, Repr

/-- Modelled from the spec: the shape of a type (the class `Type` is declared in
`Type.h`, which is not among the sources): scalar, array of a length, or
function with a parameter list, `none` for the unprototyped `name()`. -/
inductive Shape (α : Type)
  | Scalar
  | Array (length : Nat)
  | Function (parameters : Option (List α))
deriving Repr

/-- Modelled from the spec: the class `Type` of `Type.h`, a triple
`(specifier, indirection, shape)`. -/
inductive CType
  | mk (specifier : Specifier) (indirection : Nat) (shape : Shape CType)

abbrev Parameters := List CType

namespace CType

def specifier : CType → Specifier
  | mk s _ _ => s

def indirection : CType → Nat
  | mk _ i _ => i

def shape : CType → Shape CType
  | mk _ _ k => k

mutual
/-- Modelled from the spec: `Type::operator==`, structural on all three fields. -/
def beq : CType → CType → Bool
  | mk s1 i1 k1, mk s2 i2 k2 => decide (s1 = s2) && decide (i1 = i2) && beqShape k1 k2
def beqShape : Shape CType → Shape CType → Bool
  | .Scalar, .Scalar => true
  | .Array n, .Array m => decide (n = m)
  | .Function none, .Function none => true
  | .Function (some ps), .Function (some qs) => beqList ps qs
  | _, _ => false
def beqList : List CType → List CType → Bool
  | [], [] => true
  | a :: as, b :: bs => beq a b && beqList as bs
  | _, _ => false
end

mutual
theorem beq_iff : ∀ (a b : CType), beq a b = true ↔ a = b
  | mk s1 i1 k1, b => by
    cases b with
    | mk s2 i2 k2 =>
      simp only [beq, Bool.and_eq_true, decide_eq_true_eq, mk.injEq, beqShape_iff k1 k2,
        and_assoc]
theorem beqShape_iff : ∀ (a b : Shape CType), beqShape a b = true ↔ a = b
  | .Scalar, b => by cases b <;> simp [beqShape]
  | .Array n, b => by cases b <;> simp [beqShape]
  | .Function none, b => by
    cases b with
    | Scalar => simp [beqShape]
    | Array _ => simp [beqShape]
    | Function q => cases q <;> simp [beqShape]
  | .Function (some ps), b => by
    cases b with
    | Scalar => simp [beqShape]
    | Array _ => simp [beqShape]
    | Function q =>
      cases q with
      | none => simp [beqShape]
      | some qs => simp [beqShape, beqList_iff ps qs]
theorem beqList_iff : ∀ (a b : List CType), beqList a b = true ↔ a = b
  | [], b => by cases b <;> simp [beqList]
  | a :: as, b => by
    cases b with
    | nil => simp [beqList]
    | cons b bs => simp [beqList, beq_iff a b, beqList_iff as bs]
end

instance : DecidableEq CType := fun a b => decidable_of_iff _ (beq_iff a b)

/-- Modelled from the spec: the default-constructed `Type()`, the `error` type
of `checker.cpp` (specifier `ERROR`). -/
def error : CType := mk .ERROR 0 .Scalar

/-- The constant `integer(INT)` of `checker.cpp`. -/
def integer : CType := mk .INT 0 .Scalar

/-- The constant `real(DOUBLE)` of `checker.cpp`. -/
def real : CType := mk .DOUBLE 0 .Scalar

/-- Modelled from the spec: `isArray`, shape is Array. -/
def isArray : CType → Bool
  | mk _ _ (.Array _) => true
  | _ => false

/-- Modelled from the spec: `isFunction`, shape is Function. -/
def isFunction : CType → Bool
  | mk _ _ (.Function _) => true
  | _ => false

/-- Modelled from the spec: `isPointer`, shape is Scalar and indirection > 0. -/
def isPointer : CType → Bool
  | mk _ i .Scalar => decide (0 < i)
  | _ => false

/-- Modelled from the spec: `isNumeric`, indirection == 0 and specifier in
{INT, DOUBLE} and shape is Scalar. -/
def isNumeric : CType → Bool
  | mk .INT 0 .Scalar => true
  | mk .DOUBLE 0 .Scalar => true
  | _ => false

/-- Modelled from the spec: `isValue`, numeric or pointer. -/
def isValue (t : CType) : Bool := t.isNumeric || t.isPointer

/-- Modelled from the spec: `isReal`, indirection == 0 and specifier == DOUBLE
and shape is Scalar. -/
def isReal : CType → Bool
  | mk .DOUBLE 0 .Scalar => true
  | _ => false

/-- Modelled from the spec: `promote`, an Array becomes a Scalar with
indirection+1, anything else is unchanged. -/
def promote : CType → CType
  | mk s i (.Array _) => mk s (i + 1) .Scalar
  | t => t

/-- Modelled from the spec: `deref`, indirection-1, Scalar (an indirection
of 0 stays 0). -/
def deref : CType → CType
  | mk s i _ => mk s (i - 1) .Scalar

/-- Modelled from the spec: `parameters()`, the parameter list of a function
type, the null pointer for an unprototyped one. -/
def parameters : CType → Option Parameters
  | mk _ _ (.Function ps) => ps
  | _ => none

/-- `Type::size` (allocator.cpp): the size of a type in bytes, an `unsigned`.
The assertion `_kind != FUNCTION` fails on a function type. -/
def size : CType → Option Nat
  | mk _ _ (.Function _) => none
  | mk s i k =>
    let count : Nat := match k with
      | .Array length => length
      | _ => 1
    if 0 < i then some (toUInt32 (count * SIZEOF_PTR))
    else if s = .INT then some (toUInt32 (count * SIZEOF_INT))
    else some (toUInt32 (count * SIZEOF_DOUBLE))

end CType

/-! ## Symbols -/

/-- The class `Symbol` (Symbol.h): a name, a type and an offset. -/
structure Symbol where
  name : String
  type : CType
  offset : Int

/-- The constructor `Symbol::Symbol`: the offset starts at 0. -/
def Symbol.new (name : String) (type : CType) : Symbol := ⟨name, type, 0⟩

/-- The `Symbol` objects of a run, by handle. -/
abbrev Heap := Nat → Symbol

/-- The mutator `Symbol::offset(int)` applied to the symbol with handle `s`. -/
def Heap.setOffset (h : Heap) (s : Nat) (offset : Int) : Heap :=
  fun x => if x = s then { h s with offset := offset } else h x

/-! ## Abstract syntax trees (Tree.h) -/

/-- The expression classes of `Tree.h`.  Every node carries the `_type` its
constructor was given; a `Symbol *` is a heap handle.  An `Identifier` keeps
the copy of the type of its symbol that the constructor stored in `_type`,
a `String` the type its constructor stored, a `Real` the number of its
`fLabel`. -/
inductive Expr
  | String (value : String) (type : CType)
  | Identifier (symbol : Nat) (type : CType)
  | Integer (value : String)
  | Real (value : String) (label : Nat)
  | Call (id : Nat) (args : List Expr) (type : CType)
  | Not (expr : Expr) (type : CType)
  | Negate (expr : Expr) (type : CType)
  | Dereference (expr : Expr) (type : CType)
  | Address (expr : Expr) (type : CType)
  | Cast (type : CType) (expr : Expr)
  | Multiply (left right : Expr) (type : CType)
  | Divide (left right : Expr) (type : CType)
  | Remainder (left right : Expr) (type : CType)
  | Add (left right : Expr) (type : CType)
  | Subtract (left right : Expr) (type : CType)
  | LessThan (left right : Expr) (type : CType)
  | GreaterThan (left right : Expr) (type : CType)
  | LessOrEqual (left right : Expr) (type : CType)
  | GreaterOrEqual (left right : Expr) (type : CType)
  | Equal (left right : Expr) (type : CType)
  | NotEqual (left right : Expr) (type : CType)
  | LogicalAnd (left right : Expr) (type : CType)
  | LogicalOr (left right : Expr) (type : CType)
  | Assign (left right : Expr) (type : CType)

abbrev Expressions := List Expr

/-- The accessor `Expression::type`.  Modelled from the spec for the two
literals, whose constructors (Tree.cpp) are not among the sources: an
`Integer` has type INT and a `Real` type DOUBLE. -/
def Expr.type : Expr → CType
  | .String _ t => t
  | .Identifier _ t => t
  | .Integer _ => CType.integer
  | .Real _ _ => CType.real
  | .Call _ _ t => t
  | .Not _ t => t
  | .Negate _ t => t
  | .Dereference _ t => t
  | .Address _ t => t
  | .Cast t _ => t
  | .Multiply _ _ t => t
  | .Divide _ _ t => t
  | .Remainder _ _ t => t
  | .Add _ _ t => t
  | .Subtract _ _ t => t
  | .LessThan _ _ t => t
  | .GreaterThan _ _ t => t
  | .LessOrEqual _ _ t => t
  | .GreaterOrEqual _ _ t => t
  | .Equal _ _ t => t
  | .NotEqual _ _ t => t
  | .LogicalAnd _ _ t => t
  | .LogicalOr _ _ t => t
  | .Assign _ _ t => t

/-- Modelled from the spec: the accessor `Expression::lvalue`, whose flag is
set by the constructors of Tree.cpp (not among the sources): an `Identifier`
is an lvalue iff the type of its symbol is not array and not function, a
`Dereference` always is, every other node never is. -/
def Expr.lvalue : Expr → Bool
  | .Identifier _ t => !t.isArray && !t.isFunction
  | .Dereference _ _ => true
  | _ => false

/-- The statement classes of `Tree.h`; an expression is a statement.  A
`Block` holds the handles of the symbols of its scope in insertion order. -/
inductive Stmt
  | Expression (expr : Expr)
  | Return (expr : Expr)
  | Block (decls : List Nat) (stmts : List Stmt)
  | While (expr : Expr) (stmt : Stmt)
  | If (expr : Expr) (thenStmt : Stmt) (elseStmt : Option Stmt)

abbrev Statements := List Stmt

/-- The class `Function`: the handle of its symbol and its body, a `Block`
given by the symbols of its scope and its statements. -/
structure Function where
  id : Nat
  decls : List Nat
  stmts : Statements

def Function.body (f : Function) : Stmt := .Block f.decls f.stmts

/-! ## Storage allocation (allocator.cpp) -/

/-- The first loop of `Block::allocate`: every symbol of the scope whose
offset is still 0 gets `offset -= size`. -/
def allocateSymbols : List Nat → Int → Heap → Option (Int × Heap)
  | [], offset, h => some (offset, h)
  | s :: symbols, offset, h =>
    if (h s).offset = 0 then
      match (h s).type.size with
      | none => none
      | some n => allocateSymbols symbols (toInt32 (offset - n)) (h.setOffset s (toInt32 (offset - n)))
    else allocateSymbols symbols offset h

mutual
/-- The virtual `allocate(int &offset)`: `Block::allocate`, `While::allocate`,
`If::allocate`, and the empty `Node::allocate` of the other statements.  The
result is the updated `offset` and the heap. -/
def Stmt.allocate : Stmt → Int → Heap → Option (Int × Heap)
  | .Expression _, offset, h => some (offset, h)
  | .Return _, offset, h => some (offset, h)
  | .Block decls stmts, offset, h =>
    match allocateSymbols decls offset h with
    | none => none
    | some (offset, h) => Stmt.allocateStmts stmts offset offset h
  | .While _ stmt, offset, h => stmt.allocate offset h
  | .If _ thenStmt none, offset, h => thenStmt.allocate offset h
  | .If _ thenStmt (some elseStmt), offset, h =>
    match thenStmt.allocate offset h with
    | none => none
    | some (offset, h) =>
      match elseStmt.allocate offset h with
      | none => none
      | some (temp, h) => some (min offset temp, h)
/-- The second loop of `Block::allocate`, from statement `i` on, with the
current values of `temp` and `offset`. -/
def Stmt.allocateStmts : List Stmt → Int → Int → Heap → Option (Int × Heap)
  | [], _, offset, h => some (offset, h)
  | s :: stmts, temp, offset, h =>
    match s.allocate temp h with
    | none => none
    | some (temp, h) => Stmt.allocateStmts stmts temp (min offset temp) h
end

/-- The loop of `Function::allocate` over the parameters: `symbols[i]` gets
the running offset, which then grows by the size of `params[i]`.  Indexing
`symbols` past its end is an abort. -/
def allocateParameters : Parameters → List Nat → Int → Heap → Option (Int × Heap)
  | [], _, offset, h => some (offset, h)
  | _ :: _, [], _, _ => none
  | p :: params, s :: symbols, offset, h =>
    match p.size with
    | none => none
    | some n => allocateParameters params symbols (toInt32 (offset + n)) (h.setOffset s offset)

/-- `Function::allocate`: its result is the final `offset` and the heap.  A
null parameter list is an abort. -/
def Function.allocate (f : Function) (h : Heap) : Option (Int × Heap) :=
  match (h f.id).type.parameters with
  | none => none
  | some params =>
    match allocateParameters params f.decls INIT_PARAM_OFFSET h with
    | none => none
    | some (_, h) => f.body.allocate 0 h

/-! ## Semantic checker (checker.cpp) -/

/-- The struct `fLabel` of `Tree.h`: the label of a real literal. -/
structure fLabel where
  number : Nat
  value : String

/-- The process-wide state the checker works on: the error count and the
messages handed to `report` (each the format and its argument), and the table
of floating-point labels with the counter `fLabel::counter`. -/
structure Checker where
  numErrors : Nat
  diagnostics : List (String × String)
  fLabels : List fLabel
  fLabelCounter : Nat

/-- Modelled from the spec: `report(format, arg)` of the error reporter
(lexer.h, not among the sources): it increments the error count and writes
the message, recorded here as the format and its argument. -/
def report (format : String) (arg : String) (c : Checker) : Checker :=
  { c with numErrors := c.numErrors + 1, diagnostics := c.diagnostics ++ [(format, arg)] }

def invalid_return : String := "invalid return type"
def invalid_test : String := "invalid type for test expression"
def invalid_lvalue : String := "invalid lvalue in expression"
def invalid_operands : String := "invalid operands to binary %s"
def invalid_operand : String := "invalid operand to unary %s"
def invalid_cast : String := "invalid operand in cast expression"
def invalid_function : String := "called object is not a function"
def invalid_arguments : String := "invalid arguments to called function"

/-- Modelled from the spec: the constructor `Real::Real(const string &)` of
Tree.cpp (not among the sources), which interns the literal into the table of
floating-point labels: an equal literal shares its label, a new one takes the
next number of `fLabel::counter`. -/
def newReal (value : String) (c : Checker) : Expr × Checker :=
  match c.fLabels.find? (fun l => l.value = value) with
  | some l => (.Real value l.number, c)
  | none =>
    (.Real value c.fLabelCounter,
      { c with fLabels := c.fLabels ++ [⟨c.fLabelCounter, value⟩],
               fLabelCounter := c.fLabelCounter + 1 })

/-- The constructor `Integer::Integer(unsigned)`: the literal with the
decimal text of the value. -/
def newInteger (value : Nat) : Expr := .Integer (toString value)

/-- The function `promote(Expression *&expr)`: an array expression is wrapped
in an `Address` of the promoted type.  The result is the updated `expr`; the
type the C++ function returns is the type of that result. -/
def promote (expr : Expr) : Expr :=
  if expr.type.isArray then .Address expr expr.type.promote else expr

/-- The function `promote(Expression *&expr, Type type)`: an `int` expression
promoted toward `double` becomes a `Real` if it is an `Integer` literal and a
`Cast` otherwise; then an array is promoted. -/
def promoteTo (expr : Expr) (type : CType) (c : Checker) : Expr × Checker :=
  if expr.type = CType.integer ∧ type = CType.real then
    match expr with
    | .Integer value =>
      let r := newReal value c
      (promote r.1, r.2)
    | _ => (promote (.Cast CType.real expr), c)
  else (promote expr, c)

/-- The function `convert(Expression *&expr, Type type)`: a `double`
expression converted toward `int` is wrapped in a `Cast`; then `promote`. -/
def convert (expr : Expr) (type : CType) (c : Checker) : Expr × Checker :=
  if expr.type = CType.real ∧ type = CType.integer then
    promoteTo (.Cast CType.integer expr) type c
  else promoteTo expr type c

/-- The loop of `checkCall` over the arguments of a prototyped call, with its
`break`: the arguments as converted so far, whether a mismatch was found, and
the state. -/
def checkArguments : Expressions → Parameters → Checker → Expressions × Bool × Checker
  | a :: args, p :: params, c =>
    let r := convert a p c
    if r.1.type ≠ p then (r.1 :: args, true, r.2)
    else
      let rest := checkArguments args params r.2
      (r.1 :: rest.1, rest.2.1, rest.2.2)
  | args, _, c => (args, false, c)

/-- The function `checkCall`. -/
def checkCall (h : Heap) (id : Nat) (args : Expressions) (c : Checker) : Expr × Checker :=
  let t := (h id).type
  if t ≠ CType.error then
    if !t.isFunction then
      (.Call id args CType.error, report invalid_function "" c)
    else
      let result := CType.mk t.specifier t.indirection .Scalar
      match t.parameters with
      | some params =>
        if params.length ≠ args.length then
          (.Call id args result, report invalid_arguments "" c)
        else
          let r := checkArguments args params c
          if r.2.1 then (.Call id r.1 CType.error, report invalid_arguments "" r.2.2)
          else (.Call id r.1 result, r.2.2)
      | none => (.Call id (args.map promote) result, c)
  else (.Call id args CType.error, c)

/-- The function `checkArray`. -/
def checkArray (left right : Expr) (c : Checker) : Option (Expr × Checker) :=
  let left := promote left
  let t1 := left.type
  let t2 := right.type
  match t1.deref.size with
  | none => none
  | some n =>
    let right := Expr.Multiply right (newInteger n) CType.integer
    let expr := Expr.Add left right t1
    if t1 ≠ CType.error ∧ t2 ≠ CType.error then
      if t1.isPointer ∧ t2 = CType.integer then some (.Dereference expr t1.deref, c)
      else some (.Dereference expr CType.error, report invalid_operands "[]" c)
    else some (.Dereference expr CType.error, c)

/-- The function `checkNot`. -/
def checkNot (expr : Expr) (c : Checker) : Expr × Checker :=
  let expr := promote expr
  let t := expr.type
  if t ≠ CType.error then
    if t.isValue then (.Not expr CType.integer, c)
    else (.Not expr CType.error, report invalid_operand "!" c)
  else (.Not expr CType.error, c)

/-- The function `checkNegate`. -/
def checkNegate (expr : Expr) (c : Checker) : Expr × Checker :=
  let t := expr.type
  if t ≠ CType.error then
    if t.isNumeric then (.Negate expr t, c)
    else (.Negate expr CType.error, report invalid_operand "-" c)
  else (.Negate expr CType.error, c)

/-- The function `checkDereference`. -/
def checkDereference (expr : Expr) (c : Checker) : Expr × Checker :=
  let expr := promote expr
  let t := expr.type
  if t ≠ CType.error then
    if t.isPointer then (.Dereference expr t.deref, c)
    else (.Dereference expr CType.error, report invalid_operand "*" c)
  else (.Dereference expr CType.error, c)

/-- The function `checkAddress`. -/
def checkAddress (expr : Expr) (c : Checker) : Expr × Checker :=
  let t := expr.type
  if t ≠ CType.error then
    if expr.lvalue then
      (.Address expr (.mk t.specifier (t.indirection + 1) .Scalar), c)
    else (.Address expr CType.error, report invalid_lvalue "" c)
  else (.Address expr CType.error, c)

/-- The function `checkCast`. -/
def checkCast (type : CType) (expr : Expr) (c : Checker) : Expr × Checker :=
  let expr := promote expr
  let t := expr.type
  if t ≠ CType.error then
    if type.isNumeric ∧ t.isNumeric then (.Cast type expr, c)
    else if type.isPointer ∧ (t.isPointer ∨ t = CType.integer) then (.Cast type expr, c)
    else if t.isPointer ∧ type = CType.integer then (.Cast type expr, c)
    else (.Cast CType.error expr, report invalid_cast "" c)
  else (.Cast CType.error expr, c)

/-- The result of a helper that checks a binary operator: the two operands as
updated through the reference parameters, and the result type. -/
structure Checked where
  left : Expr
  right : Expr
  type : CType

/-- The static function `checkMult`. -/
def checkMult (left right : Expr) (op : String) (c : Checker) : Checked × Checker :=
  let l := promoteTo left right.type c
  let r := promoteTo right l.1.type l.2
  let t1 := l.1.type
  let t2 := r.1.type
  if t1 ≠ CType.error ∧ t2 ≠ CType.error then
    if t1.isNumeric ∧ t2.isNumeric then (⟨l.1, r.1, t1⟩, r.2)
    else (⟨l.1, r.1, CType.error⟩, report invalid_operands op r.2)
  else (⟨l.1, r.1, CType.error⟩, r.2)

/-- The function `checkMultiply`. -/
def checkMultiply (left right : Expr) (c : Checker) : Expr × Checker :=
  let r := checkMult left right "*" c
  (.Multiply r.1.left r.1.right r.1.type, r.2)

/-- The function `checkDivide`. -/
def checkDivide (left right : Expr) (c : Checker) : Expr × Checker :=
  let r := checkMult left right "/" c
  (.Divide r.1.left r.1.right r.1.type, r.2)

/-- The function `checkRemainder`. -/
def checkRemainder (left right : Expr) (c : Checker) : Expr × Checker :=
  let t1 := left.type
  let t2 := right.type
  if t1 ≠ CType.error ∧ t2 ≠ CType.error then
    if t1 = CType.integer ∧ t2 = CType.integer then (.Remainder left right CType.integer, c)
    else (.Remainder left right CType.error, report invalid_operands "%" c)
  else (.Remainder left right CType.error, c)

/-- The function `checkAdd`. -/
def checkAdd (left right : Expr) (c : Checker) : Option (Expr × Checker) :=
  let l := promoteTo left right.type c
  let r := promoteTo right l.1.type l.2
  let t1 := l.1.type
  let t2 := r.1.type
  if t1 ≠ CType.error ∧ t2 ≠ CType.error then
    if t1.isNumeric ∧ t2.isNumeric then some (.Add l.1 r.1 t1, r.2)
    else if t1.isPointer ∧ t2 = CType.integer then
      match t1.deref.size with
      | none => none
      | some n => some (.Add l.1 (.Multiply r.1 (newInteger n) CType.integer) t1, r.2)
    else if t1 = CType.integer ∧ t2.isPointer then
      match t2.deref.size with
      | none => none
      | some n => some (.Add (.Multiply l.1 (newInteger n) CType.integer) r.1 t2, r.2)
    else some (.Add l.1 r.1 CType.error, report invalid_operands "+" r.2)
  else some (.Add l.1 r.1 CType.error, r.2)

/-- The function `checkSubtract`. -/
def checkSubtract (left right : Expr) (c : Checker) : Option (Expr × Checker) :=
  let l := promoteTo left right.type c
  let r := promoteTo right l.1.type l.2
  let t1 := l.1.type
  let t2 := r.1.type
  let checked : Option (Checked × Checker) :=
    if t1 ≠ CType.error ∧ t2 ≠ CType.error then
      if t1.isNumeric ∧ t2.isNumeric then some (⟨l.1, r.1, t1⟩, r.2)
      else if t1.isPointer ∧ t1 = t2 then some (⟨l.1, r.1, CType.integer⟩, r.2)
      else if t1.isPointer ∧ t2 = CType.integer then
        match t1.deref.size with
        | none => none
        | some n => some (⟨l.1, .Multiply r.1 (newInteger n) CType.integer, t1⟩, r.2)
      else some (⟨l.1, r.1, CType.error⟩, report invalid_operands "-" r.2)
    else some (⟨l.1, r.1, CType.error⟩, r.2)
  match checked with
  | none => none
  | some (k, c) =>
    let tree := Expr.Subtract k.left k.right k.type
    if t1.isPointer ∧ t1 = t2 then
      match t1.deref.size with
      | none => none
      | some n => some (.Divide tree (newInteger n) CType.integer, c)
    else some (tree, c)

/-- The static function `checkCompare`. -/
def checkCompare (left right : Expr) (op : String) (c : Checker) : Checked × Checker :=
  let l := promoteTo left right.type c
  let r := promoteTo right l.1.type l.2
  let t1 := l.1.type
  let t2 := r.1.type
  if t1 ≠ CType.error ∧ t2 ≠ CType.error then
    if t1 = t2 ∧ t1.isValue then (⟨l.1, r.1, CType.integer⟩, r.2)
    else (⟨l.1, r.1, CType.error⟩, report invalid_operands op r.2)
  else (⟨l.1, r.1, CType.error⟩, r.2)

/-- The function `checkEqual`. -/
def checkEqual (left right : Expr) (c : Checker) : Expr × Checker :=
  let r := checkCompare left right "==" c
  (.Equal r.1.left r.1.right r.1.type, r.2)

/-- The function `checkNotEqual`. -/
def checkNotEqual (left right : Expr) (c : Checker) : Expr × Checker :=
  let r := checkCompare left right "!=" c
  (.NotEqual r.1.left r.1.right r.1.type, r.2)

/-- The function `checkLessThan`. -/
def checkLessThan (left right : Expr) (c : Checker) : Expr × Checker :=
  let r := checkCompare left right "<" c
  (.LessThan r.1.left r.1.right r.1.type, r.2)

/-- The function `checkGreaterThan`. -/
def checkGreaterThan (left right : Expr) (c : Checker) : Expr × Checker :=
  let r := checkCompare left right ">" c
  (.GreaterThan r.1.left r.1.right r.1.type, r.2)

/-- The function `checkLessOrEqual`. -/
def checkLessOrEqual (left right : Expr) (c : Checker) : Expr × Checker :=
  let r := checkCompare left right "<=" c
  (.LessOrEqual r.1.left r.1.right r.1.type, r.2)

/-- The function `checkGreaterOrEqual`. -/
def checkGreaterOrEqual (left right : Expr) (c : Checker) : Expr × Checker :=
  let r := checkCompare left right ">=" c
  (.GreaterOrEqual r.1.left r.1.right r.1.type, r.2)

/-- The static function `checkLogical`. -/
def checkLogical (left right : Expr) (op : String) (c : Checker) : Checked × Checker :=
  let l := promote left
  let r := promote right
  let t1 := l.type
  let t2 := r.type
  if t1 ≠ CType.error ∧ t2 ≠ CType.error then
    if t1.isValue ∧ t2.isValue then (⟨l, r, CType.integer⟩, c)
    else (⟨l, r, CType.error⟩, report invalid_operands op c)
  else (⟨l, r, CType.error⟩, c)

/-- The function `checkLogicalAnd`. -/
def checkLogicalAnd (left right : Expr) (c : Checker) : Expr × Checker :=
  let r := checkLogical left right "&&" c
  (.LogicalAnd r.1.left r.1.right r.1.type, r.2)

/-- The function `checkLogicalOr`. -/
def checkLogicalOr (left right : Expr) (c : Checker) : Expr × Checker :=
  let r := checkLogical left right "||" c
  (.LogicalOr r.1.left r.1.right r.1.type, r.2)

/-- The function `checkAssign`. -/
def checkAssign (left right : Expr) (c : Checker) : Expr × Checker :=
  let t1 := left.type
  let r := convert right left.type c
  let t2 := r.1.type
  if t1 ≠ CType.error ∧ t2 ≠ CType.error then
    if !left.lvalue then (.Assign left r.1 CType.error, report invalid_lvalue "" r.2)
    else if t1 = t2 ∧ t1.isValue then (.Assign left r.1 t1, r.2)
    else (.Assign left r.1 CType.error, report invalid_operands "=" r.2)
  else (.Assign left r.1 CType.error, r.2)

/-- The function `checkReturn`: the updated expression and the state. -/
def checkReturn (expr : Expr) (type : CType) (c : Checker) : Expr × Checker :=
  let r := convert expr type c
  let t := r.1.type
  if t ≠ CType.error ∧ t ≠ type then (r.1, report invalid_return "" r.2) else r

/-- The function `checkTest`: the updated expression and the state. -/
def checkTest (expr : Expr) (c : Checker) : Expr × Checker :=
  let e := promote expr
  if e.type ≠ CType.error ∧ !e.type.isValue then (e, report invalid_test "" c) else (e, c)

/-! ## Scopes and declarations (checker.cpp) -/

def redeclared_function : String := "function %s is previously declared"
def redeclared_variable : String := "variable %s is previously declared"
def redeclared_parameter : String := "parameter %s is previously declared"
def undeclared_identifier : String := "%s is undeclared"

/-- Modelled from the spec: the class `Scope` of `Scope.h` (not among the
sources), an ordered list of symbols, insertion order preserved; the symbols
are heap handles.  The pointer to the enclosing scope is the place of the
scope in the chain of `Scopes`. -/
structure Scope where
  symbols : List Nat

/-- Modelled from the spec: `Scope::find(name)`, which looks in this scope
only. -/
def Scope.find (h : Heap) (scope : Scope) (name : String) : Option Nat :=
  scope.symbols.find? fun x => (h x).name = name

/-- Modelled from the spec: `Scope::remove(name)`, which drops the entry of
that name. -/
def Scope.remove (h : Heap) (scope : Scope) (name : String) : Scope :=
  ⟨scope.symbols.eraseP fun x => (h x).name = name⟩

/-- Modelled from the spec: `Scope::insert(symbol)`, which adds the symbol
after the ones already there. -/
def Scope.insert (scope : Scope) (symbol : Nat) : Scope :=
  ⟨scope.symbols ++ [symbol]⟩

/-- Modelled from the spec: `Scope::lookup(name)`, which walks up the chain
of enclosing scopes, given here from the scope itself outward. -/
def lookup (h : Heap) : List Scope → String → Option Nat
  | [], _ => none
  | scope :: enclosing, name =>
    match scope.find h name with
    | some symbol => some symbol
    | none => lookup h enclosing name

/-- The scopes that the static pointers `outermost` and `toplevel` of
`checker.cpp` reach.  `unopened`: both are null.  `opened o attached inner`:
`outermost` points to `o`; the chain from `toplevel` outward is `inner`,
followed by `o` while `attached`; once the outermost scope itself has been
closed, `attached` is false and `toplevel` no longer reaches `o`. -/
inductive Scopes
  | unopened
  | opened (outermost : Scope) (attached : Bool) (inner : List Scope)

/-- The chain of scopes from `toplevel` outward. -/
def Scopes.chain : Scopes → List Scope
  | .unopened => []
  | .opened o attached inner => if attached then inner ++ [o] else inner

/-- The scope `outermost` points to, `none` for the null pointer. -/
def Scopes.outermost : Scopes → Option Scope
  | .unopened => none
  | .opened o _ _ => some o

/-- The scope `toplevel` points to, `none` for the null pointer. -/
def Scopes.toplevel (s : Scopes) : Option Scope := s.chain.head?

/-- The scopes after a change of the scope that `outermost` points to. -/
def Scopes.setOutermost : Scopes → Scope → Scopes
  | .unopened, _ => .unopened
  | .opened _ attached inner, scope => .opened scope attached inner

/-- The scopes after a change of the scope that `toplevel` points to. -/
def Scopes.setToplevel : Scopes → Scope → Scopes
  | .opened o attached (_ :: inner), scope => .opened o attached (scope :: inner)
  | .opened _ true [], scope => .opened scope true []
  | s, _ => s

/-- The symbol table of a run: the `Symbol` objects by handle, the number of
handles handed out by `new Symbol`, and the scopes. -/
structure Table where
  heap : Heap
  next : Nat
  scopes : Scopes

/-- The table at the start of a run: no symbol, no scope. -/
def Table.init : Table := ⟨fun _ => Symbol.new "" CType.error, 0, .unopened⟩

/-- The expression `new Symbol(name, type)`: a fresh handle, and the table
with the new object. -/
def Table.newSymbol (t : Table) (name : String) (type : CType) : Nat × Table :=
  (t.next,
    { t with heap := fun x => if x = t.next then Symbol.new name type else t.heap x,
             next := t.next + 1 })

/-- The function `openScope`: a new empty scope whose enclosing scope is the
old `toplevel` becomes `toplevel`, and `outermost` if that was null. -/
def openScope (t : Table) : Table :=
  match t.scopes with
  | .unopened => { t with scopes := .opened ⟨[]⟩ true [] }
  | .opened o attached inner => { t with scopes := .opened o attached (⟨[]⟩ :: inner) }

/-- The function `closeScope`: `toplevel` moves to its enclosing scope and
the old one is returned.  A null `toplevel` is an abort. -/
def closeScope (t : Table) : Option (Scope × Table) :=
  match t.scopes with
  | .opened o attached (scope :: inner) => some (scope, { t with scopes := .opened o attached inner })
  | .opened o true [] => some (o, { t with scopes := .opened o false [] })
  | _ => none

/-- The result of the statements of a declare function on its scope. -/
structure Declared where
  symbol : Nat
  scope : Scope
  table : Table
  checker : Checker

/-- The statements that `declareFunction`, `declareVariable` and
`declareParameter` share, on the scope each of them targets: if `find` gives a
symbol, the redeclaration is reported and the symbol removed (and deleted);
then a new symbol is inserted and returned. -/
def declareIn (format : String) (scope : Scope) (name : String) (type : CType) (t : Table)
    (c : Checker) : Declared :=
  match scope.find t.heap name with
  | some _ =>
    let c := report format name c
    let scope := scope.remove t.heap name
    let r := t.newSymbol name type
    ⟨r.1, scope.insert r.1, r.2, c⟩
  | none =>
    let r := t.newSymbol name type
    ⟨r.1, scope.insert r.1, r.2, c⟩

/-- The function `declareFunction`: the scope is the one of `outermost`. -/
def declareFunction (name : String) (type : CType) (t : Table) (c : Checker) :
    Option (Nat × Table × Checker) :=
  match t.scopes.outermost with
  | none => none
  | some scope =>
    let r := declareIn redeclared_function scope name type t c
    some (r.symbol, { r.table with scopes := t.scopes.setOutermost r.scope }, r.checker)

/-- The function `declareVariable`: the scope is the one of `toplevel`. -/
def declareVariable (name : String) (type : CType) (t : Table) (c : Checker) :
    Option (Nat × Table × Checker) :=
  match t.scopes.toplevel with
  | none => none
  | some scope =>
    let r := declareIn redeclared_variable scope name type t c
    some (r.symbol, { r.table with scopes := t.scopes.setToplevel r.scope }, r.checker)

/-- The function `declareParameter`: the scope is the one of `toplevel`. -/
def declareParameter (name : String) (type : CType) (t : Table) (c : Checker) :
    Option (Nat × Table × Checker) :=
  match t.scopes.toplevel with
  | none => none
  | some scope =>
    let r := declareIn redeclared_parameter scope name type t c
    some (r.symbol, { r.table with scopes := t.scopes.setToplevel r.scope }, r.checker)

/-- The function `checkIdentifier`: the symbol that `lookup` finds from
`toplevel`, or after a report a new symbol of type ERROR inserted in the scope
of `toplevel`. -/
def checkIdentifier (name : String) (t : Table) (c : Checker) :
    Option (Nat × Table × Checker) :=
  match t.scopes.toplevel with
  | none => none
  | some scope =>
    match lookup t.heap t.scopes.chain name with
    | some symbol => some (symbol, t, c)
    | none =>
      let c := report undeclared_identifier name c
      let r := t.newSymbol name CType.error
      some (r.1, { r.2 with scopes := t.scopes.setToplevel (scope.insert r.1) }, c)

/-! ## Code generator (generator.cpp) -/

/-- The struct `Label`: its number, taken from `Label::counter`. -/
structure Label where
  number : Nat

/-- The operand string of an expression, and the text written to `cout`. -/
abbrev Operand := String

/-- The process-wide state of the generator: `tempoffset`, `minoffset`,
`maxoffset`, `Label::counter`, the map `Labels` of string literals (kept in
key order), `returnLab`, and the text written to `cout`, one entry per output
statement.  `assigned` and `slots` are observations that the generator never
reads: the offsets handed out by `assigntemp`, in order, and the same with
the size of each. -/
structure Generator where
  tempoffset : Int
  minoffset : Int
  maxoffset : Int
  counter : Nat
  Labels : List (String × Label)
  returnLab : Label
  cout : List String
  assigned : List Int
  slots : List (Int × Nat)

/-- One output statement `cout << ...;` writing `text`. -/
def Generator.emit (g : Generator) (text : String) : Generator :=
  { g with cout := g.cout ++ [text] }

/-- Several output statements in a row. -/
def Generator.emits (g : Generator) (texts : List String) : Generator :=
  { g with cout := g.cout ++ texts }

/-- The declaration of a `Label`: the constructor takes the next number. -/
def Generator.newLabel (g : Generator) : Label × Generator :=
  (⟨g.counter⟩, { g with counter := g.counter + 1 })

/-- The `operator <<` for a `Label`. -/
def Label.text (l : Label) : String := ".L" ++ toString l.number

/-- The `operator <<` for an `fLabel`, given its number. -/
def fLabelText (number : Nat) : String := ".fp" ++ toString number

/-- The call `Labels.insert(pair(value, lab))` on the ordered map: the map
after the call and the label stored under `value`. -/
def insertLabel : List (String × Label) → String → Label → List (String × Label) × Label
  | [], value, lab => ([(value, lab)], lab)
  | (k, l) :: rest, value, lab =>
    if value = k then ((k, l) :: rest, l)
    else if value < k then ((value, lab) :: (k, l) :: rest, lab)
    else
      let r := insertLabel rest value lab
      ((k, l) :: r.1, r.2)

/-- The function `assigntemp`: `tempoffset -= size` and the operand
`"<tempoffset>(%ebp)"` for the expression. -/
def assigntemp (type : CType) (g : Generator) : Option (Operand × Generator) :=
  match type.size with
  | none => none
  | some n =>
    let t := toInt32 (g.tempoffset - n)
    some (toString t ++ "(%ebp)",
      { g with tempoffset := t, assigned := g.assigned ++ [t], slots := g.slots ++ [(t, n)] })

/-- The code that an arithmetic node emits after its operands: a comment,
then the x87 form for a real type or the integer form. -/
def arithmeticCode (comment : List String) (realComment intComment : List String)
    (fop iop : String) (real : Bool) (l r t : Operand) : List String :=
  comment ++
    if real then
      realComment ++ ["\tfldl\t" ++ l ++ "\n", "\t" ++ fop ++ "\t" ++ r ++ "\n",
        "\tfstpl\t" ++ t ++ "\n"]
    else
      intComment ++ ["\tmovl\t" ++ l ++ ", %eax\n", "\t" ++ iop ++ "\t" ++ r ++ ", %eax\n",
        "\tmovl\t%eax, " ++ t ++ "\n"]

/-- The code of `Divide::generate` after its operands. -/
def divideCode (real : Bool) (l r t : Operand) : List String :=
  ["\n#division time y'all! :) <3\n"] ++
    if real then
      ["\tfldl\t" ++ l ++ "\n", "\tfdivl\t" ++ r ++ "\n", "\tfstpl\t" ++ t ++ "\n"]
    else
      ["\tmovl\t" ++ l ++ ", %eax\n", "\tcltd\n", "\tmovl\t" ++ r ++ ", %ecx\n",
        "\tidivl\t%ecx\n", "\tmovl\t%eax, " ++ t ++ "\n"]

/-- The code of `Remainder::generate` after its operands. -/
def remainderCode (l r t : Operand) : List String :=
  ["\n\t#Remainder time y'all! :) <3\n", "\tmovl\t" ++ l ++ ", %eax\n", "\tcltd\n",
    "\tmovl\t" ++ r ++ ", %ecx\n", "\tidivl\t%ecx\n", "\tmovl\t%edx, " ++ t ++ "\n"]

/-- The code of a comparison node after its operands: `comment`, then for a
real left operand the x87 compare with the condition `fset`, else `cmpl` with
the condition `iset`; `realEnd` and `intEnd` are what follows the last store
(`endl` once or twice). -/
def compareCode (comment : String) (fset iset : String) (realEnd intEnd : String)
    (real : Bool) (l r t : Operand) : List String :=
  [comment] ++
    if real then
      ["\tfldl\t" ++ l ++ "\n", "\tfcompl\t" ++ r ++ "\n", "\tfnstsw\t%ax\n", "\tsahf\n",
        "\t" ++ fset ++ "\t%al\n", "\tmovzbl\t%al, %eax\n",
        "\tmovl\t%eax, " ++ t ++ realEnd]
    else
      ["\tmovl\t" ++ l ++ ", %eax\n", "\tcmpl\t" ++ r ++ ", %eax\n",
        "\t" ++ iset ++ "\t%al\n", "\tmovzbl\t%al, %eax\n",
        "\tmovl\t%eax, " ++ t ++ intEnd]

/-- The code of `Assign::generate` after its operands, by whether the left
side is real and whether it was generated in indirect form. -/
def assignCode (real indirect : Bool) (l r t : Operand) : List String :=
  ["#we are teh assignzorzezvillez\n"] ++
    if real then
      if indirect then
        ["#INDIRECT REAL ASSIGNMENT OH MY GOODIENESS\n", "\tfldl\t" ++ r ++ "\n",
          "\tmovl\t" ++ l ++ ", %eax\n", "\tfstl\t(%eax)\n", "\tfstpl\t" ++ l ++ "\n",
          "\tfstpl\t" ++ t ++ "\n"]
      else
        ["\tfldl\t" ++ r ++ "\n", "\tfstpl\t" ++ l ++ "\n", "\tfstpl\t" ++ t ++ "\n"]
    else
      if indirect then
        ["#INDIRECT ASSIGNMENT OH MY GOODIENESS\n", "\tmovl\t" ++ r ++ ", %eax\n",
          "\tmovl\t" ++ l ++ ", %ecx\n", "\tmovl\t%eax, (%ecx)\n",
          "\tmovl\t%eax, " ++ l ++ "\n", "\tmovl\t%eax, " ++ t ++ "\n"]
      else
        ["\tmovl\t" ++ r ++ ", %eax\n", "\tmovl\t%eax, " ++ l ++ "\n",
          "\tmovl\t%eax, " ++ t ++ "\n"]

/-- The code of `Not::generate` after its operand. -/
def notCode (real : Bool) (e t : Operand) : List String :=
  ["#NOT THE END OF THE WORLD MAYBE \n"] ++
    if real then
      ["\tfldl\t" ++ e ++ "\n", "\tftst\n", "\tfstp\t%st(0)\n", "\tfnstsw\t%ax\n",
        "\tsahf\n", "\tsete\t%al\n", "\tmovzbl\t%al, %eax\n", "\tmovl\t%eax, " ++ t ++ "\n"]
    else
      ["\tmovl\t" ++ e ++ ", %eax\n", "\ttestl\t%eax, %eax\n", "\tsete\t%al\n",
        "\tmovzbl\t%al, %eax\n", "\tmovl\t%eax, " ++ t ++ "\n"]

/-- The code of `Negate::generate` after its operand. -/
def negateCode (real : Bool) (e t : Operand) : List String :=
  ["#all of the negationz <3 <3 <3 :) KSDFAJFKLDJSDFAKL\n"] ++
    if real then
      ["\tfldl\t" ++ e ++ "\n", "\tfchs\t\n", "\tfstpl\t" ++ t ++ "\n"]
    else
      ["\tmovl\t" ++ e ++ ", %eax\n", "\tnegl\t%eax\n", "\tmovl\t%eax, " ++ t ++ "\n"]

/-- The code of `Dereference::generate()` after its operand. -/
def dereferenceCode (real : Bool) (e t : Operand) : List String :=
  ["#Dereferencing this here expression\n"] ++
    if real then
      ["\tmovl\t" ++ e ++ ", %eax\n", "\tfldl\t(%eax)\n", "\tfstpl\t" ++ t ++ "\n"]
    else
      ["\tmovl\t" ++ e ++ ", %eax\n", "\tmovl\t(%eax), %eax\n",
        "\tmovl\t%eax, " ++ t ++ "\n"]

/-- The code of a short-circuit node between its operands: the test of the
left operand and the branch `jump` to the label. -/
def logicalTest (jump : String) (l : Operand) (lab : Label) : List String :=
  ["\tmovl\t" ++ l ++ ", %eax\n", "\ttestl\t%eax, %eax\n",
    "\t" ++ jump ++ "\t" ++ lab.text ++ "\n"]

/-- The code of a short-circuit node after its right operand. -/
def logicalJoin (r t : Operand) (lab : Label) : List String :=
  ["\tmovl\t" ++ r ++ ", %eax\n", "\ttestl\t%eax, %eax\n", lab.text ++ ":\n",
    "\tsetne\t%al\n", "\tmovzbl\t%al, %eax\n", "\tmovl\t%eax, " ++ t ++ "\n"]

/-- The code that `Call::generate` emits to push one argument. -/
def pushCode (real : Bool) (a : Operand) : List String :=
  if real then ["\tsubl\t$8, %esp\n", "\tfldl\t" ++ a ++ "\n", "\tfstpl\t(%esp)\n"]
  else ["\tpushl\t" ++ a ++ "\n"]

/-- The code that `Call::generate` emits to store the returned value. -/
def callResultCode (real : Bool) (t : Operand) : List String :=
  if real then
    ["#getting a double from a returned statement thing from the function up thereish^\n",
      "\tfstpl\t" ++ t ++ "\n"]
  else ["#getting an int from a return.\n", "\tmovl\t%eax, " ++ t ++ "\n"]

/-- The body of `Address::generate` after `_expr->generate(indirect)` gave the
operand `e`. -/
def addressCode (type : CType) (e : Operand) (indirect : Bool) (g : Generator) :
    Option (Operand × Generator) :=
  if !indirect then
    if e.get 0 = '.' then some ("$" ++ e, g)
    else
      match assigntemp type g with
      | none => none
      | some (t, g) =>
        some (t, g.emits ["#time to ADDRESS THINGS TO THINGS AND OH MY GOODINESS!\n",
          "\tleal\t" ++ e ++ ", %eax\n", "\tmovl\t%eax, " ++ t ++ "\n"])
  else some (e, g)

/-- The common shape of `generate()` for a node with one operand: generate
the operand, take a temporary, emit the code of the node. -/
def unaryNode (operand : Generator → Option (Operand × Generator)) (type : CType)
    (code : Operand → Operand → List String) (g : Generator) : Option (Operand × Generator) := do
  let (e, g) ← operand g
  let (t, g) ← assigntemp type g
  some (t, g.emits (code e t))

/-- The common shape of `generate()` for a node with two operands: generate
the left one, then the right one, take a temporary, emit the code of the
node. -/
def binaryNode (left right : Generator → Option (Operand × Generator)) (type : CType)
    (code : Operand → Operand → Operand → List String) (g : Generator) :
    Option (Operand × Generator) := do
  let (l, g) ← left g
  let (r, g) ← right g
  let (t, g) ← assigntemp type g
  some (t, g.emits (code l r t))

/-- The shape of `LogicalAnd::generate` and `LogicalOr::generate`: a comment,
the left operand, a temporary, a label, the test and branch, the right
operand, the join. -/
def logicalNode (comment jump : String) (left right : Generator → Option (Operand × Generator))
    (type : CType) (g : Generator) : Option (Operand × Generator) := do
  let g := g.emit comment
  let (l, g) ← left g
  let (t, g) ← assigntemp type g
  let (lab, g) := g.newLabel
  let g := g.emits (logicalTest jump l lab)
  let (r, g) ← right g
  some (t, g.emits (logicalJoin r t lab))

/-- The body of `Cast::generate` after its operand `e` and its temporary `t`:
a cast between two real or two non-real types takes the operand of its
operand. -/
def castCode (real operandReal : Bool) (e t : Operand) (g : Generator) : Operand × Generator :=
  let g := g.emit "\n\t#Time to cast things!!! <3\n"
  if real then
    if operandReal then (e, g)
    else (t, g.emits ["\tfildl\t" ++ e ++ "\n", "\tfstpl\t" ++ t ++ "\n"])
  else
    if operandReal then (t, g.emits ["\tfldl\t" ++ e ++ "\n", "\tfistpl\t" ++ t ++ "\n"])
    else (e, g)

/-- An operand of a node generated in plain form, marked not indirect. -/
def plainForm (r : Option (Operand × Generator)) : Option (Operand × Bool × Generator) :=
  r.map fun x => (x.1, false, x.2)

/-- The result of `Dereference::generate(bool &)` from the result of
generating the pointer: `indirect` is set and the operand is the one of the
pointer. -/
def indirectForm (r : Option (Operand × Generator)) : Option (Operand × Bool × Generator) :=
  r.map fun x => (x.1, true, x.2)

mutual
/-- The virtual `generate()` of the expression classes.  The result is the
operand stored in the node and the state.  Where a node calls
`generate(bool &)` on a child (`Assign` on its left side, `Address` on its
operand), the child is generated by `Dereference::generate(bool &)` if it is
a `Dereference` (the first of the two cases of the node) and by
`Expression::generate(bool &)`, which calls `generate()`, otherwise. -/
def Expr.generate : Expr → Heap → Generator → Option (Operand × Generator)
  | .String value _, _, g =>
    let lab := g.newLabel
    let r := insertLabel lab.2.Labels value lab.1
    some (r.2.text, { lab.2 with Labels := r.1 })
  | .Identifier symbol _, h, g =>
    if (h symbol).offset ≠ 0 then some (toString (h symbol).offset ++ "(%ebp)", g)
    else some ((h symbol).name, g)
  | .Integer value, _, g => some ("$" ++ value, g)
  | .Real _ label, _, g => some (fLabelText label, g)
  | .Call id args type, h, g => do
    let (numBytes, g) ← Expr.generateArgs args h g
    let g := g.emit ("\tcall\t" ++ (h id).name ++ "\n")
    let g := if numBytes > 0 then g.emit ("\taddl\t$" ++ toString numBytes ++ ", %esp\n") else g
    let (t, g) ← assigntemp type g
    some (t, g.emits (callResultCode type.isReal t))
  | .Not expr type, h, g => unaryNode (expr.generate h) type (notCode expr.type.isReal) g
  | .Negate expr type, h, g => unaryNode (expr.generate h) type (negateCode type.isReal) g
  | .Dereference expr type, h, g =>
    unaryNode (expr.generate h) type (dereferenceCode type.isReal) g
  | .Address (.Dereference pointer _) type, h, g => do
    let (e, indirect, g) ← indirectForm (pointer.generate h g)
    addressCode type e indirect g
  | .Address expr type, h, g => do
    let (e, indirect, g) ← plainForm (expr.generate h g)
    addressCode type e indirect g
  | .Cast type expr, h, g => do
    let (e, g) ← expr.generate h g
    let (t, g) ← assigntemp type g
    some (castCode type.isReal expr.type.isReal e t g)
  | .Multiply left right type, h, g =>
    binaryNode (left.generate h) (right.generate h) type
      (arithmeticCode ["\n#multiplication time y'all! :) <3\n"]
        ["#floating point multiplication! <3 y'all :)\n"]
        ["#integer multiplication! fuck the floats! <3\n"] "fmull" "imull" type.isReal) g
  | .Divide left right type, h, g =>
    binaryNode (left.generate h) (right.generate h) type (divideCode type.isReal) g
  | .Remainder left right type, h, g =>
    binaryNode (left.generate h) (right.generate h) type remainderCode g
  | .Add left right type, h, g =>
    binaryNode (left.generate h) (right.generate h) type
      (arithmeticCode ["\n#addition time y'all! :) <3\n"]
        ["#float the boat with plussesssszzzz <3<3\n"] ["\t#integerz adding plus! <3<3\n"]
        "faddl" "addl" type.isReal) g
  | .Subtract left right type, h, g =>
    binaryNode (left.generate h) (right.generate h) type
      (arithmeticCode ["\n#Subtacting things from things! <3<3<3\n"] [] []
        "fsubl" "subl" type.isReal) g
  | .LessThan left right type, h, g =>
    binaryNode (left.generate h) (right.generate h) type
      (compareCode "#LessThan time! hashtag sexy pieces ;)\n"
        "setb" "setl" "\n\n" "\n\n" left.type.isReal) g
  | .GreaterThan left right type, h, g =>
    binaryNode (left.generate h) (right.generate h) type
      (compareCode "#Time to do a GreaterThan calculation. amirite? <3 all y'all :) \n"
        "seta" "setg" "\n\n" "\n\n" left.type.isReal) g
  | .LessOrEqual left right type, h, g =>
    binaryNode (left.generate h) (right.generate h) type
      (compareCode "#LessOrEqual time hashtag ballin'! <3\n"
        "setbe" "setle" "\n" "\n\n" left.type.isReal) g
  | .GreaterOrEqual left right type, h, g =>
    binaryNode (left.generate h) (right.generate h) type
      (compareCode "#Let us do all of the greater than or equal to operations! yes :)\n"
        "setbe" "setle" "\n\n" "\n\n" left.type.isReal) g
  | .Equal left right type, h, g =>
    binaryNode (left.generate h) (right.generate h) type
      (compareCode "#Equal time hashtag all the ballin'! <3\n"
        "sete" "sete" "\n" "\n\n" left.type.isReal) g
  | .NotEqual left right type, h, g =>
    binaryNode (left.generate h) (right.generate h) type
      (compareCode "#Equal time hashtag all the ballin'! <3\n"
        "sene" "setne" "\n" "\n\n" left.type.isReal) g
  | .LogicalAnd left right type, h, g =>
    logicalNode "#all of the logical, AND THEN scream for all the ice and cream C> C> C> C> C> \n"
      "je" (left.generate h) (right.generate h) type g
  | .LogicalOr left right type, h, g =>
    logicalNode "#all of the logical, or scream for all the ice and cream C> C> C> C> C> \n"
      "jne" (left.generate h) (right.generate h) type g
  | .Assign (.Dereference pointer dtype) right type, h, g =>
    binaryNode (pointer.generate h) (right.generate h) type (assignCode dtype.isReal true) g
  | .Assign left right type, h, g =>
    binaryNode (left.generate h) (right.generate h) type (assignCode left.type.isReal false) g
/-- The loop of `Call::generate` over the arguments, last to first: each is
generated and pushed.  The result is `numBytes` and the state. -/
def Expr.generateArgs : List Expr → Heap → Generator → Option (Nat × Generator)
  | [], _, g => some (0, g)
  | a :: args, h, g => do
    let (numBytes, g) ← Expr.generateArgs args h g
    let (op, g) ← a.generate h g
    let g := g.emits (pushCode a.type.isReal op)
    let n ← a.type.size
    some (toUInt32 (numBytes + n), g)
end

/-- The two statements of `Block::generate` after each statement of the
block: `maxoffset` takes `tempoffset` if that is lower, and `tempoffset` is
reset to `minoffset`. -/
def Generator.endStatement (g : Generator) : Generator :=
  { g with maxoffset := if g.tempoffset < g.maxoffset then g.tempoffset else g.maxoffset,
           tempoffset := g.minoffset }

/-- The code of `Return::generate` after its expression. -/
def returnCode (real : Bool) (e : Operand) (returnLab : Label) : List String :=
  [if real then "\tfldl\t" ++ e ++ "\n" else "\tmovl\t" ++ e ++ ", %eax\n",
    "\tjmp\t" ++ returnLab.text ++ "\n"]

/-- The test that `If::generate` emits after its expression. -/
def ifTestCode (e : Operand) (skip : Label) : List String :=
  ["#iffin and iffin and yeah! C> ice cream! C>\n", "\tmovl\t" ++ e ++ ", %eax\n",
    "\ttestl\t%eax, %eax\n", "\tje\t" ++ skip.text ++ "\n"]

/-- The test that `While::generate` emits after its expression. -/
def whileTestCode (e : Operand) (exit : Label) : List String :=
  ["\tmovl\t" ++ e ++ ", %eax\n", "\ttestl\t%eax, %eax\n", "\tje\t" ++ exit.text ++ "\n"]

/-- The start of `While::generate`: the comment, the declaration of the
labels `loop` and `exit`, and the definition of `loop`.  The result is the
two labels and the state. -/
def whileStart (g : Generator) : Label × Label × Generator :=
  let g := g.emit "#while time! and i scream for all the ice and cream C> C> C> C> C> \n"
  let loop := g.newLabel
  let exit := loop.2.newLabel
  (loop.1, exit.1, exit.2.emit (loop.1.text ++ ":\n"))

/-- The declaration `Label skip, lou;` of `If::generate` and the test. -/
def ifStart (e : Operand) (g : Generator) : Label × Label × Generator :=
  let skip := g.newLabel
  let lou := skip.2.newLabel
  (skip.1, lou.1, lou.2.emits (ifTestCode e skip.1))

mutual
/-- The virtual `generate()` of the statement classes: an expression, and
`Return::generate`, `Block::generate`, `While::generate`, `If::generate`. -/
def Stmt.generate : Stmt → Heap → Generator → Option Generator
  | .Expression expr, h, g =>
    match expr.generate h g with
    | none => none
    | some (_, g) => some g
  | .Return expr, h, g =>
    match expr.generate h g with
    | none => none
    | some (e, g) => some (g.emits (returnCode expr.type.isReal e g.returnLab))
  | .Block _ stmts, h, g => Stmt.generateStmts stmts h g
  | .While expr stmt, h, g =>
    match expr.generate h (whileStart g).2.2 with
    | none => none
    | some (e, g1) =>
      match stmt.generate h (g1.emits (whileTestCode e (whileStart g).2.1)) with
      | none => none
      | some g2 =>
        some (g2.emits ["\tjmp\t" ++ (whileStart g).1.text ++ "\n",
          (whileStart g).2.1.text ++ ":\n"])
  | .If expr thenStmt none, h, g =>
    match expr.generate h g with
    | none => none
    | some (e, g1) =>
      match thenStmt.generate h (ifStart e g1).2.2 with
      | none => none
      | some g2 => some (g2.emit ((ifStart e g1).1.text ++ ":\n"))
  | .If expr thenStmt (some elseStmt), h, g =>
    match expr.generate h g with
    | none => none
    | some (e, g1) =>
      match thenStmt.generate h (ifStart e g1).2.2 with
      | none => none
      | some g2 =>
        match elseStmt.generate h (g2.emits ["\tjmp\t" ++ (ifStart e g1).2.1.text ++ "\n",
            (ifStart e g1).1.text ++ ":\n"]) with
        | none => none
        | some g3 => some (g3.emit ((ifStart e g1).2.1.text ++ ":\n"))
/-- The loop of `Block::generate` from statement `i` on. -/
def Stmt.generateStmts : List Stmt → Heap → Generator → Option Generator
  | [], _, g => some g
  | s :: stmts, h, g =>
    match s.generate h g with
    | none => none
    | some g => Stmt.generateStmts stmts h g.endStatement
end

/-- The line `.set <name>.size, <value>` that ends the code of a function. -/
def sizeLine (name : String) (value : Int) : String :=
  "\t.set\t" ++ name ++ ".size, " ++ toString value ++ "\n"

/-- The start of `Function::generate` for a function called `name` whose
allocation returned `offset`: the return label is declared and stored in
`returnLab`, the three offsets are set, the prologue is emitted. -/
def Function.start (g : Generator) (offset : Int) (name : String) : Generator :=
  Generator.emits
    { g.newLabel.2 with returnLab := g.newLabel.1, tempoffset := offset, minoffset := offset,
                        maxoffset := offset }
    [name ++ ":\n", "\tpushl\t%ebp\n", "\tmovl\t%esp, %ebp\n",
      "\tsubl\t$" ++ name ++ ".size, %esp\n"]

/-- The epilogue that `Function::generate` emits after the body; the value in
its `.set` line is `-maxoffset`, an `int`. -/
def epilogueCode (name : String) (g : Generator) : List String :=
  [g.returnLab.text ++ ":\n", "\tmovl\t%ebp, %esp\n", "\tpopl\t%ebp\n", "\tret\n\n",
    "\t.global\t" ++ name ++ "\n", sizeLine name (toInt32 (-g.maxoffset)), "\n"]

/-- `Function::generate`: the heap after allocation and the state of the
generator after the epilogue. -/
def Function.generate (f : Function) (h : Heap) (g : Generator) : Option (Heap × Generator) :=
  match f.allocate h with
  | none => none
  | some (offset, h1) =>
    match f.body.generate h1 (Function.start g offset (h1 f.id).name) with
    | none => none
    | some g1 => some (h1, g1.emits (epilogueCode (h1 f.id).name g1))

/-- The state of the generator at the start of `main`: the definition
`Label returnLab;` at file scope has run the constructor of `Label` once, so
`returnLab` has the number 0 and `Label::counter` is 1. -/
def Generator.init : Generator := ⟨0, 0, 0, 1, [], ⟨0⟩, [], [], []⟩

/-! ## Example programs -/

/-- A heap holding the given symbols at the handles 0, 1, 2, ... -/
def Heap.ofList (syms : List Symbol) : Heap :=
  fun x => syms.getD x (Symbol.new "" CType.error)

def intPointer : CType := .mk .INT 1 .Scalar

/-- Symbols of `int f(int x, double y) { return x; }`. -/
def exampleE2Heap : Heap :=
  Heap.ofList [Symbol.new "f" (.mk .INT 0 (.Function (some [CType.integer, CType.real]))),
    Symbol.new "x" CType.integer, Symbol.new "y" CType.real]

/-- The function `int f(int x, double y) { return x; }`. -/
def exampleE2 : Function :=
  ⟨0, [1, 2], [.Return (.Identifier 1 CType.integer)]⟩

/-- Symbols of `int main(void) { int a[0]; return 0; }`. -/
def zeroArrayHeap : Heap :=
  Heap.ofList [Symbol.new "main" (.mk .INT 0 (.Function (some []))),
    Symbol.new "a" (.mk .INT 0 (.Array 0))]

/-- The function `int main(void) { int a[0]; return 0; }`. -/
def zeroArray : Function :=
  ⟨0, [1], [.Return (.Integer "0")]⟩

/-- Symbols of `int main(void) { int a[0]; int b; { int c; } return 0; }`. -/
def zeroArrayLocalsHeap : Heap :=
  Heap.ofList [Symbol.new "main" (.mk .INT 0 (.Function (some []))),
    Symbol.new "a" (.mk .INT 0 (.Array 0)), Symbol.new "b" CType.integer,
    Symbol.new "c" CType.integer]

/-- The function `int main(void) { int a[0]; int b; { int c; } return 0; }`. -/
def zeroArrayLocals : Function :=
  ⟨0, [1, 2], [.Block [3] [], .Return (.Integer "0")]⟩

/-- Symbols of `int main(void) { int a[536870912]; return 0; }`. -/
def hugeArrayHeap : Heap :=
  Heap.ofList [Symbol.new "main" (.mk .INT 0 (.Function (some []))),
    Symbol.new "a" (.mk .INT 0 (.Array 536870912))]

/-- The function `int main(void) { int a[536870912]; return 0; }`. -/
def hugeArray : Function :=
  ⟨0, [1], [.Return (.Integer "0")]⟩

/-- Symbols of `int main(void) { int a[536870911]; int x; x = 1; return 0; }`. -/
def wrappedTemporaryHeap : Heap :=
  Heap.ofList [Symbol.new "main" (.mk .INT 0 (.Function (some []))),
    Symbol.new "a" (.mk .INT 0 (.Array 536870911)), Symbol.new "x" CType.integer]

/-- The function `int main(void) { int a[536870911]; int x; x = 1; return 0; }`
as the checker builds it. -/
def wrappedTemporary : Function :=
  ⟨0, [1, 2],
    [.Expression (.Assign (.Identifier 2 CType.integer) (.Integer "1") CType.integer),
     .Return (.Integer "0")]⟩

/-- Symbols of `int main(void) { int *p; int x; p = &x; *p = 5; return *p; }`. -/
def exampleE5Heap : Heap :=
  Heap.ofList [Symbol.new "main" (.mk .INT 0 (.Function (some []))),
    Symbol.new "p" intPointer, Symbol.new "x" CType.integer]

/-- The function `int main(void) { int *p; int x; p = &x; *p = 5; return *p; }`
as the checker builds it. -/
def exampleE5 : Function :=
  ⟨0, [1, 2],
    [.Expression (.Assign (.Identifier 1 intPointer)
        (.Address (.Identifier 2 CType.integer) intPointer) intPointer),
     .Expression (.Assign (.Dereference (.Identifier 1 intPointer) CType.integer)
        (.Integer "5") CType.integer),
     .Return (.Dereference (.Identifier 1 intPointer) CType.integer)]⟩

/-! ## Vocabulary of the statements -/

/-- The size of a type as a number, 0 where `Type::size` aborts. -/
def CType.sizeN (t : CType) : Nat := t.size.getD 0

/-- The exact sum `size(p0) + ... + size(p(k-1))` of the first `k` sizes. -/
def prefixSize (params : Parameters) (k : Nat) : Nat :=
  ((params.take k).map CType.sizeN).sum

mutual
/-- The symbols declared in the blocks of a statement, in the order in which
`allocate` visits them. -/
def Stmt.symbols : Stmt → List Nat
  | .Expression _ => []
  | .Return _ => []
  | .Block decls stmts => decls ++ Stmt.symbolsOfStmts stmts
  | .While _ stmt => stmt.symbols
  | .If _ thenStmt none => thenStmt.symbols
  | .If _ thenStmt (some elseStmt) => thenStmt.symbols ++ elseStmt.symbols
def Stmt.symbolsOfStmts : List Stmt → List Nat
  | [] => []
  | s :: stmts => s.symbols ++ Stmt.symbolsOfStmts stmts
end

/-- The exact sum of the sizes of the symbols `xs`. -/
def totalSize (h : Heap) (xs : List Nat) : Nat :=
  (xs.map fun x => (h x).type.sizeN).sum

/-- The heap `h2` comes from `h1` by calls of the offset mutator on symbols
of `touched` whose offset was 0. -/
def Heap.Extends (h1 h2 : Heap) (touched : List Nat) : Prop :=
  (∀ x, x ∉ touched → h2 x = h1 x) ∧
  (∀ x, (h1 x).offset ≠ 0 → h2 x = h1 x) ∧
  (∀ x, (h2 x).type = (h1 x).type ∧ (h2 x).name = (h1 x).name)

/-- The symbols `xs` are locals not yet allocated: offset 0 and a type that
is not a function type. -/
def Heap.Fresh (h : Heap) (xs : List Nat) : Prop :=
  ∀ x ∈ xs, (h x).offset = 0 ∧ (h x).type.isFunction = false

mutual
/-- The calls of `Block::allocate` made while `allocate(offset)` runs on a
statement, in order: for each call the declarations of the block, the value
of `offset` at its entry and the symbols at its entry. -/
def Stmt.blockCalls : Stmt → Int → Heap → List (List Nat × Int × Heap)
  | .Expression _, _, _ => []
  | .Return _, _, _ => []
  | .Block decls stmts, offset, h =>
    (decls, offset, h) ::
      match allocateSymbols decls offset h with
      | none => []
      | some (offset, h) => Stmt.blockCallsOfStmts stmts offset h
  | .While _ stmt, offset, h => stmt.blockCalls offset h
  | .If _ thenStmt none, offset, h => thenStmt.blockCalls offset h
  | .If _ thenStmt (some elseStmt), offset, h =>
    thenStmt.blockCalls offset h ++
      match thenStmt.allocate offset h with
      | none => []
      | some (offset, h) => elseStmt.blockCalls offset h
/-- The calls of `Block::allocate` made by the second loop of
`Block::allocate`, from statement `i` on, with the current value of `temp`. -/
def Stmt.blockCallsOfStmts : List Stmt → Int → Heap → List (List Nat × Int × Heap)
  | [], _, _ => []
  | s :: stmts, temp, h =>
    s.blockCalls temp h ++
      match s.allocate temp h with
      | none => []
      | some (temp, h) => Stmt.blockCallsOfStmts stmts temp h
end

/-- The symbols of `decls` whose offset is 0 in `h`: those to which the first
loop of `Block::allocate`, entered with the symbols `h`, gives an offset. -/
def unallocated (h : Heap) (decls : List Nat) : List Nat :=
  decls.filter fun x => decide ((h x).offset = 0)

/-- In the symbols `h1` the locals of one block, entered with the symbols `h`,
are chained below `entry`: the first has the offset `entry` minus its size,
each further one the offset of the one before it minus its own size, both in
32-bit `int` arithmetic, which is exactly that difference whenever the
difference is at least `-2^31`. -/
def Heap.Chained (h h1 : Heap) (entry : Int) (locals : List Nat) : Prop :=
  (∀ x, locals[0]? = some x →
    (h1 x).offset = toInt32 (entry - (h x).type.sizeN) ∧
    (-2147483648 ≤ entry - (h x).type.sizeN →
      (h1 x).offset = entry - (h x).type.sizeN)) ∧
  ∀ i x y, locals[i]? = some x → locals[i + 1]? = some y →
    (h1 y).offset = toInt32 ((h1 x).offset - (h y).type.sizeN) ∧
    (-2147483648 ≤ (h1 x).offset - (h y).type.sizeN →
      (h1 y).offset = (h1 x).offset - (h y).type.sizeN)

/-- Contract of an allocation step `run` over the fresh symbols `xs`: started
at an offset `off <= 0` with room for all of `xs` above `-2^31`, it returns
`off` minus the total size of `xs` and leaves every symbol of `xs` with an
offset that is not below the returned one and not above 0, and that is
negative if the size of the symbol is not 0. -/
def AllocOk (run : Int → Heap → Option (Int × Heap)) (xs : List Nat) : Prop :=
  ∀ (off : Int) (h : Heap), xs.Nodup → Heap.Fresh h xs → off ≤ 0 →
    -2147483648 ≤ off - (totalSize h xs : Int) →
    ∃ h1, run off h = some (off - (totalSize h xs : Int), h1) ∧
      Heap.Extends h h1 xs ∧
      ∀ x ∈ xs, off - (totalSize h xs : Int) ≤ (h1 x).offset ∧ (h1 x).offset ≤ 0 ∧
        (0 < (h x).type.sizeN → (h1 x).offset < 0)

/-- No diagnostic was reported between the states `c` and `c1`: the error
count and the messages are the same. -/
def Checker.Silent (c c1 : Checker) : Prop :=
  c1.numErrors = c.numErrors ∧ c1.diagnostics = c.diagnostics

/-- The check returned a node of type ERROR and reported nothing. -/
def ErrorSilent (c : Checker) (res : Expr × Checker) : Prop :=
  res.1.type = CType.error ∧ Checker.Silent c res.2

/-- The check returned (did not abort), with a node of type ERROR and nothing
reported. -/
def ReturnsErrorSilent (c : Checker) (res : Option (Expr × Checker)) : Prop :=
  ∃ x, res = some x ∧ ErrorSilent c x

/-- Symbols for the checker examples: `y` undeclared (type ERROR), a
prototyped `int f(int)`, an unprototyped `int g()`, `int *p`, `int n`,
`double d`, `int a[10]`. -/
def checkerHeap : Heap :=
  Heap.ofList [Symbol.new "y" CType.error,
    Symbol.new "f" (.mk .INT 0 (.Function (some [CType.integer]))),
    Symbol.new "g" (.mk .INT 0 (.Function none)),
    Symbol.new "p" intPointer, Symbol.new "n" CType.integer,
    Symbol.new "d" CType.real, Symbol.new "a" (.mk .INT 0 (.Array 10))]

/-- The state of the checker at the start of a run. -/
def Checker.init : Checker := ⟨0, [], [], 0⟩

mutual
/-- The bytes of temporaries that generating an expression can take: the sum
of the sizes of the types of the nodes that call `assigntemp`. -/
def Expr.tempSize : Expr → Nat
  | .String _ _ => 0
  | .Identifier _ _ => 0
  | .Integer _ => 0
  | .Real _ _ => 0
  | .Call _ args type => Expr.tempSizeArgs args + type.sizeN
  | .Not expr type => expr.tempSize + type.sizeN
  | .Negate expr type => expr.tempSize + type.sizeN
  | .Dereference expr type => expr.tempSize + type.sizeN
  | .Address (.Dereference pointer _) _ => pointer.tempSize
  | .Address expr type => expr.tempSize + type.sizeN
  | .Cast type expr => expr.tempSize + type.sizeN
  | .Multiply left right type => left.tempSize + right.tempSize + type.sizeN
  | .Divide left right type => left.tempSize + right.tempSize + type.sizeN
  | .Remainder left right type => left.tempSize + right.tempSize + type.sizeN
  | .Add left right type => left.tempSize + right.tempSize + type.sizeN
  | .Subtract left right type => left.tempSize + right.tempSize + type.sizeN
  | .LessThan left right type => left.tempSize + right.tempSize + type.sizeN
  | .GreaterThan left right type => left.tempSize + right.tempSize + type.sizeN
  | .LessOrEqual left right type => left.tempSize + right.tempSize + type.sizeN
  | .GreaterOrEqual left right type => left.tempSize + right.tempSize + type.sizeN
  | .Equal left right type => left.tempSize + right.tempSize + type.sizeN
  | .NotEqual left right type => left.tempSize + right.tempSize + type.sizeN
  | .LogicalAnd left right type => left.tempSize + right.tempSize + type.sizeN
  | .LogicalOr left right type => left.tempSize + right.tempSize + type.sizeN
  | .Assign (.Dereference pointer _) right type =>
    pointer.tempSize + right.tempSize + type.sizeN
  | .Assign left right type => left.tempSize + right.tempSize + type.sizeN
def Expr.tempSizeArgs : List Expr → Nat
  | [] => 0
  | a :: args => Expr.tempSizeArgs args + a.tempSize
end

mutual
/-- Every `Type::size` call that generating the expression makes is on a type
that is not a function type: the types of the nodes that call `assigntemp`
and of the arguments of calls. -/
def Expr.sizable : Expr → Bool
  | .String _ _ => true
  | .Identifier _ _ => true
  | .Integer _ => true
  | .Real _ _ => true
  | .Call _ args type => Expr.sizableArgs args && !type.isFunction
  | .Not expr type => expr.sizable && !type.isFunction
  | .Negate expr type => expr.sizable && !type.isFunction
  | .Dereference expr type => expr.sizable && !type.isFunction
  | .Address (.Dereference pointer _) _ => pointer.sizable
  | .Address expr type => expr.sizable && !type.isFunction
  | .Cast type expr => expr.sizable && !type.isFunction
  | .Multiply left right type => left.sizable && right.sizable && !type.isFunction
  | .Divide left right type => left.sizable && right.sizable && !type.isFunction
  | .Remainder left right type => left.sizable && right.sizable && !type.isFunction
  | .Add left right type => left.sizable && right.sizable && !type.isFunction
  | .Subtract left right type => left.sizable && right.sizable && !type.isFunction
  | .LessThan left right type => left.sizable && right.sizable && !type.isFunction
  | .GreaterThan left right type => left.sizable && right.sizable && !type.isFunction
  | .LessOrEqual left right type => left.sizable && right.sizable && !type.isFunction
  | .GreaterOrEqual left right type => left.sizable && right.sizable && !type.isFunction
  | .Equal left right type => left.sizable && right.sizable && !type.isFunction
  | .NotEqual left right type => left.sizable && right.sizable && !type.isFunction
  | .LogicalAnd left right type => left.sizable && right.sizable && !type.isFunction
  | .LogicalOr left right type => left.sizable && right.sizable && !type.isFunction
  | .Assign (.Dereference pointer _) right type =>
    pointer.sizable && right.sizable && !type.isFunction
  | .Assign left right type => left.sizable && right.sizable && !type.isFunction
def Expr.sizableArgs : List Expr → Bool
  | [] => true
  | a :: args => Expr.sizableArgs args && a.sizable && !a.type.isFunction
end

mutual
/-- The bytes of temporaries that generating a statement can take. -/
def Stmt.tempSize : Stmt → Nat
  | .Expression expr => expr.tempSize
  | .Return expr => expr.tempSize
  | .Block _ stmts => Stmt.tempSizeOfStmts stmts
  | .While expr stmt => expr.tempSize + stmt.tempSize
  | .If expr thenStmt none => expr.tempSize + thenStmt.tempSize
  | .If expr thenStmt (some elseStmt) => expr.tempSize + thenStmt.tempSize + elseStmt.tempSize
def Stmt.tempSizeOfStmts : List Stmt → Nat
  | [] => 0
  | s :: stmts => s.tempSize + Stmt.tempSizeOfStmts stmts
end

mutual
/-- Every expression of the statement is `sizable`. -/
def Stmt.sizable : Stmt → Bool
  | .Expression expr => expr.sizable
  | .Return expr => expr.sizable
  | .Block _ stmts => Stmt.sizableStmts stmts
  | .While expr stmt => expr.sizable && stmt.sizable
  | .If expr thenStmt none => expr.sizable && thenStmt.sizable
  | .If expr thenStmt (some elseStmt) => expr.sizable && thenStmt.sizable && elseStmt.sizable
def Stmt.sizableStmts : List Stmt → Bool
  | [] => true
  | s :: stmts => s.sizable && Stmt.sizableStmts stmts
end

/-- The value `m` is the minimum of the list `xs`. -/
def IsMinimumOf (m : Int) (xs : List Int) : Prop :=
  m ∈ xs ∧ ∀ x ∈ xs, m ≤ x

/-- The slots `(t, n)`, each the `n` bytes from `t` on, are stacked downwards
from `top` to `bottom` without a gap: the first ends at `top`, each next one
ends where the one before starts, and the last starts at `bottom`. -/
def Generator.Stacked : Int → List (Int × Nat) → Int → Prop
  | top, [], bottom => bottom = top
  | top, (t, n) :: rest, bottom => t + n = top ∧ Generator.Stacked t rest bottom

/-- The generator went from `g` to `g1` while generating an expression:
`minoffset` and `maxoffset` are untouched, `tempoffset` went down by at most
`n`, every temporary handed out on the way lies at or above the final
`tempoffset`, which is the initial one or one of them, and the slots handed
out are stacked from the initial `tempoffset` down to the final one. -/
def Generator.Step (g g1 : Generator) (n : Nat) : Prop :=
  g1.minoffset = g.minoffset ∧ g1.maxoffset = g.maxoffset ∧
  g.tempoffset - n ≤ g1.tempoffset ∧ g1.tempoffset ≤ g.tempoffset ∧
  (∃ new, g1.assigned = g.assigned ++ new ∧ (∀ t ∈ new, g1.tempoffset ≤ t) ∧
    (g1.tempoffset = g.tempoffset ∨ g1.tempoffset ∈ new)) ∧
  ∃ slots, g1.slots = g.slots ++ slots ∧ Generator.Stacked g.tempoffset slots g1.tempoffset

/-- The computation `m` of the generator returns and makes a `Step` of at
most `n` bytes, from every state that has room for `n` bytes above `-2^31`. -/
def Runs {α : Type} (m : Generator → Option (α × Generator)) (n : Nat) : Prop :=
  ∀ g : Generator, -2147483648 < g.tempoffset - n → g.tempoffset ≤ 2147483647 →
    ∃ a g1, m g = some (a, g1) ∧ Generator.Step g g1 n

/-- The invariant of the generator inside a function whose allocation
returned `alloc` and that started with the log `base`: `minoffset` is `alloc`,
`maxoffset` and `tempoffset` are at most `alloc` and above `-2^31`, and over
the temporaries handed out so far, the lower of `maxoffset` and `tempoffset`
is a lower bound, and each of the two is `alloc` or one of them. -/
def Generator.Inv (alloc : Int) (base : List Int) (g : Generator) : Prop :=
  g.minoffset = alloc ∧ g.maxoffset ≤ alloc ∧ g.tempoffset ≤ alloc ∧ alloc ≤ 2147483647 ∧
  -2147483648 < g.maxoffset ∧ -2147483648 < g.tempoffset ∧
  ∃ temps, g.assigned = base ++ temps ∧ (∀ t ∈ temps, min g.maxoffset g.tempoffset ≤ t) ∧
    (g.maxoffset = alloc ∨ g.maxoffset ∈ temps) ∧ (g.tempoffset = alloc ∨ g.tempoffset ∈ temps)

/-- The node `e1` is the int-to-double rewrite of `e`: a `Real` literal with
the text of `e` when `e` is an `Integer` literal, `Cast(DOUBLE, e)` otherwise. -/
def PromotedToReal (e e1 : Expr) : Prop :=
  (∃ v k, e = .Integer v ∧ e1 = .Real v k) ∨ ((∀ v, e ≠ .Integer v) ∧ e1 = .Cast CType.real e)

/-- The operand `e1` is `e` brought to the numeric type `T`: `e` itself when
it has type `T`, its int-to-double rewrite otherwise. -/
def BroughtTo (T : CType) (e e1 : Expr) : Prop :=
  e1.type = T ∧ (e.type = T → e1 = e) ∧ (e.type ≠ T → PromotedToReal e e1)

/-- The result type of an arithmetic operator on numeric operands: INT if
both operand types are INT, DOUBLE otherwise. -/
def arithmeticType (t1 t2 : CType) : CType :=
  if t1 = CType.integer ∧ t2 = CType.integer then CType.integer else CType.real

/-- Exactly one diagnostic, `format` with `arg`, was reported between the
states `c` and `c1`. -/
def Checker.ReportedOnce (format arg : String) (c c1 : Checker) : Prop :=
  c1.numErrors = c.numErrors + 1 ∧ c1.diagnostics = c.diagnostics ++ [(format, arg)]

/-- The node `e1` is `e` converted toward the type `T` as `convert` does it:
DOUBLE toward INT by `Cast(INT, e)`, INT toward DOUBLE by the int-to-double
rewrite, an array by decay to `Address(e)` of the pointer type, anything else
untouched. -/
def ConvertedToward (T : CType) (e e1 : Expr) : Prop :=
  (e.type = CType.real ∧ T = CType.integer ∧ e1 = .Cast CType.integer e) ∨
  (e.type = CType.integer ∧ T = CType.real ∧ PromotedToReal e e1) ∨
  (e.type.isArray = true ∧ e1 = .Address e e.type.promote) ∨
  (¬ (e.type = CType.real ∧ T = CType.integer) ∧ ¬ (e.type = CType.integer ∧ T = CType.real) ∧
    e.type.isArray = false ∧ e1 = e)

/-- The argument `a` fits the parameter type `p`: the type that
`convert(a, p)` returns equals `p` (in whatever state the checker is). -/
def ArgumentFits (a : Expr) (p : CType) : Prop :=
  ∀ c : Checker, (convert a p c).1.type = p

/-- One of the six comparison checks: its operator, the check, and the
constructor of the node it returns. -/
structure Comparison where
  op : String
  check : Expr → Expr → Checker → Expr × Checker
  node : Expr → Expr → CType → Expr

/-- The six comparison checks of `checker.cpp`. -/
def comparisons : List Comparison :=
  [⟨"==", checkEqual, .Equal⟩, ⟨"!=", checkNotEqual, .NotEqual⟩, ⟨"<", checkLessThan, .LessThan⟩,
    ⟨">", checkGreaterThan, .GreaterThan⟩, ⟨"<=", checkLessOrEqual, .LessOrEqual⟩,
    ⟨">=", checkGreaterOrEqual, .GreaterOrEqual⟩]

/-- The pairs that `checkCast` accepts, for a target type `T` and an operand
type `t`: both numeric, or `T` a pointer and `t` a pointer or INT, or `t` a
pointer and `T` INT. -/
def CastAllowed (T t : CType) : Prop :=
  (T.isNumeric = true ∧ t.isNumeric = true) ∨
  (T.isPointer = true ∧ (t.isPointer = true ∨ t = CType.integer)) ∨
  (t.isPointer = true ∧ T = CType.integer)

/-- The expression `e` is convertible to the type `T`: both types are in
{INT, DOUBLE}, or `e` has type `T` already, or `e` is an array of an element
type and `T` is the pointer to that element type. -/
def Convertible (e : Expr) (T : CType) : Prop :=
  (e.type.isNumeric = true ∧ T.isNumeric = true) ∨ e.type = T ∨
  (∃ s i n, e.type = .mk s i (.Array n) ∧ T = .mk s (i + 1) .Scalar)

/-- The names of the symbols of a scope, in insertion order. -/
def Scope.names (h : Heap) (scope : Scope) : List String :=
  scope.symbols.map fun x => (h x).name

/-- Every scope that `outermost` or `toplevel` reaches: the chain, and the
outermost scope also after it was closed. -/
def Scopes.all : Scopes → List Scope
  | .unopened => []
  | .opened o _ inner => inner ++ [o]

/-- No scope of the table contains two symbols with the same name. -/
def Table.NoDuplicates (t : Table) : Prop :=
  ∀ scope ∈ t.scopes.all, (scope.names t.heap).Nodup

/-- Every symbol of a scope of the table is an object that `new Symbol` has
handed out. -/
def Table.Allocated (t : Table) : Prop :=
  ∀ scope ∈ t.scopes.all, ∀ x ∈ scope.symbols, x < t.next

/-- One step of a run on the symbol table: a call of one of the six functions
of `checker.cpp` that work on scopes, or a call of the offset mutator of a
symbol (by the storage allocator). -/
inductive Step : Table → Table → Prop
  | openScope (t : Table) : Step t (openScope t)
  | closeScope (t t1 : Table) (scope : Scope) : closeScope t = some (scope, t1) → Step t t1
  | declareFunction (t t1 : Table) (name : String) (type : CType) (c c1 : Checker) (symbol : Nat) :
      declareFunction name type t c = some (symbol, t1, c1) → Step t t1
  | declareVariable (t t1 : Table) (name : String) (type : CType) (c c1 : Checker) (symbol : Nat) :
      declareVariable name type t c = some (symbol, t1, c1) → Step t t1
  | declareParameter (t t1 : Table) (name : String) (type : CType) (c c1 : Checker)
      (symbol : Nat) : declareParameter name type t c = some (symbol, t1, c1) → Step t t1
  | checkIdentifier (t t1 : Table) (name : String) (c c1 : Checker) (symbol : Nat) :
      checkIdentifier name t c = some (symbol, t1, c1) → Step t t1
  | offset (t : Table) (symbol : Nat) (offset : Int) :
      Step t { t with heap := t.heap.setOffset symbol offset }

/-- The table can be reached from the initial one by steps of a run. -/
def Reachable (t : Table) : Prop := Relation.ReflTransGen Step Table.init t

/-- What a declare function promises for `(name, T)` on its target scope
`scope` (the scope `target` reaches in the table `t`): it returns a symbol
`sym` and a table in which the target scope contains exactly one symbol called
`name`, namely `sym`, of type `T` and offset 0; and it has reported `format`
with `name` if `scope` contained `name`, and nothing otherwise. -/
def DeclaredAs (format name : String) (T : CType) (t : Table) (c : Checker) (scope : Scope)
    (target : Scopes → Option Scope) (res : Option (Nat × Table × Checker)) : Prop :=
  ∃ sym t1 c1 scope1, res = some (sym, t1, c1) ∧ target t1.scopes = some scope1 ∧
    scope1.symbols.filter (fun x => (t1.heap x).name = name) = [sym] ∧
    t1.heap sym = ⟨name, T, 0⟩ ∧
    (name ∈ scope.names t.heap → Checker.ReportedOnce format name c c1) ∧
    (name ∉ scope.names t.heap → c1 = c)

/-- The scope at place `k` of the chain, counted from its outer end, contains
a symbol called `name`. -/
def NamedAt (name : String) (k : Nat) (t : Table) : Prop :=
  ∃ scope, t.scopes.chain.reverse[k]? = some scope ∧ name ∈ scope.names t.heap

/-- The run went from `t` to `t1` by steps after each of which the chain had
more than `k` scopes: the scope at place `k` from the outer end was not
closed. -/
inductive StaysOpen (k : Nat) : Table → Table → Prop
  | refl (t : Table) : StaysOpen k t t
  | step (t t1 t2 : Table) : StaysOpen k t t1 → Step t1 t2 → k < t2.scopes.chain.length →
      StaysOpen k t t2

/-- Between the tables `t` and `t1` no symbol was taken back and the symbols
of `t` kept their names. -/
def Table.NamesKept (t t1 : Table) : Prop :=
  t.next ≤ t1.next ∧ ∀ x, x < t.next → (t1.heap x).name = (t.heap x).name

/-- The scopes `ss1` are the scopes `ss` with the scope `s` changed into `s1`,
in the list of all scopes and in the chain if `s` is on it. -/
def Scopes.Replaced (ss ss1 : Scopes) (s s1 : Scope) : Prop :=
  (∃ A B, ss.all = A ++ s :: B ∧ ss1.all = A ++ s1 :: B) ∧
  ((∃ A B, ss.chain = A ++ s :: B ∧ ss1.chain = A ++ s1 :: B) ∨ ss1.chain = ss.chain)

/-- The bytes that `Call::generate` pushes for arguments of value types: 8
for a real argument, 4 for any other. -/
def pushedBytes (args : List Expr) : Nat :=
  (args.map fun a => if a.type.isReal then 8 else 4).sum

/-- The symbols of `int f(int a, int b) { return a >= b; }` as the parser
leaves them: `f`, `a` and `b`. -/
def integerOperandsHeap : Heap :=
  Heap.ofList [Symbol.new "f" (.mk .INT 0 (.Function (some [CType.integer, CType.integer]))),
    Symbol.new "a" CType.integer, Symbol.new "b" CType.integer]

/-- The symbols of `int f(double x, double y) { return x >= y; }` as the
parser leaves them: `f`, `x` and `y`. -/
def realOperandsHeap : Heap :=
  Heap.ofList [Symbol.new "f" (.mk .INT 0 (.Function (some [CType.real, CType.real]))),
    Symbol.new "x" CType.real, Symbol.new "y" CType.real]

/-- The tree of a function `f` of two parameters whose body is `return e;`. -/
def returnExample (e : Expr) : Function := ⟨0, [1, 2], [.Return e]⟩

/-- The lines that the generator prints for the tree `f` over the symbols
`h`, from the start of a run. -/
def Function.output (f : Function) (h : Heap) : Option (List String) :=
  (f.generate h Generator.init).map fun r => r.2.cout

/-- The first loop of `generateGlobals`: for each global two output
statements, the directive with the name and the size with the alignment. -/
def commCode (h : Heap) : List Nat → Option (List String)
  | [] => some []
  | s :: rest => do
    let n ← (h s).type.size
    let code ← commCode h rest
    some (["\t.comm\t" ++ (h s).name, ", " ++ toString n ++ ", 4\n"] ++ code)

/-- The second loop of `generateGlobals`: a line for each floating-point
label. -/
def doubleCode (fLabels : List fLabel) : List String :=
  fLabels.map fun l => fLabelText l.number ++ ":\t.double\t" ++ l.value ++ "\n"

/-- The third loop of `generateGlobals`: a line for each entry of `Labels`,
in the order of the map. -/
def ascizCode (Labels : List (String × Label)) : List String :=
  Labels.map fun e => e.2.text ++ ":\t.asciz\t" ++ e.1 ++ "\n"

/-- The function `generateGlobals`, given the table `fLabels` of Tree.cpp. -/
def generateGlobals (globals : List Nat) (fLabels : List fLabel) (h : Heap) (g : Generator) :
    Option Generator := do
  let g := if globals.length + fLabels.length + g.Labels.length > 0 then g.emit "\t.data\n" else g
  let code ← commCode h globals
  let g := g.emits code
  let g := g.emits (doubleCode fLabels)
  some (g.emits (ascizCode g.Labels))

/-- The number that a list of decimal digits denotes. -/
def digitsValue (ds : List Char) : Nat :=
  ds.foldl (fun a c => a * 10 + (c.toNat - 48)) 0

/-- The runs of the generator as `String::generate` sees them, with the log
of its calls (the literal of the node and the operand it received): a run
starts in the state at the start of `main`; it goes on by a call of
`String::generate`, or by other code of the generator, which constructs
labels and leaves the table `Labels` alone. -/
inductive StringRun : Generator → List (String × Operand) → Prop
  | start : StringRun Generator.init []
  | string (g g1 : Generator) (log : List (String × Operand)) (value : String) (type : CType)
      (h : Heap) (op : Operand) : StringRun g log →
      (Expr.String value type).generate h g = some (op, g1) →
      StringRun g1 (log ++ [(value, op)])
  | other (g g1 : Generator) (log : List (String × Operand)) : StringRun g log →
      g1.Labels = g.Labels → g.counter ≤ g1.counter → StringRun g1 log

/-- What holds of the table `Labels` and of the log in every run: the keys of
the map are in increasing order, the labels stored are older than the
counter and differ from entry to entry, every literal of the log has its
entry, whose label is the operand the node received, and every key is a
literal of the log. -/
structure Interned (g : Generator) (log : List (String × Operand)) : Prop where
  sorted : (g.Labels.map Prod.fst).Pairwise (· < ·)
  older : ∀ e ∈ g.Labels, e.2.number < g.counter
  distinct : ∀ e1 ∈ g.Labels, ∀ e2 ∈ g.Labels, e1.2 = e2.2 → e1.1 = e2.1
  logged : ∀ p ∈ log, ∃ l, (p.1, l) ∈ g.Labels ∧ p.2 = l.text
  keys : ∀ e ∈ g.Labels, e.1 ∈ log.map Prod.fst

/-- The symbols of `int a; double b;` as the parser leaves them. -/
def exampleGlobalsHeap : Heap :=
  Heap.ofList [Symbol.new "a" CType.integer, Symbol.new "b" CType.real]

/-- What the parse of one global declaration leaves when `globalDeclaration`
decides about generation.  The lexer is not among the sources, so the parse
enters by its effects: the messages it handed to `report`, the real literals
it constructed, the symbols as they are at its end, the variables it pushed
on `globals`, and the tree of the function if the declaration is a function
definition. -/
structure Parsed where
  reports : List (String × String)
  reals : List String
  symbols : Heap
  globals : List Nat
  function : Option Function

/-- The process-wide state of the compiler between global declarations: the
state of the checker with `numErrors`, the symbols, the vector `globals` of
parser.cpp and the state of the generator with the output written. -/
structure Compiler where
  checker : Checker
  symbols : Heap
  globals : List Nat
  generator : Generator

/-- The state at the start of `main`. -/
def Compiler.init : Compiler := ⟨Checker.init, Heap.ofList [], [], Generator.init⟩

/-- The effects of the parse of one global declaration on the state. -/
def Parsed.parse (p : Parsed) (s : Compiler) : Compiler :=
  { s with
    checker := p.reals.foldl (fun c v => (newReal v c).2)
      (p.reports.foldl (fun c r => report r.1 r.2 c) s.checker),
    symbols := p.symbols,
    globals := s.globals ++ p.globals }

/-- The function `globalDeclaration` of parser.cpp on a declaration that
parses: after the closing brace of a function definition the function is
generated if `numErrors == 0`; `none` is an abort inside the generator. -/
def globalDeclaration (p : Parsed) (s : Compiler) : Option Compiler :=
  let s := p.parse s
  match p.function with
  | none => some s
  | some f =>
    if s.checker.numErrors = 0 then
      (f.generate s.symbols s.generator).map fun r => { s with symbols := r.1, generator := r.2 }
    else some s

/-- The loop `while (lookahead != DONE) globalDeclaration();` of `main`. -/
def globalDeclarations : List Parsed → Compiler → Option Compiler
  | [], s => some s
  | p :: rest, s => (globalDeclaration p s).bind (globalDeclarations rest)

def EXIT_SUCCESS : Nat := 0

/-- The function `main` of parser.cpp on an input that parses: the final
state and the exit status. -/
def main (input : List Parsed) : Option (Compiler × Nat) :=
  (globalDeclarations input Compiler.init).bind fun s =>
    if s.checker.numErrors = 0 then
      (generateGlobals s.globals s.checker.fLabels s.symbols s.generator).map fun g =>
        ({ s with generator := g }, EXIT_SUCCESS)
    else some (s, EXIT_SUCCESS)

/-- The operand of `sizeof` as `unaryExpression` finds it: the parenthesised
type `( specifier pointers )`, or a unary expression already parsed. -/
inductive SizeofOperand
  | type (typespec : Specifier) (indirection : Nat)
  | expression (expr : Expr)

/-- The `sizeof` branch of `unaryExpression` (parser.cpp) after its operand:
`type` is `Type(typespec, indirection)` or the type of the expression, and the
result is `new Integer(type.size())`; `none` is the failed assertion of
`Type::size`.  No function of the checker is called, so its state is handed
on as it is. -/
def sizeofExpression (operand : SizeofOperand) (c : Checker) : Option (Expr × Checker) :=
  let type := match operand with
    | .type typespec indirection => CType.mk typespec indirection .Scalar
    | .expression expr => expr.type
  type.size.map fun n => (newInteger n, c)

/-- The symbols of `int main(void) { int c; c = 1; if (c) { int x; x = 1; }
else { int y; y = 2; } return 0; }` as the parser leaves them: `main`, `c`,
`x` and `y`. -/
def exampleBranchesHeap : Heap :=
  Heap.ofList [Symbol.new "main" (.mk .INT 0 (.Function (some []))),
    Symbol.new "c" CType.integer, Symbol.new "x" CType.integer, Symbol.new "y" CType.integer]

/-- The statement `if (c) { int x; x = 1; } else { int y; y = 2; }`. -/
def exampleBranchesIf : Stmt :=
  .If (.Identifier 1 CType.integer)
    (.Block [2] [.Expression (.Assign (.Identifier 2 CType.integer) (.Integer "1")
      CType.integer)])
    (some (.Block [3] [.Expression (.Assign (.Identifier 3 CType.integer) (.Integer "2")
      CType.integer)]))

/-- The tree of `int main(void) { int c; c = 1; if (c) { int x; x = 1; } else
{ int y; y = 2; } return 0; }`. -/
def exampleBranches : Function :=
  ⟨0, [1],
    [.Expression (.Assign (.Identifier 1 CType.integer) (.Integer "1") CType.integer),
     exampleBranchesIf, .Return (.Integer "0")]⟩

/-- The state `g1` follows the state `g` in a run: every run that reaches `g`
goes on to `g1`, with the calls of `String::generate` in between added to the
log. -/
def Generator.Follows (g g1 : Generator) : Prop :=
  ∀ log, StringRun g log → ∃ more, StringRun g1 (log ++ more)

/-- Whenever the piece `m` of the generator returns, the state it returns
follows the state it started in. -/
def Continues {α : Type} (m : Generator → Option (α × Generator)) : Prop :=
  ∀ g a g1, m g = some (a, g1) → Generator.Follows g g1

/-- The symbols of `int main(void) { { int x; x = 1; } { int y; y = 2; }
return 0; }` as the parser leaves them: `main`, `x` and `y`. -/
def exampleSiblingsHeap : Heap :=
  Heap.ofList [Symbol.new "main" (.mk .INT 0 (.Function (some []))),
    Symbol.new "x" CType.integer, Symbol.new "y" CType.integer]

/-- The block `{ { int x; x = 1; } { int y; y = 2; } return 0; }`, the body
of the function. -/
def exampleSiblingsBlock : Stmt :=
  .Block []
    [.Block [1] [.Expression (.Assign (.Identifier 1 CType.integer) (.Integer "1")
        CType.integer)],
     .Block [2] [.Expression (.Assign (.Identifier 2 CType.integer) (.Integer "2")
        CType.integer)],
     .Return (.Integer "0")]

/-- The tree of `int main(void) { { int x; x = 1; } { int y; y = 2; } return
0; }`. -/
def exampleSiblings : Function :=
  ⟨0, [],
    [.Block [1] [.Expression (.Assign (.Identifier 1 CType.integer) (.Integer "1")
        CType.integer)],
     .Block [2] [.Expression (.Assign (.Identifier 2 CType.integer) (.Integer "2")
        CType.integer)],
     .Return (.Integer "0")]⟩

/-- The symbols of `int main(void) { double d; d = 1.0; if (d) return 1;
return 0; }` as the parser leaves them: `main` and `d`. -/
def exampleRealTestHeap : Heap :=
  Heap.ofList [Symbol.new "main" (.mk .INT 0 (.Function (some []))),
    Symbol.new "d" CType.real]

/-- The tree of `int main(void) { double d; d = 1.0; if (d) return 1; return
0; }`; the literal `1.0` has the first floating-point label. -/
def exampleRealTest : Function :=
  ⟨0, [1],
    [.Expression (.Assign (.Identifier 1 CType.real) (.Real "1.0" 0) CType.real),
     .If (.Identifier 1 CType.real) (.Return (.Integer "1")) none,
     .Return (.Integer "0")]⟩

/-- The symbols of `double f(void) { return (double) 5; }`. -/
def exampleCastHeap : Heap :=
  Heap.ofList [Symbol.new "f" (.mk .DOUBLE 0 (.Function (some [])))]

/-- The tree of `double f(void) { return (double) 5; }`, with the cast as
`checkCast` builds it. -/
def exampleCast : Function :=
  ⟨0, [], [.Return (checkCast CType.real (.Integer "5") Checker.init).1]⟩

/-- The symbols of `int main(void) { double x; double y; x = y = 1.5; return
0; }` as the parser leaves them: `main`, `x` and `y`. -/
def exampleRealAssignHeap : Heap :=
  Heap.ofList [Symbol.new "main" (.mk .INT 0 (.Function (some []))),
    Symbol.new "x" CType.real, Symbol.new "y" CType.real]

/-- The tree of `int main(void) { double x; double y; x = y = 1.5; return 0;
}`; the literal `1.5` has the first floating-point label. -/
def exampleRealAssign : Function :=
  ⟨0, [1, 2],
    [.Expression (.Assign (.Identifier 1 CType.real)
        (.Assign (.Identifier 2 CType.real) (.Real "1.5" 0) CType.real) CType.real),
     .Return (.Integer "0")]⟩

/-- Whether the text of an output statement starts with `pre`. -/
def startsWith (pre : String) (line : String) : Bool :=
  pre.data.isPrefixOf line.data

/-- The effect of an emitted line on the depth of the x87 register stack:
`fldl` and `fildl` push one value, `fstpl`, `fistpl`, `fcompl` and
`fstp %st(0)` pop one, any other line leaves the depth (a call is not
counted here). -/
def x87Effect (line : String) : Int :=
  if startsWith "\tfldl\t" line || startsWith "\tfildl\t" line then 1
  else if startsWith "\tfstpl\t" line || startsWith "\tfistpl\t" line ||
      startsWith "\tfcompl\t" line || startsWith "\tfstp\t%st(0)" line then -1
  else 0

/-- The depth of the x87 register stack after each line, from the depth
`depth` before the first. -/
def x87Depths : List String → Int → List Int
  | [], _ => []
  | line :: lines, depth => (depth + x87Effect line) :: x87Depths lines (depth + x87Effect line)

/-- The virtual `generate(bool &indirect)`: `Dereference::generate(bool &)`
for a `Dereference`, which generates the pointer and takes its operand, and
`Expression::generate(bool &)` for every other class, which calls
`generate()`.  The result is the operand, the value of `indirect` and the
state. -/
def Expr.generateIndirect : Expr → Heap → Generator → Option (Operand × Bool × Generator)
  | .Dereference expr _, h, g => indirectForm (expr.generate h g)
  | e, h, g => plainForm (e.generate h g)

/-- A relation between states of the generator that holds along the steps
out of which `generate()` of every expression is made: writing output,
constructing a label, `assigntemp` and `String::generate`, and that is
reflexive and transitive. -/
structure Closed (R : Generator → Generator → Prop) : Prop where
  same : ∀ g, R g g
  next : ∀ g g1 g2, R g g1 → R g1 g2 → R g g2
  emit : ∀ g text, R g (g.emit text)
  emits : ∀ g texts, R g (g.emits texts)
  label : ∀ g, R g g.newLabel.2
  temp : ∀ type g t g1, assigntemp type g = some (t, g1) → R g g1
  string : ∀ value type h g op g1, (Expr.String value type).generate h g = some (op, g1) →
    R g g1

/-- Whenever the piece `m` of the generator returns, the state it returns is
related by `R` to the state it started in. -/
def Keeps {α : Type} (R : Generator → Generator → Prop)
    (m : Generator → Option (α × Generator)) : Prop :=
  ∀ g a g1, m g = some (a, g1) → R g g1

/-- The state `g1` comes after `g` with output appended and with the return
label as it was. -/
def Generator.Appends (g g1 : Generator) : Prop :=
  (∃ out, g1.cout = g.cout ++ out) ∧ g1.returnLab = g.returnLab

/-- Every slot handed out after the slots `base` ends at or below `alloc`. -/
def Generator.Below (alloc : Int) (base : List (Int × Nat)) (g : Generator) : Prop :=
  ∃ new, g.slots = base ++ new ∧ ∀ p ∈ new, p.1 + p.2 ≤ alloc

/-- One parameter as `parameter()` of parser.cpp reads it: the name, the
specifier and the count of `*`; its type is `Type(typespec, indirection)`. -/
structure Parameter where
  name : String
  typespec : Specifier
  indirection : Nat

def Parameter.type (p : Parameter) : CType := .mk p.typespec p.indirection .Scalar

/-- The function `parameters()` of parser.cpp on the parameters read (none
for `void`): each is declared by `declareParameter`, and its type is pushed on
`params`. -/
def parameters : List Parameter → Table → Checker → Option (Parameters × Table × Checker)
  | [], t, c => some ([], t, c)
  | p :: rest, t, c =>
    match declareParameter p.name p.type t c with
    | none => none
    | some (_, t, c) =>
      match parameters rest t c with
      | none => none
      | some (params, t, c) => some (p.type :: params, t, c)

/-- The parse of `declarations(); statements();` inside a block, as far as it
touches the scopes and the error count: a declarator calls `declareVariable`,
an identifier in an expression calls `checkIdentifier`, a check function of
an expression or statement may report, and a nested block is `openScope()`,
the parse of its inside, and `closeScope()`. -/
inductive BlockParse : Table → Checker → Table → Checker → Prop
  | done (t : Table) (c : Checker) : BlockParse t c t c
  | declarator (t t1 t2 : Table) (c c1 c2 : Checker) (name : String) (type : CType)
      (symbol : Nat) : declareVariable name type t c = some (symbol, t1, c1) →
      BlockParse t1 c1 t2 c2 → BlockParse t c t2 c2
  | identifier (t t1 t2 : Table) (c c1 c2 : Checker) (name : String) (symbol : Nat) :
      checkIdentifier name t c = some (symbol, t1, c1) →
      BlockParse t1 c1 t2 c2 → BlockParse t c t2 c2
  | check (t t2 : Table) (c c1 c2 : Checker) : c.numErrors ≤ c1.numErrors →
      BlockParse t c1 t2 c2 → BlockParse t c t2 c2
  | block (t t1 t2 t3 : Table) (c c1 c3 : Checker) (scope : Scope) :
      BlockParse (openScope t) c t1 c1 → closeScope t1 = some (scope, t2) →
      BlockParse t2 c1 t3 c3 → BlockParse t c t3 c3

/-- The table `t1` comes from `t` by symbols added at the end of the scope of
`toplevel`, the other scopes of the chain staying as they are: the symbols
`added` are new objects, each added once, and the objects of `t` are
untouched. -/
def Table.Grown (t t1 : Table) (added : List Nat) : Prop :=
  ∃ o a S rest, t.scopes = .opened o a (S :: rest) ∧
    t1.scopes = .opened o a (⟨S.symbols ++ added⟩ :: rest) ∧
    t.next ≤ t1.next ∧ added.Nodup ∧ (∀ x ∈ added, t.next ≤ x ∧ x < t1.next) ∧
    ∀ x, x < t.next → t1.heap x = t.heap x
/-- The parameters of `int f(int x, double y)`. -/
def exampleParameters : List Parameter := [⟨"x", .INT, 0⟩, ⟨"y", .DOUBLE, 0⟩]

/-- Whether the output statement `text` starts with the definition of the
label of number `n`: the label and a colon. -/
def definesLabel (n : Nat) (text : String) : Bool :=
  startsWith ((Label.mk n).text ++ ":") text

/-- Whether the output statement `text` is a `je`, `jne` or `jmp` to the label
of number `n`. -/
def jumpsTo (n : Nat) (text : String) : Bool :=
  text == "\tje\t" ++ (Label.mk n).text ++ "\n" ||
  text == "\tjne\t" ++ (Label.mk n).text ++ "\n" ||
  text == "\tjmp\t" ++ (Label.mk n).text ++ "\n"

/-- An output statement that is neither the definition of a label nor a jump:
it starts neither with `.L` nor with a tab and `j`. -/
def Inert (text : String) : Prop :=
  startsWith ".L" text = false ∧ startsWith "\tj" text = false

/-- Whether the first characters of `text` already make every text that
starts with it inert. -/
def inertStart (text : String) : Bool :=
  match text.data with
  | [] => false
  | [c] => c != '.' && c != '\t'
  | c :: d :: _ => !(c == '.' && d == 'L') && !(c == '\t' && d == 'j')

/-- Whether a name starts as an identifier does, with a letter or an
underscore. -/
def startsAsIdentifier (name : String) : Bool :=
  match name.data with
  | [] => false
  | c :: _ => c.isAlpha || c == '_'

/-- The three jumps of the generator. -/
inductive Jump
  | je
  | jne
  | jmp

/-- The text of a jump before the label. -/
def Jump.text : Jump → String
  | .je => "\tje\t"
  | .jne => "\tjne\t"
  | .jmp => "\tjmp\t"

/-- An output statement by what it does to labels: other code, the
definition of a label, or a jump to one. -/
inductive Event
  | code (text : String)
  | define (l : Label)
  | jump (j : Jump) (l : Label)

/-- The text of the output statement. -/
def Event.text : Event → String
  | .code t => t
  | .define l => l.text ++ ":\n"
  | .jump j l => j.text ++ l.text ++ "\n"

/-- Whether the event is the definition of the label of number `n`. -/
def Event.defines (n : Nat) : Event → Bool
  | .define l => decide (l.number = n)
  | _ => false

/-- The number of the label that the event jumps to. -/
def Event.target : Event → Option Nat
  | .jump _ l => some l.number
  | _ => none

/-- The text of an event of other code is inert. -/
def Event.Inert : Event → Prop
  | .code t => SimpleC.Inert t
  | _ => True

/-- The number of definitions of the label of number `n` among the events. -/
def definitions (n : Nat) (evs : List Event) : Nat := evs.countP (Event.defines n)

/-- The output from the state `g` to the state `g1` is the text of the events
`evs`: the code among them is inert, every jump goes to a label defined among
them or to one of `ext`, no label is defined twice, the labels defined were
constructed between the two states, a label that entered the table `Labels`
between the two states was constructed there and is not defined among the
events, and the labels `res` are neither defined among the events nor entered
in the table `Labels`. -/
structure Traced (ext res : List Nat) (g g1 : Generator) (evs : List Event) : Prop where
  out : g1.cout = g.cout ++ evs.map Event.text
  inert : ∀ ev ∈ evs, ev.Inert
  closed : ∀ ev ∈ evs, ∀ n, ev.target = some n → 0 < definitions n evs ∨ n ∈ ext
  once : ∀ n, definitions n evs ≤ 1
  fresh : ∀ n, 0 < definitions n evs → g.counter ≤ n ∧ n < g1.counter
  counter : g.counter ≤ g1.counter
  strings : ∀ e ∈ g1.Labels, e ∈ g.Labels ∨
    (g.counter ≤ e.2.number ∧ e.2.number < g1.counter ∧ definitions e.2.number evs = 0)
  reserved : ∀ n ∈ res, definitions n evs = 0 ∧ ∀ e ∈ g1.Labels, e ∈ g.Labels ∨ e.2.number ≠ n

/-- The code written from `g` to `g1` is traced by events whose jumps go to
labels defined among them or to the return label, which stays the same. -/
def Generator.Traces (g g1 : Generator) : Prop :=
  ∃ evs, Traced [g.returnLab.number] [] g g1 evs ∧ g1.returnLab = g.returnLab

/-- Whenever the piece `m` of the generator returns, its output is traced. -/
def Tracing {α : Type} (m : Generator → Option (α × Generator)) : Prop :=
  ∀ g a g1, m g = some (a, g1) → Generator.Traces g g1

/-- The input `int x; int puts(); int main(void) { while (x && x) { if (x)
return 1; else puts("s"); } return 0; }`, declaration by declaration; the call
is the tree that `checkCall` builds for the unprototyped `puts`.  The string
literal, which the parser accepts as an argument of a call only, is given a
pointer type: the constructor of `String`, which stores the type, is in
Tree.cpp, not among the sources. -/
def exampleLabels : List Parsed :=
  [⟨[], [], Heap.ofList [Symbol.new "x" CType.integer], [0], none⟩,
   ⟨[], [], Heap.ofList [Symbol.new "x" CType.integer,
      Symbol.new "puts" (.mk .INT 0 (.Function none))], [], none⟩,
   ⟨[], [], Heap.ofList [Symbol.new "x" CType.integer,
      Symbol.new "puts" (.mk .INT 0 (.Function none)),
      Symbol.new "main" (.mk .INT 0 (.Function (some [])))], [],
      some ⟨2, [],
        [.While (.LogicalAnd (.Identifier 0 CType.integer) (.Identifier 0 CType.integer)
            CType.integer)
          (.Block [] [.If (.Identifier 0 CType.integer) (.Return (.Integer "1"))
            (some (.Expression (.Call 1 [.String "\"s\"" intPointer] CType.integer)))]),
         .Return (.Integer "0")]⟩⟩]

/-! ## Properties -/

section Arithmetic

theorem toInt32_of_inRange {x : Int} (h1 : -2147483648 ≤ x) (h2 : x ≤ 2147483647) :
    toInt32 x = x := by
  unfold toInt32; omega

theorem toInt32_lower (x : Int) : -2147483648 ≤ toInt32 x := by
  unfold toInt32; omega

theorem toInt32_upper (x : Int) : toInt32 x ≤ 2147483647 := by
  unfold toInt32; omega

theorem toUInt32_lt (n : Nat) : toUInt32 n < 4294967296 := by
  unfold toUInt32 UINT_RANGE; omega

end Arithmetic

section TypeSize

theorem CType.size_lt {t : CType} {n : Nat} (h : t.size = some n) : n < 4294967296 := by
  cases t with
  | mk s i k =>
    cases k with
    | Function ps => simp [CType.size] at h
    | Scalar =>
      simp only [CType.size] at h
      split_ifs at h <;> simp only [Option.some.injEq] at h <;> subst h <;> exact toUInt32_lt _
    | Array n =>
      simp only [CType.size] at h
      split_ifs at h <;> simp only [Option.some.injEq] at h <;> subst h <;> exact toUInt32_lt _

theorem CType.size_of_not_isFunction {t : CType} (h : t.isFunction = false) :
    t.size = some t.sizeN := by
  cases t with
  | mk s i k =>
    cases k <;> simp_all [CType.size, CType.sizeN, CType.isFunction] <;> split_ifs <;> simp

theorem CType.sizeN_lt (t : CType) : t.sizeN < 4294967296 := by
  unfold CType.sizeN
  cases h : t.size with
  | none => simp
  | some n => simpa using CType.size_lt h

/-- Claim C4 as stated fails: for an array of `int` of length `2^30`, a length
the parser produces from `int a[1073741824]`, `Type::size` returns 0 and not
the product `2^30 * 4`. -/
theorem C4_size_array_overflow :
    CType.size (.mk .INT 0 (.Array 1073741824)) = some 0 ∧
    CType.size (.mk .INT 0 (.Array 1073741824)) ≠ some (1073741824 * SIZEOF_INT) := by
  decide

/-- Claim C4, amended: `Type::size` returns 4 for a scalar INT, 8 for a scalar
DOUBLE, 4 for every scalar with indirection > 0, and for an array of length
`N` with element size `e` the product `N * e` reduced modulo `2^32`, which is
`N * e` itself whenever `N * e < 2^32`. -/
theorem C4_size (s : Specifier) (i N : Nat) (hs : s ≠ .ERROR) :
    CType.size (.mk .INT 0 .Scalar) = some 4 ∧
    CType.size (.mk .DOUBLE 0 .Scalar) = some 8 ∧
    (0 < i → CType.size (.mk s i .Scalar) = some 4) ∧
    ∃ e, CType.size (.mk s i .Scalar) = some e ∧
      (e = if 0 < i then 4 else if s = .INT then 4 else 8) ∧
      CType.size (.mk s i (.Array N)) = some (N * e % 4294967296) ∧
      (N * e < 4294967296 → CType.size (.mk s i (.Array N)) = some (N * e)) := by
  refine ⟨by decide, by decide, ?_, ?_⟩
  · intro hi
    simp [CType.size, hi, SIZEOF_PTR, toUInt32, UINT_RANGE]
  · by_cases hi : 0 < i
    · refine ⟨4, ?_, by simp [hi], ?_, ?_⟩
      · simp [CType.size, hi, SIZEOF_PTR, toUInt32, UINT_RANGE]
      · simp [CType.size, hi, SIZEOF_PTR, toUInt32, UINT_RANGE]
      · intro hlt
        simp [CType.size, hi, SIZEOF_PTR, toUInt32, UINT_RANGE, Nat.mod_eq_of_lt hlt]
    · cases s with
      | ERROR => exact absurd rfl hs
      | INT =>
        refine ⟨4, ?_, by simp [hi], ?_, ?_⟩
        · simp [CType.size, hi, SIZEOF_INT, toUInt32, UINT_RANGE]
        · simp [CType.size, hi, SIZEOF_INT, toUInt32, UINT_RANGE]
        · intro hlt
          simp [CType.size, hi, SIZEOF_INT, toUInt32, UINT_RANGE, Nat.mod_eq_of_lt hlt]
      | DOUBLE =>
        refine ⟨8, ?_, by simp [hi], ?_, ?_⟩
        · simp [CType.size, hi, SIZEOF_DOUBLE, toUInt32, UINT_RANGE]
        · simp [CType.size, hi, SIZEOF_DOUBLE, toUInt32, UINT_RANGE]
        · intro hlt
          simp [CType.size, hi, SIZEOF_DOUBLE, toUInt32, UINT_RANGE, Nat.mod_eq_of_lt hlt]

/-- Witness of C4: `int *` has size 4 and `double[10]` has size 80. -/
theorem C4_size_witness :
    CType.size (.mk .INT 1 .Scalar) = some 4 ∧
    CType.size (.mk .DOUBLE 0 (.Array 10)) = some 80 :=
  ⟨(C4_size .INT 1 0 (by decide)).2.2.1 (by decide),
   by
    obtain ⟨e, _, he, _, h⟩ := (C4_size .DOUBLE 0 10 (by decide)).2.2.2
    subst he
    exact h (by decide)⟩

end TypeSize

section Allocation

theorem Heap.setOffset_same (h : Heap) (s : Nat) (o : Int) :
    (h.setOffset s o s).offset = o := by
  simp [Heap.setOffset]

theorem Heap.setOffset_other (h : Heap) {s x : Nat} (o : Int) (hx : x ≠ s) :
    h.setOffset s o x = h x := by
  simp [Heap.setOffset, hx]

theorem Heap.setOffset_type (h : Heap) (s x : Nat) (o : Int) :
    (h.setOffset s o x).type = (h x).type ∧ (h.setOffset s o x).name = (h x).name := by
  unfold Heap.setOffset
  split_ifs with hx
  · subst hx; exact ⟨rfl, rfl⟩
  · exact ⟨rfl, rfl⟩

theorem Heap.Extends.extends_refl (h : Heap) (t : List Nat) : Heap.Extends h h t :=
  ⟨fun _ _ => rfl, fun _ _ => rfl, fun _ => ⟨rfl, rfl⟩⟩

theorem Heap.Extends.extends_trans {h1 h2 h3 : Heap} {t1 t2 : List Nat}
    (a : Heap.Extends h1 h2 t1) (b : Heap.Extends h2 h3 t2) :
    Heap.Extends h1 h3 (t1 ++ t2) := by
  obtain ⟨a1, a2, a3⟩ := a
  obtain ⟨b1, b2, b3⟩ := b
  refine ⟨?_, ?_, ?_⟩
  · intro x hx
    simp only [List.mem_append, not_or] at hx
    rw [b1 x hx.2, a1 x hx.1]
  · intro x hx
    have e := a2 x hx
    rw [b2 x (by rw [e]; exact hx), e]
  · intro x
    exact ⟨(b3 x).1.trans (a3 x).1, (b3 x).2.trans (a3 x).2⟩

theorem Heap.Extends.extends_mono {h1 h2 : Heap} {t1 t2 : List Nat}
    (a : Heap.Extends h1 h2 t1) (sub : ∀ x ∈ t1, x ∈ t2) : Heap.Extends h1 h2 t2 :=
  ⟨fun x hx => a.1 x (fun hm => hx (sub x hm)), a.2.1, a.2.2⟩

theorem Heap.Extends.setOffset (h : Heap) (s : Nat) (o : Int) (hs : (h s).offset = 0) :
    Heap.Extends h (h.setOffset s o) [s] := by
  refine ⟨?_, ?_, fun x => Heap.setOffset_type h s x o⟩
  · intro x hx
    exact Heap.setOffset_other h o (by simpa using hx)
  · intro x hx
    exact Heap.setOffset_other h o (by rintro rfl; exact hx hs)

theorem allocateSymbols_frame : ∀ (ds : List Nat) (off : Int) (h : Heap),
    (∀ x ∈ ds, (h x).type.isFunction = false) →
    ∃ off1 h1, allocateSymbols ds off h = some (off1, h1) ∧ Heap.Extends h h1 ds
  | [], off, h, _ => ⟨off, h, rfl, Heap.Extends.extends_refl h []⟩
  | s :: ds, off, h, hf => by
    by_cases h0 : (h s).offset = 0
    · have hsz := CType.size_of_not_isFunction (hf s (List.mem_cons_self _ _))
      have hf1 : ∀ x ∈ ds, ((h.setOffset s (toInt32 (off - (h s).type.sizeN))) x).type.isFunction
          = false := by
        intro x hx
        rw [(Heap.setOffset_type h s x _).1]
        exact hf x (List.mem_cons_of_mem _ hx)
      obtain ⟨off1, h1, e, ext⟩ := allocateSymbols_frame ds
        (toInt32 (off - (h s).type.sizeN)) _ hf1
      refine ⟨off1, h1, ?_, ?_⟩
      · simp only [allocateSymbols, h0, if_true, hsz]
        exact e
      · exact (Heap.Extends.setOffset h s _ h0).extends_trans ext
    · obtain ⟨off1, h1, e, ext⟩ := allocateSymbols_frame ds off h
        (fun x hx => hf x (List.mem_cons_of_mem _ hx))
      refine ⟨off1, h1, ?_, ext.extends_mono (fun x hx => List.mem_cons_of_mem _ hx)⟩
      simp only [allocateSymbols, h0, if_false]
      exact e

theorem Heap.Extends.isFunction {h1 h2 : Heap} {t u : List Nat} (a : Heap.Extends h1 h2 t)
    (hf : ∀ x ∈ u, (h1 x).type.isFunction = false) :
    ∀ x ∈ u, (h2 x).type.isFunction = false := by
  intro x hx
  rw [(a.2.2 x).1]
  exact hf x hx

mutual
theorem Stmt.allocate_frame : ∀ (s : Stmt) (off : Int) (h : Heap),
    (∀ x ∈ s.symbols, (h x).type.isFunction = false) →
    ∃ off1 h1, s.allocate off h = some (off1, h1) ∧ Heap.Extends h h1 s.symbols
  | .Expression _, off, h, _ => ⟨off, h, rfl, Heap.Extends.extends_refl h _⟩
  | .Return _, off, h, _ => ⟨off, h, rfl, Heap.Extends.extends_refl h _⟩
  | .Block decls stmts, off, h, hf => by
    simp only [Stmt.symbols, List.mem_append] at hf
    obtain ⟨o1, h1, e1, x1⟩ := allocateSymbols_frame decls off h (fun x hx => hf x (Or.inl hx))
    obtain ⟨o2, h2, e2, x2⟩ := Stmt.allocateStmts_frame stmts o1 o1 h1
      (x1.isFunction (fun x hx => hf x (Or.inr hx)))
    refine ⟨o2, h2, ?_, ?_⟩
    · simp only [Stmt.allocate, e1]
      exact e2
    · simpa only [Stmt.symbols] using x1.extends_trans x2
  | .While _ stmt, off, h, hf => by
    simp only [Stmt.symbols] at hf
    obtain ⟨o1, h1, e1, x1⟩ := Stmt.allocate_frame stmt off h hf
    exact ⟨o1, h1, by simpa only [Stmt.allocate] using e1, by simpa only [Stmt.symbols] using x1⟩
  | .If _ thenStmt none, off, h, hf => by
    simp only [Stmt.symbols] at hf
    obtain ⟨o1, h1, e1, x1⟩ := Stmt.allocate_frame thenStmt off h hf
    exact ⟨o1, h1, by simpa only [Stmt.allocate] using e1, by simpa only [Stmt.symbols] using x1⟩
  | .If _ thenStmt (some elseStmt), off, h, hf => by
    simp only [Stmt.symbols, List.mem_append] at hf
    obtain ⟨o1, h1, e1, x1⟩ := Stmt.allocate_frame thenStmt off h (fun x hx => hf x (Or.inl hx))
    obtain ⟨o2, h2, e2, x2⟩ := Stmt.allocate_frame elseStmt o1 h1
      (x1.isFunction (fun x hx => hf x (Or.inr hx)))
    refine ⟨min o1 o2, h2, ?_, ?_⟩
    · simp only [Stmt.allocate, e1, e2]
    · simpa only [Stmt.symbols] using x1.extends_trans x2
theorem Stmt.allocateStmts_frame : ∀ (ss : List Stmt) (temp off : Int) (h : Heap),
    (∀ x ∈ Stmt.symbolsOfStmts ss, (h x).type.isFunction = false) →
    ∃ off1 h1, Stmt.allocateStmts ss temp off h = some (off1, h1) ∧
      Heap.Extends h h1 (Stmt.symbolsOfStmts ss)
  | [], _, off, h, _ => ⟨off, h, rfl, Heap.Extends.extends_refl h _⟩
  | s :: ss, temp, off, h, hf => by
    simp only [Stmt.symbolsOfStmts, List.mem_append] at hf
    obtain ⟨o1, h1, e1, x1⟩ := Stmt.allocate_frame s temp h (fun x hx => hf x (Or.inl hx))
    obtain ⟨o2, h2, e2, x2⟩ := Stmt.allocateStmts_frame ss o1 (min off o1) h1
      (x1.isFunction (fun x hx => hf x (Or.inr hx)))
    refine ⟨o2, h2, ?_, ?_⟩
    · simp only [Stmt.allocateStmts, e1]
      exact e2
    · simpa only [Stmt.symbolsOfStmts] using x1.extends_trans x2
end

theorem prefixSize_zero (ps : Parameters) : prefixSize ps 0 = 0 := by
  simp [prefixSize]

theorem prefixSize_cons_succ (p : CType) (ps : Parameters) (k : Nat) :
    prefixSize (p :: ps) (k + 1) = p.sizeN + prefixSize ps k := by
  simp [prefixSize]

theorem allocateParameters_spec : ∀ (ps : Parameters) (syms : List Nat) (off : Int) (h : Heap),
    ps.length ≤ syms.length → (syms.take ps.length).Nodup →
    (∀ p ∈ ps, p.isFunction = false) → -2147483648 ≤ off →
    ∃ off1 h1, allocateParameters ps syms off h = some (off1, h1) ∧
      (∀ x, (h1 x).type = (h x).type) ∧
      (∀ x, x ∉ syms.take ps.length → h1 x = h x) ∧
      ∀ k x, k < ps.length → syms[k]? = some x →
        off + (prefixSize ps k : Int) ≤ 2147483647 →
        (h1 x).offset = off + (prefixSize ps k : Int)
  | [], syms, off, h, _, _, _, _ =>
    ⟨off, h, rfl, fun _ => rfl, fun _ _ => rfl, fun k x hk => absurd hk (Nat.not_lt_zero k)⟩
  | p :: ps, [], off, h, hlen, _, _, _ => by simp at hlen
  | p :: ps, s :: syms, off, h, hlen, hnd, hf, hlo => by
    have hp := CType.size_of_not_isFunction (hf p (List.mem_cons_self _ _))
    simp only [List.length_cons, List.take_succ_cons, List.nodup_cons] at hnd
    obtain ⟨off1, h1, e, ty, fr, sp⟩ := allocateParameters_spec ps syms
      (toInt32 (off + p.sizeN)) (h.setOffset s off)
      (by simpa using hlen) hnd.2 (fun q hq => hf q (List.mem_cons_of_mem _ hq))
      (toInt32_lower _)
    refine ⟨off1, h1, ?_, ?_, ?_, ?_⟩
    · simp only [allocateParameters, hp]
      exact e
    · intro x
      rw [ty x, (Heap.setOffset_type h s x off).1]
    · intro x hx
      simp only [List.length_cons, List.take_succ_cons, List.mem_cons, not_or] at hx
      rw [fr x hx.2, Heap.setOffset_other h off hx.1]
    · intro k x hk hx hfit
      cases k with
      | zero =>
        simp only [List.getElem?_cons_zero, Option.some.injEq] at hx
        subst hx
        rw [fr s hnd.1, Heap.setOffset_same, prefixSize_zero]
        simp
      | succ k =>
        simp only [List.getElem?_cons_succ] at hx
        rw [prefixSize_cons_succ] at hfit ⊢
        push_cast at hfit ⊢
        have hin : toInt32 (off + p.sizeN) = off + p.sizeN :=
          toInt32_of_inRange (by omega) (by omega)
        have := sp k x (by simpa using hk) hx (by rw [hin]; omega)
        rw [this, hin]
        omega

/-- Claim C2: `Function::allocate` gives the k-th parameter symbol the offset
`8 + size(p0) + ... + size(p(k-1))`, for a function whose first symbols are
its parameters (distinct symbols) and as long as that sum fits the 32-bit
`int` that holds the offset; in particular the first parameter is at 8. -/
theorem C2_parameter_offsets (f : Function) (h : Heap) (params : Parameters)
    (hparams : (h f.id).type.parameters = some params)
    (hlen : params.length ≤ f.decls.length)
    (hdistinct : (f.decls.take params.length).Nodup)
    (hsize : ∀ p ∈ params, p.isFunction = false)
    (hbody : ∀ x ∈ f.body.symbols, (h x).type.isFunction = false) :
    ∃ off h1, f.allocate h = some (off, h1) ∧
      ∀ k x, k < params.length → f.decls[k]? = some x →
        8 + (prefixSize params k : Int) ≤ 2147483647 →
        (h1 x).offset = 8 + (prefixSize params k : Int) := by
  obtain ⟨o1, h1, e1, ty, _, sp⟩ := allocateParameters_spec params f.decls INIT_PARAM_OFFSET h
    hlen hdistinct hsize (by decide)
  have hbody1 : ∀ x ∈ f.body.symbols, (h1 x).type.isFunction = false := by
    intro x hx
    rw [ty x]
    exact hbody x hx
  obtain ⟨o2, h2, e2, x2⟩ := Stmt.allocate_frame f.body 0 h1 hbody1
  refine ⟨o2, h2, ?_, ?_⟩
  · simp only [Function.allocate, hparams, e1]
    exact e2
  · intro k x hk hx hfit
    have hoff := sp k x hk hx hfit
    have hne : (h1 x).offset ≠ 0 := by
      rw [hoff]
      have : INIT_PARAM_OFFSET = 8 := rfl
      omega
    rw [x2.2.1 x hne, hoff]
    rfl

theorem totalSize_nil (h : Heap) : totalSize h [] = 0 := rfl

theorem totalSize_cons (h : Heap) (x : Nat) (xs : List Nat) :
    totalSize h (x :: xs) = (h x).type.sizeN + totalSize h xs := by
  simp [totalSize]

theorem totalSize_append (h : Heap) (xs ys : List Nat) :
    totalSize h (xs ++ ys) = totalSize h xs + totalSize h ys := by
  simp [totalSize]

theorem Heap.Extends.totalSize_eq {h1 h2 : Heap} {t : List Nat} (a : Heap.Extends h1 h2 t)
    (xs : List Nat) : totalSize h2 xs = totalSize h1 xs := by
  unfold totalSize
  congr 1
  apply List.map_congr_left
  intro x _
  rw [(a.2.2 x).1]

theorem Heap.Extends.fresh {h1 h2 : Heap} {t u : List Nat} (a : Heap.Extends h1 h2 t)
    (hu : Heap.Fresh h1 u) (hd : ∀ x ∈ u, x ∉ t) : Heap.Fresh h2 u := by
  intro x hx
  rw [a.1 x (hd x hx)]
  exact hu x hx

theorem allocateSymbols_bounds : ∀ (ds : List Nat) (off : Int) (h : Heap),
    ds.Nodup → Heap.Fresh h ds → off ≤ 0 → -2147483648 ≤ off - (totalSize h ds : Int) →
    ∃ h1, allocateSymbols ds off h = some (off - (totalSize h ds : Int), h1) ∧
      Heap.Extends h h1 ds ∧
      ∀ x ∈ ds, off - (totalSize h ds : Int) ≤ (h1 x).offset ∧ (h1 x).offset ≤ 0 ∧
        (0 < (h x).type.sizeN → (h1 x).offset < 0)
  | [], off, h, _, _, _, _ => ⟨h, by simp [allocateSymbols, totalSize_nil],
      Heap.Extends.extends_refl h [], fun x hx => by simp at hx⟩
  | s :: ds, off, h, hnd, hfr, hle, hfit => by
    obtain ⟨h0, hfn⟩ := hfr s (List.mem_cons_self _ _)
    have hsz := CType.size_of_not_isFunction hfn
    rw [List.nodup_cons] at hnd
    rw [totalSize_cons] at hfit ⊢
    push_cast at hfit ⊢
    have hin : toInt32 (off - (h s).type.sizeN) = off - (h s).type.sizeN :=
      toInt32_of_inRange (by omega) (by omega)
    have ext0 := Heap.Extends.setOffset h s (off - (h s).type.sizeN) h0
    have hfr1 : Heap.Fresh (h.setOffset s (off - (h s).type.sizeN)) ds :=
      ext0.fresh (fun x hx => hfr x (List.mem_cons_of_mem _ hx))
        (fun x hx => by simp only [List.mem_singleton]; rintro rfl; exact hnd.1 hx)
    have ht := ext0.totalSize_eq ds
    obtain ⟨h1, e, ext, neg⟩ := allocateSymbols_bounds ds (off - (h s).type.sizeN)
      (h.setOffset s (off - (h s).type.sizeN)) hnd.2 hfr1 (by omega) (by rw [ht]; omega)
    rw [ht] at e neg
    refine ⟨h1, ?_, ?_, ?_⟩
    · simp only [allocateSymbols, h0, if_true, hsz, hin]
      rw [e]
      congr 2
      omega
    · exact ext0.extends_trans ext
    · intro x hx
      rcases List.mem_cons.1 hx with rfl | hx
      · rw [ext.1 x hnd.1, Heap.setOffset_same]
        exact ⟨by omega, by omega, fun hp => by omega⟩
      · have := neg x hx
        rw [(ext0.2.2 x).1] at this
        exact ⟨by omega, this.2.1, this.2.2⟩

theorem allocateSymbols_skip : ∀ (ps ds : List Nat) (off : Int) (h : Heap),
    (∀ x ∈ ps, (h x).offset ≠ 0) → allocateSymbols (ps ++ ds) off h = allocateSymbols ds off h
  | [], _, _, _, _ => rfl
  | p :: ps, ds, off, h, hp => by
    simp only [List.cons_append, allocateSymbols, hp p (List.mem_cons_self _ _), if_false]
    exact allocateSymbols_skip ps ds off h (fun x hx => hp x (List.mem_cons_of_mem _ hx))

theorem AllocOk.seq {r1 r2 : Int → Heap → Option (Int × Heap)} {xs ys : List Nat}
    (a : AllocOk r1 xs) (b : AllocOk r2 ys) (off : Int) (h : Heap)
    (hnd : (xs ++ ys).Nodup) (hfr : Heap.Fresh h (xs ++ ys)) (hle : off ≤ 0)
    (hfit : -2147483648 ≤ off - (totalSize h (xs ++ ys) : Int)) :
    ∃ h1 h2, r1 off h = some (off - (totalSize h xs : Int), h1) ∧
      r2 (off - (totalSize h xs : Int)) h1 = some (off - (totalSize h (xs ++ ys) : Int), h2) ∧
      Heap.Extends h h2 (xs ++ ys) ∧
      ∀ x ∈ xs ++ ys, off - (totalSize h (xs ++ ys) : Int) ≤ (h2 x).offset ∧
        (h2 x).offset ≤ 0 ∧ (0 < (h x).type.sizeN → (h2 x).offset < 0) := by
  rw [List.nodup_append] at hnd
  obtain ⟨ndx, ndy, disj⟩ := hnd
  rw [totalSize_append] at hfit ⊢
  push_cast at hfit ⊢
  obtain ⟨h1, e1, x1, n1⟩ := a off h ndx (fun x hx => hfr x (List.mem_append_left _ hx)) hle
    (by omega)
  have hfr1 : Heap.Fresh h1 ys :=
    x1.fresh (fun x hx => hfr x (List.mem_append_right _ hx)) (fun x hy hx => disj hx hy)
  have ht := x1.totalSize_eq ys
  obtain ⟨h2, e2, x2, n2⟩ := b (off - (totalSize h xs : Int)) h1 ndy hfr1 (by omega)
    (by rw [ht]; omega)
  rw [ht] at e2
  refine ⟨h1, h2, e1, ?_, x1.extends_trans x2, ?_⟩
  · rw [e2]
    congr 2
    omega
  · intro x hx
    rcases List.mem_append.1 hx with hx | hx
    · rw [x2.1 x (fun hy => disj hx hy)]
      have := n1 x hx
      exact ⟨by omega, this.2⟩
    · have := n2 x hx
      rw [ht, (x1.2.2 x).1] at this
      exact ⟨by omega, this.2⟩

mutual
theorem Stmt.allocate_bounds : ∀ (s : Stmt), AllocOk s.allocate s.symbols
  | .Expression _ => fun off h _ _ _ _ =>
    ⟨h, by simp [Stmt.allocate, Stmt.symbols, totalSize_nil], Heap.Extends.extends_refl h _,
      fun x hx => by simp [Stmt.symbols] at hx⟩
  | .Return _ => fun off h _ _ _ _ =>
    ⟨h, by simp [Stmt.allocate, Stmt.symbols, totalSize_nil], Heap.Extends.extends_refl h _,
      fun x hx => by simp [Stmt.symbols] at hx⟩
  | .Block decls stmts => by
    intro off h hnd hfr hle hfit
    simp only [Stmt.symbols] at hnd hfr hfit ⊢
    have a : AllocOk (allocateSymbols decls) decls := fun off h nd fr le fit =>
      allocateSymbols_bounds decls off h nd fr le fit
    obtain ⟨h1, h2, e1, e2, x2, n2⟩ :=
      AllocOk.seq a (Stmt.allocateStmts_bounds stmts) off h hnd hfr hle hfit
    exact ⟨h2, by simp only [Stmt.allocate, e1]; exact e2, x2, n2⟩
  | .While _ stmt => by
    intro off h hnd hfr hle hfit
    simp only [Stmt.symbols] at hnd hfr hfit ⊢
    obtain ⟨h1, e, x, n⟩ := Stmt.allocate_bounds stmt off h hnd hfr hle hfit
    exact ⟨h1, by simpa only [Stmt.allocate] using e, x, n⟩
  | .If _ thenStmt none => by
    intro off h hnd hfr hle hfit
    simp only [Stmt.symbols] at hnd hfr hfit ⊢
    obtain ⟨h1, e, x, n⟩ := Stmt.allocate_bounds thenStmt off h hnd hfr hle hfit
    exact ⟨h1, by simpa only [Stmt.allocate] using e, x, n⟩
  | .If _ thenStmt (some elseStmt) => by
    intro off h hnd hfr hle hfit
    simp only [Stmt.symbols] at hnd hfr hfit ⊢
    obtain ⟨h1, h2, e1, e2, x2, n2⟩ :=
      AllocOk.seq (Stmt.allocate_bounds thenStmt) (Stmt.allocate_bounds elseStmt)
        off h hnd hfr hle hfit
    refine ⟨h2, ?_, x2, n2⟩
    simp only [Stmt.allocate, e1, e2]
    rw [totalSize_append]
    push_cast
    congr 2
    apply min_eq_right
    omega
theorem Stmt.allocateStmts_bounds : ∀ (ss : List Stmt),
    AllocOk (fun off h => Stmt.allocateStmts ss off off h) (Stmt.symbolsOfStmts ss)
  | [] => fun off h _ _ _ _ =>
    ⟨h, by simp [Stmt.allocateStmts, Stmt.symbolsOfStmts, totalSize_nil],
      Heap.Extends.extends_refl h _, fun x hx => by simp [Stmt.symbolsOfStmts] at hx⟩
  | s :: ss => by
    intro off h hnd hfr hle hfit
    simp only [Stmt.symbolsOfStmts] at hnd hfr hfit ⊢
    obtain ⟨h1, h2, e1, e2, x2, n2⟩ :=
      AllocOk.seq (Stmt.allocate_bounds s) (Stmt.allocateStmts_bounds ss) off h hnd hfr hle hfit
    refine ⟨h2, ?_, x2, n2⟩
    have hm : min off (off - (totalSize h s.symbols : Int)) = off - (totalSize h s.symbols : Int) :=
      min_eq_right (by omega)
    simp only [Stmt.allocateStmts, e1, hm]
    exact e2
end

theorem allocateSymbols_upper : ∀ (ds : List Nat) (off : Int) (h : Heap) (o1 : Int) (h1 : Heap),
    allocateSymbols ds off h = some (o1, h1) → off ≤ 2147483647 → o1 ≤ 2147483647
  | [], off, h, o1, h1, e, hle => by
    simp only [allocateSymbols, Option.some.injEq, Prod.mk.injEq] at e
    omega
  | s :: ds, off, h, o1, h1, e, hle => by
    simp only [allocateSymbols] at e
    split_ifs at e
    · split at e
      · exact absurd e (by simp)
      · exact allocateSymbols_upper ds _ _ o1 h1 e (toInt32_upper _)
    · exact allocateSymbols_upper ds _ _ o1 h1 e hle

mutual
theorem Stmt.allocate_le (s : Stmt) (off : Int) (h : Heap) (o1 : Int) (h1 : Heap)
    (e : s.allocate off h = some (o1, h1)) (hle : off ≤ 2147483647) : o1 ≤ 2147483647 := by
  cases s with
  | Expression expr =>
    simp only [Stmt.allocate, Option.some.injEq, Prod.mk.injEq] at e
    omega
  | Return expr =>
    simp only [Stmt.allocate, Option.some.injEq, Prod.mk.injEq] at e
    omega
  | Block decls stmts =>
    simp only [Stmt.allocate] at e
    split at e
    · exact absurd e (by simp)
    · rename_i o2 h2 e2
      have := allocateSymbols_upper decls off h o2 h2 e2 hle
      exact Stmt.allocateStmts_upper stmts o2 o2 h2 o1 h1 e this this
  | While expr stmt =>
    simp only [Stmt.allocate] at e
    exact Stmt.allocate_le stmt off h o1 h1 e hle
  | If expr thenStmt elseStmt =>
    cases elseStmt with
    | none =>
      simp only [Stmt.allocate] at e
      exact Stmt.allocate_le thenStmt off h o1 h1 e hle
    | some elseStmt =>
      simp only [Stmt.allocate] at e
      split at e
      · exact absurd e (by simp)
      · rename_i o2 h2 e2
        have u2 := Stmt.allocate_le thenStmt off h o2 h2 e2 hle
        split at e
        · exact absurd e (by simp)
        · simp only [Option.some.injEq, Prod.mk.injEq] at e
          have := min_le_left o2 (by assumption : Int)
          omega
termination_by sizeOf s
theorem Stmt.allocateStmts_upper (ss : List Stmt) (temp off : Int) (h : Heap) (o1 : Int)
    (h1 : Heap) (e : Stmt.allocateStmts ss temp off h = some (o1, h1))
    (hte : temp ≤ 2147483647) (hle : off ≤ 2147483647) : o1 ≤ 2147483647 := by
  cases ss with
  | nil =>
    simp only [Stmt.allocateStmts, Option.some.injEq, Prod.mk.injEq] at e
    omega
  | cons s ss =>
    simp only [Stmt.allocateStmts] at e
    split at e
    · exact absurd e (by simp)
    · rename_i t2 h2 e2
      have u2 := Stmt.allocate_le s temp h t2 h2 e2 hte
      exact Stmt.allocateStmts_upper ss t2 (min off t2) h2 o1 h1 e u2
        (le_trans (min_le_left _ _) hle)
termination_by sizeOf ss
end

theorem allocateSymbols_chain : ∀ (ds : List Nat) (off : Int) (h : Heap),
    ds.Nodup → (∀ x ∈ ds, (h x).offset = 0 ∧ (h x).type.isFunction = false) →
    ∃ off1 h1, allocateSymbols ds off h = some (off1, h1) ∧ Heap.Extends h h1 ds ∧
      (∀ x ∈ ds, (h1 x).offset ≤ 2147483647) ∧
      (∀ x, ds[0]? = some x → (h1 x).offset = toInt32 (off - (h x).type.sizeN)) ∧
      (∀ i x y, ds[i]? = some x → ds[i + 1]? = some y →
        (h1 y).offset = toInt32 ((h1 x).offset - (h y).type.sizeN))
  | [], off, h, _, _ => ⟨off, h, rfl, Heap.Extends.extends_refl h [], fun x hx => by simp at hx,
      fun x hx => by simp at hx, fun i x y hx => by simp at hx⟩
  | s :: ds, off, h, hnd, hfr => by
    obtain ⟨h0, hfn⟩ := hfr s (List.mem_cons_self _ _)
    have hsz := CType.size_of_not_isFunction hfn
    rw [List.nodup_cons] at hnd
    have ext0 := Heap.Extends.setOffset h s (toInt32 (off - (h s).type.sizeN)) h0
    have hfr1 : ∀ x ∈ ds, ((h.setOffset s (toInt32 (off - (h s).type.sizeN))) x).offset = 0 ∧
        ((h.setOffset s (toInt32 (off - (h s).type.sizeN))) x).type.isFunction = false := by
      intro x hx
      rw [ext0.1 x (by simp only [List.mem_singleton]; rintro rfl; exact hnd.1 hx)]
      exact hfr x (List.mem_cons_of_mem _ hx)
    obtain ⟨off1, h1, e, ext, up, first, chain⟩ := allocateSymbols_chain ds
      (toInt32 (off - (h s).type.sizeN)) (h.setOffset s (toInt32 (off - (h s).type.sizeN)))
      hnd.2 hfr1
    have hs1 : (h1 s).offset = toInt32 (off - (h s).type.sizeN) := by
      rw [ext.1 s hnd.1, Heap.setOffset_same]
    refine ⟨off1, h1, ?_, ext0.extends_trans ext, ?_, ?_, ?_⟩
    · simp only [allocateSymbols, h0, if_true, hsz]
      exact e
    · intro x hx
      rcases List.mem_cons.1 hx with rfl | hx
      · rw [hs1]; exact toInt32_upper _
      · exact up x hx
    · intro x hx
      simp only [List.getElem?_cons_zero, Option.some.injEq] at hx
      subst hx
      exact hs1
    · intro i x y hx hy
      simp only [List.getElem?_cons_succ] at hy
      cases i with
      | zero =>
        simp only [List.getElem?_cons_zero, Option.some.injEq] at hx
        subst hx
        rw [first y hy, hs1, (ext0.2.2 y).1]
      | succ i =>
        simp only [List.getElem?_cons_succ] at hx
        rw [chain i x y hx hy, (ext0.2.2 y).1]

/-- Allocation of a function with fresh locals of sizes that sum to at most
`2^31`: `Function::allocate` returns, and the offset of every local is not
below the returned offset and not above 0, and is negative if the size of the
local is not 0. -/
theorem Function.allocate_covers (f : Function) (h : Heap) (params : Parameters)
    (psyms locals : List Nat)
    (hparams : (h f.id).type.parameters = some params)
    (hdecls : f.decls = psyms ++ locals) (hplen : psyms.length = params.length)
    (hpsize : ∀ p ∈ params, p.isFunction = false)
    (hpfit : ∀ k, k < params.length → 8 + (prefixSize params k : Int) ≤ 2147483647)
    (hnd : f.body.symbols.Nodup)
    (hfr : Heap.Fresh h (locals ++ Stmt.symbolsOfStmts f.stmts))
    (hfit : (totalSize h (locals ++ Stmt.symbolsOfStmts f.stmts) : Int) ≤ 2147483648) :
    ∃ off h1, f.allocate h = some (off, h1) ∧
      ∀ x ∈ locals ++ Stmt.symbolsOfStmts f.stmts, off ≤ (h1 x).offset ∧ (h1 x).offset ≤ 0 ∧
        (0 < (h x).type.sizeN → (h1 x).offset < 0) := by
  have hsym : f.body.symbols = psyms ++ (locals ++ Stmt.symbolsOfStmts f.stmts) := by
    simp [Function.body, Stmt.symbols, hdecls]
  rw [hsym, List.nodup_append] at hnd
  obtain ⟨ndp, ndl, disj⟩ := hnd
  have htake : f.decls.take params.length = psyms := by
    rw [hdecls, ← hplen, List.take_left]
  obtain ⟨o1, h1, e1, ty, fr, sp⟩ := allocateParameters_spec params f.decls
    INIT_PARAM_OFFSET h (by rw [hdecls, List.length_append]; omega) (by rw [htake]; exact ndp)
    hpsize (by decide)
  rw [htake] at fr
  have hne : ∀ x ∈ psyms, (h1 x).offset ≠ 0 := by
    intro x hx
    obtain ⟨k, hk, hkx⟩ := List.getElem_of_mem hx
    have hk2 : f.decls[k]? = some x := by
      rw [hdecls, List.getElem?_append_left hk, List.getElem?_eq_getElem hk, hkx]
    have := sp k x (by omega) hk2 (hpfit k (by omega))
    rw [this]
    have : INIT_PARAM_OFFSET = 8 := rfl
    omega
  have hfr1 : Heap.Fresh h1 (locals ++ Stmt.symbolsOfStmts f.stmts) := by
    intro x hx
    rw [fr x (fun hp => disj hp hx)]
    exact hfr x hx
  have ht : totalSize h1 (locals ++ Stmt.symbolsOfStmts f.stmts)
      = totalSize h (locals ++ Stmt.symbolsOfStmts f.stmts) := by
    unfold totalSize
    congr 1
    exact List.map_congr_left (fun x _ => by rw [ty x])
  have a : AllocOk (allocateSymbols locals) locals := fun off h nd fr le fit =>
    allocateSymbols_bounds locals off h nd fr le fit
  obtain ⟨h2, h3, e2, e3, _, n3⟩ := AllocOk.seq a (Stmt.allocateStmts_bounds f.stmts) 0 h1 ndl
    hfr1 le_rfl (by rw [ht]; omega)
  rw [hdecls] at e1
  refine ⟨0 - (totalSize h1 (locals ++ Stmt.symbolsOfStmts f.stmts) : Int), h3, ?_,
    fun x hx => by
      have := n3 x hx
      rw [ty x] at this
      exact this⟩
  simp only [Function.allocate, hparams, e1, Function.body, Stmt.allocate, hdecls,
    allocateSymbols_skip psyms locals 0 h1 hne, e2]
  exact e3

/-- Witness of C2: in `int f(int x, double y)`, `x` is at 8 and `y` at 12. -/
theorem C2_parameter_offsets_witness :
    ∃ off h1, exampleE2.allocate exampleE2Heap = some (off, h1) ∧
      (h1 1).offset = 8 ∧ (h1 2).offset = 12 := by
  obtain ⟨off, h1, e, sp⟩ := C2_parameter_offsets exampleE2 exampleE2Heap
    [CType.integer, CType.real] rfl (by decide) (by decide) (by decide) (by decide)
  refine ⟨off, h1, e, ?_, ?_⟩
  · exact sp 0 1 (by decide) rfl (by decide)
  · exact sp 1 2 (by decide) rfl (by decide)

/-- Claim C3 as stated fails: in `int main(void) { int a[0]; return 0; }` the
local `a` ends with offset 0, which is not strictly negative. -/
theorem C3_zero_length_array_offset :
    ∃ off h1, zeroArray.allocate zeroArrayHeap = some (off, h1) ∧
      (h1 1).offset = 0 ∧ ¬ (h1 1).offset < 0 :=
  ⟨_, _, rfl, by decide, by decide⟩

theorem Heap.Chained.of_eq {h h1 h2 : Heap} {entry : Int} {l : List Nat}
    (c : Heap.Chained h h1 entry l) (e : ∀ x ∈ l, h2 x = h1 x) : Heap.Chained h h2 entry l := by
  refine ⟨fun x hx => ?_, fun i x y hx hy => ?_⟩
  · rw [e x (List.getElem?_mem hx)]
    exact c.1 x hx
  · rw [e x (List.getElem?_mem hx), e y (List.getElem?_mem hy)]
    exact c.2 i x y hx hy

theorem unallocated_skip (h : Heap) (ps ds : List Nat) (hp : ∀ x ∈ ps, (h x).offset ≠ 0)
    (hd : ∀ x ∈ ds, (h x).offset = 0) : unallocated h (ps ++ ds) = ds := by
  unfold unallocated
  rw [List.filter_append, List.filter_eq_nil_iff.2 (fun x hx => by simpa using hp x hx),
    List.filter_eq_self.2 (fun x hx => by simpa using hd x hx), List.nil_append]

theorem allocateSymbols_chained (ds : List Nat) (off : Int) (h : Heap) (nd : ds.Nodup)
    (fr : Heap.Fresh h ds) (hoff : off ≤ 2147483647) :
    ∃ o1 h1, allocateSymbols ds off h = some (o1, h1) ∧ Heap.Extends h h1 ds ∧
      Heap.Chained h h1 off ds := by
  obtain ⟨o1, h1, e1, x1, up, first, chain⟩ := allocateSymbols_chain ds off h nd fr
  refine ⟨o1, h1, e1, x1, fun x hx => ?_, fun i x y hx hy => ?_⟩
  · rw [first x hx]
    exact ⟨rfl, fun hlo => toInt32_of_inRange hlo (by omega)⟩
  · have := up x (List.getElem?_mem hx)
    rw [chain i x y hx hy]
    exact ⟨rfl, fun hlo => toInt32_of_inRange hlo (by omega)⟩

/-- The calls of `Block::allocate` on a block whose declarations are symbols
already allocated followed by fresh locals, given what the loop over the
statements of the block does. -/
theorem Stmt.blockCalls_block (pre locals : List Nat) (stmts : Statements) (off : Int)
    (h : Heap) (hpre : ∀ x ∈ pre, (h x).offset ≠ 0)
    (nd : (locals ++ Stmt.symbolsOfStmts stmts).Nodup)
    (fr : Heap.Fresh h (locals ++ Stmt.symbolsOfStmts stmts)) (hoff : off ≤ 2147483647)
    (ih : ∀ (temp o : Int) (h1 : Heap), (Stmt.symbolsOfStmts stmts).Nodup →
      Heap.Fresh h1 (Stmt.symbolsOfStmts stmts) → temp ≤ 2147483647 →
      ∃ o1 hf, Stmt.allocateStmts stmts temp o h1 = some (o1, hf) ∧
        Heap.Extends h1 hf (Stmt.symbolsOfStmts stmts) ∧
        (∀ x ∈ Stmt.symbolsOfStmts stmts,
          ∃ c ∈ Stmt.blockCallsOfStmts stmts temp h1, x ∈ unallocated c.2.2 c.1) ∧
        ∀ c ∈ Stmt.blockCallsOfStmts stmts temp h1,
          (∀ x ∈ unallocated c.2.2 c.1, x ∈ Stmt.symbolsOfStmts stmts) ∧
          Heap.Chained c.2.2 hf c.2.1 (unallocated c.2.2 c.1)) :
    ∃ o1 hf, (Stmt.Block (pre ++ locals) stmts).allocate off h = some (o1, hf) ∧
      Heap.Extends h hf (locals ++ Stmt.symbolsOfStmts stmts) ∧
      unallocated h (pre ++ locals) = locals ∧
      (∀ x ∈ locals ++ Stmt.symbolsOfStmts stmts,
        ∃ c ∈ (Stmt.Block (pre ++ locals) stmts).blockCalls off h, x ∈ unallocated c.2.2 c.1) ∧
      ∀ c ∈ (Stmt.Block (pre ++ locals) stmts).blockCalls off h,
        (∀ x ∈ unallocated c.2.2 c.1, x ∈ locals ++ Stmt.symbolsOfStmts stmts) ∧
        Heap.Chained c.2.2 hf c.2.1 (unallocated c.2.2 c.1) := by
  rw [List.nodup_append] at nd
  obtain ⟨ndl, nds, disj⟩ := nd
  obtain ⟨o1, h1, e1, x1, ch⟩ := allocateSymbols_chained locals off h ndl
    (fun x hx => fr x (List.mem_append_left _ hx)) hoff
  have u1 := allocateSymbols_upper locals off h o1 h1 e1 hoff
  have fr1 : Heap.Fresh h1 (Stmt.symbolsOfStmts stmts) :=
    x1.fresh (fun x hx => fr x (List.mem_append_right _ hx)) (fun x hx hl => disj hl hx)
  obtain ⟨o2, hf, e2, x2, cov, cs⟩ := ih o1 o1 h1 nds fr1 u1
  have hun : unallocated h (pre ++ locals) = locals :=
    unallocated_skip h pre locals hpre (fun x hx => (fr x (List.mem_append_left _ hx)).1)
  have hcalls : (Stmt.Block (pre ++ locals) stmts).blockCalls off h
      = (pre ++ locals, off, h) :: Stmt.blockCallsOfStmts stmts o1 h1 := by
    simp only [Stmt.blockCalls, allocateSymbols_skip pre locals off h hpre, e1]
  rw [hcalls]
  refine ⟨o2, hf, ?_, x1.extends_trans x2, hun, ?_, ?_⟩
  · simp only [Stmt.allocate, allocateSymbols_skip pre locals off h hpre, e1]
    exact e2
  · intro x hx
    rcases List.mem_append.1 hx with hx | hx
    · exact ⟨_, List.mem_cons_self _ _, by rw [hun]; exact hx⟩
    · obtain ⟨c, hc, hm⟩ := cov x hx
      exact ⟨c, List.mem_cons_of_mem _ hc, hm⟩
  · intro c hc
    rcases List.mem_cons.1 hc with rfl | hc
    · show (∀ x ∈ unallocated h (pre ++ locals), _) ∧
        Heap.Chained h hf off (unallocated h (pre ++ locals))
      rw [hun]
      exact ⟨fun x hx => List.mem_append_left _ hx,
        ch.of_eq (fun x hx => x2.1 x (fun hy => disj hx hy))⟩
    · obtain ⟨a, b⟩ := cs c hc
      exact ⟨fun x hx => List.mem_append_right _ (a x hx), b⟩

mutual
/-- Every call of `Block::allocate` made while a statement with fresh locals
is allocated chains the locals of its block below its entry offset, and these
offsets are the final ones. -/
theorem Stmt.blockCalls_chained : ∀ (s : Stmt) (off : Int) (h : Heap),
    s.symbols.Nodup → Heap.Fresh h s.symbols → off ≤ 2147483647 →
    ∃ o1 hf, s.allocate off h = some (o1, hf) ∧ Heap.Extends h hf s.symbols ∧
      (∀ x ∈ s.symbols, ∃ c ∈ s.blockCalls off h, x ∈ unallocated c.2.2 c.1) ∧
      ∀ c ∈ s.blockCalls off h,
        (∀ x ∈ unallocated c.2.2 c.1, x ∈ s.symbols) ∧
        Heap.Chained c.2.2 hf c.2.1 (unallocated c.2.2 c.1)
  | .Expression _, off, h, _, _, _ => ⟨off, h, rfl, Heap.Extends.extends_refl h _,
      fun x hx => by simp [Stmt.symbols] at hx, fun c hc => by simp [Stmt.blockCalls] at hc⟩
  | .Return _, off, h, _, _, _ => ⟨off, h, rfl, Heap.Extends.extends_refl h _,
      fun x hx => by simp [Stmt.symbols] at hx, fun c hc => by simp [Stmt.blockCalls] at hc⟩
  | .Block decls stmts, off, h, nd, fr, hoff => by
    simp only [Stmt.symbols] at nd fr ⊢
    have := Stmt.blockCalls_block [] decls stmts off h (by simp) nd fr hoff
      (fun temp o h1 a b c => Stmt.blockCallsOfStmts_chained stmts temp o h1 a b c)
    simp only [List.nil_append] at this
    obtain ⟨o1, hf, e, x, _, cov, cs⟩ := this
    exact ⟨o1, hf, e, x, cov, cs⟩
  | .While _ stmt, off, h, nd, fr, hoff => by
    simp only [Stmt.symbols] at nd fr ⊢
    obtain ⟨o1, hf, e, x, cov, cs⟩ := Stmt.blockCalls_chained stmt off h nd fr hoff
    exact ⟨o1, hf, by simpa only [Stmt.allocate] using e, x,
      by simpa only [Stmt.blockCalls] using cov, by simpa only [Stmt.blockCalls] using cs⟩
  | .If _ thenStmt none, off, h, nd, fr, hoff => by
    simp only [Stmt.symbols] at nd fr ⊢
    obtain ⟨o1, hf, e, x, cov, cs⟩ := Stmt.blockCalls_chained thenStmt off h nd fr hoff
    exact ⟨o1, hf, by simpa only [Stmt.allocate] using e, x,
      by simpa only [Stmt.blockCalls] using cov, by simpa only [Stmt.blockCalls] using cs⟩
  | .If _ thenStmt (some elseStmt), off, h, nd, fr, hoff => by
    simp only [Stmt.symbols] at nd fr ⊢
    rw [List.nodup_append] at nd
    obtain ⟨nd1, nd2, disj⟩ := nd
    obtain ⟨o1, h1, e1, x1, cov1, cs1⟩ := Stmt.blockCalls_chained thenStmt off h nd1
      (fun x hx => fr x (List.mem_append_left _ hx)) hoff
    have u1 := Stmt.allocate_le thenStmt off h o1 h1 e1 hoff
    obtain ⟨o2, hf, e2, x2, cov2, cs2⟩ := Stmt.blockCalls_chained elseStmt o1 h1 nd2
      (x1.fresh (fun x hx => fr x (List.mem_append_right _ hx)) (fun x hx hl => disj hl hx)) u1
    have hcalls : (Stmt.If ‹_› thenStmt (some elseStmt)).blockCalls off h
        = thenStmt.blockCalls off h ++ elseStmt.blockCalls o1 h1 := by
      simp only [Stmt.blockCalls, e1]
    rw [hcalls]
    refine ⟨min o1 o2, hf, by simp only [Stmt.allocate, e1, e2], x1.extends_trans x2, ?_, ?_⟩
    · intro x hx
      rcases List.mem_append.1 hx with hx | hx
      · obtain ⟨c, hc, hm⟩ := cov1 x hx
        exact ⟨c, List.mem_append_left _ hc, hm⟩
      · obtain ⟨c, hc, hm⟩ := cov2 x hx
        exact ⟨c, List.mem_append_right _ hc, hm⟩
    · intro c hc
      rcases List.mem_append.1 hc with hc | hc
      · obtain ⟨a, b⟩ := cs1 c hc
        exact ⟨fun x hx => List.mem_append_left _ (a x hx),
          b.of_eq (fun x hx => x2.1 x (fun hy => disj (a x hx) hy))⟩
      · obtain ⟨a, b⟩ := cs2 c hc
        exact ⟨fun x hx => List.mem_append_right _ (a x hx), b⟩
theorem Stmt.blockCallsOfStmts_chained : ∀ (ss : List Stmt) (temp off : Int) (h : Heap),
    (Stmt.symbolsOfStmts ss).Nodup → Heap.Fresh h (Stmt.symbolsOfStmts ss) →
    temp ≤ 2147483647 →
    ∃ o1 hf, Stmt.allocateStmts ss temp off h = some (o1, hf) ∧
      Heap.Extends h hf (Stmt.symbolsOfStmts ss) ∧
      (∀ x ∈ Stmt.symbolsOfStmts ss,
        ∃ c ∈ Stmt.blockCallsOfStmts ss temp h, x ∈ unallocated c.2.2 c.1) ∧
      ∀ c ∈ Stmt.blockCallsOfStmts ss temp h,
        (∀ x ∈ unallocated c.2.2 c.1, x ∈ Stmt.symbolsOfStmts ss) ∧
        Heap.Chained c.2.2 hf c.2.1 (unallocated c.2.2 c.1)
  | [], _, off, h, _, _, _ => ⟨off, h, rfl, Heap.Extends.extends_refl h _,
      fun x hx => by simp [Stmt.symbolsOfStmts] at hx,
      fun c hc => by simp [Stmt.blockCallsOfStmts] at hc⟩
  | s :: ss, temp, off, h, nd, fr, hte => by
    simp only [Stmt.symbolsOfStmts] at nd fr ⊢
    rw [List.nodup_append] at nd
    obtain ⟨nd1, nd2, disj⟩ := nd
    obtain ⟨o1, h1, e1, x1, cov1, cs1⟩ := Stmt.blockCalls_chained s temp h nd1
      (fun x hx => fr x (List.mem_append_left _ hx)) hte
    have u1 := Stmt.allocate_le s temp h o1 h1 e1 hte
    obtain ⟨o2, hf, e2, x2, cov2, cs2⟩ := Stmt.blockCallsOfStmts_chained ss o1 (min off o1) h1
      nd2 (x1.fresh (fun x hx => fr x (List.mem_append_right _ hx))
        (fun x hx hl => disj hl hx)) u1
    have hcalls : Stmt.blockCallsOfStmts (s :: ss) temp h
        = s.blockCalls temp h ++ Stmt.blockCallsOfStmts ss o1 h1 := by
      simp only [Stmt.blockCallsOfStmts, e1]
    rw [hcalls]
    refine ⟨o2, hf, ?_, x1.extends_trans x2, ?_, ?_⟩
    · simp only [Stmt.allocateStmts, e1]
      exact e2
    · intro x hx
      rcases List.mem_append.1 hx with hx | hx
      · obtain ⟨c, hc, hm⟩ := cov1 x hx
        exact ⟨c, List.mem_append_left _ hc, hm⟩
      · obtain ⟨c, hc, hm⟩ := cov2 x hx
        exact ⟨c, List.mem_append_right _ hc, hm⟩
    · intro c hc
      rcases List.mem_append.1 hc with hc | hc
      · obtain ⟨a, b⟩ := cs1 c hc
        exact ⟨fun x hx => List.mem_append_left _ (a x hx),
          b.of_eq (fun x hx => x2.1 x (fun hy => disj (a x hx) hy))⟩
      · obtain ⟨a, b⟩ := cs2 c hc
        exact ⟨fun x hx => List.mem_append_right _ (a x hx), b⟩
end

/-- The loop of `Function::allocate` over the parameters leaves every
parameter with an offset that is not 0 and the locals as they were. -/
theorem Function.allocate_parameters (f : Function) (h : Heap) (params : Parameters)
    (psyms locals : List Nat)
    (hdecls : f.decls = psyms ++ locals) (hplen : psyms.length = params.length)
    (hpsize : ∀ p ∈ params, p.isFunction = false)
    (hpfit : ∀ k, k < params.length → 8 + (prefixSize params k : Int) ≤ 2147483647)
    (hnd : f.body.symbols.Nodup)
    (hfr : Heap.Fresh h (locals ++ Stmt.symbolsOfStmts f.stmts)) :
    ∃ o hp, allocateParameters params f.decls INIT_PARAM_OFFSET h = some (o, hp) ∧
      (∀ x ∈ psyms, (hp x).offset ≠ 0) ∧
      Heap.Fresh hp (locals ++ Stmt.symbolsOfStmts f.stmts) ∧
      (locals ++ Stmt.symbolsOfStmts f.stmts).Nodup := by
  have hsym : f.body.symbols = psyms ++ (locals ++ Stmt.symbolsOfStmts f.stmts) := by
    simp [Function.body, Stmt.symbols, hdecls]
  rw [hsym, List.nodup_append] at hnd
  obtain ⟨ndp, ndl, disj⟩ := hnd
  have htake : f.decls.take params.length = psyms := by
    rw [hdecls, ← hplen, List.take_left]
  obtain ⟨o1, h1, e1, ty, fr, sp⟩ := allocateParameters_spec params f.decls
    INIT_PARAM_OFFSET h (by rw [hdecls, List.length_append]; omega) (by rw [htake]; exact ndp)
    hpsize (by decide)
  rw [htake] at fr
  refine ⟨o1, h1, e1, ?_, ?_, ndl⟩
  · intro x hx
    obtain ⟨k, hk, hkx⟩ := List.getElem_of_mem hx
    have hk2 : f.decls[k]? = some x := by
      rw [hdecls, List.getElem?_append_left hk, List.getElem?_eq_getElem hk, hkx]
    have := sp k x (by omega) hk2 (hpfit k (by omega))
    rw [this]
    have : INIT_PARAM_OFFSET = 8 := rfl
    omega
  · intro x hx
    rw [fr x (fun hp => disj hp hx)]
    exact hfr x hx

/-- Claim C3, amended.  For a function as the parser leaves it (distinct
symbols, locals not yet allocated and not of a function type, parameters as
in C2): (1) after `Function::allocate`, no local of the function (of the body
block or of a nested block) has a positive offset, and every local whose type
has a size that is not 0 has a strictly negative offset, provided the sizes of
all locals sum to at most `2^31`.  (2) Whatever the sizes, `Function::allocate`
returns, every local is given its offset by one call of `Block::allocate`, and
after `Function::allocate` the locals of each such call are chained: each has
the offset of the previous local of the block (the entry offset of the block
for the first) minus its own size in 32-bit `int` arithmetic, which is exactly
that difference whenever the difference is at least `-2^31`.  (3) The same
chain holds for a single call of `Block::allocate` with any entry offset. -/
theorem C3_local_offsets :
    (∀ (f : Function) (h : Heap) (params : Parameters) (psyms locals : List Nat),
      (h f.id).type.parameters = some params →
      f.decls = psyms ++ locals → psyms.length = params.length →
      (∀ p ∈ params, p.isFunction = false) →
      (∀ k, k < params.length → 8 + (prefixSize params k : Int) ≤ 2147483647) →
      f.body.symbols.Nodup →
      Heap.Fresh h (locals ++ Stmt.symbolsOfStmts f.stmts) →
      (totalSize h (locals ++ Stmt.symbolsOfStmts f.stmts) : Int) ≤ 2147483648 →
      ∃ off h1, f.allocate h = some (off, h1) ∧
        ∀ x ∈ locals ++ Stmt.symbolsOfStmts f.stmts,
          (h1 x).offset ≤ 0 ∧ ((h x).type.sizeN ≠ 0 → (h1 x).offset < 0)) ∧
    (∀ (f : Function) (h : Heap) (params : Parameters) (psyms locals : List Nat),
      (h f.id).type.parameters = some params →
      f.decls = psyms ++ locals → psyms.length = params.length →
      (∀ p ∈ params, p.isFunction = false) →
      (∀ k, k < params.length → 8 + (prefixSize params k : Int) ≤ 2147483647) →
      f.body.symbols.Nodup →
      Heap.Fresh h (locals ++ Stmt.symbolsOfStmts f.stmts) →
      ∃ o hp off h1,
        allocateParameters params f.decls INIT_PARAM_OFFSET h = some (o, hp) ∧
        f.allocate h = some (off, h1) ∧
        unallocated hp f.decls = locals ∧
        (∀ x ∈ locals ++ Stmt.symbolsOfStmts f.stmts,
          ∃ c ∈ f.body.blockCalls 0 hp, x ∈ unallocated c.2.2 c.1) ∧
        ∀ c ∈ f.body.blockCalls 0 hp, Heap.Chained c.2.2 h1 c.2.1 (unallocated c.2.2 c.1)) ∧
    (∀ (pre locals : List Nat) (stmts : Statements) (off : Int) (h : Heap),
      (∀ x ∈ pre, (h x).offset ≠ 0) →
      (locals ++ Stmt.symbolsOfStmts stmts).Nodup →
      (∀ x ∈ locals, (h x).offset = 0) →
      (∀ x ∈ locals ++ Stmt.symbolsOfStmts stmts, (h x).type.isFunction = false) →
      off ≤ 2147483647 →
      ∃ off1 h1, (Stmt.Block (pre ++ locals) stmts).allocate off h = some (off1, h1) ∧
        (∀ x, locals[0]? = some x →
          (h1 x).offset = toInt32 (off - (h x).type.sizeN) ∧
          (-2147483648 ≤ off - (h x).type.sizeN →
            (h1 x).offset = off - (h x).type.sizeN)) ∧
        (∀ i x y, locals[i]? = some x → locals[i + 1]? = some y →
          (h1 y).offset = toInt32 ((h1 x).offset - (h y).type.sizeN) ∧
          (-2147483648 ≤ (h1 x).offset - (h y).type.sizeN →
            (h1 y).offset = (h1 x).offset - (h y).type.sizeN))) := by
  refine ⟨?_, ?_, ?_⟩
  · intro f h params psyms locals hparams hdecls hplen hpsize hpfit hnd hfr hfit
    obtain ⟨off, h1, e, cov⟩ := Function.allocate_covers f h params psyms locals hparams hdecls
      hplen hpsize hpfit hnd hfr hfit
    exact ⟨off, h1, e, fun x hx => ⟨(cov x hx).2.1, fun hz => (cov x hx).2.2 (by omega)⟩⟩
  · intro f h params psyms locals hparams hdecls hplen hpsize hpfit hnd hfr
    obtain ⟨o, hp, e1, hne, hfr1, ndl⟩ := Function.allocate_parameters f h params psyms locals
      hdecls hplen hpsize hpfit hnd hfr
    obtain ⟨o2, hf, e2, _, hun, cov, cs⟩ := Stmt.blockCalls_block psyms locals f.stmts 0 hp hne
      ndl hfr1 (by decide)
      (fun temp o h1 a b c => Stmt.blockCallsOfStmts_chained f.stmts temp o h1 a b c)
    have e1b := e1
    rw [hdecls] at e1b
    refine ⟨o, hp, o2, hf, e1, ?_, by rw [hdecls]; exact hun, ?_, ?_⟩
    · simp only [Function.allocate, hparams, Function.body, hdecls, e1b]
      exact e2
    · simpa only [Function.body, hdecls] using cov
    · intro c hc
      simp only [Function.body, hdecls] at hc
      exact (cs c hc).2
  · intro pre locals stmts off h hpre hnd h0 hfn hoff
    rw [List.nodup_append] at hnd
    obtain ⟨ndl, _, disj⟩ := hnd
    obtain ⟨o1, h1, e1, x1, up, first, chain⟩ := allocateSymbols_chain locals off h ndl
      (fun x hx => ⟨h0 x hx, hfn x (List.mem_append_left _ hx)⟩)
    obtain ⟨o2, h2, e2, x2⟩ := Stmt.allocateStmts_frame stmts o1 o1 h1
      (x1.isFunction (fun x hx => hfn x (List.mem_append_right _ hx)))
    have keep : ∀ x ∈ locals, h2 x = h1 x := fun x hx => x2.1 x (fun hy => disj hx hy)
    refine ⟨o2, h2, ?_, ?_, ?_⟩
    · simp only [Stmt.allocate, allocateSymbols_skip pre locals off h hpre, e1]
      exact e2
    · intro x hx
      have hm : x ∈ locals := List.getElem?_mem hx
      rw [keep x hm, first x hx]
      exact ⟨rfl, fun hlo => toInt32_of_inRange hlo (by omega)⟩
    · intro i x y hx hy
      have hmx : x ∈ locals := List.getElem?_mem hx
      have hmy : y ∈ locals := List.getElem?_mem hy
      rw [keep x hmx, keep y hmy, chain i x y hx hy]
      have := up x hmx
      exact ⟨rfl, fun hlo => toInt32_of_inRange hlo (by omega)⟩

/-- Witness of C3: in `int main(void) { int a[0]; int b; { int c; } return 0; }`
no local has a positive offset and `b` and `c` have negative ones; the
zero-length array `a` is at 0, `b` at -4 in the chain of the body block, and
`c` at -8 in the chain of the nested block, entered at -4; a single block with
the locals `p` and `x` places `x` four bytes below `p`. -/
theorem C3_local_offsets_witness :
    (∃ off h1, zeroArrayLocals.allocate zeroArrayLocalsHeap = some (off, h1) ∧
      (h1 1).offset ≤ 0 ∧ (h1 2).offset < 0 ∧ (h1 3).offset < 0) ∧
    (∃ off h1, zeroArrayLocals.allocate zeroArrayLocalsHeap = some (off, h1) ∧
      (h1 1).offset = 0 ∧ (h1 2).offset = -4 ∧ (h1 3).offset = -8) ∧
    (∃ off1 h1, (Stmt.Block [1, 2] []).allocate 0 exampleE5Heap = some (off1, h1) ∧
      (h1 1).offset = -4 ∧ (h1 2).offset = (h1 1).offset - 4) := by
  refine ⟨?_, ?_, ?_⟩
  · obtain ⟨off, h1, e, neg⟩ := C3_local_offsets.1 zeroArrayLocals zeroArrayLocalsHeap [] []
      [1, 2] rfl rfl rfl (by decide) (by decide) (by decide) (by unfold Heap.Fresh; decide)
      (by decide)
    exact ⟨off, h1, e, (neg 1 (by decide)).1, (neg 2 (by decide)).2 (by decide),
      (neg 3 (by decide)).2 (by decide)⟩
  · obtain ⟨o, hp, off, h1, ep, e, _, _, cs⟩ := C3_local_offsets.2.1 zeroArrayLocals
      zeroArrayLocalsHeap [] [] [1, 2] rfl rfl rfl (by decide) (by decide) (by decide)
      (by unfold Heap.Fresh; decide)
    obtain ⟨-, rfl⟩ : INIT_PARAM_OFFSET = o ∧ zeroArrayLocalsHeap = hp := by
      simpa [allocateParameters] using ep
    have body := cs ([1, 2], 0, zeroArrayLocalsHeap) (List.mem_cons_self _ _)
    have nested := cs _ (List.mem_cons_of_mem _ (List.mem_cons_self _ _))
    have a0 : (h1 1).offset = 0 := (body.1 1 rfl).2 (by decide)
    have b0 : (h1 2).offset = -4 := by
      have := (body.2 0 1 2 rfl rfl).2 (by rw [a0]; decide)
      rw [this, a0]
      decide
    have c0 : (h1 3).offset = -8 := ((nested.1 3 rfl).2 (by decide)).trans (by decide)
    exact ⟨off, h1, e, a0, b0, c0⟩
  · obtain ⟨off1, h1, e, first, chain⟩ := C3_local_offsets.2.2 [] [1, 2] [] 0 exampleE5Heap
      (by decide) (by decide) (by decide) (by decide) (by decide)
    refine ⟨off1, h1, e, ?_, ?_⟩
    · exact (first 1 rfl).2 (by decide)
    · have h1v : (h1 1).offset = -4 := (first 1 rfl).2 (by decide)
      have := (chain 0 1 2 rfl rfl).2 (by rw [h1v]; decide)
      exact this

end Allocation

section CheckerErrors

theorem Checker.Silent.silent_refl (c : Checker) : Checker.Silent c c := ⟨rfl, rfl⟩

theorem promote_of_error {e : Expr} (h : e.type = CType.error) : promote e = e := by
  simp [promote, h, CType.error, CType.isArray]

theorem newReal_silent (v : String) (c : Checker) : Checker.Silent c (newReal v c).2 := by
  unfold newReal
  split <;> exact ⟨rfl, rfl⟩

theorem promoteTo_silent (e : Expr) (t : CType) (c : Checker) :
    Checker.Silent c (promoteTo e t c).2 := by
  unfold promoteTo
  split_ifs
  · split
    · exact newReal_silent _ c
    · exact Checker.Silent.silent_refl c
  · exact Checker.Silent.silent_refl c

theorem promoteTo_of_error {e : Expr} (t : CType) (c : Checker) (h : e.type = CType.error) :
    promoteTo e t c = (e, c) := by
  have hne : ¬ (e.type = CType.integer ∧ t = CType.real) := by
    rw [h]; rintro ⟨h1, _⟩; exact absurd h1 (by decide)
  simp only [promoteTo, hne, if_false, promote_of_error h]

theorem promoteTo_error (e : Expr) (c : Checker) :
    promoteTo e CType.error c = (promote e, c) := by
  have hne : ¬ (e.type = CType.integer ∧ CType.error = CType.real) := by
    rintro ⟨_, h2⟩; exact absurd h2 (by decide)
  simp only [promoteTo, hne, if_false]

theorem convert_silent (e : Expr) (t : CType) (c : Checker) :
    Checker.Silent c (convert e t c).2 := by
  unfold convert
  split_ifs <;> exact promoteTo_silent _ _ c

theorem convert_of_error {e : Expr} (t : CType) (c : Checker) (h : e.type = CType.error) :
    convert e t c = (e, c) := by
  have hne : ¬ (e.type = CType.real ∧ t = CType.integer) := by
    rw [h]; rintro ⟨h1, _⟩; exact absurd h1 (by decide)
  simp only [convert, hne, if_false, promoteTo_of_error t c h]

theorem promoteTo_pair_silent (l r : Expr) (c : Checker) :
    Checker.Silent c (promoteTo r (promoteTo l r.type c).1.type (promoteTo l r.type c).2).2 := by
  have a := promoteTo_silent l r.type c
  have b := promoteTo_silent r (promoteTo l r.type c).1.type (promoteTo l r.type c).2
  exact ⟨b.1.trans a.1, b.2.trans a.2⟩

/-- Types of the promoted operands of a binary operator when one operand has
type ERROR: one of them is ERROR, and the state is silent. -/
theorem promoteTo_pair_error (l r : Expr) (c : Checker)
    (h : l.type = CType.error ∨ r.type = CType.error) :
    ((promoteTo l r.type c).1.type = CType.error ∨
      (promoteTo r (promoteTo l r.type c).1.type (promoteTo l r.type c).2).1.type
        = CType.error) ∧
    Checker.Silent c (promoteTo r (promoteTo l r.type c).1.type (promoteTo l r.type c).2).2 := by
  constructor
  · rcases h with h | h
    · left; rw [promoteTo_of_error _ _ h]; exact h
    · right; rw [promoteTo_of_error _ _ h]; exact h
  · have a := promoteTo_silent l r.type c
    have b := promoteTo_silent r (promoteTo l r.type c).1.type (promoteTo l r.type c).2
    exact ⟨b.1.trans a.1, b.2.trans a.2⟩

theorem checkMult_error (l r : Expr) (op : String) (c : Checker)
    (h : l.type = CType.error ∨ r.type = CType.error) :
    (checkMult l r op c).1.type = CType.error ∧ Checker.Silent c (checkMult l r op c).2 := by
  obtain ⟨ht, hs⟩ := promoteTo_pair_error l r c h
  have hg : ¬ ((promoteTo l r.type c).1.type ≠ CType.error ∧
      (promoteTo r (promoteTo l r.type c).1.type (promoteTo l r.type c).2).1.type
        ≠ CType.error) := by
    rintro ⟨h1, h2⟩; rcases ht with ht | ht
    · exact h1 ht
    · exact h2 ht
  simp only [checkMult, hg, if_false]
  exact ⟨trivial, hs⟩

theorem checkCompare_error (l r : Expr) (op : String) (c : Checker)
    (h : l.type = CType.error ∨ r.type = CType.error) :
    (checkCompare l r op c).1.type = CType.error ∧
      Checker.Silent c (checkCompare l r op c).2 := by
  obtain ⟨ht, hs⟩ := promoteTo_pair_error l r c h
  have hg : ¬ ((promoteTo l r.type c).1.type ≠ CType.error ∧
      (promoteTo r (promoteTo l r.type c).1.type (promoteTo l r.type c).2).1.type
        ≠ CType.error) := by
    rintro ⟨h1, h2⟩; rcases ht with ht | ht
    · exact h1 ht
    · exact h2 ht
  simp only [checkCompare, hg, if_false]
  exact ⟨trivial, hs⟩

theorem checkLogical_error (l r : Expr) (op : String) (c : Checker)
    (h : l.type = CType.error ∨ r.type = CType.error) :
    (checkLogical l r op c).1.type = CType.error ∧
      Checker.Silent c (checkLogical l r op c).2 := by
  have hg : ¬ ((promote l).type ≠ CType.error ∧ (promote r).type ≠ CType.error) := by
    rintro ⟨h1, h2⟩; rcases h with h | h
    · rw [promote_of_error h] at h1; exact h1 h
    · rw [promote_of_error h] at h2; exact h2 h
  simp only [checkLogical, hg, if_false]
  exact ⟨trivial, Checker.Silent.silent_refl c⟩

theorem CType.size_deref (t : CType) : ∃ n, t.deref.size = some n := by
  cases t with
  | mk s i k =>
    simp only [CType.deref, CType.size]
    split_ifs <;> exact ⟨_, rfl⟩

theorem checkArray_error (l r : Expr) (c : Checker)
    (h : l.type = CType.error ∨ r.type = CType.error) :
    ReturnsErrorSilent c (checkArray l r c) := by
  obtain ⟨n, hn⟩ := CType.size_deref (promote l).type
  have hg : ¬ ((promote l).type ≠ CType.error ∧ r.type ≠ CType.error) := by
    rintro ⟨h1, h2⟩; rcases h with h | h
    · rw [promote_of_error h] at h1; exact h1 h
    · exact h2 h
  simp only [checkArray, hn, hg, if_false]
  exact ⟨_, rfl, rfl, Checker.Silent.silent_refl c⟩

theorem checkAdd_error (l r : Expr) (c : Checker)
    (h : l.type = CType.error ∨ r.type = CType.error) :
    ReturnsErrorSilent c (checkAdd l r c) := by
  obtain ⟨ht, hs⟩ := promoteTo_pair_error l r c h
  have hg : ¬ ((promoteTo l r.type c).1.type ≠ CType.error ∧
      (promoteTo r (promoteTo l r.type c).1.type (promoteTo l r.type c).2).1.type
        ≠ CType.error) := by
    rintro ⟨h1, h2⟩; rcases ht with ht | ht
    · exact h1 ht
    · exact h2 ht
  simp only [checkAdd, hg, if_false]
  exact ⟨_, rfl, rfl, hs⟩

theorem checkSubtract_error (l r : Expr) (c : Checker)
    (h : l.type = CType.error ∨ r.type = CType.error) :
    ReturnsErrorSilent c (checkSubtract l r c) := by
  obtain ⟨ht, hs⟩ := promoteTo_pair_error l r c h
  have hg : ¬ ((promoteTo l r.type c).1.type ≠ CType.error ∧
      (promoteTo r (promoteTo l r.type c).1.type (promoteTo l r.type c).2).1.type
        ≠ CType.error) := by
    rintro ⟨h1, h2⟩; rcases ht with ht | ht
    · exact h1 ht
    · exact h2 ht
  have hp : ¬ ((promoteTo l r.type c).1.type.isPointer = true ∧
      (promoteTo l r.type c).1.type =
        (promoteTo r (promoteTo l r.type c).1.type (promoteTo l r.type c).2).1.type) := by
    rintro ⟨h1, h2⟩
    have h3 : (promoteTo l r.type c).1.type = CType.error := by
      rcases ht with ht | ht
      · exact ht
      · rw [h2]; exact ht
    rw [h3] at h1
    exact absurd h1 (by decide)
  simp only [checkSubtract, hg, hp, if_false]
  exact ⟨_, rfl, rfl, hs⟩

/-- Claim C6: each of the unary checks, `checkCast`, `checkArray`, the
arithmetic checks, the six comparison checks, the two logical checks and
`checkAssign` returns a node of type ERROR and reports no diagnostic (error
count and messages unchanged) when an operand has type ERROR. -/
theorem C6_error_operand_is_silent (e l r : Expr) (T : CType) (c : Checker)
    (he : e.type = CType.error) (hlr : l.type = CType.error ∨ r.type = CType.error) :
    ErrorSilent c (checkNot e c) ∧ ErrorSilent c (checkNegate e c) ∧
    ErrorSilent c (checkDereference e c) ∧ ErrorSilent c (checkAddress e c) ∧
    ErrorSilent c (checkCast T e c) ∧ ReturnsErrorSilent c (checkArray l r c) ∧
    ErrorSilent c (checkMultiply l r c) ∧ ErrorSilent c (checkDivide l r c) ∧
    ErrorSilent c (checkRemainder l r c) ∧ ReturnsErrorSilent c (checkAdd l r c) ∧
    ReturnsErrorSilent c (checkSubtract l r c) ∧
    ErrorSilent c (checkEqual l r c) ∧ ErrorSilent c (checkNotEqual l r c) ∧
    ErrorSilent c (checkLessThan l r c) ∧ ErrorSilent c (checkGreaterThan l r c) ∧
    ErrorSilent c (checkLessOrEqual l r c) ∧ ErrorSilent c (checkGreaterOrEqual l r c) ∧
    ErrorSilent c (checkLogicalAnd l r c) ∧ ErrorSilent c (checkLogicalOr l r c) ∧
    ErrorSilent c (checkAssign l r c) := by
  have hr : ∀ c1 : Checker, Checker.Silent c1 c1 := Checker.Silent.silent_refl
  refine ⟨?_, ?_, ?_, ?_, ?_, checkArray_error l r c hlr, checkMult_error l r _ c hlr,
    checkMult_error l r _ c hlr, ?_, checkAdd_error l r c hlr, checkSubtract_error l r c hlr,
    checkCompare_error l r _ c hlr, checkCompare_error l r _ c hlr,
    checkCompare_error l r _ c hlr, checkCompare_error l r _ c hlr,
    checkCompare_error l r _ c hlr, checkCompare_error l r _ c hlr,
    checkLogical_error l r _ c hlr, checkLogical_error l r _ c hlr, ?_⟩
  · simp only [ErrorSilent, checkNot, promote_of_error he, he, ne_eq, not_true, if_false]
    exact ⟨rfl, hr c⟩
  · simp only [ErrorSilent, checkNegate, he, ne_eq, not_true, if_false]
    exact ⟨rfl, hr c⟩
  · simp only [ErrorSilent, checkDereference, promote_of_error he, he, ne_eq, not_true,
      if_false]
    exact ⟨rfl, hr c⟩
  · simp only [ErrorSilent, checkAddress, he, ne_eq, not_true, if_false]
    exact ⟨rfl, hr c⟩
  · simp only [ErrorSilent, checkCast, promote_of_error he, he, ne_eq, not_true, if_false]
    exact ⟨rfl, hr c⟩
  · have hg : ¬ (l.type ≠ CType.error ∧ r.type ≠ CType.error) := by
      rintro ⟨h1, h2⟩; rcases hlr with h | h
      · exact h1 h
      · exact h2 h
    simp only [ErrorSilent, checkRemainder, hg, if_false]
    exact ⟨rfl, hr c⟩
  · have hs := convert_silent r l.type c
    have hg : ¬ (l.type ≠ CType.error ∧ (convert r l.type c).1.type ≠ CType.error) := by
      rintro ⟨h1, h2⟩; rcases hlr with h | h
      · exact h1 h
      · rw [convert_of_error _ _ h] at h2; exact h2 h
    simp only [ErrorSilent, checkAssign, hg, if_false]
    exact ⟨rfl, hs⟩

/-- Witness of C6: with the undeclared `y` (type ERROR) as operand, `!y`
and `y + 1` come back with type ERROR and nothing is reported. -/
theorem C6_error_operand_is_silent_witness :
    ErrorSilent Checker.init (checkNot (.Identifier 0 CType.error) Checker.init) ∧
    ReturnsErrorSilent Checker.init
      (checkAdd (.Identifier 0 CType.error) (.Integer "1") Checker.init) :=
  have h := C6_error_operand_is_silent (.Identifier 0 CType.error) (.Identifier 0 CType.error)
    (.Integer "1") CType.integer Checker.init rfl (Or.inl rfl)
  ⟨h.1, h.2.2.2.2.2.2.2.2.2.1⟩

/-- Claim C7 fails on the code when an argument has type ERROR.  With `y`
undeclared: for the prototyped `int f(int)` the call `f(y)` reports
`invalid arguments to called function` (the node has type ERROR); for the
unprototyped `int g()` the call `g(y)` reports nothing but its node has type
INT, not ERROR; and for `n`, which is not a function, `n(y)` reports
`called object is not a function`. -/
theorem C7_checkCall_error_argument :
    ((checkCall checkerHeap 1 [.Identifier 0 CType.error] Checker.init).1.type = CType.error ∧
      (checkCall checkerHeap 1 [.Identifier 0 CType.error] Checker.init).2.numErrors = 1 ∧
      (checkCall checkerHeap 1 [.Identifier 0 CType.error] Checker.init).2.diagnostics
        = [(invalid_arguments, "")]) ∧
    ((checkCall checkerHeap 2 [.Identifier 0 CType.error] Checker.init).1.type = CType.integer ∧
      (checkCall checkerHeap 2 [.Identifier 0 CType.error] Checker.init).1.type ≠ CType.error ∧
      (checkCall checkerHeap 2 [.Identifier 0 CType.error] Checker.init).2.numErrors = 0) ∧
    ((checkCall checkerHeap 4 [.Identifier 0 CType.error] Checker.init).2.diagnostics
        = [(invalid_function, "")]) := by
  decide

/-- The part of claim C7 that the code keeps: a callee whose type is ERROR
gives a node of type ERROR and no diagnostic, whatever the arguments. -/
theorem checkCall_error_callee (h : Heap) (id : Nat) (args : Expressions) (c : Checker)
    (hid : (h id).type = CType.error) : ErrorSilent c (checkCall h id args c) := by
  simp only [ErrorSilent, checkCall, hid, ne_eq, not_true, if_false]
  exact ⟨rfl, Checker.Silent.silent_refl c⟩

/-- Claim C8 fails on the code for `checkCall` with a wrong number of
arguments.  For `int f(int)` the call `f(1, 2)` reports
`invalid arguments to called function` and its node has type INT, not ERROR;
the enclosing `*f(1, 2)` then reports a second diagnostic. -/
theorem C8_checkCall_arity_mismatch :
    (checkCall checkerHeap 1 [.Integer "1", .Integer "2"] Checker.init).2.diagnostics
      = [(invalid_arguments, "")] ∧
    (checkCall checkerHeap 1 [.Integer "1", .Integer "2"] Checker.init).1.type = CType.integer ∧
    (checkCall checkerHeap 1 [.Integer "1", .Integer "2"] Checker.init).1.type ≠ CType.error ∧
    (checkDereference (checkCall checkerHeap 1 [.Integer "1", .Integer "2"] Checker.init).1
      (checkCall checkerHeap 1 [.Integer "1", .Integer "2"] Checker.init).2).2.diagnostics
      = [(invalid_arguments, ""), (invalid_operand, "*")] := by
  decide

end CheckerErrors

section PointerArithmetic

theorem promote_type_eq_integer {e : Expr} (h : (promote e).type = CType.integer) :
    e.type = CType.integer := by
  unfold promote at h
  split_ifs at h with ha
  · cases ht : e.type with
    | mk s i k =>
      rw [ht] at h
      cases k <;> simp [Expr.type, CType.promote, CType.integer] at h
      all_goals simp [ht, CType.isArray] at ha
  · exact h

theorem promote_type_eq_real {e : Expr} (h : (promote e).type = CType.real) :
    e.type = CType.real := by
  unfold promote at h
  split_ifs at h with ha
  · cases ht : e.type with
    | mk s i k =>
      rw [ht] at h
      cases k <;> simp [Expr.type, CType.promote, CType.real] at h
      all_goals simp [ht, CType.isArray] at ha
  · exact h

theorem promote_type (e : Expr) : (promote e).type = e.type.promote := by
  unfold promote
  split_ifs with ha
  · rfl
  · cases ht : e.type with
    | mk s i k =>
      cases k <;> simp [CType.promote]
      simp [ht, CType.isArray] at ha

theorem newReal_type (v : String) (c : Checker) : (newReal v c).1.type = CType.real := by
  unfold newReal
  split <;> rfl

theorem promote_of_real {e : Expr} (h : e.type = CType.real) : promote e = e := by
  simp [promote, h, CType.real, CType.isArray]

theorem promoteTo_type (e : Expr) (t : CType) (c : Checker) :
    (promoteTo e t c).1.type =
      if e.type = CType.integer ∧ t = CType.real then CType.real else e.type.promote := by
  unfold promoteTo
  split_ifs with h
  · split
    · show (promote (newReal _ c).1).type = CType.real
      rw [promote_of_real (newReal_type _ c)]
      exact newReal_type _ c
    · rfl
  · exact promote_type e

/-- After cross-promotion two numeric operand types are equal, and they are
INT exactly when both original operands had type INT. -/
theorem cross_promotion_numeric (l r : Expr) (c : Checker)
    (h1 : (promoteTo l r.type c).1.type.isNumeric = true)
    (h2 : (promoteTo r (promoteTo l r.type c).1.type (promoteTo l r.type c).2).1.type.isNumeric
      = true) :
    (promoteTo l r.type c).1.type =
      (promoteTo r (promoteTo l r.type c).1.type (promoteTo l r.type c).2).1.type ∧
    ((promoteTo l r.type c).1.type = CType.integer ∨
      (promoteTo l r.type c).1.type = CType.real) ∧
    ((promoteTo l r.type c).1.type = CType.integer ↔
      l.type = CType.integer ∧ r.type = CType.integer) := by
  rw [promoteTo_type r] at h2 ⊢
  rw [promoteTo_type l] at h1 h2 ⊢
  rcases hl : l.type with ⟨sl, il, kl⟩
  rcases hr : r.type with ⟨sr, ir, kr⟩
  rw [hl, hr] at h1 h2
  cases sl <;> cases sr <;> cases kl <;> cases kr <;> rcases il with _ | il <;>
    rcases ir with _ | ir <;>
    simp_all [CType.integer, CType.real, CType.promote, CType.isNumeric]

theorem CType.not_isNumeric_of_isPointer {t : CType} (h : t.isPointer = true) :
    t.isNumeric = false := by
  rcases t with ⟨s, i, k⟩
  cases s <;> cases k <;> rcases i with _ | i <;> simp_all [CType.isPointer, CType.isNumeric]

theorem report_after_silent {c c2 : Checker} (hs : Checker.Silent c c2) (f a : String) :
    (report f a c2).numErrors = c.numErrors + 1 ∧
    (report f a c2).diagnostics = c.diagnostics ++ [(f, a)] := by
  simp [report, hs.1, hs.2]

/-- Claim C9: `checkAdd` on operands `l1`, `r1` (the operands after array
decay and cross-promotion) of types other than ERROR.  Promotion reports
nothing.  Both numeric: an `Add` of type INT if both are INT, else DOUBLE.
Pointer `P` and INT, in either order: the INT operand becomes
`Multiply(operand, Integer(size(deref P)), INT)` and the type is `P`.  Every
other case: `invalid operands to binary +` is reported once and the type is
ERROR. -/
theorem C9_checkAdd (l r l1 r1 : Expr) (c c1 c2 : Checker)
    (hl : promoteTo l r.type c = (l1, c1)) (hr : promoteTo r l1.type c1 = (r1, c2))
    (h1 : l1.type ≠ CType.error) (h2 : r1.type ≠ CType.error) :
    Checker.Silent c c2 ∧
    (l1.type.isNumeric = true ∧ r1.type.isNumeric = true →
      checkAdd l r c = some (.Add l1 r1
        (if l1.type = CType.integer ∧ r1.type = CType.integer then CType.integer
          else CType.real), c2)) ∧
    (l1.type.isPointer = true ∧ r1.type = CType.integer →
      ∃ n, l1.type.deref.size = some n ∧
        checkAdd l r c = some (.Add l1 (.Multiply r1 (newInteger n) CType.integer) l1.type, c2)) ∧
    (l1.type = CType.integer ∧ r1.type.isPointer = true →
      ∃ n, r1.type.deref.size = some n ∧
        checkAdd l r c = some (.Add (.Multiply l1 (newInteger n) CType.integer) r1 r1.type, c2)) ∧
    (¬ (l1.type.isNumeric = true ∧ r1.type.isNumeric = true) ∧
      ¬ (l1.type.isPointer = true ∧ r1.type = CType.integer) ∧
      ¬ (l1.type = CType.integer ∧ r1.type.isPointer = true) →
      checkAdd l r c = some (.Add l1 r1 CType.error, report invalid_operands "+" c2) ∧
      (report invalid_operands "+" c2).numErrors = c.numErrors + 1 ∧
      (report invalid_operands "+" c2).diagnostics = c.diagnostics ++ [(invalid_operands, "+")]) := by
  have hs : Checker.Silent c c2 := by
    have a := promoteTo_silent l r.type c
    have b := promoteTo_silent r l1.type c1
    rw [hl] at a
    rw [hr] at b
    exact ⟨b.1.trans a.1, b.2.trans a.2⟩
  have hg : l1.type ≠ CType.error ∧ r1.type ≠ CType.error := ⟨h1, h2⟩
  refine ⟨hs, ?_, ?_, ?_, ?_⟩
  · intro hn
    have hx := cross_promotion_numeric l r c (by rw [hl]; exact hn.1)
      (by rw [hl]; simp only; rw [hr]; exact hn.2)
    rw [hl] at hx
    simp only at hx
    rw [hr] at hx
    simp only at hx
    simp only [checkAdd, hl, hr]
    rw [if_pos hg, if_pos hn]
    congr 3
    rcases hx.2.1 with h | h
    · rw [if_pos ⟨h, hx.1 ▸ h⟩, h]
    · rw [if_neg (fun hc => absurd (h ▸ hc.1) (by decide)), h]
  · rintro ⟨hp, hi⟩
    obtain ⟨n, hn⟩ := CType.size_deref l1.type
    have hnum : ¬ (l1.type.isNumeric = true ∧ r1.type.isNumeric = true) := by
      rw [CType.not_isNumeric_of_isPointer hp]; simp
    refine ⟨n, hn, ?_⟩
    simp only [checkAdd, hl, hr]
    rw [if_pos hg, if_neg hnum, if_pos ⟨hp, hi⟩, hn]
  · rintro ⟨hi, hp⟩
    obtain ⟨n, hn⟩ := CType.size_deref r1.type
    have hnum : ¬ (l1.type.isNumeric = true ∧ r1.type.isNumeric = true) := by
      rw [CType.not_isNumeric_of_isPointer hp]; simp
    have hpi : ¬ (l1.type.isPointer = true ∧ r1.type = CType.integer) := by
      rw [hi]; simp [CType.integer, CType.isPointer]
    refine ⟨n, hn, ?_⟩
    simp only [checkAdd, hl, hr]
    rw [if_pos hg, if_neg hnum, if_neg hpi, if_pos ⟨hi, hp⟩, hn]
  · rintro ⟨hnum, hpi, hip⟩
    refine ⟨?_, report_after_silent hs _ _⟩
    simp only [checkAdd, hl, hr]
    rw [if_pos hg, if_neg hnum, if_neg hpi, if_neg hip]

/-- Witness of C9: `p + n` for `int *p; int n` scales `n` by 4 and has the
type of `p`. -/
theorem C9_checkAdd_witness :
    checkAdd (.Identifier 3 intPointer) (.Identifier 4 CType.integer) Checker.init =
      some (.Add (.Identifier 3 intPointer)
        (.Multiply (.Identifier 4 CType.integer) (.Integer "4") CType.integer) intPointer,
        Checker.init) := by
  obtain ⟨n, hn, e⟩ := (C9_checkAdd (.Identifier 3 intPointer) (.Identifier 4 CType.integer)
    (.Identifier 3 intPointer) (.Identifier 4 CType.integer) Checker.init Checker.init
    Checker.init rfl rfl (by decide) (by decide)).2.2.1 ⟨by decide, rfl⟩
  have h4 : 4 = n := Option.some.inj hn
  subst h4
  exact e

/-- Claim C10: `checkSubtract` on operands `l1`, `r1` (the operands after
array decay and cross-promotion) of types other than ERROR.  Promotion
reports nothing.  Both numeric: a `Subtract` of type INT if both are INT, else
DOUBLE.  Two identical pointer types `P`:
`Divide(Subtract(l1, r1, INT), Integer(size(deref P)), INT)`.  Pointer `P`
minus INT: `Subtract(l1, Multiply(r1, Integer(size(deref P)), INT), P)`.
Every other case, INT minus pointer among them: `invalid operands to binary -`
is reported once and the result is a `Subtract` of type ERROR, with no
`Divide` around it. -/
theorem C10_checkSubtract (l r l1 r1 : Expr) (c c1 c2 : Checker)
    (hl : promoteTo l r.type c = (l1, c1)) (hr : promoteTo r l1.type c1 = (r1, c2))
    (h1 : l1.type ≠ CType.error) (h2 : r1.type ≠ CType.error) :
    Checker.Silent c c2 ∧
    (l1.type.isNumeric = true ∧ r1.type.isNumeric = true →
      checkSubtract l r c = some (.Subtract l1 r1
        (if l1.type = CType.integer ∧ r1.type = CType.integer then CType.integer
          else CType.real), c2)) ∧
    (l1.type.isPointer = true ∧ l1.type = r1.type →
      ∃ n, l1.type.deref.size = some n ∧
        checkSubtract l r c =
          some (.Divide (.Subtract l1 r1 CType.integer) (newInteger n) CType.integer, c2)) ∧
    (l1.type.isPointer = true ∧ r1.type = CType.integer →
      ∃ n, l1.type.deref.size = some n ∧
        checkSubtract l r c =
          some (.Subtract l1 (.Multiply r1 (newInteger n) CType.integer) l1.type, c2)) ∧
    (¬ (l1.type.isNumeric = true ∧ r1.type.isNumeric = true) ∧
      ¬ (l1.type.isPointer = true ∧ l1.type = r1.type) ∧
      ¬ (l1.type.isPointer = true ∧ r1.type = CType.integer) →
      checkSubtract l r c = some (.Subtract l1 r1 CType.error, report invalid_operands "-" c2) ∧
      (report invalid_operands "-" c2).numErrors = c.numErrors + 1 ∧
      (report invalid_operands "-" c2).diagnostics = c.diagnostics ++ [(invalid_operands, "-")]) ∧
    (l1.type = CType.integer ∧ r1.type.isPointer = true →
      checkSubtract l r c =
        some (.Subtract l1 r1 CType.error, report invalid_operands "-" c2)) := by
  have hs : Checker.Silent c c2 := by
    have a := promoteTo_silent l r.type c
    have b := promoteTo_silent r l1.type c1
    rw [hl] at a
    rw [hr] at b
    exact ⟨b.1.trans a.1, b.2.trans a.2⟩
  have hg : l1.type ≠ CType.error ∧ r1.type ≠ CType.error := ⟨h1, h2⟩
  have other : ¬ (l1.type.isNumeric = true ∧ r1.type.isNumeric = true) →
      ¬ (l1.type.isPointer = true ∧ l1.type = r1.type) →
      ¬ (l1.type.isPointer = true ∧ r1.type = CType.integer) →
      checkSubtract l r c =
        some (.Subtract l1 r1 CType.error, report invalid_operands "-" c2) := by
    intro hnum hpp hpi
    simp only [checkSubtract, hl, hr]
    rw [if_pos hg, if_neg hnum, if_neg hpp, if_neg hpi]
    dsimp only
    rw [if_neg hpp]
  refine ⟨hs, ?_, ?_, ?_, ?_, ?_⟩
  · intro hn
    have hx := cross_promotion_numeric l r c (by rw [hl]; exact hn.1)
      (by rw [hl]; simp only; rw [hr]; exact hn.2)
    rw [hl] at hx
    simp only at hx
    rw [hr] at hx
    simp only at hx
    have hpp : ¬ (l1.type.isPointer = true ∧ l1.type = r1.type) := by
      rintro ⟨hp, _⟩
      rw [CType.not_isNumeric_of_isPointer hp] at hn
      simp at hn
    simp only [checkSubtract, hl, hr]
    rw [if_pos hg, if_pos hn]
    dsimp only
    rw [if_neg hpp]
    congr 3
    rcases hx.2.1 with h | h
    · rw [if_pos ⟨h, hx.1 ▸ h⟩, h]
    · rw [if_neg (fun hc => absurd (h ▸ hc.1) (by decide)), h]
  · rintro ⟨hp, he⟩
    obtain ⟨n, hn⟩ := CType.size_deref l1.type
    have hnum : ¬ (l1.type.isNumeric = true ∧ r1.type.isNumeric = true) := by
      rw [CType.not_isNumeric_of_isPointer hp]; simp
    refine ⟨n, hn, ?_⟩
    simp only [checkSubtract, hl, hr]
    rw [if_pos hg, if_neg hnum, if_pos ⟨hp, he⟩, hn]
    dsimp only
    rw [if_pos ⟨hp, he⟩]
  · rintro ⟨hp, hi⟩
    obtain ⟨n, hn⟩ := CType.size_deref l1.type
    have hnum : ¬ (l1.type.isNumeric = true ∧ r1.type.isNumeric = true) := by
      rw [CType.not_isNumeric_of_isPointer hp]; simp
    have hpp : ¬ (l1.type.isPointer = true ∧ l1.type = r1.type) := by
      rintro ⟨_, he⟩
      rw [he, hi] at hp
      exact absurd hp (by decide)
    refine ⟨n, hn, ?_⟩
    simp only [checkSubtract, hl, hr]
    rw [if_pos hg, if_neg hnum, if_neg hpp, if_pos ⟨hp, hi⟩, hn]
    dsimp only
    rw [if_neg hpp]
  · rintro ⟨hnum, hpp, hpi⟩
    exact ⟨other hnum hpp hpi, report_after_silent hs _ _⟩
  · rintro ⟨hi, hp⟩
    have hlp : ¬ (l1.type.isPointer = true) := by
      rw [hi]; decide
    refine other ?_ (fun hc => hlp hc.1) (fun hc => hlp hc.1)
    rw [CType.not_isNumeric_of_isPointer hp]
    simp

/-- Witness of C10: for `int *p`, `p - p` is `Divide(Subtract(p, p), 4)` of
type INT. -/
theorem C10_checkSubtract_witness :
    checkSubtract (.Identifier 3 intPointer) (.Identifier 3 intPointer) Checker.init =
      some (.Divide (.Subtract (.Identifier 3 intPointer) (.Identifier 3 intPointer)
        CType.integer) (.Integer "4") CType.integer, Checker.init) := by
  obtain ⟨n, hn, e⟩ := (C10_checkSubtract (.Identifier 3 intPointer) (.Identifier 3 intPointer)
    (.Identifier 3 intPointer) (.Identifier 3 intPointer) Checker.init Checker.init
    Checker.init rfl rfl (by decide) (by decide)).2.2.1 ⟨by decide, rfl⟩
  have h4 : 4 = n := Option.some.inj hn
  subst h4
  exact e

end PointerArithmetic

section IndirectAssignment

/-- What `Assign::generate` emits for a left side in indirect form of a type
that is not real, whatever the pointer and the right side: after their code
and with the temporary `t`, the six lines of `assignCode`, the fifth of which
stores `%eax` into the operand of the pointer itself. -/
theorem Assign_generate_indirect (pointer right : Expr) (dtype type : CType) (h : Heap)
    (g g1 g2 g3 : Generator) (l r t : Operand) (hreal : dtype.isReal = false)
    (hl : pointer.generate h g = some (l, g1)) (hr : right.generate h g1 = some (r, g2))
    (ht : assigntemp type g2 = some (t, g3)) :
    (Expr.Assign (.Dereference pointer dtype) right type).generate h g =
      some (t, g3.emits ["#we are teh assignzorzezvillez\n",
        "#INDIRECT ASSIGNMENT OH MY GOODIENESS\n", "\tmovl\t" ++ r ++ ", %eax\n",
        "\tmovl\t" ++ l ++ ", %ecx\n", "\tmovl\t%eax, (%ecx)\n",
        "\tmovl\t%eax, " ++ l ++ "\n", "\tmovl\t%eax, " ++ t ++ "\n"]) := by
  simp [Expr.generate, binaryNode, hl, hr, ht, assignCode, hreal]

/-- Claim C5 fails on the code.  In
`int main(void) { int *p; int x; p = &x; *p = 5; return *p; }` the pointer `p`
is at `-4(%ebp)`, and the code emitted for `*p = 5` stores through `(%ecx)`
and then stores `%eax` into `-4(%ebp)`, the slot of `p` itself. -/
theorem C5_indirect_assign_overwrites_pointer :
    ∃ h g, exampleE5.generate exampleE5Heap Generator.init = some (h, g) ∧
      (h 1).offset = -4 ∧
      (g.cout.drop 11).take 7 =
        ["#we are teh assignzorzezvillez\n", "#INDIRECT ASSIGNMENT OH MY GOODIENESS\n",
          "\tmovl\t$5, %eax\n", "\tmovl\t-4(%ebp), %ecx\n", "\tmovl\t%eax, (%ecx)\n",
          "\tmovl\t%eax, -4(%ebp)\n", "\tmovl\t%eax, -12(%ebp)\n"] :=
  ⟨_, _, rfl, by decide, by decide⟩

end IndirectAssignment

section Temporaries

theorem Generator.Stacked.append : ∀ {top mid bottom : Int} {a b : List (Int × Nat)},
    Generator.Stacked top a mid → Generator.Stacked mid b bottom →
    Generator.Stacked top (a ++ b) bottom
  | _, _, _, [], _, ha, hb => by
    have hm : _ = _ := ha
    rw [hm] at hb
    exact hb
  | _, _, _, (_, _) :: _, _, ha, hb => ⟨ha.1, Generator.Stacked.append ha.2 hb⟩

theorem Generator.Step.of_same {g g1 : Generator} (h1 : g1.minoffset = g.minoffset)
    (h2 : g1.maxoffset = g.maxoffset) (h3 : g1.tempoffset = g.tempoffset)
    (h4 : g1.assigned = g.assigned) (h5 : g1.slots = g.slots) : Generator.Step g g1 0 :=
  ⟨h1, h2, by rw [h3]; simp, by rw [h3], ⟨[], by simp [h4], by simp, Or.inl h3⟩,
    [], by simp [h5], h3⟩

theorem Generator.Step.step_refl (g : Generator) : Generator.Step g g 0 :=
  Generator.Step.of_same rfl rfl rfl rfl rfl

theorem Generator.Step.emit (g : Generator) (text : String) : Generator.Step g (g.emit text) 0 :=
  Generator.Step.of_same rfl rfl rfl rfl rfl

theorem Generator.Step.emits (g : Generator) (texts : List String) :
    Generator.Step g (g.emits texts) 0 :=
  Generator.Step.of_same rfl rfl rfl rfl rfl

theorem Generator.Step.newLabel (g : Generator) : Generator.Step g g.newLabel.2 0 :=
  Generator.Step.of_same rfl rfl rfl rfl rfl

theorem Generator.Step.step_trans {g g1 g2 : Generator} {n1 n2 : Nat}
    (a : Generator.Step g g1 n1) (b : Generator.Step g1 g2 n2) :
    Generator.Step g g2 (n1 + n2) := by
  obtain ⟨a1, a2, a3, a4, ⟨new1, a5, a6, a7⟩, sa, a8, a9⟩ := a
  obtain ⟨b1, b2, b3, b4, ⟨new2, b5, b6, b7⟩, sb, b8, b9⟩ := b
  refine ⟨b1.trans a1, b2.trans a2, by push_cast; omega, by omega, ⟨new1 ++ new2, ?_, ?_, ?_⟩,
    sa ++ sb, by rw [b8, a8, List.append_assoc], a9.append b9⟩
  · rw [b5, a5, List.append_assoc]
  · intro t ht
    rcases List.mem_append.1 ht with ht | ht
    · have := a6 t ht
      omega
    · exact b6 t ht
  · rcases b7 with b7 | b7
    · rcases a7 with a7 | a7
      · left; rw [b7, a7]
      · right; rw [b7]; exact List.mem_append_left _ a7
    · right; exact List.mem_append_right _ b7

theorem Generator.Step.step_mono {g g1 : Generator} {n m : Nat} (a : Generator.Step g g1 n)
    (hnm : n ≤ m) : Generator.Step g g1 m := by
  obtain ⟨a1, a2, a3, a4, a5, a6⟩ := a
  exact ⟨a1, a2, by omega, a4, a5, a6⟩

theorem assigntemp_runs {type : CType} (hf : type.isFunction = false) :
    Runs (assigntemp type) type.sizeN := by
  intro g hroom hup
  have hsz := CType.size_of_not_isFunction hf
  have hin : toInt32 (g.tempoffset - type.sizeN) = g.tempoffset - type.sizeN :=
    toInt32_of_inRange (by omega) (by omega)
  have e : assigntemp type g = some (toString (g.tempoffset - type.sizeN) ++ "(%ebp)",
      { g with tempoffset := g.tempoffset - type.sizeN,
               assigned := g.assigned ++ [g.tempoffset - type.sizeN],
               slots := g.slots ++ [(g.tempoffset - type.sizeN, type.sizeN)] }) := by
    simp only [assigntemp, hsz, hin]
  refine ⟨_, _, e, rfl, rfl, le_rfl, ?_, ⟨[g.tempoffset - type.sizeN], rfl, ?_, ?_⟩,
    [(g.tempoffset - type.sizeN, type.sizeN)], rfl, ?_, rfl⟩
  · show g.tempoffset - type.sizeN ≤ g.tempoffset
    omega
  · intro t ht
    rw [List.mem_singleton.1 ht]
  · right
    exact List.mem_singleton.2 rfl
  · show g.tempoffset - type.sizeN + type.sizeN = g.tempoffset
    omega

theorem Runs.bind {α β : Type} {m : Generator → Option (α × Generator)}
    {k : α → Generator → Option (β × Generator)} {n1 n2 : Nat}
    (a : Runs m n1) (b : ∀ x, Runs (k x) n2) :
    Runs (fun g => (m g).bind fun r => k r.1 r.2) (n1 + n2) := by
  intro g hroom hup
  push_cast at hroom
  obtain ⟨x, g1, e1, s1⟩ := a g (by omega) hup
  obtain ⟨y, g2, e2, s2⟩ := b x g1 (by have := s1.2.2.1; omega) (by have := s1.2.2.2.1; omega)
  exact ⟨y, g2, by show (m g).bind _ = _; rw [e1]; exact e2, s1.step_trans s2⟩

theorem Runs.pure {α : Type} {f : Generator → α × Generator}
    (hf : ∀ g, Generator.Step g (f g).2 0) : Runs (fun g => some (f g)) 0 :=
  fun g _ _ => ⟨_, _, rfl, hf g⟩

theorem Runs.runs_mono {α : Type} {m : Generator → Option (α × Generator)} {n k : Nat}
    (a : Runs m n) (hnk : n ≤ k) : Runs m k := by
  intro g hroom hup
  obtain ⟨x, g1, e1, s1⟩ := a g (by omega) hup
  exact ⟨x, g1, e1, s1.step_mono hnk⟩

theorem Runs.congr {α : Type} {m m1 : Generator → Option (α × Generator)} {n : Nat}
    (a : Runs m n) (h : ∀ g, m1 g = m g) : Runs m1 n := by
  intro g hroom hup
  rw [h g]
  exact a g hroom hup

theorem unaryNode_runs {operand : Generator → Option (Operand × Generator)} {n : Nat}
    {type : CType} (code : Operand → Operand → List String)
    (a : Runs operand n) (hf : type.isFunction = false) :
    Runs (unaryNode operand type code) (n + type.sizeN) := by
  intro g hroom hup
  push_cast at hroom
  obtain ⟨e, g1, e1, s1⟩ := a g (by omega) hup
  obtain ⟨t, g2, e2, s2⟩ := assigntemp_runs hf g1 (by have := s1.2.2.1; omega)
    (by have := s1.2.2.2.1; omega)
  refine ⟨t, g2.emits (code e t), ?_, by simpa using (s1.step_trans s2).step_trans (Generator.Step.emits g2 _)⟩
  simp [unaryNode, e1, e2]

theorem binaryNode_runs {left right : Generator → Option (Operand × Generator)} {n1 n2 : Nat}
    {type : CType} (code : Operand → Operand → Operand → List String)
    (a : Runs left n1) (b : Runs right n2) (hf : type.isFunction = false) :
    Runs (binaryNode left right type code) (n1 + n2 + type.sizeN) := by
  intro g hroom hup
  push_cast at hroom
  obtain ⟨l, g1, e1, s1⟩ := a g (by omega) hup
  obtain ⟨r, g2, e2, s2⟩ := b g1 (by have := s1.2.2.1; omega) (by have := s1.2.2.2.1; omega)
  have s12 := s1.step_trans s2
  obtain ⟨t, g3, e3, s3⟩ := assigntemp_runs hf g2 (by have := s12.2.2.1; push_cast at this; omega)
    (by have := s12.2.2.2.1; omega)
  refine ⟨t, g3.emits (code l r t), ?_,
    by simpa using (s12.step_trans s3).step_trans (Generator.Step.emits g3 _)⟩
  simp [binaryNode, e1, e2, e3]

theorem logicalNode_runs {left right : Generator → Option (Operand × Generator)} {n1 n2 : Nat}
    {type : CType} (comment jump : String)
    (a : Runs left n1) (b : Runs right n2) (hf : type.isFunction = false) :
    Runs (logicalNode comment jump left right type) (n1 + n2 + type.sizeN) := by
  intro g hroom hup
  push_cast at hroom
  have s0 := Generator.Step.emit g comment
  obtain ⟨l, g1, e1, s1⟩ := a (g.emit comment) (by show -2147483648 < g.tempoffset - _; omega) hup
  have s01 := s0.step_trans s1
  obtain ⟨t, g2, e2, s2⟩ := assigntemp_runs hf g1
    (by have := s01.2.2.1; push_cast at this; omega) (by have := s01.2.2.2.1; omega)
  have s02 := s01.step_trans s2
  have s3 := Generator.Step.newLabel g2
  have s4 := Generator.Step.emits g2.newLabel.2 (logicalTest jump l g2.newLabel.1)
  have s04 := (s02.step_trans s3).step_trans s4
  obtain ⟨r, g5, e5, s5⟩ := b (g2.newLabel.2.emits (logicalTest jump l g2.newLabel.1))
    (by have := s04.2.2.1; push_cast at this; omega) (by have := s04.2.2.2.1; omega)
  have s05 := (s04.step_trans s5).step_trans (Generator.Step.emits g5 (logicalJoin r t g2.newLabel.1))
  refine ⟨t, g5.emits (logicalJoin r t g2.newLabel.1), ?_, s05.step_mono (by omega)⟩
  simp [logicalNode, e1, e2, e5]

theorem addressCode_runs (type : CType) (e : Operand) (hf : type.isFunction = false) :
    Runs (addressCode type e false) type.sizeN := by
  intro g hroom hup
  by_cases hd : e.get 0 = '.'
  · simp only [addressCode, Bool.not_false, if_true, hd]
    exact ⟨_, _, rfl, (Generator.Step.step_refl g).step_mono (Nat.zero_le _)⟩
  · obtain ⟨t, g1, e1, s1⟩ := assigntemp_runs hf g hroom hup
    simp only [addressCode, Bool.not_false, if_true, hd, if_false, e1]
    exact ⟨_, _, rfl, by simpa using s1.step_trans (Generator.Step.emits g1 _)⟩

theorem Expr.generate_address_plain {expr : Expr} (hnd : ∀ p dt, expr ≠ .Dereference p dt)
    (type : CType) (h : Heap) (g : Generator) :
    (Expr.Address expr type).generate h g =
      (plainForm (expr.generate h g)).bind fun r => addressCode type r.1 r.2.1 r.2.2 := by
  cases expr <;> first | exact absurd rfl (hnd _ _) | rfl

theorem Expr.sizable_address_plain {expr : Expr} (hnd : ∀ p dt, expr ≠ .Dereference p dt)
    (type : CType) :
    (Expr.Address expr type).sizable = (expr.sizable && !type.isFunction) := by
  cases expr <;> first | exact absurd rfl (hnd _ _) | rfl

theorem Expr.tempSize_address_plain {expr : Expr} (hnd : ∀ p dt, expr ≠ .Dereference p dt)
    (type : CType) : (Expr.Address expr type).tempSize = expr.tempSize + type.sizeN := by
  cases expr <;> first | exact absurd rfl (hnd _ _) | rfl

theorem Expr.generate_assign_plain {left : Expr} (hnd : ∀ p dt, left ≠ .Dereference p dt)
    (right : Expr) (type : CType) (h : Heap) (g : Generator) :
    (Expr.Assign left right type).generate h g =
      binaryNode (left.generate h) (right.generate h) type (assignCode left.type.isReal false)
        g := by
  cases left <;> first | exact absurd rfl (hnd _ _) | rfl

theorem Expr.sizable_assign_plain {left : Expr} (hnd : ∀ p dt, left ≠ .Dereference p dt)
    (right : Expr) (type : CType) :
    (Expr.Assign left right type).sizable =
      (left.sizable && right.sizable && !type.isFunction) := by
  cases left <;> first | exact absurd rfl (hnd _ _) | rfl

theorem Expr.tempSize_assign_plain {left : Expr} (hnd : ∀ p dt, left ≠ .Dereference p dt)
    (right : Expr) (type : CType) :
    (Expr.Assign left right type).tempSize = left.tempSize + right.tempSize + type.sizeN := by
  cases left <;> first | exact absurd rfl (hnd _ _) | rfl

mutual
/-- Generating a sizable expression returns, and moves the generator by a
`Step` of at most `tempSize` bytes. -/
theorem Expr.generate_runs (e : Expr) (h : Heap) (hs : e.sizable = true) :
    Runs (e.generate h) e.tempSize := by
  cases e with
  | String value type =>
    intro g _ _
    simp only [Expr.generate]
    exact ⟨_, _, rfl, Generator.Step.of_same rfl rfl rfl rfl rfl⟩
  | Identifier symbol type =>
    intro g _ _
    simp only [Expr.generate]
    split_ifs <;> exact ⟨_, _, rfl, Generator.Step.step_refl g⟩
  | Integer value =>
    intro g _ _
    simp only [Expr.generate]
    exact ⟨_, _, rfl, Generator.Step.step_refl g⟩
  | Real value label =>
    intro g _ _
    simp only [Expr.generate]
    exact ⟨_, _, rfl, Generator.Step.step_refl g⟩
  | Call id args type =>
    simp only [Expr.sizable, Bool.and_eq_true, Bool.not_eq_true'] at hs
    have ia := Expr.generateArgs_runs args h hs.1
    intro g hroom hup
    simp only [Expr.tempSize] at hroom ⊢
    push_cast at hroom
    obtain ⟨n, g1, e1, s1⟩ := ia g (by omega) hup
    obtain ⟨g2, hg2, s2⟩ : ∃ g2, (if n > 0 then
        (g1.emit ("\tcall\t" ++ (h id).name ++ "\n")).emit
          ("\taddl\t$" ++ toString n ++ ", %esp\n")
        else g1.emit ("\tcall\t" ++ (h id).name ++ "\n")) = g2 ∧ Generator.Step g1 g2 0 := by
      refine ⟨_, rfl, ?_⟩
      split_ifs <;> exact Generator.Step.of_same rfl rfl rfl rfl rfl
    have s12 := s1.step_trans s2
    obtain ⟨t, g3, e3, s3⟩ := assigntemp_runs hs.2 g2
      (by have := s12.2.2.1; push_cast at this; omega) (by have := s12.2.2.2.1; omega)
    refine ⟨t, g3.emits (callResultCode type.isReal t), ?_,
      by simpa using (s12.step_trans s3).step_trans (Generator.Step.emits g3 _)⟩
    simp only [Expr.generate, e1, Option.bind_eq_bind, Option.some_bind, hg2, e3]
  | Multiply left right type =>
    simp only [Expr.sizable, Bool.and_eq_true, Bool.not_eq_true'] at hs
    exact (binaryNode_runs _ (Expr.generate_runs left h hs.1.1) (Expr.generate_runs right h hs.1.2)
      hs.2).congr (fun g => by simp only [Expr.generate]; rfl)
  | Divide left right type =>
    simp only [Expr.sizable, Bool.and_eq_true, Bool.not_eq_true'] at hs
    exact (binaryNode_runs _ (Expr.generate_runs left h hs.1.1) (Expr.generate_runs right h hs.1.2)
      hs.2).congr (fun g => by simp only [Expr.generate]; rfl)
  | Remainder left right type =>
    simp only [Expr.sizable, Bool.and_eq_true, Bool.not_eq_true'] at hs
    exact (binaryNode_runs _ (Expr.generate_runs left h hs.1.1) (Expr.generate_runs right h hs.1.2)
      hs.2).congr (fun g => by simp only [Expr.generate]; rfl)
  | Add left right type =>
    simp only [Expr.sizable, Bool.and_eq_true, Bool.not_eq_true'] at hs
    exact (binaryNode_runs _ (Expr.generate_runs left h hs.1.1) (Expr.generate_runs right h hs.1.2)
      hs.2).congr (fun g => by simp only [Expr.generate]; rfl)
  | Subtract left right type =>
    simp only [Expr.sizable, Bool.and_eq_true, Bool.not_eq_true'] at hs
    exact (binaryNode_runs _ (Expr.generate_runs left h hs.1.1) (Expr.generate_runs right h hs.1.2)
      hs.2).congr (fun g => by simp only [Expr.generate]; rfl)
  | LessThan left right type =>
    simp only [Expr.sizable, Bool.and_eq_true, Bool.not_eq_true'] at hs
    exact (binaryNode_runs _ (Expr.generate_runs left h hs.1.1) (Expr.generate_runs right h hs.1.2)
      hs.2).congr (fun g => by simp only [Expr.generate]; rfl)
  | GreaterThan left right type =>
    simp only [Expr.sizable, Bool.and_eq_true, Bool.not_eq_true'] at hs
    exact (binaryNode_runs _ (Expr.generate_runs left h hs.1.1) (Expr.generate_runs right h hs.1.2)
      hs.2).congr (fun g => by simp only [Expr.generate]; rfl)
  | LessOrEqual left right type =>
    simp only [Expr.sizable, Bool.and_eq_true, Bool.not_eq_true'] at hs
    exact (binaryNode_runs _ (Expr.generate_runs left h hs.1.1) (Expr.generate_runs right h hs.1.2)
      hs.2).congr (fun g => by simp only [Expr.generate]; rfl)
  | GreaterOrEqual left right type =>
    simp only [Expr.sizable, Bool.and_eq_true, Bool.not_eq_true'] at hs
    exact (binaryNode_runs _ (Expr.generate_runs left h hs.1.1) (Expr.generate_runs right h hs.1.2)
      hs.2).congr (fun g => by simp only [Expr.generate]; rfl)
  | Equal left right type =>
    simp only [Expr.sizable, Bool.and_eq_true, Bool.not_eq_true'] at hs
    exact (binaryNode_runs _ (Expr.generate_runs left h hs.1.1) (Expr.generate_runs right h hs.1.2)
      hs.2).congr (fun g => by simp only [Expr.generate]; rfl)
  | NotEqual left right type =>
    simp only [Expr.sizable, Bool.and_eq_true, Bool.not_eq_true'] at hs
    exact (binaryNode_runs _ (Expr.generate_runs left h hs.1.1) (Expr.generate_runs right h hs.1.2)
      hs.2).congr (fun g => by simp only [Expr.generate]; rfl)
  | LogicalAnd left right type =>
    simp only [Expr.sizable, Bool.and_eq_true, Bool.not_eq_true'] at hs
    exact (logicalNode_runs _ _ (Expr.generate_runs left h hs.1.1)
      (Expr.generate_runs right h hs.1.2) hs.2).congr (fun g => by simp only [Expr.generate]; rfl)
  | LogicalOr left right type =>
    simp only [Expr.sizable, Bool.and_eq_true, Bool.not_eq_true'] at hs
    exact (logicalNode_runs _ _ (Expr.generate_runs left h hs.1.1)
      (Expr.generate_runs right h hs.1.2) hs.2).congr (fun g => by simp only [Expr.generate]; rfl)
  | Not expr type =>
    simp only [Expr.sizable, Bool.and_eq_true, Bool.not_eq_true'] at hs
    exact (unaryNode_runs _ (Expr.generate_runs expr h hs.1) hs.2).congr
      (fun g => by simp only [Expr.generate]; rfl)
  | Negate expr type =>
    simp only [Expr.sizable, Bool.and_eq_true, Bool.not_eq_true'] at hs
    exact (unaryNode_runs _ (Expr.generate_runs expr h hs.1) hs.2).congr
      (fun g => by simp only [Expr.generate]; rfl)
  | Dereference expr type =>
    simp only [Expr.sizable, Bool.and_eq_true, Bool.not_eq_true'] at hs
    exact (unaryNode_runs _ (Expr.generate_runs expr h hs.1) hs.2).congr
      (fun g => by simp only [Expr.generate]; rfl)
  | Cast type expr =>
    simp only [Expr.sizable, Bool.and_eq_true, Bool.not_eq_true'] at hs
    have ie := Expr.generate_runs expr h hs.1
    intro g hroom hup
    simp only [Expr.tempSize] at hroom ⊢
    push_cast at hroom
    obtain ⟨x, g1, e1, s1⟩ := ie g (by omega) hup
    obtain ⟨t, g2, e2, s2⟩ := assigntemp_runs hs.2 g1 (by have := s1.2.2.1; omega)
      (by have := s1.2.2.2.1; omega)
    have s3 : Generator.Step g2 (castCode type.isReal expr.type.isReal x t g2).2 0 := by
      unfold castCode
      split_ifs <;> exact Generator.Step.of_same rfl rfl rfl rfl rfl
    refine ⟨(castCode type.isReal expr.type.isReal x t g2).1,
      (castCode type.isReal expr.type.isReal x t g2).2, ?_, by simpa using (s1.step_trans s2).step_trans s3⟩
    simp only [Expr.generate, e1, Option.bind_eq_bind, Option.some_bind, e2]
  | Address expr type =>
    by_cases hd : ∃ pointer dtype, expr = .Dereference pointer dtype
    · obtain ⟨pointer, dtype, rfl⟩ := hd
      simp only [Expr.sizable] at hs
      have ip := Expr.generate_runs pointer h hs
      intro g hroom hup
      simp only [Expr.tempSize] at hroom ⊢
      obtain ⟨x, g1, e1, s1⟩ := ip g hroom hup
      exact ⟨x, g1, by simp [Expr.generate, indirectForm, e1, addressCode], s1⟩
    · have hnd : ∀ p dt, expr ≠ .Dereference p dt := fun p dt he => hd ⟨p, dt, he⟩
      rw [Expr.sizable_address_plain hnd, Bool.and_eq_true, Bool.not_eq_true'] at hs
      have ie := Expr.generate_runs expr h hs.1
      intro g hroom hup
      rw [Expr.tempSize_address_plain hnd] at hroom ⊢
      push_cast at hroom
      obtain ⟨x, g1, e1, s1⟩ := ie g (by omega) hup
      obtain ⟨y, g2, e2, s2⟩ := addressCode_runs type x hs.2 g1 (by have := s1.2.2.1; omega)
        (by have := s1.2.2.2.1; omega)
      refine ⟨y, g2, ?_, s1.step_trans s2⟩
      rw [Expr.generate_address_plain hnd, e1]
      exact e2
  | Assign left right type =>
    by_cases hd : ∃ pointer dtype, left = .Dereference pointer dtype
    · obtain ⟨pointer, dtype, rfl⟩ := hd
      simp only [Expr.sizable, Bool.and_eq_true, Bool.not_eq_true'] at hs
      exact (binaryNode_runs _ (Expr.generate_runs pointer h hs.1.1)
        (Expr.generate_runs right h hs.1.2) hs.2).congr (fun g => by simp only [Expr.generate]; rfl)
    · have hnd : ∀ p dt, left ≠ .Dereference p dt := fun p dt he => hd ⟨p, dt, he⟩
      rw [Expr.sizable_assign_plain hnd, Bool.and_eq_true, Bool.and_eq_true,
        Bool.not_eq_true'] at hs
      rw [Expr.tempSize_assign_plain hnd]
      exact (binaryNode_runs _ (Expr.generate_runs left h hs.1.1)
        (Expr.generate_runs right h hs.1.2) hs.2).congr
        (fun g => Expr.generate_assign_plain hnd right type h g)
termination_by sizeOf e
/-- The loop of `Call::generate` over sizable arguments returns, and moves
the generator by a `Step` of at most `tempSizeArgs` bytes. -/
theorem Expr.generateArgs_runs (args : List Expr) (h : Heap)
    (hs : Expr.sizableArgs args = true) :
    Runs (Expr.generateArgs args h) (Expr.tempSizeArgs args) := by
  cases args with
  | nil =>
    intro g _ _
    simp only [Expr.generateArgs]
    exact ⟨_, _, rfl, Generator.Step.step_refl g⟩
  | cons a args =>
    simp only [Expr.sizableArgs, Bool.and_eq_true, Bool.not_eq_true'] at hs
    have ia := Expr.generateArgs_runs args h hs.1.1
    have ie := Expr.generate_runs a h hs.1.2
    have hsz := CType.size_of_not_isFunction hs.2
    intro g hroom hup
    simp only [Expr.tempSizeArgs] at hroom ⊢
    push_cast at hroom
    obtain ⟨n, g1, e1, s1⟩ := ia g (by omega) hup
    obtain ⟨x, g2, e2, s2⟩ := ie g1 (by have := s1.2.2.1; omega) (by have := s1.2.2.2.1; omega)
    refine ⟨toUInt32 (n + a.type.sizeN), g2.emits (pushCode a.type.isReal x), ?_,
      by simpa using (s1.step_trans s2).step_trans (Generator.Step.emits g2 _)⟩
    simp only [Expr.generateArgs, e1, Option.bind_eq_bind, Option.some_bind, e2, hsz]
termination_by sizeOf args
end

theorem Generator.Inv.step {alloc : Int} {base : List Int} {g g1 : Generator} {n : Nat}
    (hi : Generator.Inv alloc base g) (st : Generator.Step g g1 n)
    (hroom : -2147483648 < g.tempoffset - n) :
    Generator.Inv alloc base g1 := by
  obtain ⟨i1, i2, i3, i4, i5, i6, temps, i7, i8, i9, i10⟩ := hi
  obtain ⟨s1, s2, s3, s4, ⟨new, s5, s6, s7⟩, _⟩ := st
  refine ⟨s1.trans i1, by rw [s2]; exact i2, by omega, i4, by rw [s2]; exact i5, by omega,
    temps ++ new, by rw [s5, i7, List.append_assoc], ?_, ?_, ?_⟩
  · intro t ht
    rw [s2]
    rcases List.mem_append.1 ht with ht | ht
    · have := i8 t ht
      exact le_trans (min_le_min_left _ s4) this
    · exact le_trans (min_le_right _ _) (s6 t ht)
  · rw [s2]
    exact i9.imp id (List.mem_append_left _)
  · rcases s7 with s7 | s7
    · rw [s7]; exact i10.imp id (List.mem_append_left _)
    · right; exact List.mem_append_right _ s7

theorem Generator.Inv.same {alloc : Int} {base : List Int} {g g1 : Generator}
    (hi : Generator.Inv alloc base g) (h1 : g1.minoffset = g.minoffset)
    (h2 : g1.maxoffset = g.maxoffset) (h3 : g1.tempoffset = g.tempoffset)
    (h4 : g1.assigned = g.assigned) (h5 : g1.slots = g.slots) : Generator.Inv alloc base g1 :=
  hi.step (Generator.Step.of_same h1 h2 h3 h4 h5) (by have := hi.2.2.2.2.2.1; simpa using this)

theorem Generator.Inv.endStatement {alloc : Int} {base : List Int} {g : Generator}
    (hi : Generator.Inv alloc base g) :
    Generator.Inv alloc base g.endStatement ∧ g.endStatement.tempoffset = alloc := by
  obtain ⟨i1, i2, i3, i4, i5, i6, temps, i7, i8, i9, i10⟩ := hi
  have hmax : g.endStatement.maxoffset = min g.maxoffset g.tempoffset := by
    simp only [Generator.endStatement]
    split_ifs with hlt
    · exact (min_eq_right (le_of_lt hlt)).symm
    · exact (min_eq_left (not_lt.1 hlt)).symm
  have htemp : g.endStatement.tempoffset = alloc := i1
  refine ⟨⟨i1, by rw [hmax]; exact le_trans (min_le_left _ _) i2, by rw [htemp], i4,
    by rw [hmax]; exact lt_min i5 i6, by rw [htemp]; omega, temps, i7, ?_, ?_, Or.inl htemp⟩,
    htemp⟩
  · intro t ht
    rw [hmax, htemp]
    exact le_trans (min_le_left _ _) (i8 t ht)
  · rw [hmax]
    rcases le_total g.maxoffset g.tempoffset with hle | hle
    · rw [min_eq_left hle]; exact i9
    · rw [min_eq_right hle]; exact i10

theorem Generator.Inv.runs {α : Type} {alloc : Int} {base : List Int} {g : Generator}
    {m : Generator → Option (α × Generator)} {n : Nat}
    (hi : Generator.Inv alloc base g) (r : Runs m n) (hroom : -2147483648 < g.tempoffset - n) :
    ∃ a g1, m g = some (a, g1) ∧ Generator.Inv alloc base g1 ∧
      g.tempoffset - n ≤ g1.tempoffset ∧ g1.tempoffset ≤ g.tempoffset := by
  have hup : g.tempoffset ≤ 2147483647 := le_trans hi.2.2.1 hi.2.2.2.1
  obtain ⟨a, g1, e1, s1⟩ := r g hroom hup
  exact ⟨a, g1, e1, hi.step s1 hroom, s1.2.2.1, s1.2.2.2.1⟩

mutual
/-- Generating a sizable statement returns and keeps the invariant of the
generator; `tempoffset` ends at most `tempSize` bytes below its start. -/
theorem Stmt.generate_inv (s : Stmt) (h : Heap) (alloc : Int) (base : List Int) (g : Generator)
    (hs : s.sizable = true) (hi : Generator.Inv alloc base g)
    (hroom : -2147483648 < g.tempoffset - s.tempSize) :
    ∃ g1, s.generate h g = some g1 ∧ Generator.Inv alloc base g1 ∧
      g.tempoffset - s.tempSize ≤ g1.tempoffset := by
  cases s with
  | Expression expr =>
    simp only [Stmt.sizable] at hs
    simp only [Stmt.tempSize] at hroom ⊢
    obtain ⟨e, g1, e1, i1, b1, _⟩ := hi.runs (Expr.generate_runs expr h hs) hroom
    exact ⟨g1, by simp only [Stmt.generate, e1], i1, b1⟩
  | Return expr =>
    simp only [Stmt.sizable] at hs
    simp only [Stmt.tempSize] at hroom ⊢
    obtain ⟨e, g1, e1, i1, b1, _⟩ := hi.runs (Expr.generate_runs expr h hs) hroom
    exact ⟨g1.emits (returnCode expr.type.isReal e g1.returnLab),
      by simp only [Stmt.generate, e1], i1.same rfl rfl rfl rfl rfl, b1⟩
  | Block decls stmts =>
    simp only [Stmt.sizable] at hs
    simp only [Stmt.tempSize] at hroom ⊢
    obtain ⟨g1, e1, i1, b1, _⟩ := Stmt.generateStmts_inv stmts h alloc base g hs hi hroom
    exact ⟨g1, by simp only [Stmt.generate, e1], i1, b1⟩
  | While expr stmt =>
    simp only [Stmt.sizable, Bool.and_eq_true] at hs
    simp only [Stmt.tempSize] at hroom ⊢
    push_cast at hroom ⊢
    have i0 : Generator.Inv alloc base (whileStart g).2.2 := hi.same rfl rfl rfl rfl rfl
    have t0 : (whileStart g).2.2.tempoffset = g.tempoffset := rfl
    obtain ⟨e, g1, e1, i1, b1, _⟩ := i0.runs (Expr.generate_runs expr h hs.1)
      (by rw [t0]; omega)
    have i1a : Generator.Inv alloc base (g1.emits (whileTestCode e (whileStart g).2.1)) :=
      i1.same rfl rfl rfl rfl rfl
    obtain ⟨g2, e2, i2, b2⟩ := Stmt.generate_inv stmt h alloc base
      (g1.emits (whileTestCode e (whileStart g).2.1)) hs.2 i1a
      (by show -2147483648 < g1.tempoffset - _; omega)
    refine ⟨g2.emits ["\tjmp\t" ++ (whileStart g).1.text ++ "\n",
      (whileStart g).2.1.text ++ ":\n"], by simp only [Stmt.generate, e1, e2],
      i2.same rfl rfl rfl rfl rfl, ?_⟩
    have : (g1.emits (whileTestCode e (whileStart g).2.1)).tempoffset = g1.tempoffset := rfl
    show _ ≤ g2.tempoffset
    omega
  | If expr thenStmt elseStmt =>
    cases elseStmt with
    | none =>
      simp only [Stmt.sizable, Bool.and_eq_true] at hs
      simp only [Stmt.tempSize] at hroom ⊢
      push_cast at hroom ⊢
      obtain ⟨e, g1, e1, i1, b1, _⟩ := hi.runs (Expr.generate_runs expr h hs.1)
        (by omega)
      have i1a : Generator.Inv alloc base (ifStart e g1).2.2 := i1.same rfl rfl rfl rfl rfl
      have t1 : (ifStart e g1).2.2.tempoffset = g1.tempoffset := rfl
      obtain ⟨g2, e2, i2, b2⟩ := Stmt.generate_inv thenStmt h alloc base (ifStart e g1).2.2
        hs.2 i1a (by rw [t1]; omega)
      refine ⟨g2.emit ((ifStart e g1).1.text ++ ":\n"), by simp only [Stmt.generate, e1, e2],
        i2.same rfl rfl rfl rfl rfl, ?_⟩
      show _ ≤ g2.tempoffset
      omega
    | some elseStmt =>
      simp only [Stmt.sizable, Bool.and_eq_true] at hs
      simp only [Stmt.tempSize] at hroom ⊢
      push_cast at hroom ⊢
      obtain ⟨e, g1, e1, i1, b1, _⟩ := hi.runs (Expr.generate_runs expr h hs.1.1)
        (by omega)
      have i1a : Generator.Inv alloc base (ifStart e g1).2.2 := i1.same rfl rfl rfl rfl rfl
      have t1 : (ifStart e g1).2.2.tempoffset = g1.tempoffset := rfl
      obtain ⟨g2, e2, i2, b2⟩ := Stmt.generate_inv thenStmt h alloc base (ifStart e g1).2.2
        hs.1.2 i1a (by rw [t1]; omega)
      have i2a : Generator.Inv alloc base (g2.emits ["\tjmp\t" ++ (ifStart e g1).2.1.text ++ "\n",
          (ifStart e g1).1.text ++ ":\n"]) := i2.same rfl rfl rfl rfl rfl
      obtain ⟨g3, e3, i3, b3⟩ := Stmt.generate_inv elseStmt h alloc base _ hs.2 i2a
        (by show -2147483648 < g2.tempoffset - _; omega)
      refine ⟨g3.emit ((ifStart e g1).2.1.text ++ ":\n"),
        by simp only [Stmt.generate, e1, e2, e3], i3.same rfl rfl rfl rfl rfl, ?_⟩
      have : (g2.emits ["\tjmp\t" ++ (ifStart e g1).2.1.text ++ "\n",
          (ifStart e g1).1.text ++ ":\n"]).tempoffset = g2.tempoffset := rfl
      show _ ≤ g3.tempoffset
      omega
termination_by sizeOf s
/-- The loop of `Block::generate` returns and keeps the invariant; after at
least one statement `tempoffset` is back at `minoffset`. -/
theorem Stmt.generateStmts_inv (ss : List Stmt) (h : Heap) (alloc : Int) (base : List Int)
    (g : Generator) (hs : Stmt.sizableStmts ss = true) (hi : Generator.Inv alloc base g)
    (hroom : -2147483648 < g.tempoffset - Stmt.tempSizeOfStmts ss) :
    ∃ g1, Stmt.generateStmts ss h g = some g1 ∧ Generator.Inv alloc base g1 ∧
      g.tempoffset - Stmt.tempSizeOfStmts ss ≤ g1.tempoffset ∧
      (g1 = g ∨ g1.tempoffset = alloc) := by
  cases ss with
  | nil =>
    exact ⟨g, by simp only [Stmt.generateStmts], hi, by simp [Stmt.tempSizeOfStmts], Or.inl rfl⟩
  | cons s ss =>
    simp only [Stmt.sizableStmts, Bool.and_eq_true] at hs
    simp only [Stmt.tempSizeOfStmts] at hroom ⊢
    push_cast at hroom ⊢
    obtain ⟨g1, e1, i1, b1⟩ := Stmt.generate_inv s h alloc base g hs.1 hi (by omega)
    obtain ⟨i1e, t1e⟩ := i1.endStatement
    have hga : g.tempoffset ≤ alloc := hi.2.2.1
    obtain ⟨g2, e2, i2, b2, f2⟩ := Stmt.generateStmts_inv ss h alloc base g1.endStatement hs.2 i1e
      (by rw [t1e]; omega)
    refine ⟨g2, by simp only [Stmt.generateStmts, e1, e2], i2, by rw [t1e] at b2; omega, ?_⟩
    rcases f2 with f2 | f2
    · right; rw [f2]; exact t1e
    · right; exact f2
termination_by sizeOf ss
end

theorem Function.allocate_upper (f : Function) (h : Heap) (alloc : Int) (h1 : Heap)
    (e : f.allocate h = some (alloc, h1)) : alloc ≤ 2147483647 := by
  simp only [Function.allocate] at e
  split at e
  · exact absurd e (by simp)
  · split at e
    · exact absurd e (by simp)
    · exact Stmt.allocate_le f.body 0 _ alloc h1 e (by decide)

/-- Claim C1 as stated fails: `int main(void) { int a[536870912]; return 0; }`
is generated and nothing aborts; `Function::allocate` returns `-2^31` and no
temporary is handed out, so the minimum `m` is `-2^31` and `-m` is `2^31`, but
the line printed is `.set main.size, -2147483648`, not the line with `-m`; and
the local `a`, at `-2^31`, lies below `-V = 2^31`. -/
theorem C1_frame_size_wraps :
    ∃ h1 g1, hugeArray.allocate hugeArrayHeap = some (-2147483648, h1) ∧
      hugeArray.generate hugeArrayHeap Generator.init = some (h1, g1) ∧
      g1.assigned = [] ∧
      IsMinimumOf (-2147483648) (-2147483648 :: g1.assigned) ∧
      g1.cout = ["main:\n", "\tpushl\t%ebp\n", "\tmovl\t%esp, %ebp\n",
        "\tsubl\t$main.size, %esp\n", "\tmovl\t$0, %eax\n", "\tjmp\t.L1\n", ".L1:\n",
        "\tmovl\t%ebp, %esp\n", "\tpopl\t%ebp\n", "\tret\n\n", "\t.global\tmain\n",
        "\t.set\tmain.size, -2147483648\n", "\n"] ∧
      sizeLine "main" (-(-2147483648)) = "\t.set\tmain.size, 2147483648\n" ∧
      sizeLine "main" (-(-2147483648)) ∉ g1.cout ∧
      (h1 1).offset = -2147483648 ∧ (h1 1).offset < -(-2147483648) := by
  obtain ⟨p, q, hp, hq, h1, h2, h3, h4, h5, h6, h7⟩ : ∃ p q,
      hugeArray.allocate hugeArrayHeap = some p ∧
      hugeArray.generate hugeArrayHeap Generator.init = some q ∧
      p.1 = -2147483648 ∧ p.2 = q.1 ∧ q.2.assigned = [] ∧
      q.2.cout = ["main:\n", "\tpushl\t%ebp\n", "\tmovl\t%esp, %ebp\n",
        "\tsubl\t$main.size, %esp\n", "\tmovl\t$0, %eax\n", "\tjmp\t.L1\n", ".L1:\n",
        "\tmovl\t%ebp, %esp\n", "\tpopl\t%ebp\n", "\tret\n\n", "\t.global\tmain\n",
        "\t.set\tmain.size, -2147483648\n", "\n"] ∧
      sizeLine "main" (-(-2147483648)) = "\t.set\tmain.size, 2147483648\n" ∧
      sizeLine "main" (-(-2147483648)) ∉ q.2.cout ∧
      (q.1 1).offset = -2147483648 :=
    ⟨_, _, rfl, rfl, by decide, rfl, by decide, by decide, by decide, by decide, by decide⟩
  obtain ⟨a, b⟩ := p
  obtain ⟨c, d⟩ := q
  simp only at h1 h2 h3 h4 h6 h7
  subst h1 h2
  refine ⟨b, d, hp, hq, h3, ?_, h4, h5, h6, h7, by rw [h7]; decide⟩
  rw [h3]
  exact ⟨List.mem_cons_self _ _, fun x hx => by simp at hx; omega⟩

/-- Claim C1, amended: for a function whose allocation returned `alloc`, whose
expressions take their temporaries at types with a size, and whose locals and
temporaries fit above `-2^31` (`alloc` minus the sizes of the temporaries of
the body is above `-2^31`), `Function::generate` returns and the value printed
in `.set <name>.size, V` is `-m`, with `m` the minimum of `alloc` and of every
offset handed out by `assigntemp` while generating the body; so no temporary
lies below `m`, and no local either when the locals are symbols not yet
allocated, not of a function type, of sizes that sum to at most `2^31`. -/
theorem C1_frame_size (f : Function) (h h1 : Heap) (g : Generator) (alloc : Int)
    (halloc : f.allocate h = some (alloc, h1))
    (hs : f.body.sizable = true)
    (hroom : -2147483648 < alloc - (f.body.tempSize : Int)) :
    ∃ g1 temps m pre, f.generate h g = some (h1, g1) ∧
      g1.assigned = g.assigned ++ temps ∧
      IsMinimumOf m (alloc :: temps) ∧
      g1.cout = pre ++ [sizeLine (h1 f.id).name (-m), "\n"] ∧
      (∀ (params : Parameters) (psyms locals : List Nat),
        (h f.id).type.parameters = some params →
        f.decls = psyms ++ locals → psyms.length = params.length →
        (∀ p ∈ params, p.isFunction = false) →
        (∀ k, k < params.length → 8 + (prefixSize params k : Int) ≤ 2147483647) →
        f.body.symbols.Nodup →
        Heap.Fresh h (locals ++ Stmt.symbolsOfStmts f.stmts) →
        (totalSize h (locals ++ Stmt.symbolsOfStmts f.stmts) : Int) ≤ 2147483648 →
        ∀ x ∈ locals ++ Stmt.symbolsOfStmts f.stmts, m ≤ (h1 x).offset) := by
  have hup := Function.allocate_upper f h alloc h1 halloc
  have hlow : -2147483648 < alloc := by omega
  have i0 : Generator.Inv alloc g.assigned (Function.start g alloc (h1 f.id).name) :=
    ⟨rfl, le_refl alloc, le_refl alloc, hup, hlow, hlow, [], by simp [Function.start,
      Generator.emits, Generator.newLabel], by simp, Or.inl rfl, Or.inl rfl⟩
  obtain ⟨g1, e1, i1, _, f1⟩ := Stmt.generateStmts_inv f.stmts h1 alloc g.assigned
    (Function.start g alloc (h1 f.id).name) hs i0 hroom
  have ht : g1.tempoffset = alloc := by
    rcases f1 with f1 | f1
    · rw [f1]; rfl
    · exact f1
  obtain ⟨_, j2, _, _, j5, _, temps, j7, j8, j9, _⟩ := i1
  have hmin : ∀ t ∈ temps, g1.maxoffset ≤ t := by
    intro t hx
    have := j8 t hx
    rwa [ht, min_eq_left j2] at this
  have hin : toInt32 (-g1.maxoffset) = -g1.maxoffset := toInt32_of_inRange (by omega) (by omega)
  refine ⟨g1.emits (epilogueCode (h1 f.id).name g1), temps, g1.maxoffset,
    g1.cout ++ [g1.returnLab.text ++ ":\n", "\tmovl\t%ebp, %esp\n", "\tpopl\t%ebp\n",
      "\tret\n\n", "\t.global\t" ++ (h1 f.id).name ++ "\n"], ?_, j7, ⟨?_, ?_⟩, ?_, ?_⟩
  · have e2 : f.body.generate h1 (Function.start g alloc (h1 f.id).name) = some g1 := e1
    simp only [Function.generate, halloc, e2]
  · rcases j9 with j9 | j9
    · rw [j9]; exact List.mem_cons_self _ _
    · exact List.mem_cons_of_mem _ j9
  · intro x hx
    rcases List.mem_cons.1 hx with rfl | hx
    · exact j2
    · exact hmin x hx
  · simp [Generator.emits, epilogueCode, hin]
  · intro params psyms locals hparams hdecls hplen hpsize hpfit hnd hfr hfit x hx
    obtain ⟨off, h2, e2, cov⟩ := Function.allocate_covers f h params psyms locals hparams hdecls
      hplen hpsize hpfit hnd hfr hfit
    rw [halloc] at e2
    simp only [Option.some.injEq, Prod.mk.injEq] at e2
    obtain ⟨rfl, rfl⟩ := e2
    exact le_trans j2 (cov x hx).1

/-- Witness of C1: for `int main(void) { int *p; int x; p = &x; *p = 5;
return *p; }` the allocation returns -8, the temporaries are handed out at
-12, -16, -12 and -12, the line printed is `.set main.size, 16`, and the
locals `p` and `x` are not below -16. -/
theorem C1_frame_size_witness :
    ∃ alloc h1 g1 pre, exampleE5.allocate exampleE5Heap = some (alloc, h1) ∧ alloc = -8 ∧
      exampleE5.generate exampleE5Heap Generator.init = some (h1, g1) ∧
      g1.assigned = [-12, -16, -12, -12] ∧
      g1.cout = pre ++ ["\t.set\tmain.size, 16\n", "\n"] ∧
      ∀ x ∈ [1, 2], -16 ≤ (h1 x).offset := by
  obtain ⟨p, hp, h8⟩ : ∃ p, exampleE5.allocate exampleE5Heap = some p ∧ p.1 = -8 :=
    ⟨_, rfl, by decide⟩
  obtain ⟨g1, temps, m, pre, e, ha, hm, hc, hl⟩ := C1_frame_size exampleE5 exampleE5Heap p.2
    Generator.init p.1 hp (by decide) (by rw [h8]; decide)
  have hl := hl [] [] [1, 2] rfl rfl rfl (by decide) (by decide) (by decide)
    (by unfold Heap.Fresh; decide) (by decide)
  have e2 : (exampleE5.generate exampleE5Heap Generator.init).map (fun r => r.2.assigned) =
      some [-12, -16, -12, -12] := by decide
  have e3 : (exampleE5.generate exampleE5Heap Generator.init).map
      (fun r => (r.1 exampleE5.id).name) = some "main" := by decide
  rw [e] at e2 e3
  simp only [Option.map_some', Option.some.injEq] at e2 e3
  have ht : temps = [-12, -16, -12, -12] := by
    rw [e2] at ha
    simpa [Generator.init] using ha.symm
  subst ht
  have hm16 : m = -16 := by
    have h1 := hm.1
    have h2 := hm.2 (-16) (by simp)
    simp only [List.mem_cons, List.mem_singleton, List.not_mem_nil, or_false] at h1
    omega
  subst hm16
  rw [e3] at hc
  exact ⟨p.1, p.2, g1, pre, hp, h8, e, e2, hc, fun x hx => hl x (List.mem_append_left _ hx)⟩

end Temporaries

section Indexing

theorem promote_isPointer {a : Expr} (ha : a.type.isPointer = true ∨ a.type.isArray = true) :
    (promote a).type.isPointer = true := by
  rw [promote_type]
  rcases ht : a.type with ⟨s, i, k⟩
  rw [ht] at ha
  cases k <;> simp_all [CType.promote, CType.isPointer, CType.isArray]

theorem CType.ne_error_of_isPointer {t : CType} (h : t.isPointer = true) : t ≠ CType.error := by
  rintro rfl
  exact absurd h (by decide)

theorem CType.ne_real_of_isPointer {t : CType} (h : t.isPointer = true) : t ≠ CType.real := by
  rintro rfl
  exact absurd h (by decide)

theorem CType.ne_integer_of_isPointer {t : CType} (h : t.isPointer = true) :
    t ≠ CType.integer := by
  rintro rfl
  exact absurd h (by decide)

theorem promote_of_integer {e : Expr} (h : e.type = CType.integer) : promote e = e := by
  simp [promote, h, CType.integer, CType.isArray]

theorem promote_of_isPointer {e : Expr} (h : e.type.isPointer = true) : promote e = e := by
  rcases ht : e.type with ⟨s, i, k⟩
  rw [ht] at h
  cases k <;> simp_all [promote, CType.isPointer, CType.isArray]

/-- The node that `checkArray` and `checkDereference` after `checkAdd` both
build for a pointer or array `a` and an index `i` of type INT. -/
theorem checkArray_tree (a i : Expr) (c : Checker)
    (ha : a.type.isPointer = true ∨ a.type.isArray = true) (hi : i.type = CType.integer) (n : Nat)
    (hn : (promote a).type.deref.size = some n) :
    checkArray a i c = some (.Dereference (.Add (promote a)
        (.Multiply i (newInteger n) CType.integer) (promote a).type) (promote a).type.deref, c) ∧
    checkAdd a i c = some (.Add (promote a) (.Multiply i (newInteger n) CType.integer)
        (promote a).type, c) := by
  have hp := promote_isPointer ha
  have hg : (promote a).type ≠ CType.error ∧ i.type ≠ CType.error :=
    ⟨CType.ne_error_of_isPointer hp, by rw [hi]; decide⟩
  constructor
  · simp only [checkArray, hn]
    rw [if_pos hg, if_pos ⟨hp, hi⟩]
  · have e1 : promoteTo a i.type c = (promote a, c) := by
      have : ¬ (a.type = CType.integer ∧ i.type = CType.real) := by
        rw [hi]; rintro ⟨_, h⟩; exact absurd h (by decide)
      simp only [promoteTo, this, if_false]
    have e2 : promoteTo i (promote a).type c = (i, c) := by
      have : ¬ (i.type = CType.integer ∧ (promote a).type = CType.real) := by
        rintro ⟨_, h⟩; exact CType.ne_real_of_isPointer hp h
      simp only [promoteTo, this, if_false, promote_of_integer hi]
    have hnum : ¬ ((promote a).type.isNumeric = true ∧ i.type.isNumeric = true) := by
      rw [CType.not_isNumeric_of_isPointer hp]; simp
    simp only [checkAdd, e1, e2]
    rw [if_pos hg, if_neg hnum, if_pos ⟨hp, hi⟩, hn]

/-- Claim C11: for an expression `a` whose type is a pointer or an array and
an expression `i` of type INT, `checkArray(a, i)` returns
`Dereference(Add(a1, Multiply(i, Integer(s), INT), type(a1)), deref(type(a1)))`
with `a1` the operand after array decay and `s = size(deref(type(a1)))`, reports
nothing, and this is the tree that `checkDereference` builds from the result of
`checkAdd(a, i)`. -/
theorem C11_checkArray_is_dereference_of_add (a i : Expr) (c : Checker)
    (ha : a.type.isPointer = true ∨ a.type.isArray = true) (hi : i.type = CType.integer) :
    ∃ n, (promote a).type.deref.size = some n ∧
      checkArray a i c = some (.Dereference (.Add (promote a)
        (.Multiply i (newInteger n) CType.integer) (promote a).type) (promote a).type.deref, c) ∧
      (checkAdd a i c).map (fun r => checkDereference r.1 r.2) = checkArray a i c := by
  obtain ⟨n, hn⟩ := CType.size_deref (promote a).type
  obtain ⟨e1, e2⟩ := checkArray_tree a i c ha hi n hn
  have hp := promote_isPointer ha
  refine ⟨n, hn, e1, ?_⟩
  rw [e1, e2]
  have hq : (Expr.Add (promote a) (.Multiply i (newInteger n) CType.integer)
      (promote a).type).type.isPointer = true := hp
  simp only [Option.map_some', checkDereference, promote_of_isPointer hq]
  rw [if_pos (CType.ne_error_of_isPointer hq), if_pos hq]
  rfl

/-- Witness of C11: `a[3]` on `int a[10]` is
`*(&a + 3 * 4)`: the index is multiplied by 4. -/
theorem C11_checkArray_is_dereference_of_add_witness :
    checkArray (.Identifier 6 (.mk .INT 0 (.Array 10))) (.Integer "3") Checker.init =
      some (.Dereference (.Add (.Address (.Identifier 6 (.mk .INT 0 (.Array 10))) intPointer)
        (.Multiply (.Integer "3") (.Integer "4") CType.integer) intPointer) CType.integer,
        Checker.init) := by
  obtain ⟨n, hn, e, _⟩ := C11_checkArray_is_dereference_of_add
    (.Identifier 6 (.mk .INT 0 (.Array 10))) (.Integer "3") Checker.init (Or.inr rfl) rfl
  have h4 : 4 = n := Option.some.inj hn
  subst h4
  exact e

end Indexing

section Products

theorem promoteTo_of_not (e : Expr) (t : CType) (c : Checker)
    (h : ¬ (e.type = CType.integer ∧ t = CType.real)) : promoteTo e t c = (promote e, c) := by
  simp only [promoteTo, h, if_false]

theorem promoteTo_integer_real (e : Expr) (c : Checker) (h : e.type = CType.integer) :
    (promoteTo e CType.real c).1.type = CType.real ∧
      PromotedToReal e (promoteTo e CType.real c).1 ∧
      Checker.Silent c (promoteTo e CType.real c).2 := by
  refine ⟨?_, ?_, promoteTo_silent e _ c⟩
  · rw [promoteTo_type, if_pos ⟨h, rfl⟩]
  · unfold promoteTo
    rw [if_pos ⟨h, rfl⟩]
    cases e
    case Integer v =>
      have hk : ∃ k, (newReal v c).1 = .Real v k := by
        unfold newReal
        split <;> exact ⟨_, rfl⟩
      obtain ⟨k, hk⟩ := hk
      refine Or.inl ⟨v, k, rfl, ?_⟩
      show promote (newReal v c).1 = _
      rw [hk]
      rfl
    all_goals exact Or.inr ⟨fun v hv => Expr.noConfusion hv, rfl⟩

theorem CType.isNumeric_iff (t : CType) :
    t.isNumeric = true ↔ t = CType.integer ∨ t = CType.real := by
  rcases t with ⟨s, i, k⟩
  cases s <;> cases k <;> rcases i with _ | i <;>
    simp [CType.isNumeric, CType.integer, CType.real]

theorem CType.promote_ne_error {t : CType} (h : t ≠ CType.error) : t.promote ≠ CType.error := by
  rcases t with ⟨s, i, k⟩
  cases k <;> simp_all [CType.promote, CType.error]

theorem CType.promote_isNumeric (t : CType) : t.promote.isNumeric = t.isNumeric := by
  rcases t with ⟨s, i, k⟩
  cases s <;> cases k <;> rcases i with _ | i <;> simp [CType.promote, CType.isNumeric]

theorem promote_of_isNumeric {e : Expr} (h : e.type.isNumeric = true) : promote e = e := by
  rcases (CType.isNumeric_iff _).1 h with h | h
  · exact promote_of_integer h
  · exact promote_of_real h

theorem arithmeticType_isNumeric (t1 t2 : CType) : (arithmeticType t1 t2).isNumeric = true := by
  unfold arithmeticType
  split_ifs <;> rfl

theorem arithmeticType_ne_error (t1 t2 : CType) : arithmeticType t1 t2 ≠ CType.error := by
  unfold arithmeticType
  split_ifs <;> decide

/-- Promotion of a numeric operand toward a numeric type: the operand comes
back at the type of the pair, rewritten only if it was INT facing DOUBLE. -/
theorem promoteTo_numeric (e : Expr) (t : CType) (c : Checker)
    (he : e.type.isNumeric = true) (ht : t.isNumeric = true) :
    BroughtTo (arithmeticType e.type t) e (promoteTo e t c).1 ∧
      Checker.Silent c (promoteTo e t c).2 := by
  refine ⟨?_, promoteTo_silent e t c⟩
  rcases (CType.isNumeric_iff _).1 he with he1 | he1 <;>
    rcases (CType.isNumeric_iff _).1 ht with ht1 | ht1
  · have hn : ¬ (e.type = CType.integer ∧ t = CType.real) := by
      rw [ht1]; rintro ⟨_, h⟩; exact absurd h (by decide)
    have hT : arithmeticType e.type t = CType.integer := by rw [he1, ht1]; rfl
    rw [hT, promoteTo_of_not e t c hn, promote_of_isNumeric he]
    exact ⟨he1, fun _ => rfl, fun h => absurd he1 h⟩
  · have hT : arithmeticType e.type t = CType.real := by rw [he1, ht1]; rfl
    obtain ⟨a, b, _⟩ := promoteTo_integer_real e c he1
    rw [hT, ht1]
    exact ⟨a, fun h => absurd (he1.symm.trans h) (by decide), fun _ => b⟩
  · have hn : ¬ (e.type = CType.integer ∧ t = CType.real) := by
      rw [he1]; rintro ⟨h, _⟩; exact absurd h (by decide)
    have hT : arithmeticType e.type t = CType.real := by rw [he1, ht1]; rfl
    rw [hT, promoteTo_of_not e t c hn, promote_of_isNumeric he]
    exact ⟨he1, fun _ => rfl, fun h => absurd he1 h⟩
  · have hn : ¬ (e.type = CType.integer ∧ t = CType.real) := by
      rw [he1]; rintro ⟨h, _⟩; exact absurd h (by decide)
    have hT : arithmeticType e.type t = CType.real := by rw [he1, ht1]; rfl
    rw [hT, promoteTo_of_not e t c hn, promote_of_isNumeric he]
    exact ⟨he1, fun _ => rfl, fun h => absurd he1 h⟩

theorem arithmeticType_absorb {t1 t2 : CType} (h1 : t1.isNumeric = true)
    (h2 : t2.isNumeric = true) :
    arithmeticType t2 (arithmeticType t1 t2) = arithmeticType t1 t2 := by
  rcases (CType.isNumeric_iff _).1 h1 with rfl | rfl <;>
    rcases (CType.isNumeric_iff _).1 h2 with rfl | rfl <;> decide

/-- Operands of a binary operator after cross-promotion, both numeric: both
come back at the type of the pair, and nothing is reported. -/
theorem cross_promotion_brought (l r : Expr) (c : Checker)
    (hl : l.type.isNumeric = true) (hr : r.type.isNumeric = true) :
    BroughtTo (arithmeticType l.type r.type) l (promoteTo l r.type c).1 ∧
    BroughtTo (arithmeticType l.type r.type) r
      (promoteTo r (promoteTo l r.type c).1.type (promoteTo l r.type c).2).1 ∧
    Checker.Silent c (promoteTo r (promoteTo l r.type c).1.type (promoteTo l r.type c).2).2 := by
  obtain ⟨a, sa⟩ := promoteTo_numeric l r.type c hl hr
  have hnum : (promoteTo l r.type c).1.type.isNumeric = true := by
    rw [a.1]; exact arithmeticType_isNumeric _ _
  obtain ⟨b, sb⟩ := promoteTo_numeric r (promoteTo l r.type c).1.type (promoteTo l r.type c).2
    hr hnum
  have hT : arithmeticType r.type (promoteTo l r.type c).1.type = arithmeticType l.type r.type := by
    rw [a.1]; exact arithmeticType_absorb hl hr
  rw [hT] at b
  exact ⟨a, b, sb.1.trans sa.1, sb.2.trans sa.2⟩

theorem checkMult_numeric (l r : Expr) (op : String) (c : Checker)
    (hl : l.type.isNumeric = true) (hr : r.type.isNumeric = true) :
    checkMult l r op c = (⟨(promoteTo l r.type c).1,
      (promoteTo r (promoteTo l r.type c).1.type (promoteTo l r.type c).2).1,
      arithmeticType l.type r.type⟩,
      (promoteTo r (promoteTo l r.type c).1.type (promoteTo l r.type c).2).2) := by
  obtain ⟨a, b, _⟩ := cross_promotion_brought l r c hl hr
  have hg : (promoteTo l r.type c).1.type ≠ CType.error ∧
      (promoteTo r (promoteTo l r.type c).1.type (promoteTo l r.type c).2).1.type
        ≠ CType.error :=
    ⟨by rw [a.1]; exact arithmeticType_ne_error _ _,
      by rw [b.1]; exact arithmeticType_ne_error _ _⟩
  have hn : (promoteTo l r.type c).1.type.isNumeric = true ∧
      (promoteTo r (promoteTo l r.type c).1.type (promoteTo l r.type c).2).1.type.isNumeric
        = true :=
    ⟨by rw [a.1]; exact arithmeticType_isNumeric _ _,
      by rw [b.1]; exact arithmeticType_isNumeric _ _⟩
  simp only [checkMult]
  rw [if_pos hg, if_pos hn, a.1]

/-- Types of the operands after cross-promotion when neither original type
is ERROR and the two are not both numeric: neither is ERROR, and the two are
not both numeric. -/
theorem cross_promotion_not_numeric (l r : Expr) (c : Checker)
    (h1 : l.type ≠ CType.error) (h2 : r.type ≠ CType.error)
    (hn : ¬ (l.type.isNumeric = true ∧ r.type.isNumeric = true)) :
    ((promoteTo l r.type c).1.type ≠ CType.error ∧
      (promoteTo r (promoteTo l r.type c).1.type (promoteTo l r.type c).2).1.type
        ≠ CType.error) ∧
    ¬ ((promoteTo l r.type c).1.type.isNumeric = true ∧
      (promoteTo r (promoteTo l r.type c).1.type (promoteTo l r.type c).2).1.type.isNumeric
        = true) := by
  rw [promoteTo_type r, promoteTo_type l]
  have p1 := CType.promote_ne_error h1
  have p2 := CType.promote_ne_error h2
  have n1 := CType.promote_isNumeric l.type
  have n2 := CType.promote_isNumeric r.type
  have i1 := CType.isNumeric_iff l.type
  have i2 := CType.isNumeric_iff r.type
  constructor
  · constructor
    · split_ifs
      · decide
      · exact p1
    · split_ifs
      all_goals first | decide | exact p2
  · rintro ⟨a, b⟩
    apply hn
    split_ifs at a b with x y z
    · exact absurd x.2 (by rw [y.1]; decide)
    · exact ⟨i1.2 (Or.inl x.1), i2.2 (Or.inr x.2)⟩
    · exact ⟨by rw [← n1]; exact a, i2.2 (Or.inl z.1)⟩
    · exact ⟨by rw [← n1]; exact a, by rw [← n2]; exact b⟩

theorem checkMult_invalid (l r : Expr) (op : String) (c : Checker)
    (h1 : l.type ≠ CType.error) (h2 : r.type ≠ CType.error)
    (hn : ¬ (l.type.isNumeric = true ∧ r.type.isNumeric = true)) :
    ∃ l1 r1 c2, checkMult l r op c = (⟨l1, r1, CType.error⟩, c2) ∧
      Checker.ReportedOnce invalid_operands op c c2 := by
  obtain ⟨hg, hnn⟩ := cross_promotion_not_numeric l r c h1 h2 hn
  have hs := (promoteTo_pair_silent l r c)
  refine ⟨(promoteTo l r.type c).1,
    (promoteTo r (promoteTo l r.type c).1.type (promoteTo l r.type c).2).1, _, ?_,
    report_after_silent hs invalid_operands op⟩
  simp only [checkMult]
  rw [if_pos hg, if_neg hnn]

/-- Claim C12: `checkMultiply` and `checkDivide`.  For numeric operands the
node has type INT if both operands are INT and DOUBLE otherwise, both operand
nodes have that type afterwards (an operand that had it is untouched, an INT
operand facing DOUBLE is rewritten to a `Real` literal or wrapped in
`Cast(DOUBLE)`), and nothing is reported.  For any other pair of operands of
types other than ERROR, `invalid operands to binary` is reported exactly once
(with `*` or `/`) and the node has type ERROR. -/
theorem C12_checkMultiply_checkDivide (l r : Expr) (c : Checker) :
    (l.type.isNumeric = true ∧ r.type.isNumeric = true →
      ∃ l1 r1 c2,
        checkMultiply l r c = (.Multiply l1 r1 (arithmeticType l.type r.type), c2) ∧
        checkDivide l r c = (.Divide l1 r1 (arithmeticType l.type r.type), c2) ∧
        BroughtTo (arithmeticType l.type r.type) l l1 ∧
        BroughtTo (arithmeticType l.type r.type) r r1 ∧ Checker.Silent c c2) ∧
    (l.type ≠ CType.error ∧ r.type ≠ CType.error ∧
        ¬ (l.type.isNumeric = true ∧ r.type.isNumeric = true) →
      (∃ l1 r1 c2, checkMultiply l r c = (.Multiply l1 r1 CType.error, c2) ∧
        Checker.ReportedOnce invalid_operands "*" c c2) ∧
      (∃ l1 r1 c2, checkDivide l r c = (.Divide l1 r1 CType.error, c2) ∧
        Checker.ReportedOnce invalid_operands "/" c c2)) := by
  constructor
  · rintro ⟨hl, hr⟩
    obtain ⟨a, b, sc⟩ := cross_promotion_brought l r c hl hr
    refine ⟨_, _, _, ?_, ?_, a, b, sc⟩
    · simp only [checkMultiply, checkMult_numeric l r _ c hl hr]
    · simp only [checkDivide, checkMult_numeric l r _ c hl hr]
  · rintro ⟨h1, h2, hn⟩
    constructor
    · obtain ⟨l1, r1, c2, e, rep⟩ := checkMult_invalid l r "*" c h1 h2 hn
      exact ⟨l1, r1, c2, by simp only [checkMultiply, e], rep⟩
    · obtain ⟨l1, r1, c2, e, rep⟩ := checkMult_invalid l r "/" c h1 h2 hn
      exact ⟨l1, r1, c2, by simp only [checkDivide, e], rep⟩

/-- Witness of C12: for `int n; double d`, `n * d` is
`Multiply(Cast(DOUBLE, n), d)` of type DOUBLE with nothing reported, and for
`int *p`, `p / n` reports `invalid operands to binary /` and has type ERROR. -/
theorem C12_checkMultiply_checkDivide_witness :
    checkMultiply (.Identifier 4 CType.integer) (.Identifier 5 CType.real) Checker.init =
      (.Multiply (.Cast CType.real (.Identifier 4 CType.integer)) (.Identifier 5 CType.real)
        CType.real, Checker.init) ∧
    (checkDivide (.Identifier 3 intPointer) (.Identifier 4 CType.integer) Checker.init).1.type =
      CType.error ∧
    (checkDivide (.Identifier 3 intPointer) (.Identifier 4 CType.integer)
      Checker.init).2.diagnostics = [(invalid_operands, "/")] := by
  have h := C12_checkMultiply_checkDivide
  obtain ⟨l1, r1, c2, e, _, -, -, -⟩ := (h (.Identifier 4 CType.integer)
    (.Identifier 5 CType.real) Checker.init).1 ⟨rfl, rfl⟩
  obtain ⟨_, l2, r2, c3, e3, rep⟩ := (h (.Identifier 3 intPointer)
    (.Identifier 4 CType.integer) Checker.init).2 ⟨by decide, by decide, by decide⟩
  refine ⟨rfl, ?_, ?_⟩
  · rw [e3]; rfl
  · rw [e3]; exact rep.2

end Products

section Assignment

theorem convert_type (e : Expr) (t : CType) (c : Checker) :
    (convert e t c).1.type =
      if e.type = CType.real ∧ t = CType.integer then CType.integer
      else if e.type = CType.integer ∧ t = CType.real then CType.real
      else e.type.promote := by
  unfold convert
  by_cases h1 : e.type = CType.real ∧ t = CType.integer
  · have hn : ¬ ((Expr.Cast CType.integer e).type = CType.integer ∧ t = CType.real) := by
      rintro ⟨_, h⟩; exact absurd (h1.2.symm.trans h) (by decide)
    rw [if_pos h1, if_pos h1, promoteTo_type, if_neg hn]
    rfl
  · rw [if_neg h1, if_neg h1, promoteTo_type]

theorem convert_type_eq_error (e : Expr) (t : CType) (c : Checker) :
    (convert e t c).1.type = CType.error ↔ e.type = CType.error := by
  rw [convert_type]
  constructor
  · intro h
    split_ifs at h
    · exact absurd h (by decide)
    · exact absurd h (by decide)
    · by_contra hne
      exact CType.promote_ne_error hne h
  · intro h
    have a : ¬ (e.type = CType.real ∧ t = CType.integer) := by
      rw [h]; rintro ⟨x, _⟩; exact absurd x (by decide)
    have b : ¬ (e.type = CType.integer ∧ t = CType.real) := by
      rw [h]; rintro ⟨x, _⟩; exact absurd x (by decide)
    rw [if_neg a, if_neg b, h]
    rfl

theorem convert_converted (e : Expr) (t : CType) (c : Checker) :
    ConvertedToward t e (convert e t c).1 := by
  unfold convert
  by_cases h1 : e.type = CType.real ∧ t = CType.integer
  · rw [if_pos h1]
    have hn : ¬ ((Expr.Cast CType.integer e).type = CType.integer ∧ t = CType.real) := by
      rintro ⟨_, h⟩; exact absurd (h1.2.symm.trans h) (by decide)
    rw [promoteTo_of_not _ _ _ hn]
    exact Or.inl ⟨h1.1, h1.2, rfl⟩
  · rw [if_neg h1]
    by_cases h2 : e.type = CType.integer ∧ t = CType.real
    · obtain ⟨h2a, rfl⟩ := h2
      exact Or.inr (Or.inl ⟨h2a, rfl, (promoteTo_integer_real e c h2a).2.1⟩)
    · rw [promoteTo_of_not _ _ _ h2]
      unfold promote
      by_cases ha : e.type.isArray = true
      · rw [if_pos ha]
        exact Or.inr (Or.inr (Or.inl ⟨ha, rfl⟩))
      · rw [if_neg ha]
        exact Or.inr (Or.inr (Or.inr ⟨h1, h2, by simpa using ha, rfl⟩))

/-- Claim C13 as stated fails when the right side has type ERROR.  With `y`
undeclared (type ERROR): in `3 = y` the left side has type INT and is not an
lvalue, and in `n = y` the left side is an lvalue of type INT and the
converted right type (ERROR) is not INT; the claim promises
`invalid lvalue in expression` for the first and `invalid operands to binary =`
for the second, and `checkAssign` reports nothing for either. -/
theorem C13_checkAssign_error_right_side :
    (Expr.Integer "3").type ≠ CType.error ∧ (Expr.Integer "3").lvalue = false ∧
    (checkAssign (.Integer "3") (.Identifier 0 CType.error) Checker.init).2.diagnostics = [] ∧
    (Expr.Identifier 4 CType.integer).lvalue = true ∧
    (convert (.Identifier 0 CType.error) CType.integer Checker.init).1.type ≠ CType.integer ∧
    (checkAssign (.Identifier 4 CType.integer) (.Identifier 0 CType.error)
      Checker.init).2.diagnostics = [] ∧
    (checkAssign (.Identifier 4 CType.integer) (.Identifier 0 CType.error)
      Checker.init).2.numErrors = 0 := by
  decide

/-- Claim C13, amended: `checkAssign` for a left side of a type `L` other than
ERROR.  The right side is first converted toward `L` (DOUBLE to INT by
`Cast(INT)`, INT to DOUBLE by literal rewrite or `Cast(DOUBLE)`, array decay)
and the conversion reports nothing.  When the right side has a type other than
ERROR: if the left side is not an lvalue, `invalid lvalue in expression` is
reported (once, and nothing else); otherwise the assignment is accepted with
type `L` and nothing reported iff the converted right type equals `L` and `L`
is a value type, else `invalid operands to binary =` is reported once; every
rejected case has type ERROR.  When the right side has type ERROR the node has
type ERROR and nothing is reported. -/
theorem C13_checkAssign (left r : Expr) (c : Checker) (hL : left.type ≠ CType.error) :
    ConvertedToward left.type r (convert r left.type c).1 ∧
    Checker.Silent c (convert r left.type c).2 ∧
    (r.type ≠ CType.error →
      (left.lvalue = false →
        checkAssign left r c = (.Assign left (convert r left.type c).1 CType.error,
          report invalid_lvalue "" (convert r left.type c).2) ∧
        Checker.ReportedOnce invalid_lvalue "" c (checkAssign left r c).2) ∧
      (left.lvalue = true →
        ((convert r left.type c).1.type = left.type ∧ left.type.isValue = true →
          checkAssign left r c =
            (.Assign left (convert r left.type c).1 left.type, (convert r left.type c).2)) ∧
        (¬ ((convert r left.type c).1.type = left.type ∧ left.type.isValue = true) →
          checkAssign left r c = (.Assign left (convert r left.type c).1 CType.error,
            report invalid_operands "=" (convert r left.type c).2) ∧
          Checker.ReportedOnce invalid_operands "=" c (checkAssign left r c).2))) ∧
    (r.type = CType.error →
      checkAssign left r c = (.Assign left r CType.error, c)) := by
  have hs := convert_silent r left.type c
  refine ⟨convert_converted r left.type c, hs, ?_, ?_⟩
  · intro hr
    have hg : left.type ≠ CType.error ∧ (convert r left.type c).1.type ≠ CType.error :=
      ⟨hL, fun h => hr ((convert_type_eq_error r left.type c).1 h)⟩
    refine ⟨?_, ?_⟩
    · intro hlv
      have e : checkAssign left r c = (.Assign left (convert r left.type c).1 CType.error,
          report invalid_lvalue "" (convert r left.type c).2) := by
        simp only [checkAssign]
        rw [if_pos hg, hlv]
        rfl
      refine ⟨e, ?_⟩
      rw [e]
      exact report_after_silent hs _ _
    · intro hlv
      refine ⟨?_, ?_⟩
      · intro hok
        simp only [checkAssign]
        rw [if_pos hg, hlv, if_neg (by decide), if_pos ⟨hok.1.symm, hok.2⟩]
      · intro hbad
        have hbad2 : ¬ (left.type = (convert r left.type c).1.type ∧ left.type.isValue = true) :=
          fun h => hbad ⟨h.1.symm, h.2⟩
        have e : checkAssign left r c = (.Assign left (convert r left.type c).1 CType.error,
            report invalid_operands "=" (convert r left.type c).2) := by
          simp only [checkAssign]
          rw [if_pos hg, hlv, if_neg (by decide), if_neg hbad2]
        refine ⟨e, ?_⟩
        rw [e]
        exact report_after_silent hs _ _
  · intro hr
    have hg : ¬ (left.type ≠ CType.error ∧ (convert r left.type c).1.type ≠ CType.error) := by
      rintro ⟨_, h2⟩
      exact h2 ((convert_type_eq_error r left.type c).2 hr)
    simp only [checkAssign]
    rw [if_neg hg, convert_of_error _ _ hr]

/-- Witness of C13: for `double d; int n`, `d = n` is accepted with type
DOUBLE, the right side wrapped in `Cast(DOUBLE)`. -/
theorem C13_checkAssign_witness :
    checkAssign (.Identifier 5 CType.real) (.Identifier 4 CType.integer) Checker.init =
      (.Assign (.Identifier 5 CType.real) (.Cast CType.real (.Identifier 4 CType.integer))
        CType.real, Checker.init) :=
  ((C13_checkAssign (.Identifier 5 CType.real) (.Identifier 4 CType.integer) Checker.init
    (by decide)).2.2.1 (by decide)).2 rfl |>.1 ⟨rfl, rfl⟩

end Assignment

section Calls

theorem convert_type_state (e : Expr) (t : CType) (c c1 : Checker) :
    (convert e t c).1.type = (convert e t c1).1.type := by
  rw [convert_type, convert_type]

/-- The loop of `checkCall` over as many arguments as parameters: it reports
nothing itself, it ends without a mismatch iff every argument fits its
parameter, and then every argument has been converted to its parameter type. -/
theorem checkArguments_spec : ∀ (args : Expressions) (P : Parameters) (c : Checker),
    args.length = P.length →
    Checker.Silent c (checkArguments args P c).2.2 ∧
    ((checkArguments args P c).2.1 = false ↔ List.Forall₂ ArgumentFits args P) ∧
    ((checkArguments args P c).2.1 = false →
      List.Forall₂ (fun a1 ap => a1.type = ap.2 ∧ ConvertedToward ap.2 ap.1 a1)
        (checkArguments args P c).1 (args.zip P))
  | [], [], c, _ => by
    simp [checkArguments, Checker.Silent]
  | [], _ :: _, _, h => by simp at h
  | _ :: _, [], _, h => by simp at h
  | a :: args, p :: P, c, h => by
    have hlen : args.length = P.length := by simpa using h
    have hs := convert_silent a p c
    by_cases hm : (convert a p c).1.type = p
    · obtain ⟨s1, i1, f1⟩ := checkArguments_spec args P (convert a p c).2 hlen
      have e : checkArguments (a :: args) (p :: P) c =
          ((convert a p c).1 :: (checkArguments args P (convert a p c).2).1,
            (checkArguments args P (convert a p c).2).2.1,
            (checkArguments args P (convert a p c).2).2.2) := by
        simp only [checkArguments, ne_eq, hm, not_true, if_false]
      rw [e]
      refine ⟨⟨s1.1.trans hs.1, s1.2.trans hs.2⟩, ?_, ?_⟩
      · rw [List.forall₂_cons]
        constructor
        · intro hf
          exact ⟨fun c1 => (convert_type_state a p c1 c).trans hm, i1.1 hf⟩
        · intro hf
          exact i1.2 hf.2
      · intro hf
        rw [List.zip_cons_cons, List.forall₂_cons]
        exact ⟨⟨hm, convert_converted a p c⟩, f1 hf⟩
    · have e : checkArguments (a :: args) (p :: P) c =
          ((convert a p c).1 :: args, true, (convert a p c).2) := by
        simp only [checkArguments, ne_eq, hm, not_false_eq_true, if_true]
      rw [e]
      refine ⟨hs, ?_, ?_⟩
      · rw [List.forall₂_cons]
        constructor
        · intro hf
          exact absurd (show true = false from hf) (by decide)
        · intro hf
          exact absurd (hf.1 c) hm
      · intro hf
        exact absurd (show true = false from hf) (by decide)

theorem report_not_silent {c c2 : Checker} (hs : Checker.Silent c c2) (f a : String) :
    ¬ Checker.Silent c (report f a c2) := by
  rintro ⟨h, _⟩
  have := (report_after_silent hs f a).1
  omega

/-- Claim C14: `checkCall` on a callee whose type is a function with
specifier `s` and indirection `n`.  Unprototyped: nothing is reported, every
argument of array type is wrapped in `Address` (the others are untouched), and
the node has the scalar type `(s, n)`.  Prototyped with parameters `P`: nothing
is reported iff there are as many arguments as parameters and
`convert(arg_i, P_i)` equals `P_i` for every `i`; in that case the node has
type `(s, n)` and holds the converted arguments, and otherwise
`invalid arguments to called function` is reported once.  On a callee that is
neither a function nor of type ERROR, `called object is not a function` is
reported once and the node has type ERROR. -/
theorem C14_checkCall (h : Heap) (id : Nat) (args : Expressions) (c : Checker) :
    (∀ s n, (h id).type = .mk s n (.Function none) →
      checkCall h id args c =
        (.Call id (args.map fun a => if a.type.isArray then .Address a a.type.promote else a)
          (.mk s n .Scalar), c)) ∧
    (∀ s n P, (h id).type = .mk s n (.Function (some P)) →
      (Checker.Silent c (checkCall h id args c).2 ↔ List.Forall₂ ArgumentFits args P) ∧
      (List.Forall₂ ArgumentFits args P →
        ∃ args1 c2, checkCall h id args c = (.Call id args1 (.mk s n .Scalar), c2) ∧
          List.Forall₂ (fun a1 ap => a1.type = ap.2 ∧ ConvertedToward ap.2 ap.1 a1)
            args1 (args.zip P)) ∧
      (¬ List.Forall₂ ArgumentFits args P →
        Checker.ReportedOnce invalid_arguments "" c (checkCall h id args c).2)) ∧
    ((h id).type ≠ CType.error → (h id).type.isFunction = false →
      checkCall h id args c = (.Call id args CType.error, report invalid_function "" c) ∧
      Checker.ReportedOnce invalid_function "" c (checkCall h id args c).2) := by
  refine ⟨?_, ?_, ?_⟩
  · intro s n ht
    have hne : (h id).type ≠ CType.error := by rw [ht]; simp [CType.error]
    simp only [checkCall, ht, ne_eq]
    rw [ht] at hne
    rw [if_pos hne]
    rfl
  · intro s n P ht
    have hne : CType.mk s n (.Function (some P)) ≠ CType.error := by simp [CType.error]
    by_cases hlen : P.length = args.length
    · obtain ⟨s1, i1, f1⟩ := checkArguments_spec args P c hlen.symm
      by_cases hflag : (checkArguments args P c).2.1 = true
      · have e : checkCall h id args c = (.Call id (checkArguments args P c).1 CType.error,
            report invalid_arguments "" (checkArguments args P c).2.2) := by
          simp only [checkCall, ht, ne_eq]
          rw [if_pos hne]
          simp only [CType.isFunction, CType.parameters, Bool.not_true, Bool.false_eq_true,
            if_false, hlen, not_true, hflag, if_true]
        have hnf : ¬ List.Forall₂ ArgumentFits args P := by
          intro hf
          rw [i1.2 hf] at hflag
          exact absurd hflag (by decide)
        refine ⟨?_, fun hf => absurd hf hnf, fun _ => ?_⟩
        · rw [e]
          exact ⟨fun hsil => absurd hsil (report_not_silent s1 _ _), fun hf => absurd hf hnf⟩
        · rw [e]
          exact report_after_silent s1 _ _
      · have hflag2 : (checkArguments args P c).2.1 = false := by simpa using hflag
        have e : checkCall h id args c = (.Call id (checkArguments args P c).1
            (.mk s n .Scalar), (checkArguments args P c).2.2) := by
          simp only [checkCall, ht, ne_eq]
          rw [if_pos hne]
          simp only [CType.isFunction, CType.parameters, Bool.not_true, Bool.false_eq_true,
            if_false, hlen, not_true, hflag2, CType.specifier, CType.indirection]
        have hf := i1.1 hflag2
        refine ⟨?_, fun _ => ⟨_, _, e, f1 hflag2⟩, fun hnf => absurd hf hnf⟩
        rw [e]
        exact ⟨fun _ => hf, fun _ => s1⟩
    · have e : checkCall h id args c = (.Call id args (.mk s n .Scalar),
          report invalid_arguments "" c) := by
        simp only [checkCall, ht, ne_eq]
        rw [if_pos hne]
        simp only [CType.isFunction, CType.parameters, Bool.not_true, Bool.false_eq_true,
          if_false, hlen, not_false_eq_true, if_true, CType.specifier, CType.indirection]
      have hnf : ¬ List.Forall₂ ArgumentFits args P :=
        fun hf => hlen hf.length_eq.symm
      refine ⟨?_, fun hf => absurd hf hnf, fun _ => ?_⟩
      · rw [e]
        exact ⟨fun hsil => absurd hsil (report_not_silent (Checker.Silent.silent_refl c) _ _),
          fun hf => absurd hf hnf⟩
      · rw [e]
        exact report_after_silent (Checker.Silent.silent_refl c) _ _
  · intro hne hnf
    have e : checkCall h id args c = (.Call id args CType.error, report invalid_function "" c) := by
      simp only [checkCall]
      rw [if_pos hne, hnf]
      rfl
    refine ⟨e, ?_⟩
    rw [e]
    exact report_after_silent (Checker.Silent.silent_refl c) _ _

/-- Witness of C14: for the unprototyped `int g()` and `int a[10]`, `g(a)` is
`Call(g, [Address(a)])` of type INT with nothing reported; for the prototyped
`int f(int)` and `double d`, `f(d)` reports nothing. -/
theorem C14_checkCall_witness :
    checkCall checkerHeap 2 [.Identifier 6 (.mk .INT 0 (.Array 10))] Checker.init =
      (.Call 2 [.Address (.Identifier 6 (.mk .INT 0 (.Array 10))) intPointer] CType.integer,
        Checker.init) ∧
    Checker.Silent Checker.init
      (checkCall checkerHeap 1 [.Identifier 5 CType.real] Checker.init).2 :=
  ⟨(C14_checkCall checkerHeap 2 [.Identifier 6 (.mk .INT 0 (.Array 10))] Checker.init).1
      .INT 0 rfl,
    ((C14_checkCall checkerHeap 1 [.Identifier 5 CType.real] Checker.init).2.1
      .INT 0 [CType.integer] rfl).1.2
      (List.Forall₂.cons (fun c => (convert_type _ _ c).trans (by decide)) List.Forall₂.nil)⟩

end Calls

section Comparisons

theorem promoteTo_type_ne_error (e : Expr) (t : CType) (c : Checker) (h : e.type ≠ CType.error) :
    (promoteTo e t c).1.type ≠ CType.error := by
  rw [promoteTo_type]
  split_ifs
  · decide
  · exact CType.promote_ne_error h

theorem checkCompare_valid (l r : Expr) (op : String) (c : Checker)
    (h1 : l.type ≠ CType.error) (h2 : r.type ≠ CType.error)
    (hok : (promoteTo l r.type c).1.type =
        (promoteTo r (promoteTo l r.type c).1.type (promoteTo l r.type c).2).1.type ∧
      (promoteTo l r.type c).1.type.isValue = true) :
    checkCompare l r op c = (⟨(promoteTo l r.type c).1,
      (promoteTo r (promoteTo l r.type c).1.type (promoteTo l r.type c).2).1, CType.integer⟩,
      (promoteTo r (promoteTo l r.type c).1.type (promoteTo l r.type c).2).2) := by
  have hg : (promoteTo l r.type c).1.type ≠ CType.error ∧
      (promoteTo r (promoteTo l r.type c).1.type (promoteTo l r.type c).2).1.type
        ≠ CType.error :=
    ⟨promoteTo_type_ne_error l _ c h1, promoteTo_type_ne_error r _ _ h2⟩
  simp only [checkCompare]
  rw [if_pos hg, if_pos hok]

theorem checkCompare_invalid (l r : Expr) (op : String) (c : Checker)
    (h1 : l.type ≠ CType.error) (h2 : r.type ≠ CType.error)
    (hbad : ¬ ((promoteTo l r.type c).1.type =
        (promoteTo r (promoteTo l r.type c).1.type (promoteTo l r.type c).2).1.type ∧
      (promoteTo l r.type c).1.type.isValue = true)) :
    checkCompare l r op c = (⟨(promoteTo l r.type c).1,
      (promoteTo r (promoteTo l r.type c).1.type (promoteTo l r.type c).2).1, CType.error⟩,
      report invalid_operands op
        (promoteTo r (promoteTo l r.type c).1.type (promoteTo l r.type c).2).2) := by
  have hg : (promoteTo l r.type c).1.type ≠ CType.error ∧
      (promoteTo r (promoteTo l r.type c).1.type (promoteTo l r.type c).2).1.type
        ≠ CType.error :=
    ⟨promoteTo_type_ne_error l _ c h1, promoteTo_type_ne_error r _ _ h2⟩
  simp only [checkCompare]
  rw [if_pos hg, if_neg hbad]

theorem CType.isValue_of_isNumeric {t : CType} (h : t.isNumeric = true) : t.isValue = true := by
  simp [CType.isValue, h]

/-- Claim C15: the six comparison checks on operands of types other than
ERROR.  With `l1`, `r1` the operands after array decay and int-to-double
cross-promotion (which reports nothing): the comparison is accepted, with a
node of type INT and nothing reported, iff the types of `l1` and `r1` are
identical and are a value type; otherwise `invalid operands to binary <op>` is
reported exactly once and the node has type ERROR.  Two numeric operands (INT
with DOUBLE among them) are accepted; a pointer with INT, in either order, is
rejected. -/
theorem C15_comparisons (l r : Expr) (c : Checker)
    (h1 : l.type ≠ CType.error) (h2 : r.type ≠ CType.error) :
    ∃ l1 r1 c1 c2, promoteTo l r.type c = (l1, c1) ∧ promoteTo r l1.type c1 = (r1, c2) ∧
      Checker.Silent c c2 ∧
      (∀ k ∈ comparisons,
        (l1.type = r1.type ∧ l1.type.isValue = true →
          k.check l r c = (k.node l1 r1 CType.integer, c2)) ∧
        (¬ (l1.type = r1.type ∧ l1.type.isValue = true) →
          k.check l r c = (k.node l1 r1 CType.error, report invalid_operands k.op c2) ∧
          Checker.ReportedOnce invalid_operands k.op c (k.check l r c).2)) ∧
      (l.type.isNumeric = true ∧ r.type.isNumeric = true →
        l1.type = r1.type ∧ l1.type.isValue = true) ∧
      (l.type.isPointer = true ∧ r.type = CType.integer →
        ¬ (l1.type = r1.type ∧ l1.type.isValue = true)) ∧
      (l.type = CType.integer ∧ r.type.isPointer = true →
        ¬ (l1.type = r1.type ∧ l1.type.isValue = true)) := by
  have hs := promoteTo_pair_silent l r c
  refine ⟨(promoteTo l r.type c).1,
    (promoteTo r (promoteTo l r.type c).1.type (promoteTo l r.type c).2).1,
    (promoteTo l r.type c).2,
    (promoteTo r (promoteTo l r.type c).1.type (promoteTo l r.type c).2).2,
    rfl, rfl, hs, ?_, ?_, ?_, ?_⟩
  · intro k hk
    simp only [comparisons, List.mem_cons, List.mem_singleton, List.not_mem_nil, or_false] at hk
    constructor
    · intro hok
      have e := fun op => checkCompare_valid l r op c h1 h2 hok
      rcases hk with rfl | rfl | rfl | rfl | rfl | rfl
      · simp only [checkEqual, e]
      · simp only [checkNotEqual, e]
      · simp only [checkLessThan, e]
      · simp only [checkGreaterThan, e]
      · simp only [checkLessOrEqual, e]
      · simp only [checkGreaterOrEqual, e]
    · intro hbad
      have e := fun op => checkCompare_invalid l r op c h1 h2 hbad
      have rep := fun op => report_after_silent hs invalid_operands op
      rcases hk with rfl | rfl | rfl | rfl | rfl | rfl
      · simp only [checkEqual, e]; exact ⟨trivial, rep _⟩
      · simp only [checkNotEqual, e]; exact ⟨trivial, rep _⟩
      · simp only [checkLessThan, e]; exact ⟨trivial, rep _⟩
      · simp only [checkGreaterThan, e]; exact ⟨trivial, rep _⟩
      · simp only [checkLessOrEqual, e]; exact ⟨trivial, rep _⟩
      · simp only [checkGreaterOrEqual, e]; exact ⟨trivial, rep _⟩
  · rintro ⟨hl, hr⟩
    obtain ⟨a, b, _⟩ := cross_promotion_brought l r c hl hr
    exact ⟨a.1.trans b.1.symm,
      CType.isValue_of_isNumeric (by rw [a.1]; exact arithmeticType_isNumeric _ _)⟩
  · rintro ⟨hp, hi⟩ ⟨he, _⟩
    rw [promoteTo_type r, promoteTo_type l] at he
    have hn1 : ¬ (l.type = CType.integer ∧ r.type = CType.real) := by
      rw [hi]; rintro ⟨_, h⟩; exact absurd h (by decide)
    rw [if_neg hn1] at he
    have hpp : l.type.promote = l.type := by
      rw [← promote_type, promote_of_isPointer hp]
    rw [hpp] at he
    have hn2 : ¬ (r.type = CType.integer ∧ l.type = CType.real) := by
      rintro ⟨_, h⟩; exact CType.ne_real_of_isPointer hp h
    rw [if_neg hn2, hi] at he
    exact CType.ne_integer_of_isPointer hp he
  · rintro ⟨hi, hp⟩ ⟨he, _⟩
    rw [promoteTo_type r, promoteTo_type l] at he
    have hn1 : ¬ (l.type = CType.integer ∧ r.type = CType.real) := by
      rintro ⟨_, h⟩; exact CType.ne_real_of_isPointer hp h
    rw [if_neg hn1, hi] at he
    have hn2 : ¬ (r.type = CType.integer ∧ CType.integer.promote = CType.real) := by
      rintro ⟨_, h⟩; exact absurd h (by decide)
    rw [if_neg hn2] at he
    have hpp : r.type.promote = r.type := by
      rw [← promote_type, promote_of_isPointer hp]
    rw [hpp] at he
    exact CType.ne_integer_of_isPointer hp he.symm

/-- Witness of C15: for `int n; double d`, `n < d` is
`LessThan(Cast(DOUBLE, n), d)` of type INT with nothing reported. -/
theorem C15_comparisons_witness :
    checkLessThan (.Identifier 4 CType.integer) (.Identifier 5 CType.real) Checker.init =
      (.LessThan (.Cast CType.real (.Identifier 4 CType.integer)) (.Identifier 5 CType.real)
        CType.integer, Checker.init) := by
  obtain ⟨l1, r1, c1, c2, e1, e2, _, hk, hnum, _, _⟩ := C15_comparisons
    (.Identifier 4 CType.integer) (.Identifier 5 CType.real) Checker.init (by decide) (by decide)
  have e := (hk ⟨"<", checkLessThan, .LessThan⟩ (by simp [comparisons])).1 (hnum ⟨rfl, rfl⟩)
  have e1a : (Expr.Cast CType.real (.Identifier 4 CType.integer), Checker.init) = (l1, c1) := e1
  obtain ⟨rfl, rfl⟩ := Prod.mk.inj e1a
  have e2a : (Expr.Identifier 5 CType.real, Checker.init) = (r1, c2) := e2
  obtain ⟨rfl, rfl⟩ := Prod.mk.inj e2a
  exact e

end Comparisons

section Casts

/-- Claim C16: `checkCast(T, e)` with `t` the type of `e` after array decay,
`t` not ERROR.  The cast is accepted, as `Cast(T, e1)` with nothing reported,
iff `T` and `t` are both numeric, or `T` is a pointer and `t` is a pointer or
INT, or `t` is a pointer and `T` is INT; in every other case
`invalid operand in cast expression` is reported once and the node has type
ERROR.  DOUBLE to a pointer and a pointer to DOUBLE are among the rejected. -/
theorem C16_checkCast (T : CType) (e : Expr) (c : Checker)
    (ht : (promote e).type ≠ CType.error) :
    (CastAllowed T (promote e).type → checkCast T e c = (.Cast T (promote e), c)) ∧
    (¬ CastAllowed T (promote e).type →
      checkCast T e c = (.Cast CType.error (promote e), report invalid_cast "" c) ∧
      Checker.ReportedOnce invalid_cast "" c (checkCast T e c).2) ∧
    ((promote e).type = CType.real ∧ T.isPointer = true → ¬ CastAllowed T (promote e).type) ∧
    ((promote e).type.isPointer = true ∧ T = CType.real → ¬ CastAllowed T (promote e).type) := by
  refine ⟨?_, ?_, ?_, ?_⟩
  · intro hok
    simp only [checkCast]
    rw [if_pos ht]
    rcases hok with h | h | h
    · rw [if_pos h]
    · by_cases h1 : T.isNumeric = true ∧ (promote e).type.isNumeric = true
      · rw [if_pos h1]
      · rw [if_neg h1, if_pos h]
    · by_cases h1 : T.isNumeric = true ∧ (promote e).type.isNumeric = true
      · rw [if_pos h1]
      · by_cases h2 : T.isPointer = true ∧
            ((promote e).type.isPointer = true ∨ (promote e).type = CType.integer)
        · rw [if_neg h1, if_pos h2]
        · rw [if_neg h1, if_neg h2, if_pos h]
  · intro hbad
    have h1 : ¬ (T.isNumeric = true ∧ (promote e).type.isNumeric = true) :=
      fun h => hbad (Or.inl h)
    have h2 : ¬ (T.isPointer = true ∧
        ((promote e).type.isPointer = true ∨ (promote e).type = CType.integer)) :=
      fun h => hbad (Or.inr (Or.inl h))
    have h3 : ¬ ((promote e).type.isPointer = true ∧ T = CType.integer) :=
      fun h => hbad (Or.inr (Or.inr h))
    have e1 : checkCast T e c = (.Cast CType.error (promote e), report invalid_cast "" c) := by
      simp only [checkCast]
      rw [if_pos ht, if_neg h1, if_neg h2, if_neg h3]
    refine ⟨e1, ?_⟩
    rw [e1]
    exact report_after_silent (Checker.Silent.silent_refl c) _ _
  · rintro ⟨hr, hp⟩ hok
    rw [hr] at hok
    rcases hok with h | h | h
    · rw [CType.not_isNumeric_of_isPointer hp] at h
      exact absurd h.1 (by decide)
    · rcases h.2 with h | h
      · exact absurd h (by decide)
      · exact absurd h (by decide)
    · exact absurd h.1 (by decide)
  · rintro ⟨hp, hr⟩ hok
    subst hr
    rcases hok with h | h | h
    · rw [CType.not_isNumeric_of_isPointer hp] at h
      exact absurd h.2 (by decide)
    · exact absurd h.1 (by decide)
    · exact absurd h.2 (by decide)

/-- Witness of C16: for `int a[10]`, `(int) a` is accepted as
`Cast(INT, Address(a))`, and `(double) a` is rejected. -/
theorem C16_checkCast_witness :
    checkCast CType.integer (.Identifier 6 (.mk .INT 0 (.Array 10))) Checker.init =
      (.Cast CType.integer (.Address (.Identifier 6 (.mk .INT 0 (.Array 10))) intPointer),
        Checker.init) ∧
    (checkCast CType.real (.Identifier 6 (.mk .INT 0 (.Array 10))) Checker.init).2.diagnostics =
      [(invalid_cast, "")] := by
  have h := fun T => C16_checkCast T (.Identifier 6 (.mk .INT 0 (.Array 10))) Checker.init
    (by decide)
  refine ⟨(h CType.integer).1 (Or.inr (Or.inr ⟨by decide, rfl⟩)), ?_⟩
  exact (((h CType.real).2.1 ((h CType.real).2.2.2 ⟨by decide, rfl⟩)).2).2

end Casts

section IntToDouble

/-- Claim C17: promotion of an expression `e` toward a type `t`.  When `e`
has type INT and `t` is DOUBLE: an `Integer` literal with text `v` becomes a
`Real` literal with the same text (no `Cast`), any other expression becomes
`Cast(DOUBLE, e)`.  When the type of `e` is not INT or `t` is not DOUBLE, no
`Cast` is added: the result is `e` itself, or `Address(e)` for an array. -/
theorem C17_promote_int_to_double (e : Expr) (t : CType) (c : Checker) :
    (e.type = CType.integer ∧ t = CType.real →
      (∀ v, e = .Integer v → ∃ k, (promoteTo e t c).1 = .Real v k) ∧
      ((∀ v, e ≠ .Integer v) → promoteTo e t c = (.Cast CType.real e, c))) ∧
    (¬ (e.type = CType.integer ∧ t = CType.real) →
      promoteTo e t c = (promote e, c) ∧
      (promote e = e ∨ (e.type.isArray = true ∧ promote e = .Address e e.type.promote))) := by
  constructor
  · rintro ⟨he, rfl⟩
    obtain ⟨_, hp, _⟩ := promoteTo_integer_real e c he
    constructor
    · rintro v rfl
      rcases hp with ⟨v1, k, h1, h2⟩ | ⟨h1, _⟩
      · cases h1
        exact ⟨k, h2⟩
      · exact absurd rfl (h1 v)
    · intro hne
      rcases hp with ⟨v1, k, h1, _⟩ | ⟨_, h2⟩
      · exact absurd h1 (hne v1)
      · unfold promoteTo
        rw [if_pos ⟨he, rfl⟩]
        cases e
        case Integer => exact absurd rfl (hne _)
        all_goals rfl
  · intro hn
    refine ⟨promoteTo_of_not e t c hn, ?_⟩
    unfold promote
    by_cases ha : e.type.isArray = true
    · rw [if_pos ha]; exact Or.inr ⟨ha, rfl⟩
    · rw [if_neg ha]; exact Or.inl rfl

/-- Witness of C17: in `return 1 + 2.0;` the literal `2.0` is read first
(label `.fp0`), then `checkAdd` rewrites the literal `1` into the `Real`
literal `1` (label `.fp1`): the tree is `Add(Real 1, Real 2.0)` of type DOUBLE,
and the code of the addition is `fldl`, `faddl`, `fstpl`. -/
theorem C17_promote_int_to_double_witness :
    (∃ k, (promoteTo (.Integer "1") CType.real (newReal "2.0" Checker.init).2).1 =
      .Real "1" k) ∧
    (checkAdd (.Integer "1") (.Real "2.0" 0) (newReal "2.0" Checker.init).2).map Prod.fst =
      some (.Add (.Real "1" 1) (.Real "2.0" 0) CType.real) ∧
    ((Expr.Add (.Real "1" 1) (.Real "2.0" 0) CType.real).generate exampleE5Heap
        Generator.init).map (fun x => x.2.cout) =
      some ["\n#addition time y'all! :) <3\n", "#float the boat with plussesssszzzz <3<3\n",
        "\tfldl\t.fp1\n", "\tfaddl\t.fp0\n", "\tfstpl\t-8(%ebp)\n"] :=
  ⟨((C17_promote_int_to_double (.Integer "1") CType.real (newReal "2.0" Checker.init).2).1
      ⟨rfl, rfl⟩).1 "1" rfl, rfl, by decide⟩

end IntToDouble

section Conversion

/-- Claim C18 as stated fails for an expression of an array type `T`
converted to `T` itself: for `int a[10]`, `a` has type `int[10]` already, and
`convert(a, int[10])` decays it and returns `int *`, which is not `int[10]`. -/
theorem C18_convert_array_to_itself :
    Convertible (.Identifier 6 (.mk .INT 0 (.Array 10))) (.mk .INT 0 (.Array 10)) ∧
    (convert (.Identifier 6 (.mk .INT 0 (.Array 10))) (.mk .INT 0 (.Array 10))
      Checker.init).1.type = intPointer ∧
    (convert (.Identifier 6 (.mk .INT 0 (.Array 10))) (.mk .INT 0 (.Array 10))
      Checker.init).1.type ≠ .mk .INT 0 (.Array 10) :=
  ⟨Or.inr (Or.inl rfl), by decide, by decide⟩

theorem convert_of_convertible (e : Expr) (T : CType) (c : Checker)
    (hc : Convertible e T) (hna : T.isArray = false) : (convert e T c).1.type = T := by
  rw [convert_type]
  rcases hc with ⟨h1, h2⟩ | h | ⟨s, i, n, h1, h2⟩
  · rcases (CType.isNumeric_iff _).1 h1 with h1 | h1 <;>
      rcases (CType.isNumeric_iff _).1 h2 with h2 | h2 <;> rw [h1, h2] <;> decide
  · subst h
    have a : ¬ (e.type = CType.real ∧ e.type = CType.integer) := by
      rintro ⟨x, y⟩; exact absurd (x.symm.trans y) (by decide)
    have b : ¬ (e.type = CType.integer ∧ e.type = CType.real) := by
      rintro ⟨x, y⟩; exact absurd (x.symm.trans y) (by decide)
    rw [if_neg a, if_neg b]
    rcases ht : e.type with ⟨s, i, k⟩
    rw [ht] at hna
    cases k
    · rfl
    · exact absurd hna (by simp [CType.isArray])
    · rfl
  · rw [h1, h2]
    simp [CType.promote, CType.real, CType.integer]

/-- Claim C18, amended: for an expression `e` and a type `T`, not an array
type, such that `e` is convertible to `T` (both in {INT, DOUBLE}, or `e` of
type `T` already, or `e` an array of element type `E` with `T` the pointer to
`E`), `convert(e, T)` leaves `e` a node of type `T`, the type it returns, and
reports nothing.  `checkReturn` reports `invalid return type` (once) iff the
converted type is neither ERROR nor the return type, and nothing otherwise; so
it reports nothing for such an `e`. -/
theorem C18_convert (e : Expr) (T : CType) (c : Checker) :
    (Convertible e T → T.isArray = false →
      (convert e T c).1.type = T ∧ Checker.Silent c (convert e T c).2 ∧
      checkReturn e T c = convert e T c) ∧
    (Checker.ReportedOnce invalid_return "" c (checkReturn e T c).2 ↔
      (convert e T c).1.type ≠ CType.error ∧ (convert e T c).1.type ≠ T) ∧
    (¬ ((convert e T c).1.type ≠ CType.error ∧ (convert e T c).1.type ≠ T) →
      Checker.Silent c (checkReturn e T c).2) ∧
    (checkReturn e T c).1 = (convert e T c).1 := by
  have hs := convert_silent e T c
  refine ⟨?_, ?_, ?_, ?_⟩
  · intro hc hna
    have ht := convert_of_convertible e T c hc hna
    refine ⟨ht, hs, ?_⟩
    simp only [checkReturn]
    rw [if_neg (fun h => h.2 ht)]
  · by_cases h : (convert e T c).1.type ≠ CType.error ∧ (convert e T c).1.type ≠ T
    · simp only [checkReturn]
      rw [if_pos h]
      exact ⟨fun _ => h, fun _ => report_after_silent hs _ _⟩
    · simp only [checkReturn]
      rw [if_neg h]
      constructor
      · intro hr
        have h1 := hr.1
        have h2 := hs.1
        omega
      · intro hh
        exact absurd hh h
  · intro h
    simp only [checkReturn]
    rw [if_neg h]
    exact hs
  · simp only [checkReturn]
    split_ifs <;> rfl

/-- Witness of C18: for `double d`, `convert(d, INT)` is `Cast(INT, d)` of
type INT. -/
theorem C18_convert_witness :
    (convert (.Identifier 5 CType.real) CType.integer Checker.init).1.type = CType.integer ∧
    checkReturn (.Identifier 5 CType.real) CType.integer Checker.init =
      (.Cast CType.integer (.Identifier 5 CType.real), Checker.init) := by
  obtain ⟨h1, _, h3⟩ := (C18_convert (.Identifier 5 CType.real) CType.integer Checker.init).1
    (Or.inl ⟨rfl, rfl⟩) rfl
  exact ⟨h1, h3.trans rfl⟩

end Conversion

section ScopeLists

theorem map_eraseP_eq_erase {α β : Type} [DecidableEq β] (f : α → β) (b : β) (l : List α) :
    (l.eraseP fun x => decide (f x = b)).map f = (l.map f).erase b := by
  induction l with
  | nil => rfl
  | cons a l ih =>
    by_cases h : f a = b
    · simp [List.eraseP_cons, List.erase_cons, h]
    · simp [List.eraseP_cons, List.erase_cons, h, ih]

/-- An element with property `P` at place `k` of a list is still there, with
property `Q`, after one element of the list was changed, if `P` gives `Q` on
the elements that stay and across the change. -/
theorem getElem?_replace {α : Type} (P Q : α → Prop) (s s1 : α) :
    ∀ (A B : List α) (k : Nat), (∀ x ∈ A ++ B, P x → Q x) → (P s → Q s1) →
      (∃ x, (A ++ s :: B)[k]? = some x ∧ P x) → ∃ y, (A ++ s1 :: B)[k]? = some y ∧ Q y
  | [], B, 0, _, hs, ⟨x, hx, px⟩ => by
    simp only [List.nil_append, List.getElem?_cons_zero, Option.some.injEq] at hx
    subst hx
    exact ⟨s1, by simp, hs px⟩
  | [], B, k + 1, hAB, _, ⟨x, hx, px⟩ => by
    simp only [List.nil_append, List.getElem?_cons_succ] at hx
    exact ⟨x, by simpa using hx, hAB x (List.getElem?_mem hx) px⟩
  | a :: A, B, 0, hAB, _, ⟨x, hx, px⟩ => by
    simp only [List.cons_append, List.getElem?_cons_zero, Option.some.injEq] at hx
    subst hx
    exact ⟨a, by simp, hAB a (List.mem_cons_self _ _) px⟩
  | a :: A, B, k + 1, hAB, hs, ⟨x, hx, px⟩ => by
    simp only [List.cons_append, List.getElem?_cons_succ] at hx
    obtain ⟨y, hy, qy⟩ := getElem?_replace P Q s s1 A B k
      (fun z hz => hAB z (List.mem_cons_of_mem _ hz)) hs ⟨x, hx, px⟩
    exact ⟨y, by simpa using hy, qy⟩

theorem Table.NamesKept.refl (t : Table) : t.NamesKept t := ⟨le_refl _, fun _ _ => rfl⟩

theorem Table.NamesKept.names {t t1 : Table} (hk : t.NamesKept t1) {scope : Scope}
    (ha : ∀ x ∈ scope.symbols, x < t.next) : scope.names t1.heap = scope.names t.heap :=
  List.map_congr_left fun x hx => hk.2 x (ha x hx)

theorem Table.newSymbol_namesKept (t : Table) (name : String) (type : CType) :
    t.NamesKept (t.newSymbol name type).2 := by
  refine ⟨Nat.le_succ _, fun x hx => ?_⟩
  simp only [Table.newSymbol, if_neg (Nat.ne_of_lt hx)]

theorem Table.newSymbol_heap (t : Table) (name : String) (type : CType) :
    (t.newSymbol name type).2.heap (t.newSymbol name type).1 = ⟨name, type, 0⟩ := by
  simp [Table.newSymbol, Symbol.new]

theorem Scope.find_eq_none_iff (h : Heap) (scope : Scope) (name : String) :
    scope.find h name = none ↔ name ∉ scope.names h := by
  simp only [Scope.find, Scope.names, List.find?_eq_none, decide_eq_true_eq, List.mem_map,
    not_exists, not_and]

/-- The statements shared by the declare functions, on a scope of allocated
symbols: the new symbol is the next handle, the scope loses the entry of that
name if it had one and gains the new symbol, and the redeclaration is reported
iff the scope had an entry of that name. -/
theorem declareIn_spec (format : String) (scope : Scope) (name : String) (type : CType)
    (t : Table) (c : Checker) (ha : ∀ x ∈ scope.symbols, x < t.next) :
    (declareIn format scope name type t c).symbol = t.next ∧
    (declareIn format scope name type t c).table = (t.newSymbol name type).2 ∧
    (declareIn format scope name type t c).scope.symbols =
      scope.symbols.eraseP (fun x => (t.heap x).name = name) ++ [t.next] ∧
    (declareIn format scope name type t c).scope.names (t.newSymbol name type).2.heap =
      (scope.names t.heap).erase name ++ [name] ∧
    (name ∈ scope.names t.heap →
      (declareIn format scope name type t c).checker = report format name c) ∧
    (name ∉ scope.names t.heap → (declareIn format scope name type t c).checker = c) := by
  have hsym : (declareIn format scope name type t c).scope.symbols =
      scope.symbols.eraseP (fun x => (t.heap x).name = name) ++ [t.next] := by
    unfold declareIn
    cases hf : scope.find t.heap name with
    | some x => rfl
    | none =>
      have hnone : ∀ x ∈ scope.symbols, ¬ (decide ((t.heap x).name = name) = true) := by
        simpa [Scope.find] using hf
      simp only [Scope.insert, Table.newSymbol, List.eraseP_of_forall_not hnone]
  refine ⟨?_, ?_, hsym, ?_, ?_, ?_⟩
  · unfold declareIn
    cases scope.find t.heap name <;> rfl
  · unfold declareIn
    cases scope.find t.heap name <;> rfl
  · have hk := Table.newSymbol_namesKept t name type
    simp only [Scope.names, hsym, List.map_append, List.map_cons, List.map_nil]
    congr 1
    · rw [← map_eraseP_eq_erase]
      exact List.map_congr_left fun x hx => hk.2 x (ha x (List.mem_of_mem_eraseP hx))
    · simp [Table.newSymbol, Symbol.new]
  · intro hin
    unfold declareIn
    cases hf : scope.find t.heap name with
    | some x => rfl
    | none => exact absurd hin ((Scope.find_eq_none_iff _ _ _).1 hf)
  · intro hnin
    unfold declareIn
    cases hf : scope.find t.heap name with
    | some x =>
      have := (Scope.find_eq_none_iff t.heap scope name).2 hnin
      rw [hf] at this
      exact absurd this (by simp)
    | none => rfl

end ScopeLists

section ScopeSteps

theorem Scopes.chain_subset_all (ss : Scopes) : ∀ s ∈ ss.chain, s ∈ ss.all := by
  cases ss with
  | unopened => intro s hs; simp [Scopes.chain] at hs
  | opened o a inner =>
    intro s hs
    cases a
    · simp only [Scopes.chain, Bool.false_eq_true, if_false] at hs
      simp only [Scopes.all, List.mem_append]
      exact Or.inl hs
    · simpa [Scopes.chain, Scopes.all] using hs

theorem Scopes.setToplevel_replaced (ss : Scopes) (s s1 : Scope) (h : ss.toplevel = some s) :
    ss.Replaced (ss.setToplevel s1) s s1 ∧ (ss.setToplevel s1).toplevel = some s1 := by
  cases ss with
  | unopened => simp [Scopes.toplevel, Scopes.chain] at h
  | opened o a inner =>
    cases inner with
    | nil =>
      cases a
      · simp [Scopes.toplevel, Scopes.chain] at h
      · simp only [Scopes.toplevel, Scopes.chain, if_true, List.nil_append, List.head?_cons,
          Option.some.injEq] at h
        subst h
        exact ⟨⟨⟨[], [], rfl, rfl⟩, Or.inl ⟨[], [], rfl, rfl⟩⟩, rfl⟩
    | cons x inner =>
      have hx : x = s := by
        cases a <;> simpa [Scopes.toplevel, Scopes.chain] using h
      subst hx
      cases a
      · exact ⟨⟨⟨[], inner ++ [o], rfl, rfl⟩, Or.inl ⟨[], inner, rfl, rfl⟩⟩, rfl⟩
      · exact ⟨⟨⟨[], inner ++ [o], rfl, rfl⟩, Or.inl ⟨[], inner ++ [o], rfl, rfl⟩⟩, rfl⟩

theorem Scopes.setToplevel_chain {ss : Scopes} {s : Scope} {rest : List Scope} (s1 : Scope)
    (h : ss.chain = s :: rest) : (ss.setToplevel s1).chain = s1 :: rest := by
  cases ss with
  | unopened => simp [Scopes.chain] at h
  | opened o a inner =>
    cases inner with
    | nil =>
      cases a
      · simp [Scopes.chain] at h
      · simp only [Scopes.chain, if_true, List.nil_append, List.cons.injEq] at h
        obtain ⟨rfl, rfl⟩ := h
        rfl
    | cons x inner =>
      cases a
      · simp only [Scopes.chain, Bool.false_eq_true, if_false, List.cons.injEq] at h
        obtain ⟨rfl, rfl⟩ := h
        rfl
      · simp only [Scopes.chain, if_true, List.cons_append, List.cons.injEq] at h
        obtain ⟨rfl, rfl⟩ := h
        rfl

theorem Scopes.setOutermost_replaced (ss : Scopes) (s s1 : Scope) (h : ss.outermost = some s) :
    ss.Replaced (ss.setOutermost s1) s s1 ∧ (ss.setOutermost s1).outermost = some s1 := by
  cases ss with
  | unopened => simp [Scopes.outermost] at h
  | opened o a inner =>
    simp only [Scopes.outermost, Option.some.injEq] at h
    subst h
    refine ⟨⟨⟨inner, [], rfl, rfl⟩, ?_⟩, rfl⟩
    cases a
    · exact Or.inr rfl
    · exact Or.inl ⟨inner, [], rfl, rfl⟩

theorem Scopes.Replaced.mem {ss ss1 : Scopes} {s s1 : Scope} (hr : ss.Replaced ss1 s s1) :
    s ∈ ss.all := by
  obtain ⟨⟨A, B, e, _⟩, _⟩ := hr
  rw [e]
  simp

theorem Table.allocated_replaced {t t1 : Table} {s s1 : Scope} (hA : t.Allocated)
    (hr : t.scopes.Replaced t1.scopes s s1) (hn : t.next ≤ t1.next)
    (h1 : ∀ x ∈ s1.symbols, x < t1.next) : t1.Allocated := by
  obtain ⟨⟨A, B, e, e1⟩, _⟩ := hr
  intro scope hscope x hx
  rw [e1] at hscope
  rcases List.mem_append.1 hscope with h | h
  · exact lt_of_lt_of_le (hA scope (by rw [e]; exact List.mem_append_left _ h) x hx) hn
  · rcases List.mem_cons.1 h with h | h
    · subst h
      exact h1 x hx
    · exact lt_of_lt_of_le
        (hA scope (by rw [e]; exact List.mem_append_right _ (List.mem_cons_of_mem _ h)) x hx) hn

theorem Table.noDuplicates_replaced {t t1 : Table} {s s1 : Scope} (hA : t.Allocated)
    (hN : t.NoDuplicates) (hr : t.scopes.Replaced t1.scopes s s1) (hk : t.NamesKept t1)
    (h2 : (s1.names t1.heap).Nodup) : t1.NoDuplicates := by
  obtain ⟨⟨A, B, e, e1⟩, _⟩ := hr
  intro scope hscope
  rw [e1] at hscope
  have old : scope ∈ t.scopes.all → (scope.names t1.heap).Nodup := by
    intro hin
    rw [hk.names (hA scope hin)]
    exact hN scope hin
  rcases List.mem_append.1 hscope with h | h
  · exact old (by rw [e]; exact List.mem_append_left _ h)
  · rcases List.mem_cons.1 h with h | h
    · subst h
      exact h2
    · exact old (by rw [e]; exact List.mem_append_right _ (List.mem_cons_of_mem _ h))

/-- A table whose scopes and names are kept keeps `NamedAt`. -/
theorem NamedAt.kept {name : String} {k : Nat} {t t1 : Table} (hA : t.Allocated)
    (hc : t1.scopes.chain = t.scopes.chain) (hk : t.NamesKept t1) (h : NamedAt name k t) :
    NamedAt name k t1 := by
  obtain ⟨scope, hs, hn⟩ := h
  refine ⟨scope, by rw [hc]; exact hs, ?_⟩
  have hin : scope ∈ t.scopes.all :=
    t.scopes.chain_subset_all scope (List.mem_reverse.1 (List.getElem?_mem hs))
  rw [hk.names (hA scope hin)]
  exact hn

theorem NamedAt.replaced {name : String} {k : Nat} {t t1 : Table} {s s1 : Scope}
    (hA : t.Allocated) (hr : t.scopes.Replaced t1.scopes s s1) (hk : t.NamesKept t1)
    (hs : name ∈ s.names t.heap → name ∈ s1.names t1.heap) (h : NamedAt name k t) :
    NamedAt name k t1 := by
  rcases hr.2 with ⟨A, B, e, e1⟩ | hc
  · unfold NamedAt at h ⊢
    rw [e, List.reverse_append, List.reverse_cons, List.append_assoc, List.singleton_append] at h
    rw [e1, List.reverse_append, List.reverse_cons, List.append_assoc, List.singleton_append]
    refine getElem?_replace (fun x => name ∈ x.names t.heap) (fun x => name ∈ x.names t1.heap)
      s s1 B.reverse A.reverse k ?_ hs h
    intro x hx hn
    have hin : x ∈ t.scopes.all := by
      apply t.scopes.chain_subset_all
      rw [e]
      rcases List.mem_append.1 hx with hx | hx
      · exact List.mem_append_right _ (List.mem_cons_of_mem _ (List.mem_reverse.1 hx))
      · exact List.mem_append_left _ (List.mem_reverse.1 hx)
    rw [hk.names (hA x hin)]
    exact hn
  · exact NamedAt.kept hA hc hk h

theorem filter_eq_singleton_of_nodup_map {α β : Type} [DecidableEq β] (f : α → β) (b : β) (a : α) :
    ∀ (l : List α), (l.map f).Nodup → a ∈ l → f a = b →
      l.filter (fun x => decide (f x = b)) = [a]
  | [], _, h, _ => by simp at h
  | x :: l, hn, h, hb => by
    rw [List.map_cons, List.nodup_cons] at hn
    rcases List.mem_cons.1 h with h | h
    · subst h
      have : l.filter (fun x => decide (f x = b)) = [] := by
        rw [List.filter_eq_nil_iff]
        intro y hy hfy
        apply hn.1
        rw [hb, ← of_decide_eq_true hfy]
        exact List.mem_map_of_mem f hy
      simp [List.filter_cons, hb, this]
    · have hx : f x ≠ b := by
        intro hxb
        apply hn.1
        rw [hxb, ← hb]
        exact List.mem_map_of_mem f h
      simp [List.filter_cons, hx, filter_eq_singleton_of_nodup_map f b a l hn.2 h hb]

theorem nodup_erase_append {l : List String} (h : l.Nodup) (name : String) :
    (l.erase name ++ [name]).Nodup := by
  rw [List.nodup_append]
  refine ⟨h.erase name, List.nodup_singleton _, ?_⟩
  intro x hx hx1
  rw [List.mem_singleton] at hx1
  subst hx1
  exact h.not_mem_erase hx

/-- What the statements shared by the declare functions do to a table without
duplicates, on a scope `scope` that `target` reaches and `set` changes. -/
theorem declared_spec (format name : String) (T : CType) (t : Table) (c : Checker)
    (scope : Scope) (target : Scopes → Option Scope) (set : Scopes → Scope → Scopes)
    (hset : ∀ s1, t.scopes.Replaced (set t.scopes s1) scope s1 ∧
      target (set t.scopes s1) = some s1)
    (hA : t.Allocated) (hN : t.NoDuplicates) (t1 : Table)
    (ht1 : t1 = { (declareIn format scope name T t c).table with
      scopes := set t.scopes (declareIn format scope name T t c).scope }) :
    DeclaredAs format name T t c scope target
      (some ((declareIn format scope name T t c).symbol, t1,
        (declareIn format scope name T t c).checker)) ∧
    t1.Allocated ∧ t1.NoDuplicates ∧ t.NamesKept t1 ∧
    t.scopes.Replaced t1.scopes scope (declareIn format scope name T t c).scope ∧
    (∀ n, n ∈ scope.names t.heap →
      n ∈ (declareIn format scope name T t c).scope.names t1.heap) := by
  have hin : scope ∈ t.scopes.all := (hset scope).1.mem
  obtain ⟨e1, e2, e3, e4, e5, e6⟩ := declareIn_spec format scope name T t c (hA scope hin)
  have hheap : t1.heap = (t.newSymbol name T).2.heap := by rw [ht1, e2]
  have hnext : t1.next = t.next + 1 := by rw [ht1, e2]; rfl
  have hscopes : t1.scopes = set t.scopes (declareIn format scope name T t c).scope := by
    rw [ht1]
  have hk : t.NamesKept t1 := by
    have := Table.newSymbol_namesKept t name T
    exact ⟨by rw [hnext]; exact Nat.le_succ _, fun x hx => by rw [hheap]; exact this.2 x hx⟩
  have hr : t.scopes.Replaced t1.scopes scope (declareIn format scope name T t c).scope := by
    rw [hscopes]; exact (hset _).1
  have hnames : (declareIn format scope name T t c).scope.names t1.heap =
      (scope.names t.heap).erase name ++ [name] := by rw [hheap]; exact e4
  have hnd : ((declareIn format scope name T t c).scope.names t1.heap).Nodup := by
    rw [hnames]; exact nodup_erase_append (hN scope hin) name
  have hlt : ∀ x ∈ (declareIn format scope name T t c).scope.symbols, x < t1.next := by
    intro x hx
    rw [e3] at hx
    rw [hnext]
    rcases List.mem_append.1 hx with hx | hx
    · exact Nat.lt_succ_of_lt (hA scope hin x (List.mem_of_mem_eraseP hx))
    · rw [List.mem_singleton.1 hx]; exact Nat.lt_succ_self _
  have hsym : t1.heap (declareIn format scope name T t c).symbol = ⟨name, T, 0⟩ := by
    rw [hheap, e1]; exact Table.newSymbol_heap t name T
  refine ⟨⟨_, _, _, _, rfl, by rw [hscopes]; exact (hset _).2, ?_, hsym, ?_, e6⟩,
    Table.allocated_replaced hA hr hk.1 hlt, Table.noDuplicates_replaced hA hN hr hk hnd, hk, hr,
    ?_⟩
  · apply filter_eq_singleton_of_nodup_map (fun x => (t1.heap x).name) name _ _ hnd
    · rw [e3, e1]; simp
    · rw [hsym]
  · intro hmem
    rw [e5 hmem]
    exact report_after_silent (Checker.Silent.silent_refl c) _ _
  · intro n hn
    rw [hnames]
    by_cases h : n = name
    · subst h; simp
    · exact List.mem_append_left _ ((List.mem_erase_of_ne h).2 hn)

end ScopeSteps

section ScopeRuns

theorem openScope_spec (t : Table) :
    (openScope t).scopes.chain = ⟨[]⟩ :: t.scopes.chain ∧
    (openScope t).scopes.all = ⟨[]⟩ :: t.scopes.all ∧
    (openScope t).heap = t.heap ∧ (openScope t).next = t.next := by
  rcases t with ⟨h, n, ss⟩
  cases ss with
  | unopened => exact ⟨rfl, rfl, rfl, rfl⟩
  | opened o a inner => cases a <;> exact ⟨rfl, rfl, rfl, rfl⟩

theorem closeScope_spec {t t1 : Table} {scope : Scope} (h : closeScope t = some (scope, t1)) :
    t.scopes.chain = scope :: t1.scopes.chain ∧ (∀ s ∈ t1.scopes.all, s ∈ t.scopes.all) ∧
    t1.heap = t.heap ∧ t1.next = t.next := by
  rcases t with ⟨hp, n, ss⟩
  cases ss with
  | unopened => simp [closeScope] at h
  | opened o a inner =>
    cases inner with
    | nil =>
      cases a
      · simp [closeScope] at h
      · simp only [closeScope, Option.some.injEq, Prod.mk.injEq] at h
        obtain ⟨rfl, rfl⟩ := h
        exact ⟨rfl, fun _ hs => hs, rfl, rfl⟩
    | cons x inner =>
      simp only [closeScope, Option.some.injEq, Prod.mk.injEq] at h
      obtain ⟨rfl, rfl⟩ := h
      cases a <;> exact ⟨rfl, fun _ hs => List.mem_cons_of_mem _ hs, rfl, rfl⟩

theorem lookup_eq_none_iff (h : Heap) (name : String) :
    ∀ chain : List Scope, lookup h chain name = none ↔ ∀ s ∈ chain, name ∉ s.names h
  | [] => by simp [lookup]
  | scope :: chain => by
    unfold lookup
    cases hf : scope.find h name with
    | some x =>
      have : ¬ (name ∉ scope.names h) := by
        intro hn
        rw [(Scope.find_eq_none_iff h scope name).2 hn] at hf
        exact absurd hf (by simp)
      simp [this]
    | none =>
      have hn := (Scope.find_eq_none_iff h scope name).1 hf
      simp [hn, lookup_eq_none_iff h name chain]

theorem lookup_name (h : Heap) (name : String) :
    ∀ (chain : List Scope) (x : Nat), lookup h chain name = some x →
      (h x).name = name ∧ ∃ s ∈ chain, x ∈ s.symbols
  | [], x, e => by simp [lookup] at e
  | scope :: chain, x, e => by
    unfold lookup at e
    cases hf : scope.find h name with
    | some y =>
      rw [hf] at e
      simp only [Option.some.injEq] at e
      subst e
      exact ⟨by simpa using List.find?_some hf, scope, List.mem_cons_self _ _,
        List.mem_of_find?_eq_some hf⟩
    | none =>
      rw [hf] at e
      obtain ⟨a, s, hs, hx⟩ := lookup_name h name chain x e
      exact ⟨a, s, List.mem_cons_of_mem _ hs, hx⟩

theorem Scopes.chain_of_toplevel {ss : Scopes} {scope : Scope} (h : ss.toplevel = some scope) :
    ∃ rest, ss.chain = scope :: rest := by
  unfold Scopes.toplevel at h
  cases hc : ss.chain with
  | nil => rw [hc] at h; simp at h
  | cons x rest =>
    rw [hc] at h
    simp only [List.head?_cons, Option.some.injEq] at h
    exact ⟨rest, by rw [h]⟩

theorem declareFunction_eq {name : String} {T : CType} {t : Table} {c : Checker} {scope : Scope}
    (h : t.scopes.outermost = some scope) :
    declareFunction name T t c =
      some ((declareIn redeclared_function scope name T t c).symbol,
        { (declareIn redeclared_function scope name T t c).table with
          scopes := t.scopes.setOutermost (declareIn redeclared_function scope name T t c).scope },
        (declareIn redeclared_function scope name T t c).checker) := by
  simp only [declareFunction, h]

theorem declareVariable_eq {name : String} {T : CType} {t : Table} {c : Checker} {scope : Scope}
    (h : t.scopes.toplevel = some scope) :
    declareVariable name T t c =
      some ((declareIn redeclared_variable scope name T t c).symbol,
        { (declareIn redeclared_variable scope name T t c).table with
          scopes := t.scopes.setToplevel (declareIn redeclared_variable scope name T t c).scope },
        (declareIn redeclared_variable scope name T t c).checker) := by
  simp only [declareVariable, h]

theorem declareParameter_eq {name : String} {T : CType} {t : Table} {c : Checker} {scope : Scope}
    (h : t.scopes.toplevel = some scope) :
    declareParameter name T t c =
      some ((declareIn redeclared_parameter scope name T t c).symbol,
        { (declareIn redeclared_parameter scope name T t c).table with
          scopes := t.scopes.setToplevel (declareIn redeclared_parameter scope name T t c).scope },
        (declareIn redeclared_parameter scope name T t c).checker) := by
  simp only [declareParameter, h]

/-- The two outcomes of `checkIdentifier` on a table with a current scope. -/
theorem checkIdentifier_spec (name : String) (t : Table) (c : Checker) (scope : Scope)
    (htop : t.scopes.toplevel = some scope) (hA : t.Allocated) (hN : t.NoDuplicates) :
    (∀ x, lookup t.heap t.scopes.chain name = some x →
      checkIdentifier name t c = some (x, t, c)) ∧
    (lookup t.heap t.scopes.chain name = none →
      ∃ t1, checkIdentifier name t c = some (t.next, t1, report undeclared_identifier name c) ∧
        t1.heap t.next = Symbol.new name CType.error ∧
        t1.scopes.toplevel = some (scope.insert t.next) ∧
        t.scopes.Replaced t1.scopes scope (scope.insert t.next) ∧ t.NamesKept t1 ∧
        t1.Allocated ∧ t1.NoDuplicates ∧
        (scope.insert t.next).names t1.heap = scope.names t.heap ++ [name] ∧
        ∀ rest, t.scopes.chain = scope :: rest →
          t1.scopes.chain = scope.insert t.next :: rest) := by
  constructor
  · intro x hx
    simp only [checkIdentifier, htop, hx]
  · intro hnone
    obtain ⟨hrep, htop1⟩ := t.scopes.setToplevel_replaced scope (scope.insert t.next) htop
    have hin : scope ∈ t.scopes.all := hrep.mem
    have hk := Table.newSymbol_namesKept t name CType.error
    obtain ⟨rest, hchain⟩ := Scopes.chain_of_toplevel htop
    have hnot : name ∉ scope.names t.heap :=
      (lookup_eq_none_iff t.heap name t.scopes.chain).1 hnone scope
        (by rw [hchain]; exact List.mem_cons_self _ _)
    have hnames : (scope.insert t.next).names (t.newSymbol name CType.error).2.heap =
        scope.names t.heap ++ [name] := by
      simp only [Scope.names, Scope.insert, List.map_append, List.map_cons, List.map_nil]
      congr 1
      · exact List.map_congr_left fun x hx => hk.2 x (hA scope hin x hx)
      · simp [Table.newSymbol, Symbol.new]
    have hlt : ∀ x ∈ (scope.insert t.next).symbols, x < t.next + 1 := by
      intro x hx
      rcases List.mem_append.1 hx with hx | hx
      · exact Nat.lt_succ_of_lt (hA scope hin x hx)
      · rw [List.mem_singleton.1 hx]; exact Nat.lt_succ_self _
    have hnd : ((scope.insert t.next).names (t.newSymbol name CType.error).2.heap).Nodup := by
      rw [hnames, List.nodup_append]
      refine ⟨hN scope hin, List.nodup_singleton _, ?_⟩
      intro x hx hx1
      rw [List.mem_singleton] at hx1
      subst hx1
      exact hnot hx
    refine ⟨{ (t.newSymbol name CType.error).2 with
      scopes := t.scopes.setToplevel (scope.insert t.next) }, ?_, ?_, htop1, hrep, hk, ?_, ?_,
      hnames, fun _ hc => Scopes.setToplevel_chain _ hc⟩
    · simp only [checkIdentifier, htop, hnone]
      rfl
    · simp [Table.newSymbol]
    · exact @Table.allocated_replaced t { (t.newSymbol name CType.error).2 with
        scopes := t.scopes.setToplevel (scope.insert t.next) } scope (scope.insert t.next)
        hA hrep hk.1 hlt
    · exact @Table.noDuplicates_replaced t { (t.newSymbol name CType.error).2 with
        scopes := t.scopes.setToplevel (scope.insert t.next) } scope (scope.insert t.next)
        hA hN hrep hk hnd

theorem Heap.setOffset_name (h : Heap) (s : Nat) (o : Int) (x : Nat) :
    (h.setOffset s o x).name = (h x).name := by
  unfold Heap.setOffset
  split_ifs with e
  · rw [e]
  · rfl

theorem Table.namesKept_offset (t : Table) (s : Nat) (o : Int) :
    t.NamesKept { t with heap := t.heap.setOffset s o } :=
  ⟨le_refl _, fun x _ => Heap.setOffset_name t.heap s o x⟩

/-- A step keeps the symbols of the scopes allocated and the scopes without
duplicates. -/
theorem Step.keeps_wf {t t1 : Table} (hs : Step t t1) (hA : t.Allocated) (hN : t.NoDuplicates) :
    t1.Allocated ∧ t1.NoDuplicates := by
  cases hs with
  | openScope =>
    obtain ⟨_, e2, e3, e4⟩ := openScope_spec t
    constructor
    · intro scope hscope x hx
      rw [e2] at hscope
      rcases List.mem_cons.1 hscope with h | h
      · subst h; simp at hx
      · rw [e4]; exact hA scope h x hx
    · intro scope hscope
      rw [e2] at hscope
      rcases List.mem_cons.1 hscope with h | h
      · subst h; simp [Scope.names]
      · rw [e3]; exact hN scope h
  | closeScope _ scope h =>
    obtain ⟨_, e2, e3, e4⟩ := closeScope_spec h
    constructor
    · intro s hs x hx
      rw [e4]
      exact hA s (e2 s hs) x hx
    · intro s hs
      rw [e3]
      exact hN s (e2 s hs)
  | declareFunction _ name T c c1 sym h =>
    cases ho : t.scopes.outermost with
    | none =>
      unfold SimpleC.declareFunction at h
      rw [ho] at h
      simp at h
    | some scope =>
      rw [declareFunction_eq ho] at h
      simp only [Option.some.injEq, Prod.mk.injEq] at h
      obtain ⟨_, a, b, _⟩ := declared_spec redeclared_function name T t c scope Scopes.outermost
        Scopes.setOutermost (fun s1 => t.scopes.setOutermost_replaced scope s1 ho) hA hN t1
        h.2.1.symm
      exact ⟨a, b⟩
  | declareVariable _ name T c c1 sym h =>
    cases ho : t.scopes.toplevel with
    | none =>
      unfold SimpleC.declareVariable at h
      rw [ho] at h
      simp at h
    | some scope =>
      rw [declareVariable_eq ho] at h
      simp only [Option.some.injEq, Prod.mk.injEq] at h
      obtain ⟨_, a, b, _⟩ := declared_spec redeclared_variable name T t c scope Scopes.toplevel
        Scopes.setToplevel (fun s1 => t.scopes.setToplevel_replaced scope s1 ho) hA hN t1
        h.2.1.symm
      exact ⟨a, b⟩
  | declareParameter _ name T c c1 sym h =>
    cases ho : t.scopes.toplevel with
    | none =>
      unfold SimpleC.declareParameter at h
      rw [ho] at h
      simp at h
    | some scope =>
      rw [declareParameter_eq ho] at h
      simp only [Option.some.injEq, Prod.mk.injEq] at h
      obtain ⟨_, a, b, _⟩ := declared_spec redeclared_parameter name T t c scope Scopes.toplevel
        Scopes.setToplevel (fun s1 => t.scopes.setToplevel_replaced scope s1 ho) hA hN t1
        h.2.1.symm
      exact ⟨a, b⟩
  | checkIdentifier _ name c c1 sym h =>
    cases ho : t.scopes.toplevel with
    | none =>
      unfold SimpleC.checkIdentifier at h
      rw [ho] at h
      simp at h
    | some scope =>
      obtain ⟨found, missing⟩ := checkIdentifier_spec name t c scope ho hA hN
      cases hl : lookup t.heap t.scopes.chain name with
      | some x =>
        rw [found x hl] at h
        simp only [Option.some.injEq, Prod.mk.injEq] at h
        rw [← h.2.1]
        exact ⟨hA, hN⟩
      | none =>
        obtain ⟨t2, e, _, _, _, _, a, b, _, _⟩ := missing hl
        rw [e] at h
        simp only [Option.some.injEq, Prod.mk.injEq] at h
        rw [← h.2.1]
        exact ⟨a, b⟩
  | offset s o =>
    constructor
    · exact hA
    · intro scope hscope
      have hk := Table.namesKept_offset t s o
      rw [hk.names (hA scope hscope)]
      exact hN scope hscope

theorem Table.init_wf : Table.init.Allocated ∧ Table.init.NoDuplicates :=
  ⟨fun _ h => by simp [Table.init, Scopes.all] at h, fun _ h => by simp [Table.init, Scopes.all] at h⟩

theorem Reachable.wellFormed {t : Table} (h : Reachable t) : t.Allocated ∧ t.NoDuplicates := by
  induction h with
  | refl => exact Table.init_wf
  | tail _ hs ih => exact hs.keeps_wf ih.1 ih.2

end ScopeRuns

section Declarations

/-- Claim C19: on a table reached by a run, no scope contains two symbols
with the same name, and `declareFunction`, `declareVariable` and
`declareParameter` for `(name, T)` return a symbol of the target scope (the
outermost one for a function, the current one otherwise) such that afterwards
that scope contains exactly one symbol called `name`, the one returned, of type
`T` and offset 0; the redeclaration diagnostic of the function is reported
(once) if the target scope already contained `name` and nothing is reported
otherwise, whatever the other scopes contain. -/
theorem C19_declarations (t : Table) (c : Checker) (name : String) (T : CType)
    (hr : Reachable t) :
    t.NoDuplicates ∧
    (∀ scope, t.scopes.outermost = some scope →
      DeclaredAs redeclared_function name T t c scope Scopes.outermost
        (declareFunction name T t c)) ∧
    (∀ scope, t.scopes.toplevel = some scope →
      DeclaredAs redeclared_variable name T t c scope Scopes.toplevel
        (declareVariable name T t c)) ∧
    (∀ scope, t.scopes.toplevel = some scope →
      DeclaredAs redeclared_parameter name T t c scope Scopes.toplevel
        (declareParameter name T t c)) := by
  obtain ⟨hA, hN⟩ := hr.wellFormed
  refine ⟨hN, ?_, ?_, ?_⟩
  · intro scope ho
    rw [declareFunction_eq ho]
    exact (declared_spec redeclared_function name T t c scope Scopes.outermost
      Scopes.setOutermost (fun s1 => t.scopes.setOutermost_replaced scope s1 ho) hA hN _ rfl).1
  · intro scope ho
    rw [declareVariable_eq ho]
    exact (declared_spec redeclared_variable name T t c scope Scopes.toplevel
      Scopes.setToplevel (fun s1 => t.scopes.setToplevel_replaced scope s1 ho) hA hN _ rfl).1
  · intro scope ho
    rw [declareParameter_eq ho]
    exact (declared_spec redeclared_parameter name T t c scope Scopes.toplevel
      Scopes.setToplevel (fun s1 => t.scopes.setToplevel_replaced scope s1 ho) hA hN _ rfl).1

/-- Witness of C19: after the first `openScope`, `declareVariable("x", INT)`
returns a symbol `x` of type INT and offset 0 and reports nothing. -/
theorem C19_declarations_witness :
    ∃ sym t1, declareVariable "x" CType.integer (openScope Table.init) Checker.init =
        some (sym, t1, Checker.init) ∧
      t1.heap sym = ⟨"x", CType.integer, 0⟩ := by
  obtain ⟨sym, t1, c1, scope1, e, _, _, hsym, _, hc⟩ :=
    (C19_declarations (openScope Table.init) Checker.init "x" CType.integer
      (Relation.ReflTransGen.single (Step.openScope Table.init))).2.2.1 ⟨[]⟩ rfl
  have hc1 : c1 = Checker.init := hc (by simp [Scope.names])
  subst hc1
  exact ⟨sym, t1, e, hsym⟩

end Declarations

section Identifiers

/-- A step after which the chain has more than `k` scopes keeps a name in the
scope at place `k`. -/
theorem Step.keeps_namedAt {t t1 : Table} (hs : Step t t1) (hA : t.Allocated) (hN : t.NoDuplicates)
    {name : String} {k : Nat} (hk : k < t1.scopes.chain.length) (h : NamedAt name k t) :
    NamedAt name k t1 := by
  cases hs with
  | openScope =>
    obtain ⟨e1, _, e3, _⟩ := openScope_spec t
    obtain ⟨scope, hs, hn⟩ := h
    refine ⟨scope, ?_, by rw [e3]; exact hn⟩
    rw [e1, List.reverse_cons]
    have hlt : k < t.scopes.chain.reverse.length := by
      by_contra hge
      rw [List.getElem?_eq_none (Nat.le_of_not_lt hge)] at hs
      exact absurd hs (by simp)
    rw [List.getElem?_append_left hlt]
    exact hs
  | closeScope _ scope hc =>
    obtain ⟨e1, _, e3, _⟩ := closeScope_spec hc
    obtain ⟨s, hs, hn⟩ := h
    refine ⟨s, ?_, by rw [e3]; exact hn⟩
    rw [e1, List.reverse_cons, List.getElem?_append_left (by simpa using hk)] at hs
    exact hs
  | declareFunction _ n T c c1 sym hd =>
    cases ho : t.scopes.outermost with
    | none =>
      unfold SimpleC.declareFunction at hd
      rw [ho] at hd
      simp at hd
    | some scope =>
      rw [declareFunction_eq ho] at hd
      simp only [Option.some.injEq, Prod.mk.injEq] at hd
      obtain ⟨_, _, _, a, b, d⟩ := declared_spec redeclared_function n T t c scope
        Scopes.outermost Scopes.setOutermost
        (fun s1 => t.scopes.setOutermost_replaced scope s1 ho) hA hN t1 hd.2.1.symm
      exact NamedAt.replaced hA b a (d name) h
  | declareVariable _ n T c c1 sym hd =>
    cases ho : t.scopes.toplevel with
    | none =>
      unfold SimpleC.declareVariable at hd
      rw [ho] at hd
      simp at hd
    | some scope =>
      rw [declareVariable_eq ho] at hd
      simp only [Option.some.injEq, Prod.mk.injEq] at hd
      obtain ⟨_, _, _, a, b, d⟩ := declared_spec redeclared_variable n T t c scope
        Scopes.toplevel Scopes.setToplevel
        (fun s1 => t.scopes.setToplevel_replaced scope s1 ho) hA hN t1 hd.2.1.symm
      exact NamedAt.replaced hA b a (d name) h
  | declareParameter _ n T c c1 sym hd =>
    cases ho : t.scopes.toplevel with
    | none =>
      unfold SimpleC.declareParameter at hd
      rw [ho] at hd
      simp at hd
    | some scope =>
      rw [declareParameter_eq ho] at hd
      simp only [Option.some.injEq, Prod.mk.injEq] at hd
      obtain ⟨_, _, _, a, b, d⟩ := declared_spec redeclared_parameter n T t c scope
        Scopes.toplevel Scopes.setToplevel
        (fun s1 => t.scopes.setToplevel_replaced scope s1 ho) hA hN t1 hd.2.1.symm
      exact NamedAt.replaced hA b a (d name) h
  | checkIdentifier _ n c c1 sym hd =>
    cases ho : t.scopes.toplevel with
    | none =>
      unfold SimpleC.checkIdentifier at hd
      rw [ho] at hd
      simp at hd
    | some scope =>
      obtain ⟨found, missing⟩ := checkIdentifier_spec n t c scope ho hA hN
      cases hl : lookup t.heap t.scopes.chain n with
      | some x =>
        rw [found x hl] at hd
        simp only [Option.some.injEq, Prod.mk.injEq] at hd
        rw [← hd.2.1]
        exact h
      | none =>
        obtain ⟨t2, e, _, _, b, a, _, _, d, _⟩ := missing hl
        rw [e] at hd
        simp only [Option.some.injEq, Prod.mk.injEq] at hd
        rw [← hd.2.1]
        refine NamedAt.replaced hA b a ?_ h
        intro hin
        rw [d]
        exact List.mem_append_left _ hin
  | offset s o =>
    exact NamedAt.kept hA rfl (Table.namesKept_offset t s o) h

theorem StaysOpen.keeps_named {k : Nat} {t t2 : Table} {name : String} (h : StaysOpen k t t2)
    (hA : t.Allocated) (hN : t.NoDuplicates) (hn : NamedAt name k t) :
    NamedAt name k t2 ∧ t2.Allocated ∧ t2.NoDuplicates := by
  induction h with
  | refl => exact ⟨hn, hA, hN⟩
  | step t1 t2 _ hs hk ih =>
    obtain ⟨a, b, d⟩ := ih
    exact ⟨hs.keeps_namedAt b d hk a, hs.keeps_wf b d⟩

/-- On a table whose chain has a scope that contains `name`, with symbols
allocated and no duplicates, `checkIdentifier(name)` finds a symbol and changes
nothing. -/
theorem checkIdentifier_of_namedAt {name : String} {k : Nat} {t : Table} (c : Checker)
    (hA : t.Allocated) (hN : t.NoDuplicates) (hn : NamedAt name k t) :
    ∃ sym, checkIdentifier name t c = some (sym, t, c) := by
  obtain ⟨scope, hs, hin⟩ := hn
  have hmem : scope ∈ t.scopes.chain := List.mem_reverse.1 (List.getElem?_mem hs)
  cases hc : t.scopes.chain with
  | nil => rw [hc] at hmem; simp at hmem
  | cons top rest =>
    have htop : t.scopes.toplevel = some top := by simp [Scopes.toplevel, hc]
    cases hl : lookup t.heap t.scopes.chain name with
    | none => exact absurd hin ((lookup_eq_none_iff t.heap name _).1 hl scope hmem)
    | some x => exact ⟨x, (checkIdentifier_spec name t c top htop hA hN).1 x hl⟩

/-- Claim C20: `checkIdentifier(name)` on a table reached by a run, with a
current scope.  It reports `<name> is undeclared` (once) iff no scope on the
chain from the current scope to the outermost contains `name`.  In that case
it returns a new symbol of type ERROR that it has added to the current scope,
the rest of the chain untouched, and every later `checkIdentifier(name)`,
after any steps during which that scope was never closed, finds a symbol and
reports nothing.  When `name` is found, the symbol returned has that name and
neither the table nor the error state is changed. -/
theorem C20_checkIdentifier (name : String) (t : Table) (c : Checker) (scope : Scope)
    (hr : Reachable t) (htop : t.scopes.toplevel = some scope) :
    ∃ sym t1 c1, checkIdentifier name t c = some (sym, t1, c1) ∧
      (Checker.ReportedOnce undeclared_identifier name c c1 ↔
        ∀ s ∈ t.scopes.chain, name ∉ s.names t.heap) ∧
      ((∀ s ∈ t.scopes.chain, name ∉ s.names t.heap) →
        t1.heap sym = ⟨name, CType.error, 0⟩ ∧
        t1.scopes.toplevel = some (scope.insert sym) ∧
        t1.scopes.chain.tail = t.scopes.chain.tail ∧
        ∀ t2, StaysOpen (t.scopes.chain.length - 1) t1 t2 →
          ∀ c2, ∃ sym2, checkIdentifier name t2 c2 = some (sym2, t2, c2)) ∧
      ((∃ s ∈ t.scopes.chain, name ∈ s.names t.heap) →
        (t.heap sym).name = name ∧ t1 = t ∧ c1 = c) := by
  obtain ⟨hA, hN⟩ := hr.wellFormed
  obtain ⟨found, missing⟩ := checkIdentifier_spec name t c scope htop hA hN
  obtain ⟨rest, hchain⟩ := Scopes.chain_of_toplevel htop
  cases hl : lookup t.heap t.scopes.chain name with
  | some x =>
    have hex : ¬ ∀ s ∈ t.scopes.chain, name ∉ s.names t.heap := by
      intro hall
      rw [(lookup_eq_none_iff t.heap name _).2 hall] at hl
      exact absurd hl (by simp)
    refine ⟨x, t, c, found x hl, ?_, fun hall => absurd hall hex, fun _ => ?_⟩
    · constructor
      · intro hrep
        have := hrep.1
        omega
      · intro hall
        exact absurd hall hex
    · exact ⟨(lookup_name t.heap name _ x hl).1, rfl, rfl⟩
  | none =>
    have hall := (lookup_eq_none_iff t.heap name _).1 hl
    obtain ⟨t1, e, hsym, htop1, hrep, hk, hA1, hN1, hnames, hrest⟩ := missing hl
    have hc1 : t1.scopes.chain = scope.insert t.next :: rest := hrest rest hchain
    refine ⟨t.next, t1, _, e, ?_, fun _ => ⟨hsym, htop1, ?_, ?_⟩, ?_⟩
    · exact ⟨fun _ => hall, fun _ => report_after_silent (Checker.Silent.silent_refl c) _ _⟩
    · rw [hc1, hchain]
      rfl
    · intro t2 hstay c2
      have hn : NamedAt name (t.scopes.chain.length - 1) t1 := by
        refine ⟨scope.insert t.next, ?_, by rw [hnames]; simp⟩
        rw [hc1, hchain, List.reverse_cons]
        simp
      obtain ⟨a, b, d⟩ := hstay.keeps_named hA1 hN1 hn
      exact checkIdentifier_of_namedAt c2 b d a
    · rintro ⟨s, hs, hin⟩
      exact absurd hin (hall s hs)

/-- Witness of C20: in the first scope of a run, `checkIdentifier("y")`
reports `y is undeclared`; a second `checkIdentifier("y")` in a scope opened
inside it reports nothing. -/
theorem C20_checkIdentifier_witness :
    ∃ sym t1 c1, checkIdentifier "y" (openScope Table.init) Checker.init = some (sym, t1, c1) ∧
      c1.diagnostics = [(undeclared_identifier, "y")] ∧
      ∀ c2, ∃ sym2, checkIdentifier "y" (openScope t1) c2 = some (sym2, openScope t1, c2) := by
  obtain ⟨sym, t1, c1, e, hiff, hmiss, _⟩ := C20_checkIdentifier "y" (openScope Table.init)
    Checker.init ⟨[]⟩ (Relation.ReflTransGen.single (Step.openScope Table.init)) rfl
  have hall : ∀ s ∈ (openScope Table.init).scopes.chain,
      "y" ∉ s.names (openScope Table.init).heap := by
    intro s hs
    have : s = ⟨[]⟩ := by simpa [openScope, Table.init, Scopes.chain] using hs
    subst this
    simp [Scope.names]
  refine ⟨sym, t1, c1, e, (hiff.2 hall).2, fun c2 => ?_⟩
  refine (hmiss hall).2.2.2 (openScope t1) ?_ c2
  refine StaysOpen.step t1 t1 (openScope t1) (StaysOpen.refl t1) (Step.openScope t1) ?_
  rw [(openScope_spec t1).1]
  exact Nat.succ_pos _

end Identifiers

section CallCode

theorem CType.size_of_isValue {t : CType} (h : t.isValue = true) :
    t.size = some (if t.isReal then 8 else 4) := by
  rcases t with ⟨s, i, k⟩
  cases s <;> cases k <;> rcases i with _ | i <;>
    simp_all [CType.isValue, CType.isNumeric, CType.isPointer, CType.isReal, CType.size,
      toUInt32, UINT_RANGE, SIZEOF_PTR, SIZEOF_INT, SIZEOF_DOUBLE]

/-- One turn of the loop of `Call::generate`: the arguments after `a` have
been generated and pushed before `a` is generated and pushed. -/
theorem generateArgs_cons (a : Expr) (args : List Expr) (h : Heap) (g g3 : Generator) (n : Nat) :
    Expr.generateArgs (a :: args) h g = some (n, g3) ↔
      ∃ n1 g1 op g2 k, Expr.generateArgs args h g = some (n1, g1) ∧
        a.generate h g1 = some (op, g2) ∧ a.type.size = some k ∧
        n = toUInt32 (n1 + k) ∧ g3 = g2.emits (pushCode a.type.isReal op) := by
  simp only [Expr.generateArgs, Option.bind_eq_bind, Option.bind_eq_some, Prod.exists,
    Option.some.injEq, Prod.mk.injEq]
  constructor
  · rintro ⟨n1, g1, e1, op, g2, e2, k, e3, rfl, rfl⟩
    exact ⟨n1, g1, op, g2, k, e1, e2, e3, rfl, rfl⟩
  · rintro ⟨n1, g1, op, g2, k, e1, e2, e3, rfl, rfl⟩
    exact ⟨n1, g1, e1, op, g2, e2, k, e3, rfl, rfl⟩

theorem pushedBytes_cons (a : Expr) (args : List Expr) :
    pushedBytes (a :: args) = (if a.type.isReal then 8 else 4) + pushedBytes args := by
  simp [pushedBytes]

theorem generateArgs_bytes : ∀ (args : List Expr) (h : Heap) (g g1 : Generator) (n : Nat),
    (∀ a ∈ args, a.type.isValue = true) → pushedBytes args < 4294967296 →
    Expr.generateArgs args h g = some (n, g1) → n = pushedBytes args
  | [], _, _, _, _, _, _, e => by
    simp only [Expr.generateArgs, Option.some.injEq, Prod.mk.injEq] at e
    rw [← e.1]
    rfl
  | a :: args, h, g, g3, n, hv, hfit, e => by
    obtain ⟨n1, g1, op, g2, k, e1, _, e3, rfl, _⟩ := (generateArgs_cons a args h g g3 n).1 e
    rw [pushedBytes_cons] at hfit ⊢
    have ih := generateArgs_bytes args h g g1 n1 (fun x hx => hv x (List.mem_cons_of_mem _ hx))
      (by omega) e1
    rw [CType.size_of_isValue (hv a (List.mem_cons_self _ _))] at e3
    have hk : k = if a.type.isReal then 8 else 4 := (Option.some.inj e3).symm
    rw [ih, hk]
    unfold toUInt32 UINT_RANGE
    omega

theorem pushedBytes_eq_zero (args : List Expr) : pushedBytes args = 0 ↔ args = [] := by
  cases args with
  | nil => simp [pushedBytes]
  | cons a args =>
    rw [pushedBytes_cons]
    constructor
    · intro h
      split_ifs at h <;> omega
    · intro h
      exact absurd h (by simp)

/-- Claim C21: `Call::generate` for a call whose arguments all have value
types (and push fewer than `2^32` bytes in all).  The loop handles the
arguments last to first: the arguments after `a` are generated and pushed
before `a` is; `a` is pushed by `subl $8, %esp`, `fldl a`, `fstpl (%esp)` if it
is real and by `pushl a` otherwise.  After the arguments come `call name`,
then `addl $N, %esp` with `N` the bytes pushed (8 per real argument, 4 per
other), left out iff there is no argument, then the store of the result into a
new temporary taken by `assigntemp`: `fstpl` for a real result, `movl %eax`
otherwise. -/
theorem C21_call_generate (id : Nat) (args : List Expr) (type : CType) (h : Heap)
    (g g1 : Generator) (n : Nat)
    (hv : ∀ a ∈ args, a.type.isValue = true) (hfit : pushedBytes args < 4294967296)
    (hargs : Expr.generateArgs args h g = some (n, g1)) (ht : type.isFunction = false) :
    n = pushedBytes args ∧
    (∀ a rest g0 m g3, Expr.generateArgs (a :: rest) h g0 = some (m, g3) →
      ∃ m1 g01 op g02, Expr.generateArgs rest h g0 = some (m1, g01) ∧
        a.generate h g01 = some (op, g02) ∧
        g3.cout = g02.cout ++
          (if a.type.isReal then
            ["\tsubl\t$8, %esp\n", "\tfldl\t" ++ op ++ "\n", "\tfstpl\t(%esp)\n"]
          else ["\tpushl\t" ++ op ++ "\n"])) ∧
    ∃ k t g2, type.size = some k ∧ t = toString (toInt32 (g1.tempoffset - k)) ++ "(%ebp)" ∧
      (Expr.Call id args type).generate h g = some (t, g2) ∧
      g2.assigned = g1.assigned ++ [toInt32 (g1.tempoffset - k)] ∧
      g2.cout = g1.cout ++ ["\tcall\t" ++ (h id).name ++ "\n"] ++
        (if args.isEmpty then []
          else ["\taddl\t$" ++ toString (pushedBytes args) ++ ", %esp\n"]) ++
        (if type.isReal then
          ["#getting a double from a returned statement thing from the function up thereish^\n",
            "\tfstpl\t" ++ t ++ "\n"]
        else ["#getting an int from a return.\n", "\tmovl\t%eax, " ++ t ++ "\n"]) := by
  have hn := generateArgs_bytes args h g g1 n hv hfit hargs
  refine ⟨hn, ?_, ?_⟩
  · intro a rest g0 m g3 e
    obtain ⟨m1, g01, op, g02, k, e1, e2, _, _, e5⟩ := (generateArgs_cons a rest h g0 g3 m).1 e
    refine ⟨m1, g01, op, g02, e1, e2, ?_⟩
    rw [e5]
    simp only [Generator.emits, pushCode]
  · have hk := CType.size_of_not_isFunction ht
    subst hn
    by_cases hargs0 : args = []
    · have h0 : ¬ (pushedBytes args > 0) := by
        rw [(pushedBytes_eq_zero args).2 hargs0]; omega
      have he : args.isEmpty = true := by rw [hargs0]; rfl
      refine ⟨type.sizeN, _,
        Generator.emits { g1.emit ("\tcall\t" ++ (h id).name ++ "\n") with
          tempoffset := toInt32 (g1.tempoffset - type.sizeN),
          assigned := g1.assigned ++ [toInt32 (g1.tempoffset - type.sizeN)],
          slots := g1.slots ++ [(toInt32 (g1.tempoffset - type.sizeN), type.sizeN)] }
          (callResultCode type.isReal (toString (toInt32 (g1.tempoffset - type.sizeN)) ++ "(%ebp)")),
        hk, rfl, ?_, rfl, ?_⟩
      · simp only [Expr.generate, hargs, Option.bind_eq_bind, Option.some_bind, assigntemp, hk,
          if_neg h0]
        rfl
      · simp only [Generator.emits, Generator.emit, callResultCode, he, if_true,
          List.append_nil]
    · have h0 : pushedBytes args > 0 := by
        have := (pushedBytes_eq_zero args).not.2 hargs0
        omega
      have he : args.isEmpty = false := by
        cases args with
        | nil => exact absurd rfl hargs0
        | cons _ _ => rfl
      refine ⟨type.sizeN, _,
        Generator.emits { (g1.emit ("\tcall\t" ++ (h id).name ++ "\n")).emit
            ("\taddl\t$" ++ toString (pushedBytes args) ++ ", %esp\n") with
          tempoffset := toInt32 (g1.tempoffset - type.sizeN),
          assigned := g1.assigned ++ [toInt32 (g1.tempoffset - type.sizeN)],
          slots := g1.slots ++ [(toInt32 (g1.tempoffset - type.sizeN), type.sizeN)] }
          (callResultCode type.isReal (toString (toInt32 (g1.tempoffset - type.sizeN)) ++ "(%ebp)")),
        hk, rfl, ?_, rfl, ?_⟩
      · simp only [Expr.generate, hargs, Option.bind_eq_bind, Option.some_bind, assigntemp, hk,
          if_pos h0]
        rfl
      · simp only [Generator.emits, Generator.emit, callResultCode, he, Bool.false_eq_true,
          if_false]

/-- Witness of C21: `f(n)` for `int f(int)` and `int n` at `-4(%ebp)` pushes
`n`, calls `f`, pops 4 bytes and stores `%eax` into a temporary. -/
theorem C21_call_generate_witness :
    ∃ t g2, (Expr.Call 1 [.Identifier 4 CType.integer] CType.integer).generate
        (checkerHeap.setOffset 4 (-4)) Generator.init = some (t, g2) ∧
      g2.cout = ["\tpushl\t-4(%ebp)\n", "\tcall\tf\n", "\taddl\t$4, %esp\n",
        "#getting an int from a return.\n", "\tmovl\t%eax, " ++ t ++ "\n"] := by
  obtain ⟨p, hp, hc0⟩ : ∃ p, Expr.generateArgs [.Identifier 4 CType.integer]
      (checkerHeap.setOffset 4 (-4)) Generator.init = some p ∧
      p.2.cout = ["\tpushl\t-4(%ebp)\n"] := ⟨_, rfl, by decide⟩
  obtain ⟨_, _, k, t, g2, _, _, e, _, hc⟩ := C21_call_generate 1 [.Identifier 4 CType.integer]
    CType.integer (checkerHeap.setOffset 4 (-4)) Generator.init p.2 p.1 (by decide) (by decide)
    hp rfl
  refine ⟨t, g2, e, ?_⟩
  rw [hc, hc0]
  rfl

end CallCode

section ComparisonCode

/-- Claim C22, the code at `int f(int a, int b) { return a >= b; }`:
`GreaterOrEqual::generate` prints the lines of `LessOrEqual::generate` for
integer operands, `setle` where the operator `>=` asks for `setge`. -/
theorem C22_greaterOrEqual_integer_emits_setle :
    (returnExample (.GreaterOrEqual (.Identifier 1 CType.integer) (.Identifier 2 CType.integer)
        CType.integer)).output integerOperandsHeap =
      some ["f:\n", "\tpushl\t%ebp\n", "\tmovl\t%esp, %ebp\n", "\tsubl\t$f.size, %esp\n",
        "#Let us do all of the greater than or equal to operations! yes :)\n",
        "\tmovl\t8(%ebp), %eax\n", "\tcmpl\t12(%ebp), %eax\n", "\tsetle\t%al\n",
        "\tmovzbl\t%al, %eax\n", "\tmovl\t%eax, -4(%ebp)\n\n", "\tmovl\t-4(%ebp), %eax\n",
        "\tjmp\t.L1\n", ".L1:\n", "\tmovl\t%ebp, %esp\n", "\tpopl\t%ebp\n", "\tret\n\n",
        "\t.global\tf\n", "\t.set\tf.size, 4\n", "\n"] := by
  decide

/-- Claim C23, the code at `int f(double x, double y) { return x >= y; }`:
`GreaterOrEqual::generate` prints the lines of `LessOrEqual::generate` for
real operands, `setbe` where the operator `>=` asks for `setae`. -/
theorem C23_greaterOrEqual_real_emits_setbe :
    (returnExample (.GreaterOrEqual (.Identifier 1 CType.real) (.Identifier 2 CType.real)
        CType.integer)).output realOperandsHeap =
      some ["f:\n", "\tpushl\t%ebp\n", "\tmovl\t%esp, %ebp\n", "\tsubl\t$f.size, %esp\n",
        "#Let us do all of the greater than or equal to operations! yes :)\n",
        "\tfldl\t8(%ebp)\n", "\tfcompl\t16(%ebp)\n", "\tfnstsw\t%ax\n", "\tsahf\n",
        "\tsetbe\t%al\n", "\tmovzbl\t%al, %eax\n", "\tmovl\t%eax, -4(%ebp)\n\n",
        "\tmovl\t-4(%ebp), %eax\n", "\tjmp\t.L1\n", ".L1:\n", "\tmovl\t%ebp, %esp\n",
        "\tpopl\t%ebp\n", "\tret\n\n", "\t.global\tf\n", "\t.set\tf.size, 4\n", "\n"] := by
  decide

/-- Claim C24, the code at `int f(double x, double y) { return x != y; }`:
on the path of real operands `NotEqual::generate` prints `sene`, which is
neither `setne` nor any other mnemonic of the list. -/
theorem C24_notEqual_real_emits_sene :
    (returnExample (.NotEqual (.Identifier 1 CType.real) (.Identifier 2 CType.real)
        CType.integer)).output realOperandsHeap =
      some ["f:\n", "\tpushl\t%ebp\n", "\tmovl\t%esp, %ebp\n", "\tsubl\t$f.size, %esp\n",
        "#Equal time hashtag all the ballin'! <3\n",
        "\tfldl\t8(%ebp)\n", "\tfcompl\t16(%ebp)\n", "\tfnstsw\t%ax\n", "\tsahf\n",
        "\tsene\t%al\n", "\tmovzbl\t%al, %eax\n", "\tmovl\t%eax, -4(%ebp)\n",
        "\tmovl\t-4(%ebp), %eax\n", "\tjmp\t.L1\n", ".L1:\n", "\tmovl\t%ebp, %esp\n",
        "\tpopl\t%ebp\n", "\tret\n\n", "\t.global\tf\n", "\t.set\tf.size, 4\n", "\n"] := by
  decide

end ComparisonCode

section Interning

theorem digitChar_value : ∀ m, m < 10 → (Nat.digitChar m).toNat - 48 = m := by
  decide

theorem digitsValue_toDigitsCore : ∀ (fuel n : Nat) (ds : List Char), n < fuel →
    (Nat.toDigitsCore 10 fuel n ds).foldl (fun a c => a * 10 + (c.toNat - 48)) 0 =
      ds.foldl (fun a c => a * 10 + (c.toNat - 48)) n := by
  intro fuel
  induction fuel with
  | zero => intro n ds h; omega
  | succ fuel ih =>
    intro n ds h
    unfold Nat.toDigitsCore
    simp only
    by_cases h0 : n / 10 = 0
    · rw [if_pos h0]
      simp only [List.foldl_cons, Nat.zero_mul, Nat.zero_add]
      rw [digitChar_value _ (Nat.mod_lt _ (by decide))]
      congr 1
      omega
    · rw [if_neg h0, ih (n / 10) _ (by omega)]
      simp only [List.foldl_cons]
      rw [digitChar_value _ (Nat.mod_lt _ (by decide))]
      congr 1
      omega

theorem digitsValue_toString (n : Nat) : digitsValue (toString n).data = n := by
  show digitsValue (Nat.toDigits 10 n) = n
  unfold digitsValue Nat.toDigits
  rw [digitsValue_toDigitsCore (n + 1) n [] (by omega)]
  rfl

theorem toString_nat_injective {a b : Nat} (h : toString a = toString b) : a = b := by
  rw [← digitsValue_toString a, ← digitsValue_toString b, h]

theorem Label.text_injective {a b : Label} (h : a.text = b.text) : a = b := by
  unfold Label.text at h
  have h1 := congrArg String.data h
  rw [String.data_append, String.data_append] at h1
  have h2 := List.append_cancel_left h1
  have h3 : toString a.number = toString b.number := String.ext h2
  cases a; cases b
  simp only [Label.mk.injEq]
  exact toString_nat_injective h3

end Interning

section InterningTable

theorem insertLabel_subset : ∀ (L : List (String × Label)) (v : String) (lab : Label),
    ∀ e ∈ L, e ∈ (insertLabel L v lab).1
  | [], _, _, e, he => absurd he (List.not_mem_nil _)
  | (k, l) :: rest, v, lab, e, he => by
    unfold insertLabel
    by_cases h1 : v = k
    · rw [if_pos h1]; exact he
    · rw [if_neg h1]
      by_cases h2 : v < k
      · rw [if_pos h2]; exact List.mem_cons_of_mem _ he
      · rw [if_neg h2]
        rcases List.mem_cons.1 he with rfl | he
        · exact List.mem_cons_self _ _
        · exact List.mem_cons_of_mem _ (insertLabel_subset rest v lab e he)

theorem insertLabel_mem : ∀ (L : List (String × Label)) (v : String) (lab : Label),
    ∀ e ∈ (insertLabel L v lab).1, e ∈ L ∨ e = (v, lab)
  | [], v, lab, e, he => by
    simp only [insertLabel, List.mem_singleton] at he
    exact Or.inr he
  | (k, l) :: rest, v, lab, e, he => by
    unfold insertLabel at he
    by_cases h1 : v = k
    · rw [if_pos h1] at he; exact Or.inl he
    · rw [if_neg h1] at he
      by_cases h2 : v < k
      · rw [if_pos h2] at he
        rcases List.mem_cons.1 he with rfl | he
        · exact Or.inr rfl
        · exact Or.inl he
      · rw [if_neg h2] at he
        rcases List.mem_cons.1 he with rfl | he
        · exact Or.inl (List.mem_cons_self _ _)
        · rcases insertLabel_mem rest v lab e he with h | h
          · exact Or.inl (List.mem_cons_of_mem _ h)
          · exact Or.inr h

theorem insertLabel_found : ∀ (L : List (String × Label)) (v : String) (lab : Label),
    (v, (insertLabel L v lab).2) ∈ (insertLabel L v lab).1
  | [], v, lab => by simp [insertLabel]
  | (k, l) :: rest, v, lab => by
    unfold insertLabel
    by_cases h1 : v = k
    · rw [if_pos h1, h1]; exact List.mem_cons_self _ _
    · rw [if_neg h1]
      by_cases h2 : v < k
      · rw [if_pos h2]; exact List.mem_cons_self _ _
      · rw [if_neg h2]
        exact List.mem_cons_of_mem _ (insertLabel_found rest v lab)

theorem insertLabel_sorted : ∀ (L : List (String × Label)) (v : String) (lab : Label),
    (L.map Prod.fst).Pairwise (· < ·) → ((insertLabel L v lab).1.map Prod.fst).Pairwise (· < ·)
  | [], v, lab, _ => by simp [insertLabel]
  | (k, l) :: rest, v, lab, hs => by
    unfold insertLabel
    by_cases h1 : v = k
    · rw [if_pos h1]; exact hs
    · rw [if_neg h1]
      rw [List.map_cons, List.pairwise_cons] at hs
      by_cases h2 : v < k
      · rw [if_pos h2]
        simp only [List.map_cons, List.pairwise_cons]
        refine ⟨?_, hs⟩
        intro x hx
        rcases List.mem_cons.1 hx with rfl | hx
        · exact h2
        · exact lt_trans h2 (hs.1 x hx)
      · rw [if_neg h2]
        simp only [List.map_cons, List.pairwise_cons]
        refine ⟨?_, insertLabel_sorted rest v lab hs.2⟩
        intro x hx
        obtain ⟨e, he, rfl⟩ := List.mem_map.1 hx
        rcases insertLabel_mem rest v lab e he with h | h
        · exact hs.1 _ (List.mem_map_of_mem _ h)
        · rw [h]
          exact lt_of_le_of_ne (not_lt.1 h2) (Ne.symm h1)

theorem sorted_keys_nodup {L : List (String × Label)}
    (hs : (L.map Prod.fst).Pairwise (· < ·)) : (L.map Prod.fst).Nodup :=
  hs.imp (fun h => ne_of_lt h)

theorem sorted_keys_unique {L : List (String × Label)}
    (hs : (L.map Prod.fst).Pairwise (· < ·)) {v : String} {l1 l2 : Label}
    (h1 : (v, l1) ∈ L) (h2 : (v, l2) ∈ L) : l1 = l2 := by
  induction L with
  | nil => exact absurd h1 (List.not_mem_nil _)
  | cons e rest ih =>
    rw [List.map_cons, List.pairwise_cons] at hs
    rcases List.mem_cons.1 h1 with h1 | h1 <;> rcases List.mem_cons.1 h2 with h2 | h2
    · rw [← h1] at h2
      exact (Prod.mk.inj h2).2.symm
    · have := hs.1 v (List.mem_map.2 ⟨_, h2, rfl⟩)
      rw [← h1] at this
      exact absurd this (lt_irrefl _)
    · have := hs.1 v (List.mem_map.2 ⟨_, h1, rfl⟩)
      rw [← h2] at this
      exact absurd this (lt_irrefl _)
    · exact ih hs.2 h1 h2

end InterningTable

section InterningRuns

theorem String.generate_spec {value : String} {type : CType} {h : Heap} {g g1 : Generator}
    {op : Operand} (e : (Expr.String value type).generate h g = some (op, g1)) :
    op = (insertLabel g.Labels value ⟨g.counter⟩).2.text ∧
    g1.Labels = (insertLabel g.Labels value ⟨g.counter⟩).1 ∧ g1.counter = g.counter + 1 := by
  simp only [Expr.generate, Generator.newLabel, Option.some.injEq, Prod.mk.injEq] at e
  obtain ⟨rfl, rfl⟩ := e
  exact ⟨rfl, rfl, rfl⟩

theorem Interned.string {g g1 : Generator} {log : List (String × Operand)} {value : String}
    {type : CType} {h : Heap} {op : Operand} (inv : Interned g log)
    (e : (Expr.String value type).generate h g = some (op, g1)) :
    Interned g1 (log ++ [(value, op)]) := by
  obtain ⟨hop, hL, hc⟩ := String.generate_spec e
  have hmem := insertLabel_mem g.Labels value ⟨g.counter⟩
  have hsub := insertLabel_subset g.Labels value ⟨g.counter⟩
  refine ⟨?_, ?_, ?_, ?_, ?_⟩
  · rw [hL]; exact insertLabel_sorted _ _ _ inv.sorted
  · intro x hx
    rw [hL] at hx
    rw [hc]
    rcases hmem x hx with h1 | h1
    · exact Nat.lt_succ_of_lt (inv.older x h1)
    · rw [h1]; exact Nat.lt_succ_self _
  · intro e1 h1 e2 h2 heq
    rw [hL] at h1 h2
    rcases hmem e1 h1 with a1 | a1 <;> rcases hmem e2 h2 with a2 | a2
    · exact inv.distinct e1 a1 e2 a2 heq
    · have := inv.older e1 a1
      rw [heq, a2] at this
      exact absurd this (lt_irrefl _)
    · have := inv.older e2 a2
      rw [← heq, a1] at this
      exact absurd this (lt_irrefl _)
    · rw [a1, a2]
  · intro p hp
    rcases List.mem_append.1 hp with hp | hp
    · obtain ⟨l, hl, ht⟩ := inv.logged p hp
      exact ⟨l, by rw [hL]; exact hsub _ hl, ht⟩
    · rw [List.mem_singleton] at hp
      rw [hp, hL]
      exact ⟨_, insertLabel_found _ _ _, hop⟩
  · intro x hx
    rw [hL] at hx
    rw [List.map_append, List.mem_append]
    rcases hmem x hx with h1 | h1
    · exact Or.inl (inv.keys x h1)
    · rw [h1]; exact Or.inr (by simp)

theorem StringRun.interned {g : Generator} {log : List (String × Operand)}
    (hr : StringRun g log) : Interned g log := by
  induction hr with
  | start =>
    exact ⟨List.Pairwise.nil, fun _ h => absurd h (List.not_mem_nil _),
      fun _ h => absurd h (List.not_mem_nil _), fun _ h => absurd h (List.not_mem_nil _),
      fun _ h => absurd h (List.not_mem_nil _)⟩
  | string g g1 log value type h op _ e ih => exact ih.string e
  | other g g1 log _ hL hc ih =>
    refine ⟨?_, ?_, ?_, ?_, ?_⟩
    · rw [hL]; exact ih.sorted
    · intro x hx
      rw [hL] at hx
      exact lt_of_lt_of_le (ih.older x hx) hc
    · rw [hL]; exact ih.distinct
    · rw [hL]; exact ih.logged
    · rw [hL]; exact ih.keys

theorem commCode_spec (h : Heap) : ∀ globals : List Nat,
    (∀ s ∈ globals, (h s).type.isFunction = false) →
    commCode h globals = some (globals.flatMap fun s =>
      ["\t.comm\t" ++ (h s).name, ", " ++ toString (h s).type.sizeN ++ ", 4\n"])
  | [], _ => rfl
  | s :: rest, hv => by
    have ih := commCode_spec h rest (fun x hx => hv x (List.mem_cons_of_mem _ hx))
    have hs := CType.size_of_not_isFunction (hv s (List.mem_cons_self _ _))
    simp only [commCode, hs, ih, Option.bind_eq_bind, Option.some_bind, List.flatMap_cons]

/-- Claim C25: in every run of the generator, with the calls of
`String::generate` logged, two string nodes received the same operand iff
their literals are equal; the operand of a node is the text `.LN` of the label
stored under its literal; the keys of `Labels` are the distinct literals of
the log, each once; and `generateGlobals` (which returns when the globals are
variables) ends its output with the lines `.LN:<tab>.asciz<tab><literal>`, one
for each entry of the table in the order of the table: as many lines as the
log has distinct literals, the line of every logged node with its operand
among them, and every line the line of a logged node.  The states that the
generator goes through on any input are states of such runs
(`globalDeclarations_run`). -/
theorem C25_string_interning (g : Generator) (log : List (String × Operand))
    (hr : StringRun g log) :
    (∀ p ∈ log, ∀ q ∈ log, (p.2 = q.2 ↔ p.1 = q.1)) ∧
    (∀ p ∈ log, ∃ l, (p.1, l) ∈ g.Labels ∧ p.2 = ".L" ++ toString l.number) ∧
    (g.Labels.map Prod.fst).Perm (log.map Prod.fst).dedup ∧
    ∃ lines : List String,
      lines = g.Labels.map
        (fun e => ".L" ++ toString e.2.number ++ ":\t.asciz\t" ++ e.1 ++ "\n") ∧
      lines.length = (log.map Prod.fst).dedup.length ∧
      (∀ p ∈ log, p.2 ++ ":\t.asciz\t" ++ p.1 ++ "\n" ∈ lines) ∧
      (∀ t ∈ lines, ∃ p ∈ log, t = p.2 ++ ":\t.asciz\t" ++ p.1 ++ "\n") ∧
      (∀ globals fLabels h g1, generateGlobals globals fLabels h g = some g1 →
        ∃ pre, g1.cout = pre ++ lines) ∧
      ∀ globals fLabels h, (∀ s ∈ globals, (h s).type.isFunction = false) →
        ∃ g1, generateGlobals globals fLabels h g = some g1 ∧
          g1.cout = g.cout ++
            (if globals.length + fLabels.length + g.Labels.length > 0 then ["\t.data\n"]
              else []) ++
            (globals.flatMap fun s =>
              ["\t.comm\t" ++ (h s).name, ", " ++ toString (h s).type.sizeN ++ ", 4\n"]) ++
            (fLabels.map fun l =>
              ".fp" ++ toString l.number ++ ":\t.double\t" ++ l.value ++ "\n") ++ lines := by
  have inv := hr.interned
  have hperm : (g.Labels.map Prod.fst).Perm (log.map Prod.fst).dedup := by
    refine (List.perm_ext_iff_of_nodup (sorted_keys_nodup inv.sorted) (List.nodup_dedup _)).2 ?_
    intro v
    rw [List.mem_dedup]
    constructor
    · intro hv
      obtain ⟨e, he, rfl⟩ := List.mem_map.1 hv
      exact inv.keys e he
    · intro hv
      obtain ⟨p, hp, rfl⟩ := List.mem_map.1 hv
      obtain ⟨l, hl, _⟩ := inv.logged p hp
      exact List.mem_map.2 ⟨_, hl, rfl⟩
  refine ⟨?_, inv.logged, hperm, _, rfl, ?_, ?_, ?_, ?_, ?_⟩
  · intro p hp q hq
    obtain ⟨l1, h1, t1⟩ := inv.logged p hp
    obtain ⟨l2, h2, t2⟩ := inv.logged q hq
    constructor
    · intro heq
      have : l1 = l2 := Label.text_injective (by rw [← t1, ← t2, heq])
      exact inv.distinct _ h1 _ h2 this
    · intro heq
      rw [heq] at h1
      rw [t1, t2, sorted_keys_unique inv.sorted h1 h2]
  · have := hperm.length_eq
    simpa using this
  · intro p hp
    obtain ⟨l, hl, t⟩ := inv.logged p hp
    refine List.mem_map.2 ⟨(p.1, l), hl, ?_⟩
    rw [t]
    rfl
  · intro t ht
    obtain ⟨e, he, rfl⟩ := List.mem_map.1 ht
    obtain ⟨p, hp, hk⟩ := List.mem_map.1 (inv.keys e he)
    obtain ⟨l, hl, t⟩ := inv.logged p hp
    have hl2 : (p.1, e.2) ∈ g.Labels := by rw [hk]; exact he
    have : l = e.2 := sorted_keys_unique inv.sorted hl hl2
    refine ⟨p, hp, ?_⟩
    rw [t, this, hk]
    rfl
  · intro globals fLabels h g1 e
    simp only [generateGlobals, Option.bind_eq_bind, Option.bind_eq_some, Option.some.injEq] at e
    obtain ⟨code, _, rfl⟩ := e
    by_cases hd : globals.length + fLabels.length + g.Labels.length > 0
    · rw [if_pos hd]
      exact ⟨g.cout ++ ["\t.data\n"] ++ code ++ doubleCode fLabels, rfl⟩
    · rw [if_neg hd]
      exact ⟨g.cout ++ code ++ doubleCode fLabels, rfl⟩
  · intro globals fLabels h hv
    have hc := commCode_spec h globals hv
    by_cases hd : globals.length + fLabels.length + g.Labels.length > 0
    · refine ⟨(((g.emit "\t.data\n").emits (globals.flatMap fun s =>
        ["\t.comm\t" ++ (h s).name, ", " ++ toString (h s).type.sizeN ++ ", 4\n"])).emits
        (doubleCode fLabels)).emits (ascizCode g.Labels), ?_, ?_⟩
      · simp only [generateGlobals, hc, if_pos hd, Option.bind_eq_bind, Option.some_bind]
        rfl
      · rw [if_pos hd]
        rfl
    · refine ⟨((g.emits (globals.flatMap fun s =>
        ["\t.comm\t" ++ (h s).name, ", " ++ toString (h s).type.sizeN ++ ", 4\n"])).emits
        (doubleCode fLabels)).emits (ascizCode g.Labels), ?_, ?_⟩
      · simp only [generateGlobals, hc, if_neg hd, Option.bind_eq_bind, Option.some_bind]
        rfl
      · rw [if_neg hd]
        simp only [List.append_nil]
        rfl

/-- Witness of C25: the literals `"a"`, `"b"`, `"a"` from the start of a run
receive `.L1`, `.L2`, `.L1`, the table ends with the keys `"a"` and `"b"`, and
`generateGlobals`, called then without globals, prints `.data`, the line
`.L1: .asciz "a"` and the line `.L2: .asciz "b"`. -/
theorem C25_string_interning_witness :
    ∃ g g1, StringRun g [("\"a\"", ".L1"), ("\"b\"", ".L2"), ("\"a\"", ".L1")] ∧
      (g.Labels.map Prod.fst).Perm ["\"a\"", "\"b\""] ∧
      generateGlobals [] [] exampleGlobalsHeap g = some g1 ∧
      g1.cout = ["\t.data\n", ".L1:\t.asciz\t\"a\"\n", ".L2:\t.asciz\t\"b\"\n"] := by
  have hlt : ¬ ("\"b\"" < "\"a\"") := by
    rw [String.lt_iff_toList_lt]
    decide
  have hne : ¬ ("\"b\"" = "\"a\"") := by decide
  have r1 : StringRun ⟨0, 0, 0, 2, [("\"a\"", ⟨1⟩)], ⟨0⟩, [], [], []⟩ [("\"a\"", ".L1")] :=
    StringRun.string _ _ [] "\"a\"" intPointer (fun _ => Symbol.new "" CType.error) ".L1"
      StringRun.start rfl
  have e2 : (Expr.String "\"b\"" intPointer).generate (fun _ => Symbol.new "" CType.error)
      ⟨0, 0, 0, 2, [("\"a\"", ⟨1⟩)], ⟨0⟩, [], [], []⟩ =
      some (".L2", ⟨0, 0, 0, 3, [("\"a\"", ⟨1⟩), ("\"b\"", ⟨2⟩)], ⟨0⟩, [], [], []⟩) := by
    simp only [Expr.generate, Generator.newLabel, insertLabel, if_neg hne, if_neg hlt]
    rfl
  have r2 := StringRun.string _ _ _ _ _ _ _ r1 e2
  have r3 : StringRun ⟨0, 0, 0, 4, [("\"a\"", ⟨1⟩), ("\"b\"", ⟨2⟩)], ⟨0⟩, [], [], []⟩
      [("\"a\"", ".L1"), ("\"b\"", ".L2"), ("\"a\"", ".L1")] :=
    StringRun.string _ _ _ "\"a\"" intPointer (fun _ => Symbol.new "" CType.error) ".L1" r2 rfl
  obtain ⟨_, _, _, lines, hl, _, _, _, _, hgen⟩ := C25_string_interning _ _ r3
  obtain ⟨g1, e, hc⟩ := hgen [] [] exampleGlobalsHeap (by simp)
  refine ⟨_, g1, r3, List.Perm.refl _, e, ?_⟩
  rw [hc, hl]
  decide

end InterningRuns

section Globals

/-- Claim C26: `generateGlobals` on global variables (symbols whose type is
not a function type) prints `.data` iff there is a global variable, a
floating-point label or a string label; then for each global variable, in the
order of the list, the line `.comm name, size, 4` (in two output statements);
then the lines of the floating-point labels and of the string labels. -/
theorem C26_generateGlobals (globals : List Nat) (fLabels : List fLabel) (h : Heap)
    (g : Generator) (hv : ∀ s ∈ globals, (h s).type.isFunction = false) :
    ∃ g1 data, generateGlobals globals fLabels h g = some g1 ∧
      g1.cout = g.cout ++ data ++
        (globals.flatMap fun s =>
          ["\t.comm\t" ++ (h s).name, ", " ++ toString (h s).type.sizeN ++ ", 4\n"]) ++
        doubleCode fLabels ++ ascizCode g.Labels ∧
      (data = ["\t.data\n"] ∨ data = []) ∧
      (data = ["\t.data\n"] ↔ globals ≠ [] ∨ fLabels ≠ [] ∨ g.Labels ≠ []) := by
  have hc := commCode_spec h globals hv
  by_cases hd : globals.length + fLabels.length + g.Labels.length > 0
  · refine ⟨(((g.emit "\t.data\n").emits (globals.flatMap fun s =>
        ["\t.comm\t" ++ (h s).name, ", " ++ toString (h s).type.sizeN ++ ", 4\n"])).emits
        (doubleCode fLabels)).emits (ascizCode g.Labels), ["\t.data\n"], ?_, ?_, Or.inl rfl, ?_⟩
    · simp only [generateGlobals, hc, if_pos hd, Option.bind_eq_bind, Option.some_bind]
      rfl
    · rfl
    · refine ⟨fun _ => ?_, fun _ => rfl⟩
      by_contra hall
      simp only [not_or, not_not] at hall
      obtain ⟨h1, h2, h3⟩ := hall
      rw [h1, h2, h3] at hd
      exact absurd hd (by decide)
  · refine ⟨((g.emits (globals.flatMap fun s =>
        ["\t.comm\t" ++ (h s).name, ", " ++ toString (h s).type.sizeN ++ ", 4\n"])).emits
        (doubleCode fLabels)).emits (ascizCode g.Labels), [], ?_, ?_, Or.inr rfl, ?_⟩
    · simp only [generateGlobals, hc, if_neg hd, Option.bind_eq_bind, Option.some_bind]
      rfl
    · simp [Generator.emits]
    · have h1 : globals = [] := List.eq_nil_of_length_eq_zero (by omega)
      have h2 : fLabels = [] := List.eq_nil_of_length_eq_zero (by omega)
      have h3 : g.Labels = [] := List.eq_nil_of_length_eq_zero (by omega)
      constructor
      · intro hx
        exact absurd hx (by simp)
      · rintro (hx | hx | hx)
        · exact absurd h1 hx
        · exact absurd h2 hx
        · exact absurd h3 hx

/-- Witness of C26: for `int a; double b;` the data section is `.data`,
`.comm a, 4, 4` and `.comm b, 8, 4`. -/
theorem C26_generateGlobals_witness :
    ∃ g1, generateGlobals [0, 1] [] exampleGlobalsHeap Generator.init = some g1 ∧
      g1.cout = ["\t.data\n", "\t.comm\ta", ", 4, 4\n", "\t.comm\tb", ", 8, 4\n"] := by
  obtain ⟨g1, data, e, hc, _, hd⟩ := C26_generateGlobals [0, 1] [] exampleGlobalsHeap
    Generator.init (by decide)
  have hdata : data = ["\t.data\n"] := hd.2 (Or.inl (by simp))
  refine ⟨g1, e, ?_⟩
  rw [hc, hdata]
  rfl

end Globals

section Cancellation

end Cancellation

section SemanticErrors

end SemanticErrors

section Sizeof

/-- Claim C29 as stated fails for an operand of a function type: with
`int f(int)` declared, in `sizeof f` the operand is the identifier `f`, whose
type is the function type, and the assertion of `Type::size` fails, so the
result is no `Integer` node. -/
theorem C29_sizeof_function_aborts :
    (checkerHeap 1).name = "f" ∧
    (checkerHeap 1).type = .mk .INT 0 (.Function (some [CType.integer])) ∧
    sizeofExpression (.expression (.Identifier 1 (checkerHeap 1).type)) Checker.init = none :=
  ⟨by decide, rfl, rfl⟩

/-- Claim C29, amended: for an expression `e` whose type is not a function
type, `sizeof e` is the `Integer` literal of `size(type(e))`, of the type as
it is, without array decay: 40 for an operand of type `int[10]`.
`sizeof(int)` is 4, `sizeof(double)` is 8 and `sizeof(T*...)` is 4.  Whenever
`sizeof` yields a node, the node is a plain `Integer` and the state of the
checker, with its diagnostics, is as before. -/
theorem C29_sizeof (e : Expr) (c : Checker) (hf : e.type.isFunction = false) :
    sizeofExpression (.expression e) c = some (.Integer (toString e.type.sizeN), c) ∧
    (e.type = .mk .INT 0 (.Array 10) →
      sizeofExpression (.expression e) c = some (.Integer "40", c)) ∧
    sizeofExpression (.type .INT 0) c = some (.Integer "4", c) ∧
    sizeofExpression (.type .DOUBLE 0) c = some (.Integer "8", c) ∧
    (∀ T i, 0 < i → sizeofExpression (.type T i) c = some (.Integer "4", c)) ∧
    (∀ operand r c1, sizeofExpression operand c = some (r, c1) →
      (∃ v, r = .Integer v) ∧ c1 = c) := by
  have h1 : sizeofExpression (.expression e) c = some (.Integer (toString e.type.sizeN), c) := by
    simp only [sizeofExpression, CType.size_of_not_isFunction hf, Option.map_some', newInteger]
  refine ⟨h1, ?_, rfl, rfl, ?_, ?_⟩
  · intro ht
    rw [h1, ht]
    rfl
  · intro T i hi
    have hs : (CType.mk T i .Scalar).size = some 4 := by
      simp only [CType.size, if_pos hi]
      rfl
    simp only [sizeofExpression, hs, Option.map_some', newInteger]
    rfl
  · intro operand r c1 hr
    simp only [sizeofExpression, Option.map_eq_some', Prod.mk.injEq] at hr
    obtain ⟨n, _, rfl, rfl⟩ := hr
    exact ⟨⟨_, rfl⟩, rfl⟩

/-- Witness of C29: `sizeof a` for `int a[10]` is the literal 40. -/
theorem C29_sizeof_witness :
    sizeofExpression (.expression (.Identifier 6 (.mk .INT 0 (.Array 10)))) Checker.init =
      some (.Integer "40", Checker.init) :=
  (C29_sizeof (.Identifier 6 (.mk .INT 0 (.Array 10))) Checker.init rfl).2.1 rfl

end Sizeof

section Branches

/-- Claim C30, the code at `int main(void) { int c; c = 1; if (c) { int x;
x = 1; } else { int y; y = 2; } return 0; }`: `If::allocate` sets `temp` to the
offset as the then-branch left it, so from the incoming offset -4 the variable
`x` of the then-branch gets -8 and the variable `y` of the else-branch gets
-12, not -8 again, and the offset that results is -12. -/
theorem C30_else_branch_follows_then_branch :
    (exampleBranchesIf.allocate (-4) exampleBranchesHeap).map
        (fun r => (r.1, (r.2 2).offset, (r.2 3).offset)) = some (-12, -8, -12) ∧
    (exampleBranches.allocate exampleBranchesHeap).map
        (fun r => (r.1, (r.2 1).offset, (r.2 2).offset, (r.2 3).offset)) =
      some (-12, -4, -8, -12) := by
  decide

end Branches

section GeneratorRuns

theorem Generator.Follows.follows_refl (g : Generator) : Generator.Follows g g :=
  fun log hr => ⟨[], by rw [List.append_nil]; exact hr⟩

theorem Generator.Follows.follows_trans {g g1 g2 : Generator} (a : Generator.Follows g g1)
    (b : Generator.Follows g1 g2) : Generator.Follows g g2 := by
  intro log hr
  obtain ⟨m1, r1⟩ := a log hr
  obtain ⟨m2, r2⟩ := b _ r1
  exact ⟨m1 ++ m2, by rw [← List.append_assoc]; exact r2⟩

theorem Generator.Follows.quiet {g g1 : Generator} (hL : g1.Labels = g.Labels)
    (hc : g.counter ≤ g1.counter) : Generator.Follows g g1 :=
  fun log hr => ⟨[], by rw [List.append_nil]; exact StringRun.other g g1 log hr hL hc⟩

theorem Generator.Follows.follows_emit (g : Generator) (text : String) :
    Generator.Follows g (g.emit text) :=
  Generator.Follows.quiet rfl (Nat.le_refl _)

theorem Generator.Follows.follows_emits (g : Generator) (texts : List String) :
    Generator.Follows g (g.emits texts) :=
  Generator.Follows.quiet rfl (Nat.le_refl _)

theorem Generator.Follows.follows_newLabel (g : Generator) : Generator.Follows g g.newLabel.2 :=
  Generator.Follows.quiet rfl (Nat.le_succ _)

theorem assigntemp_continues (type : CType) : Continues (assigntemp type) := by
  intro g t g1 e
  unfold assigntemp at e
  cases hs : type.size with
  | none => rw [hs] at e; exact absurd e (by simp)
  | some n =>
    rw [hs] at e
    simp only [Option.some.injEq, Prod.mk.injEq] at e
    rw [← e.2]
    exact Generator.Follows.quiet rfl (Nat.le_refl _)

theorem Continues.continues_congr {α : Type} {m m1 : Generator → Option (α × Generator)}
    (a : Continues m) (h : ∀ g, m1 g = m g) : Continues m1 := by
  intro g x g1 e
  rw [h] at e
  exact a g x g1 e

theorem unaryNode_continues {operand : Generator → Option (Operand × Generator)}
    {type : CType} (code : Operand → Operand → List String) (a : Continues operand) :
    Continues (unaryNode operand type code) := by
  intro g x g1 e
  simp only [unaryNode, Option.bind_eq_bind, Option.bind_eq_some, Prod.exists,
    Option.some.injEq, Prod.mk.injEq] at e
  obtain ⟨y, g2, e1, t, g3, e2, _, rfl⟩ := e
  exact ((a _ _ _ e1).follows_trans (assigntemp_continues _ _ _ _ e2)).follows_trans
    (Generator.Follows.follows_emits _ _)

theorem binaryNode_continues {left right : Generator → Option (Operand × Generator)}
    {type : CType} (code : Operand → Operand → Operand → List String)
    (a : Continues left) (b : Continues right) :
    Continues (binaryNode left right type code) := by
  intro g x g1 e
  simp only [binaryNode, Option.bind_eq_bind, Option.bind_eq_some, Prod.exists,
    Option.some.injEq, Prod.mk.injEq] at e
  obtain ⟨l, g2, e1, r, g3, e2, t, g4, e3, _, rfl⟩ := e
  exact (((a _ _ _ e1).follows_trans (b _ _ _ e2)).follows_trans
    (assigntemp_continues _ _ _ _ e3)).follows_trans (Generator.Follows.follows_emits _ _)

theorem logicalNode_continues {left right : Generator → Option (Operand × Generator)}
    {type : CType} (comment jump : String) (a : Continues left) (b : Continues right) :
    Continues (logicalNode comment jump left right type) := by
  intro g x g1 e
  simp only [logicalNode, Option.bind_eq_bind, Option.bind_eq_some, Prod.exists,
    Option.some.injEq, Prod.mk.injEq] at e
  obtain ⟨l, g2, e1, t, g3, e2, r, g4, e3, _, rfl⟩ := e
  exact ((((((Generator.Follows.follows_emit g comment).follows_trans (a _ _ _ e1)).follows_trans
    (assigntemp_continues _ _ _ _ e2)).follows_trans
    (Generator.Follows.follows_newLabel g3)).follows_trans
    (Generator.Follows.follows_emits _ _)).follows_trans (b _ _ _ e3)).follows_trans
    (Generator.Follows.follows_emits _ _)

theorem addressCode_continues (type : CType) (x : Operand) (indirect : Bool) :
    Continues (addressCode type x indirect) := by
  intro g y g1 e
  unfold addressCode at e
  cases indirect with
  | true =>
    simp only [Bool.not_true, Bool.false_eq_true, if_false, Option.some.injEq,
      Prod.mk.injEq] at e
    rw [← e.2]
    exact Generator.Follows.follows_refl g
  | false =>
    simp only [Bool.not_false, if_true] at e
    by_cases hd : x.get 0 = '.'
    · rw [if_pos hd] at e
      simp only [Option.some.injEq, Prod.mk.injEq] at e
      rw [← e.2]
      exact Generator.Follows.follows_refl g
    · rw [if_neg hd] at e
      cases ha : assigntemp type g with
      | none => rw [ha] at e; exact absurd e (by simp)
      | some r =>
        obtain ⟨t, g2⟩ := r
        rw [ha] at e
        simp only [Option.some.injEq, Prod.mk.injEq] at e
        rw [← e.2]
        exact (assigntemp_continues _ _ _ _ ha).follows_trans (Generator.Follows.follows_emits _ _)

theorem stringNode_continues (value : String) (type : CType) (h : Heap) :
    Continues ((Expr.String value type).generate h) :=
  fun g op g1 e log hr => ⟨[(value, op)], StringRun.string g g1 log value type h op hr e⟩

end GeneratorRuns

section GeneratorRunsOfTrees

mutual
/-- Generating an expression continues the run it starts in. -/
theorem Expr.generate_continues (e : Expr) (h : Heap) : Continues (e.generate h) := by
  cases e with
  | String value type => exact stringNode_continues value type h
  | Identifier symbol type =>
    intro g x g1 e
    simp only [Expr.generate] at e
    split_ifs at e <;>
      (simp only [Option.some.injEq, Prod.mk.injEq] at e
       rw [← e.2]
       exact Generator.Follows.follows_refl g)
  | Integer value =>
    intro g x g1 e
    simp only [Expr.generate, Option.some.injEq, Prod.mk.injEq] at e
    rw [← e.2]
    exact Generator.Follows.follows_refl g
  | Real value label =>
    intro g x g1 e
    simp only [Expr.generate, Option.some.injEq, Prod.mk.injEq] at e
    rw [← e.2]
    exact Generator.Follows.follows_refl g
  | Call id args type =>
    have ia := Expr.generateArgs_continues args h
    intro g x g1 e
    simp only [Expr.generate, Option.bind_eq_bind, Option.bind_eq_some, Prod.exists,
      Option.some.injEq, Prod.mk.injEq] at e
    obtain ⟨n, g2, e1, t, g3, e2, _, rfl⟩ := e
    have s2 : Generator.Follows g2 (if n > 0 then
        (g2.emit ("\tcall\t" ++ (h id).name ++ "\n")).emit
          ("\taddl\t$" ++ toString n ++ ", %esp\n")
        else g2.emit ("\tcall\t" ++ (h id).name ++ "\n")) := by
      split_ifs <;> exact Generator.Follows.quiet rfl (Nat.le_refl _)
    exact (((ia _ _ _ e1).follows_trans s2).follows_trans
      (assigntemp_continues _ _ _ _ e2)).follows_trans (Generator.Follows.follows_emits _ _)
  | Multiply left right type =>
    exact (binaryNode_continues _ (Expr.generate_continues left h)
      (Expr.generate_continues right h)).continues_congr
      (fun g => by simp only [Expr.generate]; rfl)
  | Divide left right type =>
    exact (binaryNode_continues _ (Expr.generate_continues left h)
      (Expr.generate_continues right h)).continues_congr
      (fun g => by simp only [Expr.generate]; rfl)
  | Remainder left right type =>
    exact (binaryNode_continues _ (Expr.generate_continues left h)
      (Expr.generate_continues right h)).continues_congr
      (fun g => by simp only [Expr.generate]; rfl)
  | Add left right type =>
    exact (binaryNode_continues _ (Expr.generate_continues left h)
      (Expr.generate_continues right h)).continues_congr
      (fun g => by simp only [Expr.generate]; rfl)
  | Subtract left right type =>
    exact (binaryNode_continues _ (Expr.generate_continues left h)
      (Expr.generate_continues right h)).continues_congr
      (fun g => by simp only [Expr.generate]; rfl)
  | LessThan left right type =>
    exact (binaryNode_continues _ (Expr.generate_continues left h)
      (Expr.generate_continues right h)).continues_congr
      (fun g => by simp only [Expr.generate]; rfl)
  | GreaterThan left right type =>
    exact (binaryNode_continues _ (Expr.generate_continues left h)
      (Expr.generate_continues right h)).continues_congr
      (fun g => by simp only [Expr.generate]; rfl)
  | LessOrEqual left right type =>
    exact (binaryNode_continues _ (Expr.generate_continues left h)
      (Expr.generate_continues right h)).continues_congr
      (fun g => by simp only [Expr.generate]; rfl)
  | GreaterOrEqual left right type =>
    exact (binaryNode_continues _ (Expr.generate_continues left h)
      (Expr.generate_continues right h)).continues_congr
      (fun g => by simp only [Expr.generate]; rfl)
  | Equal left right type =>
    exact (binaryNode_continues _ (Expr.generate_continues left h)
      (Expr.generate_continues right h)).continues_congr
      (fun g => by simp only [Expr.generate]; rfl)
  | NotEqual left right type =>
    exact (binaryNode_continues _ (Expr.generate_continues left h)
      (Expr.generate_continues right h)).continues_congr
      (fun g => by simp only [Expr.generate]; rfl)
  | LogicalAnd left right type =>
    exact (logicalNode_continues _ _ (Expr.generate_continues left h)
      (Expr.generate_continues right h)).continues_congr
      (fun g => by simp only [Expr.generate]; rfl)
  | LogicalOr left right type =>
    exact (logicalNode_continues _ _ (Expr.generate_continues left h)
      (Expr.generate_continues right h)).continues_congr
      (fun g => by simp only [Expr.generate]; rfl)
  | Not expr type =>
    exact (unaryNode_continues _ (Expr.generate_continues expr h)).continues_congr
      (fun g => by simp only [Expr.generate]; rfl)
  | Negate expr type =>
    exact (unaryNode_continues _ (Expr.generate_continues expr h)).continues_congr
      (fun g => by simp only [Expr.generate]; rfl)
  | Dereference expr type =>
    exact (unaryNode_continues _ (Expr.generate_continues expr h)).continues_congr
      (fun g => by simp only [Expr.generate]; rfl)
  | Cast type expr =>
    have ie := Expr.generate_continues expr h
    intro g x g1 e
    simp only [Expr.generate, Option.bind_eq_bind, Option.bind_eq_some, Prod.exists,
      Option.some.injEq] at e
    obtain ⟨y, g2, e1, t, g3, e2, e3⟩ := e
    have s3 : Generator.Follows g3 (castCode type.isReal expr.type.isReal y t g3).2 := by
      unfold castCode
      split_ifs <;> exact Generator.Follows.quiet rfl (Nat.le_refl _)
    rw [e3] at s3
    exact ((ie _ _ _ e1).follows_trans (assigntemp_continues _ _ _ _ e2)).follows_trans s3
  | Address expr type =>
    by_cases hd : ∃ pointer dtype, expr = .Dereference pointer dtype
    · obtain ⟨pointer, dtype, rfl⟩ := hd
      have ip := Expr.generate_continues pointer h
      intro g x g1 e
      simp only [Expr.generate, indirectForm, Option.bind_eq_bind, Option.bind_eq_some,
        Option.map_eq_some', Prod.exists] at e
      obtain ⟨y, ind, g2, ⟨y1, g21, e1, e2⟩, e3⟩ := e
      simp only [Prod.mk.injEq] at e2
      obtain ⟨rfl, rfl, rfl⟩ := e2
      exact (ip _ _ _ e1).follows_trans (addressCode_continues _ _ _ _ _ _ e3)
    · have hnd : ∀ p dt, expr ≠ .Dereference p dt := fun p dt he => hd ⟨p, dt, he⟩
      have ie := Expr.generate_continues expr h
      intro g x g1 e
      rw [Expr.generate_address_plain hnd] at e
      simp only [plainForm, Option.bind_eq_some, Option.map_eq_some', Prod.exists] at e
      obtain ⟨y, ind, g2, ⟨y1, g21, e1, e2⟩, e3⟩ := e
      simp only [Prod.mk.injEq] at e2
      obtain ⟨rfl, rfl, rfl⟩ := e2
      exact (ie _ _ _ e1).follows_trans (addressCode_continues _ _ _ _ _ _ e3)
  | Assign left right type =>
    by_cases hd : ∃ pointer dtype, left = .Dereference pointer dtype
    · obtain ⟨pointer, dtype, rfl⟩ := hd
      exact (binaryNode_continues _ (Expr.generate_continues pointer h)
        (Expr.generate_continues right h)).continues_congr
        (fun g => by simp only [Expr.generate]; rfl)
    · have hnd : ∀ p dt, left ≠ .Dereference p dt := fun p dt he => hd ⟨p, dt, he⟩
      exact (binaryNode_continues _ (Expr.generate_continues left h)
        (Expr.generate_continues right h)).continues_congr
        (fun g => Expr.generate_assign_plain hnd right type h g)
termination_by sizeOf e
/-- The loop of `Call::generate` over the arguments continues the run it
starts in. -/
theorem Expr.generateArgs_continues (args : List Expr) (h : Heap) :
    Continues (Expr.generateArgs args h) := by
  cases args with
  | nil =>
    intro g n g1 e
    simp only [Expr.generateArgs, Option.some.injEq, Prod.mk.injEq] at e
    rw [← e.2]
    exact Generator.Follows.follows_refl g
  | cons a args =>
    have ia := Expr.generateArgs_continues args h
    have ie := Expr.generate_continues a h
    intro g n g3 e
    obtain ⟨n1, g1, op, g2, k, e1, e2, _, _, rfl⟩ := (generateArgs_cons a args h g g3 n).1 e
    exact ((ia _ _ _ e1).follows_trans (ie _ _ _ e2)).follows_trans
      (Generator.Follows.follows_emits _ _)
termination_by sizeOf args
end

end GeneratorRunsOfTrees

section GeneratorRunsOfStatements

mutual
/-- Generating a statement continues the run it starts in. -/
theorem Stmt.generate_follows (s : Stmt) (h : Heap) (g g1 : Generator)
    (e : s.generate h g = some g1) : Generator.Follows g g1 := by
  cases s with
  | Expression expr =>
    simp only [Stmt.generate] at e
    cases he : expr.generate h g with
    | none => rw [he] at e; exact absurd e (by simp)
    | some r =>
      rw [he] at e
      simp only [Option.some.injEq] at e
      rw [← e]
      exact Expr.generate_continues expr h g r.1 r.2 he
  | Return expr =>
    simp only [Stmt.generate] at e
    cases he : expr.generate h g with
    | none => rw [he] at e; exact absurd e (by simp)
    | some r =>
      rw [he] at e
      simp only [Option.some.injEq] at e
      rw [← e]
      exact (Expr.generate_continues expr h g r.1 r.2 he).follows_trans
        (Generator.Follows.follows_emits _ _)
  | Block decls stmts =>
    simp only [Stmt.generate] at e
    exact Stmt.generateStmts_follows stmts h g g1 e
  | While expr stmt =>
    simp only [Stmt.generate] at e
    have s0 : Generator.Follows g (whileStart g).2.2 :=
      Generator.Follows.quiet rfl (Nat.le_succ_of_le (Nat.le_succ _))
    cases he : expr.generate h (whileStart g).2.2 with
    | none => rw [he] at e; exact absurd e (by simp)
    | some r =>
      rw [he] at e
      simp only at e
      cases hb : stmt.generate h (r.2.emits (whileTestCode r.1 (whileStart g).2.1)) with
      | none => rw [hb] at e; exact absurd e (by simp)
      | some g2 =>
        rw [hb] at e
        simp only [Option.some.injEq] at e
        rw [← e]
        exact (((s0.follows_trans (Expr.generate_continues expr h _ r.1 r.2 he)).follows_trans
          (Generator.Follows.follows_emits _ _)).follows_trans
          (Stmt.generate_follows stmt h _ g2 hb)).follows_trans
          (Generator.Follows.follows_emits _ _)
  | If expr thenStmt elseStmt =>
    cases elseStmt with
    | none =>
      simp only [Stmt.generate] at e
      cases he : expr.generate h g with
      | none => rw [he] at e; exact absurd e (by simp)
      | some r =>
        rw [he] at e
        simp only at e
        have s1 : Generator.Follows r.2 (ifStart r.1 r.2).2.2 :=
          Generator.Follows.quiet rfl (Nat.le_succ_of_le (Nat.le_succ _))
        cases hb : thenStmt.generate h (ifStart r.1 r.2).2.2 with
        | none => rw [hb] at e; exact absurd e (by simp)
        | some g2 =>
          rw [hb] at e
          simp only [Option.some.injEq] at e
          rw [← e]
          exact (((Expr.generate_continues expr h g r.1 r.2 he).follows_trans s1).follows_trans
            (Stmt.generate_follows thenStmt h _ g2 hb)).follows_trans
            (Generator.Follows.follows_emit _ _)
    | some elseStmt =>
      simp only [Stmt.generate] at e
      cases he : expr.generate h g with
      | none => rw [he] at e; exact absurd e (by simp)
      | some r =>
        rw [he] at e
        simp only at e
        have s1 : Generator.Follows r.2 (ifStart r.1 r.2).2.2 :=
          Generator.Follows.quiet rfl (Nat.le_succ_of_le (Nat.le_succ _))
        cases hb : thenStmt.generate h (ifStart r.1 r.2).2.2 with
        | none => rw [hb] at e; exact absurd e (by simp)
        | some g2 =>
          rw [hb] at e
          simp only at e
          cases hc : elseStmt.generate h (g2.emits ["\tjmp\t" ++ (ifStart r.1 r.2).2.1.text ++ "\n",
              (ifStart r.1 r.2).1.text ++ ":\n"]) with
          | none => rw [hc] at e; exact absurd e (by simp)
          | some g3 =>
            rw [hc] at e
            simp only [Option.some.injEq] at e
            rw [← e]
            exact (((((Expr.generate_continues expr h g r.1 r.2 he).follows_trans
              s1).follows_trans (Stmt.generate_follows thenStmt h _ g2 hb)).follows_trans
              (Generator.Follows.follows_emits _ _)).follows_trans
              (Stmt.generate_follows elseStmt h _ g3 hc)).follows_trans
              (Generator.Follows.follows_emit _ _)
termination_by sizeOf s
/-- The loop of `Block::generate` continues the run it starts in. -/
theorem Stmt.generateStmts_follows (ss : List Stmt) (h : Heap) (g g1 : Generator)
    (e : Stmt.generateStmts ss h g = some g1) : Generator.Follows g g1 := by
  cases ss with
  | nil =>
    simp only [Stmt.generateStmts, Option.some.injEq] at e
    rw [← e]
    exact Generator.Follows.follows_refl g
  | cons s ss =>
    simp only [Stmt.generateStmts] at e
    cases hs : s.generate h g with
    | none => rw [hs] at e; exact absurd e (by simp)
    | some g2 =>
      rw [hs] at e
      simp only at e
      have s1 : Generator.Follows g2 g2.endStatement :=
        Generator.Follows.quiet rfl (Nat.le_refl _)
      exact ((Stmt.generate_follows s h g g2 hs).follows_trans s1).follows_trans
        (Stmt.generateStmts_follows ss h g2.endStatement g1 e)
termination_by sizeOf ss
end

theorem Function.follows_of_generate (f : Function) (h h1 : Heap) (g g1 : Generator)
    (e : f.generate h g = some (h1, g1)) : Generator.Follows g g1 := by
  unfold Function.generate at e
  cases ha : f.allocate h with
  | none => rw [ha] at e; exact absurd e (by simp)
  | some r =>
    rw [ha] at e
    simp only at e
    cases hb : f.body.generate r.2 (Function.start g r.1 (r.2 f.id).name) with
    | none => rw [hb] at e; exact absurd e (by simp)
    | some g2 =>
      rw [hb] at e
      simp only [Option.some.injEq, Prod.mk.injEq] at e
      rw [← e.2]
      have s0 : Generator.Follows g (Function.start g r.1 (r.2 f.id).name) :=
        Generator.Follows.quiet rfl (Nat.le_succ _)
      exact (s0.follows_trans (Stmt.generate_follows _ _ _ g2 hb)).follows_trans
        (Generator.Follows.follows_emits _ _)

theorem globalDeclaration_follows (p : Parsed) (s s1 : Compiler)
    (e : globalDeclaration p s = some s1) : Generator.Follows s.generator s1.generator := by
  unfold globalDeclaration at e
  cases hf : p.function with
  | none =>
    rw [hf] at e
    simp only [Option.some.injEq] at e
    rw [← e]
    exact Generator.Follows.follows_refl _
  | some f =>
    rw [hf] at e
    simp only at e
    by_cases h0 : (p.parse s).checker.numErrors = 0
    · rw [if_pos h0] at e
      simp only [Option.map_eq_some', Prod.exists] at e
      obtain ⟨h1, g1, e1, rfl⟩ := e
      exact Function.follows_of_generate f _ h1 _ g1 e1
    · rw [if_neg h0] at e
      simp only [Option.some.injEq] at e
      rw [← e]
      exact Generator.Follows.follows_refl _

/-- The generator of the compiler is in a run of the kind of C25 after every
sequence of global declarations. -/
theorem globalDeclarations_stringRun : ∀ (ps : List Parsed) (s s1 : Compiler),
    globalDeclarations ps s = some s1 → Generator.Follows s.generator s1.generator
  | [], s, s1, e => by
    simp only [globalDeclarations, Option.some.injEq] at e
    rw [← e]
    exact Generator.Follows.follows_refl _
  | p :: ps, s, s1, e => by
    simp only [globalDeclarations, Option.bind_eq_some] at e
    obtain ⟨s2, e1, e2⟩ := e
    exact (globalDeclaration_follows p s s2 e1).follows_trans
      (globalDeclarations_stringRun ps s2 s1 e2)

/-- Whatever the input, the state of the generator that `generateGlobals`
receives at the end of `main` is the state of a run with its log. -/
theorem globalDeclarations_run (input : List Parsed) (s : Compiler)
    (e : globalDeclarations input Compiler.init = some s) :
    ∃ log, StringRun s.generator log := by
  obtain ⟨more, r⟩ := globalDeclarations_stringRun input _ s e [] StringRun.start
  exact ⟨_, r⟩

end GeneratorRunsOfStatements

section Siblings

/-- Claim C31, the code at `int main(void) { { int x; x = 1; } { int y;
y = 2; } return 0; }`: `Block::allocate` sets `temp` to the offset of the block
once, before the loop over the statements, so the second nested block starts
from the offset the first one left: from the incoming offset 0 the variable `x`
gets -4 and the variable `y` gets -8, not -4 again, and the offset that results
is -8. -/
theorem C31_sibling_block_follows_sibling :
    (exampleSiblingsBlock.allocate 0 exampleSiblingsHeap).map
        (fun r => (r.1, (r.2 1).offset, (r.2 2).offset)) = some (-8, -4, -8) ∧
    exampleSiblings.body = exampleSiblingsBlock ∧
    (exampleSiblings.allocate exampleSiblingsHeap).map
        (fun r => (r.1, (r.2 1).offset, (r.2 2).offset)) = some (-8, -4, -8) :=
  ⟨by decide, rfl, by decide⟩

end Siblings

section RealCode

/-- Claim C33, the code at `int main(void) { double x; double y; x = y = 1.5;
return 0; }`: for `y = 1.5` `Assign::generate` prints one `fldl` and two
`fstpl`, the second into the temporary of the node, so the code of the node
pops once more than it pushes and the temporary is stored from an empty
register stack; the outer assignment then loads that temporary into `x`. -/
theorem C33_real_assign_pops_twice :
    ((Expr.Assign (.Identifier 2 CType.real) (.Real "1.5" 0) CType.real).generate
        ((exampleRealAssignHeap.setOffset 1 (-8)).setOffset 2 (-16))
        { Generator.init with tempoffset := -16, minoffset := -16, maxoffset := -16 }).map
      (fun r => (r.1, r.2.cout, x87Depths r.2.cout 0)) =
      some ("-24(%ebp)",
        ["#we are teh assignzorzezvillez\n", "\tfldl\t.fp0\n", "\tfstpl\t-16(%ebp)\n",
          "\tfstpl\t-24(%ebp)\n"],
        [0, 1, 0, -1]) ∧
    (exampleRealAssign.output exampleRealAssignHeap).map (fun out => (out, x87Depths out 0)) =
      some (["main:\n", "\tpushl\t%ebp\n", "\tmovl\t%esp, %ebp\n", "\tsubl\t$main.size, %esp\n",
          "#we are teh assignzorzezvillez\n", "\tfldl\t.fp0\n", "\tfstpl\t-16(%ebp)\n",
          "\tfstpl\t-24(%ebp)\n", "#we are teh assignzorzezvillez\n", "\tfldl\t-24(%ebp)\n",
          "\tfstpl\t-8(%ebp)\n", "\tfstpl\t-32(%ebp)\n", "\tmovl\t$0, %eax\n", "\tjmp\t.L1\n",
          ".L1:\n", "\tmovl\t%ebp, %esp\n", "\tpopl\t%ebp\n", "\tret\n\n", "\t.global\tmain\n",
          "\t.set\tmain.size, 32\n", "\n"],
        [0, 0, 0, 0, 0, 1, 0, -1, -1, 0, -1, -2, -2, -2, -2, -2, -2, -2, -2, -2, -2]) := by
  decide

end RealCode

section RealTests

/-- Claim C38, the code at `int main(void) { double d; d = 1.0; if (d) return
1; return 0; }`: `checkTest` accepts the test of type `double`, and
`If::generate` tests it with `movl -8(%ebp), %eax` and `testl %eax, %eax`, the
low four bytes of the eight of `d`; `While::generate`, `LogicalAnd::generate`
and `LogicalOr::generate` test a `double` operand in the same way. -/
theorem C38_real_test_uses_movl_testl :
    (checkTest (.Identifier 1 CType.real) Checker.init).2.diagnostics = [] ∧
    exampleRealTest.output exampleRealTestHeap =
      some ["main:\n", "\tpushl\t%ebp\n", "\tmovl\t%esp, %ebp\n", "\tsubl\t$main.size, %esp\n",
        "#we are teh assignzorzezvillez\n", "\tfldl\t.fp0\n", "\tfstpl\t-8(%ebp)\n",
        "\tfstpl\t-16(%ebp)\n", "#iffin and iffin and yeah! C> ice cream! C>\n",
        "\tmovl\t-8(%ebp), %eax\n", "\ttestl\t%eax, %eax\n", "\tje\t.L2\n", "\tmovl\t$1, %eax\n",
        "\tjmp\t.L1\n", ".L2:\n", "\tmovl\t$0, %eax\n", "\tjmp\t.L1\n", ".L1:\n",
        "\tmovl\t%ebp, %esp\n", "\tpopl\t%ebp\n", "\tret\n\n", "\t.global\tmain\n",
        "\t.set\tmain.size, 16\n", "\n"] ∧
    ((Stmt.While (.Identifier 1 CType.real) (.Block [] [])).generate
        (exampleRealTestHeap.setOffset 1 (-8)) Generator.init).map (fun g => g.cout) =
      some ["#while time! and i scream for all the ice and cream C> C> C> C> C> \n", ".L1:\n",
        "\tmovl\t-8(%ebp), %eax\n", "\ttestl\t%eax, %eax\n", "\tje\t.L2\n", "\tjmp\t.L1\n",
        ".L2:\n"] ∧
    ((Expr.LogicalAnd (.Identifier 1 CType.real) (.Identifier 1 CType.real)
        CType.integer).generate (exampleRealTestHeap.setOffset 1 (-8)) Generator.init).map
        (fun r => r.2.cout) =
      some ["#all of the logical, AND THEN scream for all the ice and cream C> C> C> C> C> \n",
        "\tmovl\t-8(%ebp), %eax\n", "\ttestl\t%eax, %eax\n", "\tje\t.L1\n",
        "\tmovl\t-8(%ebp), %eax\n", "\ttestl\t%eax, %eax\n", ".L1:\n", "\tsetne\t%al\n",
        "\tmovzbl\t%al, %eax\n", "\tmovl\t%eax, -4(%ebp)\n"] ∧
    ((Expr.LogicalOr (.Identifier 1 CType.real) (.Identifier 1 CType.real)
        CType.integer).generate (exampleRealTestHeap.setOffset 1 (-8)) Generator.init).map
        (fun r => r.2.cout) =
      some ["#all of the logical, or scream for all the ice and cream C> C> C> C> C> \n",
        "\tmovl\t-8(%ebp), %eax\n", "\ttestl\t%eax, %eax\n", "\tjne\t.L1\n",
        "\tmovl\t-8(%ebp), %eax\n", "\ttestl\t%eax, %eax\n", ".L1:\n", "\tsetne\t%al\n",
        "\tmovzbl\t%al, %eax\n", "\tmovl\t%eax, -4(%ebp)\n"] := by
  decide

end RealTests

section RealCasts

/-- Claim C39, the code at `double f(void) { return (double) 5; }`:
`checkCast` accepts the cast of the literal without a diagnostic and leaves
the literal under the `Cast` node, and `Cast::generate` prints `fildl` with
the operand of the literal, the immediate `$5`. -/
theorem C39_cast_of_literal_emits_fildl_immediate :
    (checkCast CType.real (.Integer "5") Checker.init).1 = .Cast CType.real (.Integer "5") ∧
    (checkCast CType.real (.Integer "5") Checker.init).2.diagnostics = [] ∧
    (checkCast CType.real (.Integer "5") Checker.init).2.numErrors = 0 ∧
    exampleCast.output exampleCastHeap =
      some ["f:\n", "\tpushl\t%ebp\n", "\tmovl\t%esp, %ebp\n", "\tsubl\t$f.size, %esp\n",
        "\n\t#Time to cast things!!! <3\n", "\tfildl\t$5\n", "\tfstpl\t-8(%ebp)\n",
        "\tfldl\t-8(%ebp)\n", "\tjmp\t.L1\n", ".L1:\n", "\tmovl\t%ebp, %esp\n",
        "\tpopl\t%ebp\n", "\tret\n\n", "\t.global\tf\n", "\t.set\tf.size, 8\n", "\n"] :=
  ⟨rfl, by decide, by decide, by decide⟩

end RealCasts

section IndirectForm

theorem Expr.generateIndirect_plain {e : Expr} (hnd : ∀ p dt, e ≠ .Dereference p dt)
    (h : Heap) (g : Generator) : e.generateIndirect h g = plainForm (e.generate h g) := by
  cases e <;> first | exact absurd rfl (hnd _ _) | rfl

theorem Expr.generate_address (x : Expr) (type : CType) (h : Heap) (g : Generator) :
    (Expr.Address x type).generate h g =
      (x.generateIndirect h g).bind fun r => addressCode type r.1 r.2.1 r.2.2 := by
  by_cases hd : ∃ p dt, x = .Dereference p dt
  · obtain ⟨p, dt, rfl⟩ := hd
    simp only [Expr.generate, Expr.generateIndirect, Option.bind_eq_bind]
  · have hnd : ∀ p dt, x ≠ .Dereference p dt := fun p dt he => hd ⟨p, dt, he⟩
    rw [Expr.generate_address_plain hnd, Expr.generateIndirect_plain hnd]

/-- Claim C34: `generate(indirect)` on a `Dereference` gives what generating
its pointer gives, the operand and the state with the output and the
offset of the temporaries, and sets `indirect`; on an expression `e` of any
other class it gives what `generate()` gives and clears `indirect`;
`Address::generate` works on the result of `generate(indirect)` of its
operand, and for `&*p` it gives what generating `p` gives: no code beyond
that of `p`, and the operand of `p`. -/
theorem C34_generate_indirect (e p : Expr) (type : CType) (h : Heap) (g : Generator)
    (hnd : ∀ q dt, e ≠ .Dereference q dt) :
    (Expr.Dereference p type).generateIndirect h g =
      (p.generate h g).map (fun r => (r.1, true, r.2)) ∧
    e.generateIndirect h g = (e.generate h g).map (fun r => (r.1, false, r.2)) ∧
    (∀ x type1, (Expr.Address x type1).generate h g =
      (x.generateIndirect h g).bind fun r => addressCode type1 r.1 r.2.1 r.2.2) ∧
    (∀ type1, (Expr.Address (.Dereference p type) type1).generate h g = p.generate h g) := by
  refine ⟨rfl, Expr.generateIndirect_plain hnd h g, fun x type1 => Expr.generate_address x type1 h g,
    fun type1 => ?_⟩
  rw [Expr.generate_address]
  simp only [Expr.generateIndirect, indirectForm]
  cases p.generate h g with
  | none => rfl
  | some r => rfl

/-- Witness of C34: for the pointer `p` at `-4(%ebp)`, `generate(indirect)`
on `p` gives the operand `-4(%ebp)` with `indirect` cleared, and on `*p` the
same operand with `indirect` set, both without code. -/
theorem C34_generate_indirect_witness :
    ((Expr.Identifier 3 intPointer).generateIndirect (checkerHeap.setOffset 3 (-4))
        Generator.init).map (fun r => (r.1, r.2.1, r.2.2.cout)) =
      some ("-4(%ebp)", false, []) ∧
    ((Expr.Dereference (.Identifier 3 intPointer) CType.integer).generateIndirect
        (checkerHeap.setOffset 3 (-4)) Generator.init).map (fun r => (r.1, r.2.1, r.2.2.cout)) =
      some ("-4(%ebp)", true, []) := by
  have w := C34_generate_indirect (.Identifier 3 intPointer) (.Identifier 3 intPointer)
    CType.integer (checkerHeap.setOffset 3 (-4)) Generator.init
    (fun q dt he => Expr.noConfusion he)
  rw [w.1, w.2.1]
  exact ⟨by decide, by decide⟩

end IndirectForm

section ClosedRelations

variable {R : Generator → Generator → Prop}

theorem Keeps.keeps_congr {α : Type} {m m1 : Generator → Option (α × Generator)}
    (a : Keeps R m) (h : ∀ g, m1 g = m g) : Keeps R m1 := by
  intro g x g1 e
  rw [h] at e
  exact a g x g1 e

theorem unaryNode_keeps (hR : Closed R) {operand : Generator → Option (Operand × Generator)}
    {type : CType} (code : Operand → Operand → List String) (a : Keeps R operand) :
    Keeps R (unaryNode operand type code) := by
  intro g x g1 e
  simp only [unaryNode, Option.bind_eq_bind, Option.bind_eq_some, Prod.exists,
    Option.some.injEq, Prod.mk.injEq] at e
  obtain ⟨y, g2, e1, t, g3, e2, _, rfl⟩ := e
  exact hR.next _ _ _ (hR.next _ _ _ (a _ _ _ e1) (hR.temp _ _ _ _ e2)) (hR.emits _ _)

theorem binaryNode_keeps (hR : Closed R) {left right : Generator → Option (Operand × Generator)}
    {type : CType} (code : Operand → Operand → Operand → List String)
    (a : Keeps R left) (b : Keeps R right) :
    Keeps R (binaryNode left right type code) := by
  intro g x g1 e
  simp only [binaryNode, Option.bind_eq_bind, Option.bind_eq_some, Prod.exists,
    Option.some.injEq, Prod.mk.injEq] at e
  obtain ⟨l, g2, e1, r, g3, e2, t, g4, e3, _, rfl⟩ := e
  exact hR.next _ _ _ (hR.next _ _ _ (hR.next _ _ _ (a _ _ _ e1) (b _ _ _ e2))
    (hR.temp _ _ _ _ e3)) (hR.emits _ _)

theorem logicalNode_keeps (hR : Closed R) {left right : Generator → Option (Operand × Generator)}
    {type : CType} (comment jump : String) (a : Keeps R left) (b : Keeps R right) :
    Keeps R (logicalNode comment jump left right type) := by
  intro g x g1 e
  simp only [logicalNode, Option.bind_eq_bind, Option.bind_eq_some, Prod.exists,
    Option.some.injEq, Prod.mk.injEq] at e
  obtain ⟨l, g2, e1, t, g3, e2, r, g4, e3, _, rfl⟩ := e
  exact hR.next _ _ _ (hR.next _ _ _ (hR.next _ _ _ (hR.next _ _ _ (hR.next _ _ _
    (hR.next _ _ _ (hR.emit g comment) (a _ _ _ e1)) (hR.temp _ _ _ _ e2)) (hR.label g3))
    (hR.emits _ _)) (b _ _ _ e3)) (hR.emits _ _)

theorem addressCode_keeps (hR : Closed R) (type : CType) (x : Operand) (indirect : Bool) :
    Keeps R (addressCode type x indirect) := by
  intro g y g1 e
  unfold addressCode at e
  cases indirect with
  | true =>
    simp only [Bool.not_true, Bool.false_eq_true, if_false, Option.some.injEq,
      Prod.mk.injEq] at e
    rw [← e.2]
    exact hR.same g
  | false =>
    simp only [Bool.not_false, if_true] at e
    by_cases hd : x.get 0 = '.'
    · rw [if_pos hd] at e
      simp only [Option.some.injEq, Prod.mk.injEq] at e
      rw [← e.2]
      exact hR.same g
    · rw [if_neg hd] at e
      cases ha : assigntemp type g with
      | none => rw [ha] at e; exact absurd e (by simp)
      | some r =>
        obtain ⟨t, g2⟩ := r
        rw [ha] at e
        simp only [Option.some.injEq, Prod.mk.injEq] at e
        rw [← e.2]
        exact hR.next _ _ _ (hR.temp _ _ _ _ ha) (hR.emits _ _)

theorem castCode_keeps (hR : Closed R) (real operandReal : Bool) (e t : Operand)
    (g : Generator) : R g (castCode real operandReal e t g).2 := by
  unfold castCode
  split_ifs
  · exact hR.emit _ _
  · exact hR.next _ _ _ (hR.emit _ _) (hR.emits _ _)
  · exact hR.next _ _ _ (hR.emit _ _) (hR.emits _ _)
  · exact hR.emit _ _

mutual
/-- Generating an expression keeps every closed relation. -/
theorem Expr.generate_keeps (hR : Closed R) (e : Expr) (h : Heap) : Keeps R (e.generate h) := by
  cases e with
  | String value type => exact fun g op g1 e => hR.string value type h g op g1 e
  | Identifier symbol type =>
    intro g x g1 e
    simp only [Expr.generate] at e
    split_ifs at e <;>
      (simp only [Option.some.injEq, Prod.mk.injEq] at e
       rw [← e.2]
       exact hR.same g)
  | Integer value =>
    intro g x g1 e
    simp only [Expr.generate, Option.some.injEq, Prod.mk.injEq] at e
    rw [← e.2]
    exact hR.same g
  | Real value label =>
    intro g x g1 e
    simp only [Expr.generate, Option.some.injEq, Prod.mk.injEq] at e
    rw [← e.2]
    exact hR.same g
  | Call id args type =>
    have ia := Expr.generateArgs_keeps hR args h
    intro g x g1 e
    simp only [Expr.generate, Option.bind_eq_bind, Option.bind_eq_some, Prod.exists,
      Option.some.injEq, Prod.mk.injEq] at e
    obtain ⟨n, g2, e1, t, g3, e2, _, rfl⟩ := e
    have s2 : R g2 (if n > 0 then
        (g2.emit ("\tcall\t" ++ (h id).name ++ "\n")).emit
          ("\taddl\t$" ++ toString n ++ ", %esp\n")
        else g2.emit ("\tcall\t" ++ (h id).name ++ "\n")) := by
      split_ifs
      · exact hR.next _ _ _ (hR.emit _ _) (hR.emit _ _)
      · exact hR.emit _ _
    exact hR.next _ _ _ (hR.next _ _ _ (hR.next _ _ _ (ia _ _ _ e1) s2)
      (hR.temp _ _ _ _ e2)) (hR.emits _ _)
  | Multiply left right type =>
    exact (binaryNode_keeps hR _ (Expr.generate_keeps hR left h)
      (Expr.generate_keeps hR right h)).keeps_congr
      (fun g => by simp only [Expr.generate]; rfl)
  | Divide left right type =>
    exact (binaryNode_keeps hR _ (Expr.generate_keeps hR left h)
      (Expr.generate_keeps hR right h)).keeps_congr
      (fun g => by simp only [Expr.generate]; rfl)
  | Remainder left right type =>
    exact (binaryNode_keeps hR _ (Expr.generate_keeps hR left h)
      (Expr.generate_keeps hR right h)).keeps_congr
      (fun g => by simp only [Expr.generate]; rfl)
  | Add left right type =>
    exact (binaryNode_keeps hR _ (Expr.generate_keeps hR left h)
      (Expr.generate_keeps hR right h)).keeps_congr
      (fun g => by simp only [Expr.generate]; rfl)
  | Subtract left right type =>
    exact (binaryNode_keeps hR _ (Expr.generate_keeps hR left h)
      (Expr.generate_keeps hR right h)).keeps_congr
      (fun g => by simp only [Expr.generate]; rfl)
  | LessThan left right type =>
    exact (binaryNode_keeps hR _ (Expr.generate_keeps hR left h)
      (Expr.generate_keeps hR right h)).keeps_congr
      (fun g => by simp only [Expr.generate]; rfl)
  | GreaterThan left right type =>
    exact (binaryNode_keeps hR _ (Expr.generate_keeps hR left h)
      (Expr.generate_keeps hR right h)).keeps_congr
      (fun g => by simp only [Expr.generate]; rfl)
  | LessOrEqual left right type =>
    exact (binaryNode_keeps hR _ (Expr.generate_keeps hR left h)
      (Expr.generate_keeps hR right h)).keeps_congr
      (fun g => by simp only [Expr.generate]; rfl)
  | GreaterOrEqual left right type =>
    exact (binaryNode_keeps hR _ (Expr.generate_keeps hR left h)
      (Expr.generate_keeps hR right h)).keeps_congr
      (fun g => by simp only [Expr.generate]; rfl)
  | Equal left right type =>
    exact (binaryNode_keeps hR _ (Expr.generate_keeps hR left h)
      (Expr.generate_keeps hR right h)).keeps_congr
      (fun g => by simp only [Expr.generate]; rfl)
  | NotEqual left right type =>
    exact (binaryNode_keeps hR _ (Expr.generate_keeps hR left h)
      (Expr.generate_keeps hR right h)).keeps_congr
      (fun g => by simp only [Expr.generate]; rfl)
  | LogicalAnd left right type =>
    exact (logicalNode_keeps hR _ _ (Expr.generate_keeps hR left h)
      (Expr.generate_keeps hR right h)).keeps_congr
      (fun g => by simp only [Expr.generate]; rfl)
  | LogicalOr left right type =>
    exact (logicalNode_keeps hR _ _ (Expr.generate_keeps hR left h)
      (Expr.generate_keeps hR right h)).keeps_congr
      (fun g => by simp only [Expr.generate]; rfl)
  | Not expr type =>
    exact (unaryNode_keeps hR _ (Expr.generate_keeps hR expr h)).keeps_congr
      (fun g => by simp only [Expr.generate]; rfl)
  | Negate expr type =>
    exact (unaryNode_keeps hR _ (Expr.generate_keeps hR expr h)).keeps_congr
      (fun g => by simp only [Expr.generate]; rfl)
  | Dereference expr type =>
    exact (unaryNode_keeps hR _ (Expr.generate_keeps hR expr h)).keeps_congr
      (fun g => by simp only [Expr.generate]; rfl)
  | Cast type expr =>
    have ie := Expr.generate_keeps hR expr h
    intro g x g1 e
    simp only [Expr.generate, Option.bind_eq_bind, Option.bind_eq_some, Prod.exists,
      Option.some.injEq] at e
    obtain ⟨y, g2, e1, t, g3, e2, e3⟩ := e
    have s3 := castCode_keeps hR type.isReal expr.type.isReal y t g3
    rw [e3] at s3
    exact hR.next _ _ _ (hR.next _ _ _ (ie _ _ _ e1) (hR.temp _ _ _ _ e2)) s3
  | Address expr type =>
    by_cases hd : ∃ pointer dtype, expr = .Dereference pointer dtype
    · obtain ⟨pointer, dtype, rfl⟩ := hd
      have ip := Expr.generate_keeps hR pointer h
      intro g x g1 e
      simp only [Expr.generate, indirectForm, Option.bind_eq_bind, Option.bind_eq_some,
        Option.map_eq_some', Prod.exists] at e
      obtain ⟨y, ind, g2, ⟨y1, g21, e1, e2⟩, e3⟩ := e
      simp only [Prod.mk.injEq] at e2
      obtain ⟨rfl, rfl, rfl⟩ := e2
      exact hR.next _ _ _ (ip _ _ _ e1) (addressCode_keeps hR _ _ _ _ _ _ e3)
    · have hnd : ∀ p dt, expr ≠ .Dereference p dt := fun p dt he => hd ⟨p, dt, he⟩
      have ie := Expr.generate_keeps hR expr h
      intro g x g1 e
      rw [Expr.generate_address_plain hnd] at e
      simp only [plainForm, Option.bind_eq_some, Option.map_eq_some', Prod.exists] at e
      obtain ⟨y, ind, g2, ⟨y1, g21, e1, e2⟩, e3⟩ := e
      simp only [Prod.mk.injEq] at e2
      obtain ⟨rfl, rfl, rfl⟩ := e2
      exact hR.next _ _ _ (ie _ _ _ e1) (addressCode_keeps hR _ _ _ _ _ _ e3)
  | Assign left right type =>
    by_cases hd : ∃ pointer dtype, left = .Dereference pointer dtype
    · obtain ⟨pointer, dtype, rfl⟩ := hd
      exact (binaryNode_keeps hR _ (Expr.generate_keeps hR pointer h)
        (Expr.generate_keeps hR right h)).keeps_congr
        (fun g => by simp only [Expr.generate]; rfl)
    · have hnd : ∀ p dt, left ≠ .Dereference p dt := fun p dt he => hd ⟨p, dt, he⟩
      exact (binaryNode_keeps hR _ (Expr.generate_keeps hR left h)
        (Expr.generate_keeps hR right h)).keeps_congr
        (fun g => Expr.generate_assign_plain hnd right type h g)
termination_by sizeOf e
/-- The loop of `Call::generate` over the arguments keeps every closed
relation. -/
theorem Expr.generateArgs_keeps (hR : Closed R) (args : List Expr) (h : Heap) :
    Keeps R (Expr.generateArgs args h) := by
  cases args with
  | nil =>
    intro g n g1 e
    simp only [Expr.generateArgs, Option.some.injEq, Prod.mk.injEq] at e
    rw [← e.2]
    exact hR.same g
  | cons a args =>
    have ia := Expr.generateArgs_keeps hR args h
    have ie := Expr.generate_keeps hR a h
    intro g n g3 e
    obtain ⟨n1, g1, op, g2, k, e1, e2, _, _, rfl⟩ := (generateArgs_cons a args h g g3 n).1 e
    exact hR.next _ _ _ (hR.next _ _ _ (ia _ _ _ e1) (ie _ _ _ e2)) (hR.emits _ _)
termination_by sizeOf args
end

end ClosedRelations

section ClosedRelationsOfStatements

variable {R : Generator → Generator → Prop}

theorem whileStart_keeps (hR : Closed R) (g : Generator) : R g (whileStart g).2.2 :=
  hR.next _ _ _ (hR.next _ _ _ (hR.next _ _ _ (hR.emit g _) (hR.label _)) (hR.label _))
    (hR.emit _ _)

theorem ifStart_keeps (hR : Closed R) (e : Operand) (g : Generator) : R g (ifStart e g).2.2 :=
  hR.next _ _ _ (hR.next _ _ _ (hR.label g) (hR.label _)) (hR.emits _ _)

mutual
/-- Generating a statement keeps every closed relation that also holds along
the two statements of `Block::generate` after each statement of a block. -/
theorem Stmt.statement_keeps (hR : Closed R) (hend : ∀ g, R g g.endStatement) (s : Stmt)
    (h : Heap) (g g1 : Generator) (e : s.generate h g = some g1) : R g g1 := by
  cases s with
  | Expression expr =>
    simp only [Stmt.generate] at e
    cases he : expr.generate h g with
    | none => rw [he] at e; exact absurd e (by simp)
    | some r =>
      rw [he] at e
      simp only [Option.some.injEq] at e
      rw [← e]
      exact Expr.generate_keeps hR expr h g r.1 r.2 he
  | Return expr =>
    simp only [Stmt.generate] at e
    cases he : expr.generate h g with
    | none => rw [he] at e; exact absurd e (by simp)
    | some r =>
      rw [he] at e
      simp only [Option.some.injEq] at e
      rw [← e]
      exact hR.next _ _ _ (Expr.generate_keeps hR expr h g r.1 r.2 he) (hR.emits _ _)
  | Block decls stmts =>
    simp only [Stmt.generate] at e
    exact Stmt.generateStmts_keeps hR hend stmts h g g1 e
  | While expr stmt =>
    simp only [Stmt.generate] at e
    cases he : expr.generate h (whileStart g).2.2 with
    | none => rw [he] at e; exact absurd e (by simp)
    | some r =>
      rw [he] at e
      simp only at e
      cases hb : stmt.generate h (r.2.emits (whileTestCode r.1 (whileStart g).2.1)) with
      | none => rw [hb] at e; exact absurd e (by simp)
      | some g2 =>
        rw [hb] at e
        simp only [Option.some.injEq] at e
        rw [← e]
        exact hR.next _ _ _ (hR.next _ _ _ (hR.next _ _ _ (hR.next _ _ _ (whileStart_keeps hR g)
          (Expr.generate_keeps hR expr h _ r.1 r.2 he)) (hR.emits _ _))
          (Stmt.statement_keeps hR hend stmt h _ g2 hb)) (hR.emits _ _)
  | If expr thenStmt elseStmt =>
    cases elseStmt with
    | none =>
      simp only [Stmt.generate] at e
      cases he : expr.generate h g with
      | none => rw [he] at e; exact absurd e (by simp)
      | some r =>
        rw [he] at e
        simp only at e
        cases hb : thenStmt.generate h (ifStart r.1 r.2).2.2 with
        | none => rw [hb] at e; exact absurd e (by simp)
        | some g2 =>
          rw [hb] at e
          simp only [Option.some.injEq] at e
          rw [← e]
          exact hR.next _ _ _ (hR.next _ _ _ (hR.next _ _ _
            (Expr.generate_keeps hR expr h g r.1 r.2 he) (ifStart_keeps hR r.1 r.2))
            (Stmt.statement_keeps hR hend thenStmt h _ g2 hb)) (hR.emit _ _)
    | some elseStmt =>
      simp only [Stmt.generate] at e
      cases he : expr.generate h g with
      | none => rw [he] at e; exact absurd e (by simp)
      | some r =>
        rw [he] at e
        simp only at e
        cases hb : thenStmt.generate h (ifStart r.1 r.2).2.2 with
        | none => rw [hb] at e; exact absurd e (by simp)
        | some g2 =>
          rw [hb] at e
          simp only at e
          cases hc : elseStmt.generate h (g2.emits ["\tjmp\t" ++ (ifStart r.1 r.2).2.1.text ++ "\n",
              (ifStart r.1 r.2).1.text ++ ":\n"]) with
          | none => rw [hc] at e; exact absurd e (by simp)
          | some g3 =>
            rw [hc] at e
            simp only [Option.some.injEq] at e
            rw [← e]
            exact hR.next _ _ _ (hR.next _ _ _ (hR.next _ _ _ (hR.next _ _ _ (hR.next _ _ _
              (Expr.generate_keeps hR expr h g r.1 r.2 he) (ifStart_keeps hR r.1 r.2))
              (Stmt.statement_keeps hR hend thenStmt h _ g2 hb)) (hR.emits _ _))
              (Stmt.statement_keeps hR hend elseStmt h _ g3 hc)) (hR.emit _ _)
termination_by sizeOf s
/-- The loop of `Block::generate` keeps every such relation. -/
theorem Stmt.generateStmts_keeps (hR : Closed R) (hend : ∀ g, R g g.endStatement)
    (ss : List Stmt) (h : Heap) (g g1 : Generator)
    (e : Stmt.generateStmts ss h g = some g1) : R g g1 := by
  cases ss with
  | nil =>
    simp only [Stmt.generateStmts, Option.some.injEq] at e
    rw [← e]
    exact hR.same g
  | cons s ss =>
    simp only [Stmt.generateStmts] at e
    cases hs : s.generate h g with
    | none => rw [hs] at e; exact absurd e (by simp)
    | some g2 =>
      rw [hs] at e
      simp only at e
      exact hR.next _ _ _ (hR.next _ _ _ (Stmt.statement_keeps hR hend s h g g2 hs) (hend g2))
        (Stmt.generateStmts_keeps hR hend ss h g2.endStatement g1 e)
termination_by sizeOf ss
end

end ClosedRelationsOfStatements

section ControlFlow

theorem Generator.Appends.appends_closed : Closed Generator.Appends where
  same g := ⟨⟨[], (List.append_nil _).symm⟩, rfl⟩
  next g g1 g2 a b := by
    obtain ⟨⟨o1, h1⟩, r1⟩ := a
    obtain ⟨⟨o2, h2⟩, r2⟩ := b
    exact ⟨⟨o1 ++ o2, by rw [h2, h1, List.append_assoc]⟩, by rw [r2, r1]⟩
  emit g text := ⟨⟨[text], rfl⟩, rfl⟩
  emits g texts := ⟨⟨texts, rfl⟩, rfl⟩
  label g := ⟨⟨[], (List.append_nil _).symm⟩, rfl⟩
  temp type g t g1 e := by
    unfold assigntemp at e
    cases hs : type.size with
    | none => rw [hs] at e; exact absurd e (by simp)
    | some n =>
      rw [hs] at e
      simp only [Option.some.injEq, Prod.mk.injEq] at e
      rw [← e.2]
      exact ⟨⟨[], (List.append_nil _).symm⟩, rfl⟩
  string value type h g op g1 e := by
    simp only [Expr.generate, Option.some.injEq, Prod.mk.injEq] at e
    rw [← e.2]
    exact ⟨⟨[], (List.append_nil _).symm⟩, rfl⟩

theorem Generator.Appends.appends_endStatement (g : Generator) : Generator.Appends g g.endStatement :=
  ⟨⟨[], (List.append_nil _).symm⟩, rfl⟩

theorem Expr.generate_appends {e : Expr} {h : Heap} {g g1 : Generator} {op : Operand}
    (he : e.generate h g = some (op, g1)) : Generator.Appends g g1 :=
  Expr.generate_keeps Generator.Appends.appends_closed e h g op g1 he

theorem Stmt.statement_appends {s : Stmt} {h : Heap} {g g1 : Generator}
    (hs : s.generate h g = some g1) : Generator.Appends g g1 :=
  Stmt.statement_keeps Generator.Appends.appends_closed Generator.Appends.appends_endStatement s h g g1 hs

/-- Claim C35: the shape of the code of `If`, `While` and `Return`.  With
`test` the code of the tested expression and `e` its operand, `thenCode`,
`elseCode` and `body` the code of the statements inside:
`If::generate` prints `test`, a comment, `movl e, %eax`, `testl %eax, %eax`,
`je SKIP`, `thenCode`, and then `SKIP:` if there is no else-branch, and
`jmp JOIN`, `SKIP:`, `elseCode`, `JOIN:` if there is one, `SKIP` and `JOIN`
being two labels;
`While::generate` prints a comment, `LOOP:`, `test`, `movl e, %eax`,
`testl %eax, %eax`, `je EXIT`, `body`, `jmp LOOP`, `EXIT:`, with two labels;
`Return::generate` prints the code of its expression, `fldl e` for a real
expression and `movl e, %eax` otherwise, and `jmp` to the return label of the
state; generating a statement leaves the return label as it is, and
`Function::generate` generates its body from the state whose return label is
the label it prints right after the body, before the epilogue. -/
theorem C35_control_flow (expr : Expr) (h : Heap) (g g1 : Generator) (e : Operand)
    (he : expr.generate h g = some (e, g1)) :
    (∃ test, g1.cout = g.cout ++ test ∧
      (∀ thenStmt g2, thenStmt.generate h (ifStart e g1).2.2 = some g2 →
        ∃ (thenCode : List String) (g3 : Generator) (skip : Label),
          (Stmt.If expr thenStmt none).generate h g = some g3 ∧
          g3.cout = g.cout ++ test ++
            ["#iffin and iffin and yeah! C> ice cream! C>\n", "\tmovl\t" ++ e ++ ", %eax\n",
              "\ttestl\t%eax, %eax\n", "\tje\t" ++ skip.text ++ "\n"] ++
            thenCode ++ [skip.text ++ ":\n"] ∧
          g2.cout = (ifStart e g1).2.2.cout ++ thenCode) ∧
      (∀ thenStmt elseStmt g2 g3, thenStmt.generate h (ifStart e g1).2.2 = some g2 →
        elseStmt.generate h (g2.emits ["\tjmp\t" ++ (ifStart e g1).2.1.text ++ "\n",
          (ifStart e g1).1.text ++ ":\n"]) = some g3 →
        ∃ (thenCode elseCode : List String) (g4 : Generator) (skip join : Label), skip ≠ join ∧
          (Stmt.If expr thenStmt (some elseStmt)).generate h g = some g4 ∧
          g4.cout = g.cout ++ test ++
            ["#iffin and iffin and yeah! C> ice cream! C>\n", "\tmovl\t" ++ e ++ ", %eax\n",
              "\ttestl\t%eax, %eax\n", "\tje\t" ++ skip.text ++ "\n"] ++
            thenCode ++ ["\tjmp\t" ++ join.text ++ "\n", skip.text ++ ":\n"] ++
            elseCode ++ [join.text ++ ":\n"] ∧
          g2.cout = (ifStart e g1).2.2.cout ++ thenCode ∧
          g3.cout = (g2.emits ["\tjmp\t" ++ (ifStart e g1).2.1.text ++ "\n",
            (ifStart e g1).1.text ++ ":\n"]).cout ++ elseCode) ∧
      (Stmt.Return expr).generate h g = some (g1.emits
        [if expr.type.isReal then "\tfldl\t" ++ e ++ "\n" else "\tmovl\t" ++ e ++ ", %eax\n",
          "\tjmp\t" ++ g.returnLab.text ++ "\n"])) ∧
    (∀ (g0 : Generator) body g2, g = (whileStart g0).2.2 →
      body.generate h (g1.emits (whileTestCode e (whileStart g0).2.1)) = some g2 →
      ∃ (test bodyCode : List String) (g3 : Generator) (loop exit : Label), loop ≠ exit ∧
        (Stmt.While expr body).generate h g0 = some g3 ∧
        g3.cout = g0.cout ++
          ["#while time! and i scream for all the ice and cream C> C> C> C> C> \n",
            loop.text ++ ":\n"] ++ test ++
          ["\tmovl\t" ++ e ++ ", %eax\n", "\ttestl\t%eax, %eax\n",
            "\tje\t" ++ exit.text ++ "\n"] ++
          bodyCode ++ ["\tjmp\t" ++ loop.text ++ "\n", exit.text ++ ":\n"] ∧
        g1.cout = g.cout ++ test ∧
        g2.cout = (g1.emits (whileTestCode e (whileStart g0).2.1)).cout ++ bodyCode) ∧
    (∀ (s : Stmt) (ga gb : Generator), s.generate h ga = some gb →
      gb.returnLab = ga.returnLab) ∧
    (∀ (f : Function) (h0 h1 : Heap) (ga gb : Generator), f.generate h0 ga = some (h1, gb) →
      ∃ offset gc bodyCode,
        f.body.generate h1 (Function.start ga offset (h1 f.id).name) = some gc ∧
        gc.cout = (Function.start ga offset (h1 f.id).name).cout ++ bodyCode ∧
        gb.cout = ga.cout ++
          [(h1 f.id).name ++ ":\n", "\tpushl\t%ebp\n", "\tmovl\t%esp, %ebp\n",
            "\tsubl\t$" ++ (h1 f.id).name ++ ".size, %esp\n"] ++ bodyCode ++
          [(Function.start ga offset (h1 f.id).name).returnLab.text ++ ":\n",
            "\tmovl\t%ebp, %esp\n", "\tpopl\t%ebp\n", "\tret\n\n",
            "\t.global\t" ++ (h1 f.id).name ++ "\n",
            sizeLine (h1 f.id).name (toInt32 (-gc.maxoffset)), "\n"]) := by
  obtain ⟨⟨test, ht⟩, hr1⟩ := Expr.generate_appends he
  refine ⟨⟨test, ht, ?_, ?_, ?_⟩, ?_, ?_, ?_⟩
  · intro thenStmt g2 h2
    obtain ⟨⟨thenCode, hc⟩, _⟩ := Stmt.statement_appends h2
    refine ⟨thenCode, g2.emit ((ifStart e g1).1.text ++ ":\n"), (ifStart e g1).1, ?_, ?_, hc⟩
    · simp only [Stmt.generate, he, h2]
    · simp only [Generator.emit, hc, ifStart, Generator.emits, Generator.newLabel, ifTestCode, ht,
        List.append_assoc]
  · intro thenStmt elseStmt g2 g3 h2 h3
    obtain ⟨⟨thenCode, hc⟩, _⟩ := Stmt.statement_appends h2
    obtain ⟨⟨elseCode, hc3⟩, _⟩ := Stmt.statement_appends h3
    refine ⟨thenCode, elseCode, g3.emit ((ifStart e g1).2.1.text ++ ":\n"), (ifStart e g1).1,
      (ifStart e g1).2.1, ?_, ?_, ?_, hc, hc3⟩
    · intro hne
      have := congrArg Label.number hne
      simp [ifStart, Generator.newLabel] at this
    · simp only [Stmt.generate, he, h2, h3]
    · simp only [Generator.emit, hc3, hc, ifStart, Generator.emits, Generator.newLabel,
        ifTestCode, ht, List.append_assoc]
  · simp only [Stmt.generate, he, returnCode, hr1]
  · intro g0 body g2 hg h2
    subst hg
    obtain ⟨⟨bodyCode, hc⟩, _⟩ := Stmt.statement_appends h2
    refine ⟨test, bodyCode, g2.emits ["\tjmp\t" ++ (whileStart g0).1.text ++ "\n",
      (whileStart g0).2.1.text ++ ":\n"], (whileStart g0).1, (whileStart g0).2.1, ?_, ?_, ?_,
      ht, hc⟩
    · intro hne
      have := congrArg Label.number hne
      simp [whileStart, Generator.newLabel, Generator.emit] at this
    · simp only [Stmt.generate, he, h2]
    · simp only [Generator.emits, hc, ht, whileTestCode, whileStart, Generator.emit,
        Generator.newLabel, List.append_assoc]
      rfl
  · intro s ga gb hs
    exact (Stmt.statement_appends hs).2
  · intro f h0 h1 ga gb hf
    unfold Function.generate at hf
    cases ha : f.allocate h0 with
    | none => rw [ha] at hf; exact absurd hf (by simp)
    | some r =>
      rw [ha] at hf
      simp only at hf
      cases hb : f.body.generate r.2 (Function.start ga r.1 (r.2 f.id).name) with
      | none => rw [hb] at hf; exact absurd hf (by simp)
      | some gc =>
        rw [hb] at hf
        simp only [Option.some.injEq, Prod.mk.injEq] at hf
        obtain ⟨rfl, rfl⟩ := hf
        obtain ⟨⟨bodyCode, hc⟩, hret⟩ := Stmt.statement_appends hb
        refine ⟨r.1, gc, bodyCode, hb, hc, ?_⟩
        simp only [Generator.emits, epilogueCode, hc, hret, Function.start, Generator.newLabel,
          List.append_assoc]

end ControlFlow

section ControlFlowWitness

/-- Witness of C35: `if (n) return 1;` with `n` at `-4(%ebp)` from the start
of a run. -/
theorem C35_control_flow_witness :
    ∃ g3, (Stmt.If (.Identifier 4 CType.integer) (.Return (.Integer "1")) none).generate
        (checkerHeap.setOffset 4 (-4)) Generator.init = some g3 ∧
      g3.cout = ["#iffin and iffin and yeah! C> ice cream! C>\n", "\tmovl\t-4(%ebp), %eax\n",
        "\ttestl\t%eax, %eax\n", "\tje\t.L1\n", "\tmovl\t$1, %eax\n", "\tjmp\t.L0\n",
        ".L1:\n"] := by
  obtain ⟨p, g2, hp, h2⟩ : ∃ p g2, (Expr.Identifier 4 CType.integer).generate
      (checkerHeap.setOffset 4 (-4)) Generator.init = some p ∧
      (Stmt.Return (.Integer "1")).generate (checkerHeap.setOffset 4 (-4))
        (ifStart p.1 p.2).2.2 = some g2 := ⟨_, _, rfl, rfl⟩
  obtain ⟨test, _, hif, _, _⟩ := (C35_control_flow (.Identifier 4 CType.integer)
    (checkerHeap.setOffset 4 (-4)) Generator.init p.2 p.1 hp).1
  obtain ⟨thenCode, g3, skip, e3, _, _⟩ := hif (.Return (.Integer "1")) g2 h2
  refine ⟨g3, e3, ?_⟩
  have hc : ((Stmt.If (.Identifier 4 CType.integer) (.Return (.Integer "1")) none).generate
      (checkerHeap.setOffset 4 (-4)) Generator.init).map (fun g => g.cout) =
      some ["#iffin and iffin and yeah! C> ice cream! C>\n", "\tmovl\t-4(%ebp), %eax\n",
        "\ttestl\t%eax, %eax\n", "\tje\t.L1\n", "\tmovl\t$1, %eax\n", "\tjmp\t.L0\n",
        ".L1:\n"] := by decide
  rw [e3] at hc
  exact Option.some.inj hc

end ControlFlowWitness

section ShortCircuit

theorem logicalNode_shape (comment jump : String) (left right : Expr) (type : CType) (h : Heap)
    (g g1 g2 g3 : Generator) (l r t : Operand)
    (hl : left.generate h (g.emit comment) = some (l, g1))
    (ht : assigntemp type g1 = some (t, g2))
    (hr : right.generate h (g2.newLabel.2.emits (logicalTest jump l g2.newLabel.1)) =
      some (r, g3)) :
    ∃ (leftCode rightCode : List String) (lab : Label),
      logicalNode comment jump (left.generate h) (right.generate h) type g =
        some (t, g3.emits (logicalJoin r t lab)) ∧
      (g3.emits (logicalJoin r t lab)).cout = g.cout ++ [comment] ++ leftCode ++
        ["\tmovl\t" ++ l ++ ", %eax\n", "\ttestl\t%eax, %eax\n",
          "\t" ++ jump ++ "\t" ++ lab.text ++ "\n"] ++ rightCode ++
        ["\tmovl\t" ++ r ++ ", %eax\n", "\ttestl\t%eax, %eax\n", lab.text ++ ":\n",
          "\tsetne\t%al\n", "\tmovzbl\t%al, %eax\n", "\tmovl\t%eax, " ++ t ++ "\n"] ∧
      g1.cout = g.cout ++ [comment] ++ leftCode ∧
      g3.cout = g2.cout ++ ["\tmovl\t" ++ l ++ ", %eax\n", "\ttestl\t%eax, %eax\n",
        "\t" ++ jump ++ "\t" ++ lab.text ++ "\n"] ++ rightCode := by
  obtain ⟨⟨leftCode, hlc⟩, _⟩ := Expr.generate_appends hl
  obtain ⟨⟨rightCode, hrc⟩, _⟩ := Expr.generate_appends hr
  obtain ⟨⟨o, ho⟩, _⟩ := Generator.Appends.appends_closed.temp type g1 t g2 ht
  have h2 : g2.cout = g1.cout := by
    unfold assigntemp at ht
    cases hs : type.size with
    | none => rw [hs] at ht; exact absurd ht (by simp)
    | some n =>
      rw [hs] at ht
      simp only [Option.some.injEq, Prod.mk.injEq] at ht
      rw [← ht.2]
  refine ⟨leftCode, rightCode, g2.newLabel.1, ?_, ?_, hlc, ?_⟩
  · simp only [logicalNode, hl, ht, hr, Option.bind_eq_bind, Option.some_bind]
  · simp only [Generator.emits, hrc, logicalTest, logicalJoin, Generator.newLabel, h2, hlc,
      Generator.emit, List.append_assoc]
  · rw [hrc]
    rfl

/-- Claim C36: the shape of the code of `&&` and `||`.  With `leftCode` and
`rightCode` the code of the operands, `l` and `r` their operands and `t` the
temporary of the node, `LogicalAnd::generate` prints a comment, `leftCode`,
`movl l, %eax`, `testl %eax, %eax`, `je L`, `rightCode`, `movl r, %eax`,
`testl %eax, %eax`, `L:`, `setne %al`, `movzbl %al, %eax`, `movl %eax, t`,
and `LogicalOr::generate` the same with `jne L` as the branch; so the code of
the right operand stands after the branch and before the label `L`. -/
theorem C36_short_circuit (left right : Expr) (type : CType) (h : Heap) :
    (∀ (g g1 g2 g3 : Generator) (l r t : Operand),
      left.generate h (g.emit
        "#all of the logical, AND THEN scream for all the ice and cream C> C> C> C> C> \n") =
        some (l, g1) →
      assigntemp type g1 = some (t, g2) →
      right.generate h (g2.newLabel.2.emits (logicalTest "je" l g2.newLabel.1)) = some (r, g3) →
      ∃ (leftCode rightCode : List String) (lab : Label) (g4 : Generator),
        (Expr.LogicalAnd left right type).generate h g = some (t, g4) ∧
        g4.cout = g.cout ++
          ["#all of the logical, AND THEN scream for all the ice and cream C> C> C> C> C> \n"] ++
          leftCode ++
          ["\tmovl\t" ++ l ++ ", %eax\n", "\ttestl\t%eax, %eax\n",
            "\tje\t" ++ lab.text ++ "\n"] ++ rightCode ++
          ["\tmovl\t" ++ r ++ ", %eax\n", "\ttestl\t%eax, %eax\n", lab.text ++ ":\n",
            "\tsetne\t%al\n", "\tmovzbl\t%al, %eax\n", "\tmovl\t%eax, " ++ t ++ "\n"] ∧
        g1.cout = g.cout ++
          ["#all of the logical, AND THEN scream for all the ice and cream C> C> C> C> C> \n"] ++
          leftCode ∧
        g3.cout = g2.cout ++ ["\tmovl\t" ++ l ++ ", %eax\n", "\ttestl\t%eax, %eax\n",
          "\tje\t" ++ lab.text ++ "\n"] ++ rightCode) ∧
    (∀ (g g1 g2 g3 : Generator) (l r t : Operand),
      left.generate h (g.emit
        "#all of the logical, or scream for all the ice and cream C> C> C> C> C> \n") =
        some (l, g1) →
      assigntemp type g1 = some (t, g2) →
      right.generate h (g2.newLabel.2.emits (logicalTest "jne" l g2.newLabel.1)) = some (r, g3) →
      ∃ (leftCode rightCode : List String) (lab : Label) (g4 : Generator),
        (Expr.LogicalOr left right type).generate h g = some (t, g4) ∧
        g4.cout = g.cout ++
          ["#all of the logical, or scream for all the ice and cream C> C> C> C> C> \n"] ++
          leftCode ++
          ["\tmovl\t" ++ l ++ ", %eax\n", "\ttestl\t%eax, %eax\n",
            "\tjne\t" ++ lab.text ++ "\n"] ++ rightCode ++
          ["\tmovl\t" ++ r ++ ", %eax\n", "\ttestl\t%eax, %eax\n", lab.text ++ ":\n",
            "\tsetne\t%al\n", "\tmovzbl\t%al, %eax\n", "\tmovl\t%eax, " ++ t ++ "\n"] ∧
        g1.cout = g.cout ++
          ["#all of the logical, or scream for all the ice and cream C> C> C> C> C> \n"] ++
          leftCode ∧
        g3.cout = g2.cout ++ ["\tmovl\t" ++ l ++ ", %eax\n", "\ttestl\t%eax, %eax\n",
          "\tjne\t" ++ lab.text ++ "\n"] ++ rightCode) := by
  constructor
  · intro g g1 g2 g3 l r t hl ht hr
    obtain ⟨leftCode, rightCode, lab, e, hc, h1, h3⟩ := logicalNode_shape _ "je" left right type h
      g g1 g2 g3 l r t hl ht hr
    exact ⟨leftCode, rightCode, lab, _, by simp only [Expr.generate]; exact e, hc, h1, h3⟩
  · intro g g1 g2 g3 l r t hl ht hr
    obtain ⟨leftCode, rightCode, lab, e, hc, h1, h3⟩ := logicalNode_shape _ "jne" left right type h
      g g1 g2 g3 l r t hl ht hr
    exact ⟨leftCode, rightCode, lab, _, by simp only [Expr.generate]; exact e, hc, h1, h3⟩

/-- Witness of C36: `n && n` with the parameter `n` at `8(%ebp)` from the
start of a run; the temporary of the node is `-4(%ebp)`. -/
theorem C36_short_circuit_witness :
    ∃ g4, (Expr.LogicalAnd (.Identifier 4 CType.integer) (.Identifier 4 CType.integer)
        CType.integer).generate (checkerHeap.setOffset 4 8) Generator.init =
        some ("-4(%ebp)", g4) ∧
      g4.cout =
        ["#all of the logical, AND THEN scream for all the ice and cream C> C> C> C> C> \n",
          "\tmovl\t8(%ebp), %eax\n", "\ttestl\t%eax, %eax\n", "\tje\t.L1\n",
          "\tmovl\t8(%ebp), %eax\n", "\ttestl\t%eax, %eax\n", ".L1:\n", "\tsetne\t%al\n",
          "\tmovzbl\t%al, %eax\n", "\tmovl\t%eax, -4(%ebp)\n"] := by
  obtain ⟨p, q, r, hp, hq, hr, ht⟩ : ∃ p q r,
      (Expr.Identifier 4 CType.integer).generate (checkerHeap.setOffset 4 8)
        (Generator.init.emit
          "#all of the logical, AND THEN scream for all the ice and cream C> C> C> C> C> \n") =
        some p ∧
      assigntemp CType.integer p.2 = some q ∧
      (Expr.Identifier 4 CType.integer).generate (checkerHeap.setOffset 4 8)
        (q.2.newLabel.2.emits (logicalTest "je" p.1 q.2.newLabel.1)) = some r ∧
      q.1 = "-4(%ebp)" := ⟨_, _, _, rfl, rfl, rfl, by decide⟩
  obtain ⟨leftCode, rightCode, lab, g4, e, _, _, _⟩ := (C36_short_circuit
    (.Identifier 4 CType.integer) (.Identifier 4 CType.integer) CType.integer
    (checkerHeap.setOffset 4 8)).1 Generator.init p.2 q.2 r.2 p.1 r.1 q.1 hp hq hr
  rw [ht] at e
  refine ⟨g4, e, ?_⟩
  have hc : ((Expr.LogicalAnd (.Identifier 4 CType.integer) (.Identifier 4 CType.integer)
      CType.integer).generate (checkerHeap.setOffset 4 8) Generator.init).map
      (fun r => r.2.cout) =
      some ["#all of the logical, AND THEN scream for all the ice and cream C> C> C> C> C> \n",
        "\tmovl\t8(%ebp), %eax\n", "\ttestl\t%eax, %eax\n", "\tje\t.L1\n",
        "\tmovl\t8(%ebp), %eax\n", "\ttestl\t%eax, %eax\n", ".L1:\n", "\tsetne\t%al\n",
        "\tmovzbl\t%al, %eax\n", "\tmovl\t%eax, -4(%ebp)\n"] := by decide
  rw [e] at hc
  exact Option.some.inj hc

end ShortCircuit

section TemporarySlots

theorem Generator.Stacked.spec : ∀ {top bottom : Int} {slots : List (Int × Nat)},
    Generator.Stacked top slots bottom →
    slots.Pairwise (fun (a b : Int × Nat) => b.1 + (b.2 : Int) ≤ a.1) ∧ (∀ p ∈ slots, p.1 + p.2 ≤ top) ∧ bottom ≤ top
  | _, _, [], hs => by
    have hb : _ = _ := hs
    exact ⟨List.Pairwise.nil, fun p hp => absurd hp (List.not_mem_nil _), le_of_eq hb⟩
  | _, _, (t, n) :: rest, hs => by
    obtain ⟨h1, h2⟩ := hs
    obtain ⟨i1, i2, i3⟩ := Generator.Stacked.spec h2
    refine ⟨List.pairwise_cons.2 ⟨fun b hb => i2 b hb, i1⟩, ?_, by omega⟩
    intro p hp
    rcases List.mem_cons.1 hp with rfl | hp
    · exact le_of_eq h1
    · have := i2 p hp
      omega

theorem Generator.Below.below_same {alloc : Int} {base : List (Int × Nat)} {g g1 : Generator}
    (hb : Generator.Below alloc base g) (h : g1.slots = g.slots) : Generator.Below alloc base g1 := by
  obtain ⟨new, e, b⟩ := hb
  exact ⟨new, by rw [h, e], b⟩

theorem Generator.Below.below_runs {α : Type} {alloc : Int} {base : List Int}
    {bs : List (Int × Nat)} {g : Generator} {m : Generator → Option (α × Generator)} {n : Nat}
    (hi : Generator.Inv alloc base g) (hb : Generator.Below alloc bs g) (r : Runs m n)
    (hroom : -2147483648 < g.tempoffset - n) :
    ∃ a g1, m g = some (a, g1) ∧ Generator.Inv alloc base g1 ∧ Generator.Below alloc bs g1 ∧
      g.tempoffset - n ≤ g1.tempoffset ∧ g1.tempoffset ≤ g.tempoffset := by
  have hup : g.tempoffset ≤ 2147483647 := le_trans hi.2.2.1 hi.2.2.2.1
  obtain ⟨a, g1, e1, s1⟩ := r g hroom hup
  obtain ⟨new, e, b⟩ := hb
  obtain ⟨slots, es, st⟩ := s1.2.2.2.2.2
  refine ⟨a, g1, e1, hi.step s1 hroom, ⟨new ++ slots, by rw [es, e, List.append_assoc], ?_⟩,
    s1.2.2.1, s1.2.2.2.1⟩
  intro p hp
  rcases List.mem_append.1 hp with hp | hp
  · exact b p hp
  · exact le_trans (st.spec.2.1 p hp) hi.2.2.1

mutual
/-- Generating a sizable statement inside a function whose allocation
returned `alloc` hands out slots that end at or below `alloc` only. -/
theorem Stmt.generate_below (s : Stmt) (h : Heap) (alloc : Int) (base : List Int)
    (bs : List (Int × Nat)) (g : Generator)
    (hs : s.sizable = true) (hi : Generator.Inv alloc base g) (hb : Generator.Below alloc bs g)
    (hroom : -2147483648 < g.tempoffset - s.tempSize) :
    ∃ g1, s.generate h g = some g1 ∧ Generator.Inv alloc base g1 ∧
      Generator.Below alloc bs g1 ∧ g.tempoffset - s.tempSize ≤ g1.tempoffset := by
  cases s with
  | Expression expr =>
    simp only [Stmt.sizable] at hs
    simp only [Stmt.tempSize] at hroom ⊢
    obtain ⟨e, g1, e1, i1, c1, b1, _⟩ := hb.below_runs hi (Expr.generate_runs expr h hs) hroom
    exact ⟨g1, by simp only [Stmt.generate, e1], i1, c1, b1⟩
  | Return expr =>
    simp only [Stmt.sizable] at hs
    simp only [Stmt.tempSize] at hroom ⊢
    obtain ⟨e, g1, e1, i1, c1, b1, _⟩ := hb.below_runs hi (Expr.generate_runs expr h hs) hroom
    exact ⟨g1.emits (returnCode expr.type.isReal e g1.returnLab),
      by simp only [Stmt.generate, e1], i1.same rfl rfl rfl rfl rfl, c1.below_same rfl, b1⟩
  | Block decls stmts =>
    simp only [Stmt.sizable] at hs
    simp only [Stmt.tempSize] at hroom ⊢
    obtain ⟨g1, e1, i1, c1, b1⟩ := Stmt.generateStmts_below stmts h alloc base bs g hs hi hb hroom
    exact ⟨g1, by simp only [Stmt.generate, e1], i1, c1, b1⟩
  | While expr stmt =>
    simp only [Stmt.sizable, Bool.and_eq_true] at hs
    simp only [Stmt.tempSize] at hroom ⊢
    push_cast at hroom ⊢
    have i0 : Generator.Inv alloc base (whileStart g).2.2 := hi.same rfl rfl rfl rfl rfl
    have c0 : Generator.Below alloc bs (whileStart g).2.2 := hb.below_same rfl
    have t0 : (whileStart g).2.2.tempoffset = g.tempoffset := rfl
    obtain ⟨e, g1, e1, i1, c1, b1, _⟩ := c0.below_runs i0 (Expr.generate_runs expr h hs.1)
      (by rw [t0]; omega)
    have i1a : Generator.Inv alloc base (g1.emits (whileTestCode e (whileStart g).2.1)) :=
      i1.same rfl rfl rfl rfl rfl
    obtain ⟨g2, e2, i2, c2, b2⟩ := Stmt.generate_below stmt h alloc base bs
      (g1.emits (whileTestCode e (whileStart g).2.1)) hs.2 i1a (c1.below_same rfl)
      (by show -2147483648 < g1.tempoffset - _; omega)
    refine ⟨g2.emits ["\tjmp\t" ++ (whileStart g).1.text ++ "\n",
      (whileStart g).2.1.text ++ ":\n"], by simp only [Stmt.generate, e1, e2],
      i2.same rfl rfl rfl rfl rfl, c2.below_same rfl, ?_⟩
    have : (g1.emits (whileTestCode e (whileStart g).2.1)).tempoffset = g1.tempoffset := rfl
    show _ ≤ g2.tempoffset
    omega
  | If expr thenStmt elseStmt =>
    cases elseStmt with
    | none =>
      simp only [Stmt.sizable, Bool.and_eq_true] at hs
      simp only [Stmt.tempSize] at hroom ⊢
      push_cast at hroom ⊢
      obtain ⟨e, g1, e1, i1, c1, b1, _⟩ := hb.below_runs hi (Expr.generate_runs expr h hs.1)
        (by omega)
      have i1a : Generator.Inv alloc base (ifStart e g1).2.2 := i1.same rfl rfl rfl rfl rfl
      have t1 : (ifStart e g1).2.2.tempoffset = g1.tempoffset := rfl
      obtain ⟨g2, e2, i2, c2, b2⟩ := Stmt.generate_below thenStmt h alloc base bs
        (ifStart e g1).2.2 hs.2 i1a (c1.below_same rfl) (by rw [t1]; omega)
      refine ⟨g2.emit ((ifStart e g1).1.text ++ ":\n"), by simp only [Stmt.generate, e1, e2],
        i2.same rfl rfl rfl rfl rfl, c2.below_same rfl, ?_⟩
      show _ ≤ g2.tempoffset
      omega
    | some elseStmt =>
      simp only [Stmt.sizable, Bool.and_eq_true] at hs
      simp only [Stmt.tempSize] at hroom ⊢
      push_cast at hroom ⊢
      obtain ⟨e, g1, e1, i1, c1, b1, _⟩ := hb.below_runs hi (Expr.generate_runs expr h hs.1.1)
        (by omega)
      have i1a : Generator.Inv alloc base (ifStart e g1).2.2 := i1.same rfl rfl rfl rfl rfl
      have t1 : (ifStart e g1).2.2.tempoffset = g1.tempoffset := rfl
      obtain ⟨g2, e2, i2, c2, b2⟩ := Stmt.generate_below thenStmt h alloc base bs
        (ifStart e g1).2.2 hs.1.2 i1a (c1.below_same rfl) (by rw [t1]; omega)
      have i2a : Generator.Inv alloc base (g2.emits ["\tjmp\t" ++ (ifStart e g1).2.1.text ++ "\n",
          (ifStart e g1).1.text ++ ":\n"]) := i2.same rfl rfl rfl rfl rfl
      obtain ⟨g3, e3, i3, c3, b3⟩ := Stmt.generate_below elseStmt h alloc base bs _ hs.2 i2a
        (c2.below_same rfl) (by show -2147483648 < g2.tempoffset - _; omega)
      refine ⟨g3.emit ((ifStart e g1).2.1.text ++ ":\n"),
        by simp only [Stmt.generate, e1, e2, e3], i3.same rfl rfl rfl rfl rfl, c3.below_same rfl, ?_⟩
      have : (g2.emits ["\tjmp\t" ++ (ifStart e g1).2.1.text ++ "\n",
          (ifStart e g1).1.text ++ ":\n"]).tempoffset = g2.tempoffset := rfl
      show _ ≤ g3.tempoffset
      omega
termination_by sizeOf s
/-- The loop of `Block::generate` hands out slots that end at or below
`alloc` only. -/
theorem Stmt.generateStmts_below (ss : List Stmt) (h : Heap) (alloc : Int) (base : List Int)
    (bs : List (Int × Nat)) (g : Generator) (hs : Stmt.sizableStmts ss = true)
    (hi : Generator.Inv alloc base g) (hb : Generator.Below alloc bs g)
    (hroom : -2147483648 < g.tempoffset - Stmt.tempSizeOfStmts ss) :
    ∃ g1, Stmt.generateStmts ss h g = some g1 ∧ Generator.Inv alloc base g1 ∧
      Generator.Below alloc bs g1 ∧
      g.tempoffset - Stmt.tempSizeOfStmts ss ≤ g1.tempoffset := by
  cases ss with
  | nil =>
    exact ⟨g, by simp only [Stmt.generateStmts], hi, hb, by simp [Stmt.tempSizeOfStmts]⟩
  | cons s ss =>
    simp only [Stmt.sizableStmts, Bool.and_eq_true] at hs
    simp only [Stmt.tempSizeOfStmts] at hroom ⊢
    push_cast at hroom ⊢
    obtain ⟨g1, e1, i1, c1, b1⟩ := Stmt.generate_below s h alloc base bs g hs.1 hi hb (by omega)
    obtain ⟨i1e, t1e⟩ := i1.endStatement
    have hga : g.tempoffset ≤ alloc := hi.2.2.1
    obtain ⟨g2, e2, i2, c2, b2⟩ := Stmt.generateStmts_below ss h alloc base bs g1.endStatement
      hs.2 i1e (c1.below_same rfl) (by rw [t1e]; omega)
    exact ⟨g2, by simp only [Stmt.generateStmts, e1, e2], i2, c2, by rw [t1e] at b2; omega⟩
termination_by sizeOf ss
end

end TemporarySlots

section TemporarySlotsOfFunctions

/-- Claim C32 as stated fails: `int main(void) { int a[536870911]; int x;
x = 1; return 0; }` is generated and nothing aborts; `a` is at -2147483644 and
`x` at -2147483648, and the one temporary, handed out while `x = 1` is
generated, is the slot of 4 bytes from 2147483644, which the code addresses as
`2147483644(%ebp)`: it lies above both locals, not below them. -/
theorem C32_temporary_above_locals :
    ∃ h1 g1, wrappedTemporary.generate wrappedTemporaryHeap Generator.init = some (h1, g1) ∧
      g1.slots = [(2147483644, 4)] ∧ g1.assigned = [2147483644] ∧
      (h1 1).offset = -2147483644 ∧ (h1 2).offset = -2147483648 ∧
      "\tmovl\t%eax, 2147483644(%ebp)\n" ∈ g1.cout ∧
      (∀ p ∈ g1.slots, ∀ x ∈ [1, 2], (h1 x).offset + (h1 x).type.sizeN ≤ p.1) ∧
      ¬ ∃ p ∈ g1.slots, ∃ x ∈ [1, 2], p.1 + p.2 ≤ (h1 x).offset := by
  obtain ⟨q, hq, h2, h3, h4, h5, h6, h7, h8⟩ : ∃ q,
      wrappedTemporary.generate wrappedTemporaryHeap Generator.init = some q ∧
      q.2.slots = [(2147483644, 4)] ∧ q.2.assigned = [2147483644] ∧
      (q.1 1).offset = -2147483644 ∧ (q.1 2).offset = -2147483648 ∧
      "\tmovl\t%eax, 2147483644(%ebp)\n" ∈ q.2.cout ∧
      (q.1 1).type.sizeN = 2147483644 ∧ (q.1 2).type.sizeN = 4 :=
    ⟨_, rfl, by decide, by decide, by decide, by decide, by decide, by decide, by decide⟩
  obtain ⟨c, d⟩ := q
  simp only at h2 h3 h4 h5 h6 h7 h8
  refine ⟨c, d, hq, h2, h3, h4, h5, h6, ?_, ?_⟩
  · rw [h2]
    intro p hp x hx
    simp only [List.mem_singleton] at hp
    subst hp
    simp only [List.mem_cons, List.mem_singleton, List.not_mem_nil, or_false] at hx
    rcases hx with rfl | rfl
    · rw [h4, h7]; decide
    · rw [h5, h8]; decide
  · rw [h2]
    rintro ⟨p, hp, x, hx, hle⟩
    simp only [List.mem_singleton] at hp
    subst hp
    simp only [List.mem_cons, List.mem_singleton, List.not_mem_nil, or_false] at hx
    rcases hx with rfl | rfl
    · rw [h4] at hle
      exact absurd hle (by decide)
    · rw [h5] at hle
      exact absurd hle (by decide)

/-- Claim C32, amended: in a generated function whose allocation returned
`alloc` (with a body that takes its temporaries at types that have a size, and
with the locals and the temporaries above `-2^31`: `alloc` minus the sizes of
the temporaries of the body is above `-2^31`), every slot `[t, t + n)` handed
out by `assigntemp` ends at or below `alloc`, and `alloc` is at or below the
offset of every local variable of the body and of its nested blocks, so the
slot lies below the local and does not overlap it; and the slots handed out
while one expression tree is generated are stacked downwards, each later one
ending at or below the start of every earlier one, so they are pairwise
disjoint. -/
theorem C32_temporaries (f : Function) (h h1 : Heap) (g : Generator) (alloc : Int)
    (halloc : f.allocate h = some (alloc, h1))
    (hs : f.body.sizable = true)
    (hroom : -2147483648 < alloc - (f.body.tempSize : Int)) :
    (∃ g1 new, f.generate h g = some (h1, g1) ∧ g1.slots = g.slots ++ new ∧
      (∀ p ∈ new, p.1 + p.2 ≤ alloc) ∧
      (∀ (params : Parameters) (psyms locals : List Nat),
        (h f.id).type.parameters = some params →
        f.decls = psyms ++ locals → psyms.length = params.length →
        (∀ p ∈ params, p.isFunction = false) →
        (∀ k, k < params.length → 8 + (prefixSize params k : Int) ≤ 2147483647) →
        f.body.symbols.Nodup →
        Heap.Fresh h (locals ++ Stmt.symbolsOfStmts f.stmts) →
        (totalSize h (locals ++ Stmt.symbolsOfStmts f.stmts) : Int) ≤ 2147483648 →
        ∀ x ∈ locals ++ Stmt.symbolsOfStmts f.stmts, ∀ p ∈ new,
          p.1 + p.2 ≤ (h1 x).offset)) ∧
    (∀ (e : Expr) (g0 : Generator), e.sizable = true →
      -2147483648 < g0.tempoffset - (e.tempSize : Int) → g0.tempoffset ≤ 2147483647 →
      ∃ op g2 slots, e.generate h1 g0 = some (op, g2) ∧ g2.slots = g0.slots ++ slots ∧
        Generator.Stacked g0.tempoffset slots g2.tempoffset ∧
        slots.Pairwise (fun (a b : Int × Nat) => b.1 + (b.2 : Int) ≤ a.1)) := by
  constructor
  · have hup : alloc ≤ 2147483647 := Function.allocate_upper f h alloc h1 halloc
    have hlow : -2147483648 < alloc := by
      have : (0 : Int) ≤ (f.body.tempSize : Int) := Int.ofNat_nonneg _
      omega
    have i0 : Generator.Inv alloc g.assigned (Function.start g alloc (h1 f.id).name) :=
      ⟨rfl, le_refl alloc, le_refl alloc, hup, hlow, hlow, [], by simp [Function.start,
        Generator.emits, Generator.newLabel], by simp, Or.inl rfl, Or.inl rfl⟩
    have c0 : Generator.Below alloc g.slots (Function.start g alloc (h1 f.id).name) :=
      ⟨[], by simp [Function.start, Generator.emits, Generator.newLabel], by simp⟩
    obtain ⟨g1, e1, _, ⟨new, c1, c2⟩, _⟩ := Stmt.generateStmts_below f.stmts h1 alloc g.assigned
      g.slots (Function.start g alloc (h1 f.id).name) hs i0 c0 hroom
    refine ⟨g1.emits (epilogueCode (h1 f.id).name g1), new, ?_, c1, c2, ?_⟩
    · have e2 : f.body.generate h1 (Function.start g alloc (h1 f.id).name) = some g1 := e1
      simp only [Function.generate, halloc, e2]
    · intro params psyms locals hparams hdecls hplen hpsize hpfit hnd hfr hfit x hx p hp
      obtain ⟨off, h2, e2, cov⟩ := Function.allocate_covers f h params psyms locals hparams
        hdecls hplen hpsize hpfit hnd hfr hfit
      rw [halloc] at e2
      simp only [Option.some.injEq, Prod.mk.injEq] at e2
      obtain ⟨rfl, rfl⟩ := e2
      exact le_trans (c2 p hp) (cov x hx).1
  · intro e g0 he hr hup
    obtain ⟨op, g2, e2, s2⟩ := Expr.generate_runs e h1 he g0 hr hup
    obtain ⟨slots, es, st⟩ := s2.2.2.2.2.2
    exact ⟨op, g2, slots, e2, es, st, st.spec.1⟩

/-- Witness of C32: for `int main(void) { int *p; int x; p = &x; *p = 5;
return *p; }` the allocation returns -8 and the slots handed out are the four
bytes from -12, from -16, from -12 and from -12: all end at or below -8, and
at or below the offsets of the locals `p` and `x`. -/
theorem C32_temporaries_witness :
    ∃ alloc h1 g1, exampleE5.allocate exampleE5Heap = some (alloc, h1) ∧ alloc = -8 ∧
      exampleE5.generate exampleE5Heap Generator.init = some (h1, g1) ∧
      g1.slots = [(-12, 4), (-16, 4), (-12, 4), (-12, 4)] ∧
      (∀ p ∈ g1.slots, p.1 + p.2 ≤ alloc) ∧
      ∀ x ∈ [1, 2], ∀ p ∈ g1.slots, p.1 + p.2 ≤ (h1 x).offset := by
  obtain ⟨p, hp, h8⟩ : ∃ p, exampleE5.allocate exampleE5Heap = some p ∧ p.1 = -8 :=
    ⟨_, rfl, by decide⟩
  obtain ⟨g1, new, e, hsl, hb, hl⟩ := (C32_temporaries exampleE5 exampleE5Heap p.2
    Generator.init p.1 hp (by decide) (by rw [h8]; decide)).1
  have hl := hl [] [] [1, 2] rfl rfl rfl (by decide) (by decide) (by decide)
    (by unfold Heap.Fresh; decide) (by decide)
  have e2 : (exampleE5.generate exampleE5Heap Generator.init).map (fun r => r.2.slots) =
      some [(-12, 4), (-16, 4), (-12, 4), (-12, 4)] := by decide
  rw [e] at e2
  simp only [Option.map_some', Option.some.injEq] at e2
  have hn : new = g1.slots := by rw [hsl]; rfl
  rw [hn] at hb hl
  exact ⟨p.1, p.2, g1, hp, h8, e, e2, hb, fun x hx => hl x (List.mem_append_left _ hx)⟩

end TemporarySlotsOfFunctions

section FunctionScope

theorem Scopes.toplevel_opened (o : Scope) (a : Bool) (S : Scope) (rest : List Scope) :
    (Scopes.opened o a (S :: rest)).toplevel = some S := by
  cases a <;> rfl

theorem Scopes.setToplevel_opened (o : Scope) (a : Bool) (S S1 : Scope) (rest : List Scope) :
    (Scopes.opened o a (S :: rest)).setToplevel S1 = Scopes.opened o a (S1 :: rest) := by
  cases a <;> rfl

theorem report_numErrors (format arg : String) (c : Checker) :
    (report format arg c).numErrors = c.numErrors + 1 := rfl

theorem declareIn_quiet (format : String) (scope : Scope) (name : String) (type : CType)
    (t : Table) (c : Checker) :
    c.numErrors ≤ (declareIn format scope name type t c).checker.numErrors ∧
    ((declareIn format scope name type t c).checker.numErrors = c.numErrors →
      declareIn format scope name type t c =
        ⟨t.next, ⟨scope.symbols ++ [t.next]⟩, (t.newSymbol name type).2, c⟩) := by
  unfold declareIn
  cases scope.find t.heap name with
  | none => exact ⟨le_refl _, fun _ => rfl⟩
  | some x =>
    simp only [report_numErrors]
    exact ⟨Nat.le_succ _, fun h => absurd h (by omega)⟩

theorem Table.Grown.newSymbol_object (t : Table) (name : String) (type : CType) :
    (∀ x, x < t.next → (t.newSymbol name type).2.heap x = t.heap x) ∧
    (t.newSymbol name type).2.heap t.next = ⟨name, type, 0⟩ ∧
    (t.newSymbol name type).2.next = t.next + 1 := by
  refine ⟨fun x hx => ?_, ?_, rfl⟩
  · show (if x = t.next then _ else _) = _
    rw [if_neg (by omega)]
  · show (if t.next = t.next then _ else _) = _
    rw [if_pos rfl]
    rfl

/-- A declaration in the scope of `toplevel` that reports nothing adds the
new symbol at the end of that scope. -/
theorem declareToplevel_grown (format : String) (name : String) (type : CType) (t t1 : Table)
    (c c1 : Checker) (sym : Nat) (o : Scope) (a : Bool) (S : Scope) (rest : List Scope)
    (hs : t.scopes = .opened o a (S :: rest))
    (e : (match t.scopes.toplevel with
      | none => none
      | some scope =>
        let r := declareIn format scope name type t c
        some (r.symbol, { r.table with scopes := t.scopes.setToplevel r.scope }, r.checker)) =
      some (sym, t1, c1)) :
    c.numErrors ≤ c1.numErrors ∧ (∃ S1, t1.scopes = .opened o a (S1 :: rest)) ∧
    (c1.numErrors = c.numErrors → c1 = c ∧ sym = t.next ∧ t1.heap sym = ⟨name, type, 0⟩ ∧
      Table.Grown t t1 [sym]) := by
  rw [hs, Scopes.toplevel_opened] at e
  simp only [Option.some.injEq, Prod.mk.injEq] at e
  obtain ⟨rfl, rfl, rfl⟩ := e
  obtain ⟨q1, q2⟩ := declareIn_quiet format S name type t c
  refine ⟨q1, ⟨_, Scopes.setToplevel_opened o a S _ rest⟩, fun h => ?_⟩
  have q := q2 h
  obtain ⟨n1, n2, n3⟩ := Table.Grown.newSymbol_object t name type
  rw [q]
  refine ⟨rfl, rfl, n2, o, a, S, rest, hs, Scopes.setToplevel_opened o a S _ rest, ?_,
    List.nodup_singleton _, ?_, n1⟩
  · show t.next ≤ t.next + 1
    omega
  · intro x hx
    rw [List.mem_singleton.1 hx]
    exact ⟨le_refl _, Nat.lt_succ_self _⟩

theorem Table.Grown.grown_refl (t : Table) (o : Scope) (a : Bool) (S : Scope)
    (rest : List Scope) (hs : t.scopes = .opened o a (S :: rest)) : Table.Grown t t [] :=
  ⟨o, a, S, rest, hs, by rw [hs, List.append_nil], le_refl _, List.nodup_nil,
    fun x hx => absurd hx (by simp),
    fun _ _ => rfl⟩

theorem Table.Grown.grown_trans {t t1 t2 : Table} {xs ys : List Nat}
    (a : Table.Grown t t1 xs) (b : Table.Grown t1 t2 ys) : Table.Grown t t2 (xs ++ ys) := by
  obtain ⟨o, at1, S, rest, h1, h2, h3, hn, h4, h5⟩ := a
  obtain ⟨o1, a1, S1, rest1, k1, k2, k3, kn, k4, k5⟩ := b
  rw [h2] at k1
  simp only [Scopes.opened.injEq, List.cons.injEq] at k1
  obtain ⟨rfl, rfl, rfl, rfl⟩ := k1
  refine ⟨o, at1, S, rest, h1, by rw [k2, List.append_assoc], le_trans h3 k3, ?_, ?_, ?_⟩
  · rw [List.nodup_append]
    refine ⟨hn, kn, fun x hx hy => ?_⟩
    have := (h4 x hx).2
    have := (k4 x hy).1
    omega
  · intro x hx
    rcases List.mem_append.1 hx with hx | hx
    · exact ⟨(h4 x hx).1, lt_of_lt_of_le (h4 x hx).2 k3⟩
    · exact ⟨le_trans h3 (k4 x hx).1, (k4 x hx).2⟩
  · intro x hx
    rw [k5 x (lt_of_lt_of_le hx h3), h5 x hx]

/-- The table `t1` has the objects of `t` untouched and no fewer handles. -/
theorem Table.Grown.heap_kept {t t1 : Table} {xs : List Nat} (a : Table.Grown t t1 xs) :
    t.next ≤ t1.next ∧ ∀ x, x < t.next → t1.heap x = t.heap x := by
  obtain ⟨o, at1, S, rest, h1, h2, h3, hn, h4, h5⟩ := a
  exact ⟨h3, h5⟩

/-- The parameters of a function: when nothing is reported, `params` holds
their types in order and the scope of `toplevel` grows by one symbol for each,
in order, named and typed as the parameter. -/
theorem parameters_grown : ∀ (ps : List Parameter) (t t1 : Table) (c c1 : Checker)
    (params : Parameters) (o : Scope) (a : Bool) (S : Scope) (rest : List Scope),
    t.scopes = .opened o a (S :: rest) →
    parameters ps t c = some (params, t1, c1) →
    c.numErrors ≤ c1.numErrors ∧
    (c1.numErrors = c.numErrors → c1 = c ∧ params = ps.map Parameter.type ∧
      ∃ added, Table.Grown t t1 added ∧
        List.Forall₂ (fun p x => t1.heap x = ⟨p.name, p.type, 0⟩) ps added)
  | [], t, t1, c, c1, params, o, a, S, rest, hs, e => by
    simp only [parameters, Option.some.injEq, Prod.mk.injEq] at e
    obtain ⟨rfl, rfl, rfl⟩ := e
    exact ⟨le_refl _, fun _ => ⟨rfl, rfl, [], Table.Grown.grown_refl t o a S rest hs,
      List.Forall₂.nil⟩⟩
  | p :: ps, t, t1, c, c1, params, o, a, S, rest, hs, e => by
    simp only [parameters] at e
    cases hd : declareParameter p.name p.type t c with
    | none => rw [hd] at e; exact absurd e (by simp)
    | some r =>
      obtain ⟨sym, tm, cm⟩ := r
      rw [hd] at e
      simp only at e
      cases hr : parameters ps tm cm with
      | none => rw [hr] at e; exact absurd e (by simp)
      | some r2 =>
        obtain ⟨params2, t2, c2⟩ := r2
        rw [hr] at e
        simp only [Option.some.injEq, Prod.mk.injEq] at e
        obtain ⟨rfl, rfl, rfl⟩ := e
        obtain ⟨m1, ⟨S1, hs1⟩, m2⟩ := declareToplevel_grown redeclared_parameter p.name p.type
          t tm c cm sym o a S rest hs hd
        obtain ⟨r1, r2⟩ := parameters_grown ps tm t2 cm c2 params2 o a S1 rest hs1 hr
        refine ⟨le_trans m1 r1, fun h => ?_⟩
        obtain ⟨rfl, rfl, hh, g1⟩ := m2 (by omega)
        obtain ⟨rfl, rfl, added, g2, f2⟩ := r2 (by omega)
        refine ⟨rfl, rfl, t.next :: added, Table.Grown.grown_trans g1 g2, ?_⟩
        refine List.Forall₂.cons ?_ f2
        obtain ⟨_, kept⟩ := Table.Grown.heap_kept g2
        obtain ⟨_, _, _, _, _, _, _, _, k4, _⟩ := g1
        rw [kept _ (k4 _ (List.mem_singleton_self _)).2]
        exact hh

end FunctionScope
section FunctionScope

/-- The parse of the inside of a block never lowers the error count, leaves
the chain of scopes as deep as it was, and, when nothing is reported, only
adds symbols at the end of the scope of `toplevel`. -/
theorem BlockParse.grown {t t1 : Table} {c c1 : Checker} (b : BlockParse t c t1 c1) :
    ∀ (o : Scope) (a : Bool) (S : Scope) (rest : List Scope),
      t.scopes = .opened o a (S :: rest) →
      c.numErrors ≤ c1.numErrors ∧ (∃ S1, t1.scopes = .opened o a (S1 :: rest)) ∧
      (c1.numErrors = c.numErrors → ∃ added, Table.Grown t t1 added) := by
  induction b with
  | done t c =>
    intro o a S rest hs
    exact ⟨le_refl _, ⟨S, hs⟩, fun _ => ⟨[], Table.Grown.grown_refl t o a S rest hs⟩⟩
  | declarator t t1 t2 c c1 c2 name type symbol e _ ih =>
    intro o a S rest hs
    obtain ⟨m1, ⟨S1, hs1⟩, m2⟩ := declareToplevel_grown redeclared_variable name type
      t t1 c c1 symbol o a S rest hs e
    obtain ⟨r1, r2, r3⟩ := ih o a S1 rest hs1
    refine ⟨le_trans m1 r1, r2, fun h => ?_⟩
    obtain ⟨_, _, _, g1⟩ := m2 (by omega)
    obtain ⟨added, g2⟩ := r3 (by omega)
    exact ⟨_, Table.Grown.grown_trans g1 g2⟩
  | identifier t t1 t2 c c1 c2 name symbol e _ ih =>
    intro o a S rest hs
    unfold checkIdentifier at e
    rw [hs, Scopes.toplevel_opened] at e
    simp only at e
    cases hl : lookup t.heap (Scopes.opened o a (S :: rest)).chain name with
    | some x =>
      rw [hl] at e
      simp only [Option.some.injEq, Prod.mk.injEq] at e
      obtain ⟨rfl, rfl, rfl⟩ := e
      exact ih o a S rest hs
    | none =>
      rw [hl] at e
      simp only [Option.some.injEq, Prod.mk.injEq] at e
      obtain ⟨rfl, rfl, rfl⟩ := e
      obtain ⟨r1, r2, _⟩ := ih o a (S.insert t.next) rest
        (Scopes.setToplevel_opened o a S _ rest)
      rw [report_numErrors] at r1
      exact ⟨by omega, r2, fun h => absurd h (by omega)⟩
  | check t t2 c c1 c2 hle _ ih =>
    intro o a S rest hs
    obtain ⟨r1, r2, r3⟩ := ih o a S rest hs
    exact ⟨le_trans hle r1, r2, fun h => r3 (by omega)⟩
  | block t t1 t2 t3 c c1 c3 scope _ hc _ ih1 ih2 =>
    intro o a S rest hs
    have ho : (openScope t).scopes = .opened o a (⟨[]⟩ :: S :: rest) := by
      simp only [openScope, hs]
    obtain ⟨r1, ⟨S1, hs1⟩, r3⟩ := ih1 o a ⟨[]⟩ (S :: rest) ho
    have ht2 : t2 = { t1 with scopes := .opened o a (S :: rest) } := by
      simp only [closeScope, hs1, Option.some.injEq, Prod.mk.injEq] at hc
      exact hc.2.symm
    have hs2 : t2.scopes = .opened o a (S :: rest) := by rw [ht2]
    obtain ⟨q1, q2, q3⟩ := ih2 o a S rest hs2
    refine ⟨le_trans r1 q1, q2, fun h => ?_⟩
    obtain ⟨inner, gi⟩ := r3 (by omega)
    obtain ⟨added, g2⟩ := q3 (by omega)
    obtain ⟨k3, k5⟩ := Table.Grown.heap_kept gi
    have hon : (openScope t).next = t.next := by simp only [openScope, hs]
    have hoh : (openScope t).heap = t.heap := by simp only [openScope, hs]
    rw [hon] at k3 k5
    rw [hoh] at k5
    have g1 : Table.Grown t t2 [] := by
      refine ⟨o, a, S, rest, hs, by rw [hs2, List.append_nil], ?_, List.nodup_nil,
        fun x hx => absurd hx (by simp), ?_⟩
      · rw [ht2]
        exact k3
      · rw [ht2]
        exact k5
    exact ⟨_, Table.Grown.grown_trans g1 g2⟩

/-- A declaration of a function that reports nothing changes the scope of
`outermost` only, and its symbol is a new object. -/
theorem declareFunction_quiet (name : String) (type : CType) (t t1 : Table) (c c1 : Checker)
    (sym : Nat) (o : Scope) (a : Bool) (inner : List Scope)
    (hs : t.scopes = .opened o a inner)
    (e : declareFunction name type t c = some (sym, t1, c1)) :
    c.numErrors ≤ c1.numErrors ∧ (∃ o1, t1.scopes = .opened o1 a inner) ∧
    (c1.numErrors = c.numErrors → sym = t.next ∧ t1.next = t.next + 1 ∧
      t1.heap sym = ⟨name, type, 0⟩ ∧ ∀ x, x < t.next → t1.heap x = t.heap x) := by
  unfold declareFunction at e
  rw [hs] at e
  simp only [Scopes.outermost, Option.some.injEq, Prod.mk.injEq] at e
  obtain ⟨rfl, rfl, rfl⟩ := e
  obtain ⟨q1, q2⟩ := declareIn_quiet redeclared_function o name type t c
  refine ⟨q1, ⟨_, rfl⟩, fun h => ?_⟩
  obtain ⟨n1, n2, n3⟩ := Table.Grown.newSymbol_object t name type
  rw [q2 h]
  exact ⟨rfl, n3, n2, n1⟩

end FunctionScope
section FunctionScope

theorem forall₂_of_mem {α β : Type} {R Q : α → β → Prop} : ∀ {ps : List α} {xs : List β},
    List.Forall₂ R ps xs → (∀ p x, x ∈ xs → R p x → Q p x) → List.Forall₂ Q ps xs
  | _, _, .nil, _ => .nil
  | _, _, .cons h t, f =>
    .cons (f _ _ (List.mem_cons_self _ _) h)
      (forall₂_of_mem t (fun p x hx => f p x (List.mem_cons_of_mem _ hx)))

theorem forall₂_index {α β : Type} {R : α → β → Prop} : ∀ {ps : List α} {xs : List β},
    List.Forall₂ R ps xs → ∀ i, i < ps.length →
      ∃ x p, xs[i]? = some x ∧ ps[i]? = some p ∧ R p x
  | _, _, .nil, i, hi => absurd hi (Nat.not_lt_zero i)
  | _, _, .cons h _, 0, _ => ⟨_, _, List.getElem?_cons_zero, List.getElem?_cons_zero, h⟩
  | _, _, .cons _ t, i + 1, hi => by
    obtain ⟨x, p, hx, hp, hr⟩ := forall₂_index t i (Nat.lt_of_succ_lt_succ hi)
    exact ⟨x, p, by simpa using hx, by simpa using hp, hr⟩

/-- Claim C40: `Function::allocate` indexes in bounds.  For a function
definition parsed from a table whose outermost scope is open (`main` opens it
before the parse), with an error count of zero after its body: the function
symbol carries the parameter types in order, the scope that `closeScope`
returns holds at least as many symbols as there are parameters, its symbol
`i` is the object of parameter `i` for every `i` below that number, no symbol
is in it twice, and the loop of `Function::allocate` over the parameters
returns and changes no object other than those of the parameters, so none of
the symbols after the parameters. -/
theorem C40_function_allocate_indexes_in_bounds
    (t0 t1 t2 t3 t4 : Table) (c0 c1 c2 c3 : Checker) (o : Scope) (a : Bool)
    (inner : List Scope) (ps : List Parameter) (name : String) (typespec : Specifier)
    (indirection : Nat) (params : Parameters) (symbol : Nat) (decls : Scope)
    (hmain : t0.scopes = .opened o a inner)
    (hp : parameters ps (openScope t0) c0 = some (params, t1, c1))
    (hf : declareFunction name (.mk typespec indirection (.Function (some params))) t1 c1 =
      some (symbol, t2, c2))
    (hb : BlockParse t2 c2 t3 c3)
    (hc : closeScope t3 = some (decls, t4))
    (hz : c3.numErrors = 0) :
    (t4.heap symbol).type.parameters = some params ∧
    params = ps.map Parameter.type ∧
    params.length ≤ decls.symbols.length ∧
    decls.symbols.Nodup ∧
    (∀ i, i < params.length → ∃ x p, decls.symbols[i]? = some x ∧ ps[i]? = some p ∧
      params[i]? = some p.type ∧ t4.heap x = ⟨p.name, p.type, 0⟩) ∧
    ∃ off h1, allocateParameters params decls.symbols INIT_PARAM_OFFSET t4.heap =
        some (off, h1) ∧
      (∀ x, x ∉ decls.symbols.take params.length → h1 x = t4.heap x) ∧
      ∀ x ∈ decls.symbols.drop params.length, h1 x = t4.heap x := by
  have ho : (openScope t0).scopes = .opened o a (⟨[]⟩ :: inner) := by
    simp only [openScope, hmain]
  obtain ⟨p1, p2⟩ := parameters_grown ps (openScope t0) t1 c0 c1 params o a ⟨[]⟩ inner ho hp
  have g1s : ∃ S1, t1.scopes = .opened o a (S1 :: inner) ∧
      (c1.numErrors = c0.numErrors → ∃ added, S1.symbols = added ∧
        Table.Grown (openScope t0) t1 added) := by
    by_cases hq : c1.numErrors = c0.numErrors
    · obtain ⟨_, _, added, g, _⟩ := p2 hq
      have gc := g
      obtain ⟨o1, a1, S, rest, h1, h2, _⟩ := gc
      rw [ho] at h1
      simp only [Scopes.opened.injEq, List.cons.injEq] at h1
      obtain ⟨rfl, rfl, rfl, rfl⟩ := h1
      exact ⟨_, h2, fun _ => ⟨added, by simp, g⟩⟩
    · clear p2
      have : ∀ (qs : List Parameter) (t t1 : Table) (c c1 : Checker) (pr : Parameters)
          (S : Scope), t.scopes = .opened o a (S :: inner) →
          parameters qs t c = some (pr, t1, c1) → ∃ S1, t1.scopes = .opened o a (S1 :: inner) := by
        intro qs
        induction qs with
        | nil =>
          intro t t1 c c1 pr S hs e
          simp only [parameters, Option.some.injEq, Prod.mk.injEq] at e
          obtain ⟨_, rfl, _⟩ := e
          exact ⟨S, hs⟩
        | cons q qs ih =>
          intro t t1 c c1 pr S hs e
          simp only [parameters] at e
          cases hd : declareParameter q.name q.type t c with
          | none => rw [hd] at e; exact absurd e (by simp)
          | some r =>
            obtain ⟨sym, tm, cm⟩ := r
            rw [hd] at e
            simp only at e
            cases hr : parameters qs tm cm with
            | none => rw [hr] at e; exact absurd e (by simp)
            | some r2 =>
              obtain ⟨pr2, tn, cn⟩ := r2
              rw [hr] at e
              simp only [Option.some.injEq, Prod.mk.injEq] at e
              obtain ⟨_, rfl, _⟩ := e
              obtain ⟨_, ⟨S1, hs1⟩, _⟩ := declareToplevel_grown redeclared_parameter q.name
                q.type t tm c cm sym o a S inner hs hd
              exact ih tm tn cm cn pr2 S1 hs1 hr
      obtain ⟨S1, hs1⟩ := this ps (openScope t0) t1 c0 c1 params ⟨[]⟩ ho hp
      exact ⟨S1, hs1, fun h => absurd h hq⟩
  obtain ⟨S1, hs1, gp⟩ := g1s
  obtain ⟨f1, ⟨o2, hs2⟩, f2⟩ := declareFunction_quiet name _ t1 t2 c1 c2 symbol o a
    (S1 :: inner) hs1 hf
  obtain ⟨b1, ⟨S3, hs3⟩, b2⟩ := BlockParse.grown hb o2 a S1 inner hs2
  obtain ⟨rfl, rfl, added, g1, fa⟩ := p2 (by omega)
  obtain ⟨added1, hadd, _⟩ := gp (by omega)
  obtain ⟨rfl, hn2, hsym, hk2⟩ := f2 (by omega)
  obtain ⟨locals, g3⟩ := b2 (by omega)
  have hd : decls = S3 ∧ t4.heap = t3.heap := by
    simp only [closeScope, hs3, Option.some.injEq, Prod.mk.injEq] at hc
    exact ⟨hc.1.symm, by rw [← hc.2]⟩
  obtain ⟨rfl, hheap⟩ := hd
  have g3c := g3
  obtain ⟨o3, a3, S, rest, k1, k2, k3, kn, k4, k5⟩ := g3c
  rw [hs2] at k1
  simp only [Scopes.opened.injEq, List.cons.injEq] at k1
  obtain ⟨rfl, rfl, rfl, rfl⟩ := k1
  rw [hs3] at k2
  simp only [Scopes.opened.injEq, List.cons.injEq] at k2
  have hdecl : decls.symbols = added ++ locals := by
    rw [k2.2.2.1]
    have g1c := g1
    obtain ⟨o1, a1, S0, rest0, j1, j2, _⟩ := g1c
    rw [ho] at j1
    simp only [Scopes.opened.injEq, List.cons.injEq] at j1
    obtain ⟨rfl, rfl, rfl, rfl⟩ := j1
    rw [hs1] at j2
    simp only [Scopes.opened.injEq, List.cons.injEq] at j2
    rw [j2.2.2.1]
    simp
  obtain ⟨_, _, _, _, _, _, j3, jn, j4, j5⟩ := g1
  have hlen : added.length = ps.length := fa.length_eq.symm
  have hnd : (added ++ locals).Nodup := by
    rw [List.nodup_append]
    refine ⟨jn, kn, fun x hx hy => ?_⟩
    have := (j4 x hx).2
    have := (k4 x hy).1
    omega
  have hobj : List.Forall₂ (fun p x => t4.heap x = ⟨p.name, p.type, 0⟩) ps added := by
    refine forall₂_of_mem fa (fun p x hx h => ?_)
    have hx1 := (j4 x hx).2
    rw [hheap, k5 x (by omega), hk2 x hx1]
    exact h
  have htake : decls.symbols.take (ps.map Parameter.type).length = added := by
    rw [hdecl, List.length_map, ← hlen, List.take_left]
  have hdrop : decls.symbols.drop (ps.map Parameter.type).length = locals := by
    rw [hdecl, List.length_map, ← hlen, List.drop_left]
  have hle : (ps.map Parameter.type).length ≤ decls.symbols.length := by
    rw [hdecl, List.length_append, List.length_map]
    omega
  obtain ⟨off, h1, e1, _, fr, _⟩ := allocateParameters_spec (ps.map Parameter.type)
    decls.symbols INIT_PARAM_OFFSET t4.heap hle (by rw [htake]; exact jn)
    (fun p hp => by
      obtain ⟨q, _, rfl⟩ := List.mem_map.1 hp
      rfl) (by decide)
  refine ⟨?_, rfl, hle, by rw [hdecl]; exact hnd, ?_, off, h1, e1, fr, ?_⟩
  · rw [hheap, k5 _ (by omega), hsym]
    rfl
  · intro i hi
    rw [List.length_map] at hi
    obtain ⟨x, p, hx, hp, hr⟩ := forall₂_index hobj i hi
    refine ⟨x, p, ?_, hp, ?_, hr⟩
    · rw [hdecl, List.getElem?_append_left (by omega)]
      exact hx
    · rw [List.getElem?_map, hp]
      rfl
  · intro x hx
    rw [hdrop] at hx
    refine fr x ?_
    rw [htake]
    intro hxa
    exact (List.nodup_append.1 hnd).2.2 hxa hx

end FunctionScope
/-- The function `int f(int x, double y) { int z; { int w; } z; }`, parsed
after `main` has opened the outermost scope: the scope of the function holds
the objects 0 and 1 of `x` and `y` and then the object 3 of `z`, and the loop
over the parameters writes only the first two. -/
theorem C40_function_allocate_indexes_in_bounds_witness :
    ∃ (t1 t2 t3 t4 : Table) (c1 c2 c3 : Checker) (params : Parameters) (symbol : Nat)
      (decls : Scope),
      parameters exampleParameters (openScope (openScope Table.init)) Checker.init =
        some (params, t1, c1) ∧
      declareFunction "f" (.mk .INT 0 (.Function (some params))) t1 c1 = some (symbol, t2, c2) ∧
      BlockParse t2 c2 t3 c3 ∧ closeScope t3 = some (decls, t4) ∧ c3.numErrors = 0 ∧
      decls.symbols = [0, 1, 3] ∧ symbol = 2 ∧
      params = [.mk .INT 0 .Scalar, .mk .DOUBLE 0 .Scalar] ∧
      params.length ≤ decls.symbols.length ∧
      (∀ i, i < params.length → ∃ x p, decls.symbols[i]? = some x ∧
        exampleParameters[i]? = some p ∧ params[i]? = some p.type ∧
        t4.heap x = ⟨p.name, p.type, 0⟩) ∧
      ∃ off h1, allocateParameters params decls.symbols INIT_PARAM_OFFSET t4.heap =
          some (off, h1) ∧
        ∀ x ∈ decls.symbols.drop params.length, h1 x = t4.heap x := by
  obtain ⟨p, q, r, s, u, v, w, hp, hq, hr, hs, hu, hv, hw, hz, hd, hh⟩ :
      ∃ p q r s u v w,
        parameters exampleParameters (openScope (openScope Table.init)) Checker.init = some p ∧
        declareFunction "f" (.mk .INT 0 (.Function (some p.1))) p.2.1 p.2.2 = some q ∧
        declareVariable "z" (.mk .INT 0 .Scalar) q.2.1 q.2.2 = some r ∧
        declareVariable "w" (.mk .INT 0 .Scalar) (openScope r.2.1) r.2.2 = some s ∧
        closeScope s.2.1 = some u ∧
        checkIdentifier "z" u.2 s.2.2 = some v ∧
        closeScope v.2.1 = some w ∧
        v.2.2.numErrors = 0 ∧ w.1.symbols = [0, 1, 3] ∧ q.1 = 2 :=
    ⟨_, _, _, _, _, _, _, rfl, rfl, rfl, rfl, rfl, rfl, rfl, rfl, rfl, rfl⟩
  have hb : BlockParse q.2.1 q.2.2 v.2.1 v.2.2 :=
    .declarator _ _ _ _ _ _ _ _ _ hr
      (.block _ _ _ _ _ _ _ _ (.declarator _ _ _ _ _ _ _ _ _ hs (.done _ _)) hu
        (.identifier _ _ _ _ _ _ _ _ hv (.done _ _)))
  obtain ⟨_, k2, k3, _, k5, off, h1, e1, _, k6⟩ :=
    C40_function_allocate_indexes_in_bounds (openScope Table.init) p.2.1 q.2.1 v.2.1 w.2
      Checker.init p.2.2 q.2.2 v.2.2 ⟨[]⟩ true [] exampleParameters "f" .INT 0 p.1 q.1 w.1
      rfl hp hq hb hw hz
  exact ⟨p.2.1, q.2.1, v.2.1, w.2, p.2.2, q.2.2, v.2.2, p.1, q.1, w.1, hp, hq, hb, hw, hz, hd,
    hh, k2, k3, k5, off, h1, e1, k6⟩

section LabelText

theorem inertStart_append (a b : String) (h : inertStart a = true) :
    inertStart (a ++ b) = true := by
  unfold inertStart at h ⊢
  rw [String.data_append]
  cases ha : a.data with
  | nil => rw [ha] at h; exact absurd h (by simp)
  | cons c r =>
    rw [ha] at h
    cases r with
    | nil =>
      simp only [Bool.and_eq_true, bne_iff_ne, ne_eq] at h
      cases hb : b.data with
      | nil => simp [h.1, h.2]
      | cons d s => simp [h.1, h.2]
    | cons d s => simpa using h

theorem Inert.of_start {a : String} (h : inertStart a = true) : Inert a := by
  unfold inertStart at h
  unfold Inert startsWith
  have h1 : (".L" : String).data = ['.', 'L'] := rfl
  have h2 : ("\tj" : String).data = ['\t', 'j'] := rfl
  rw [h1, h2]
  cases ha : a.data with
  | nil => rw [ha] at h; exact absurd h (by simp)
  | cons c r =>
    rw [ha] at h
    cases r with
    | nil =>
      simp only [Bool.and_eq_true, bne_iff_ne, ne_eq] at h
      simp [List.isPrefixOf, h.1, h.2]
    | cons d s =>
      simp only [Bool.and_eq_true, Bool.not_eq_true', Bool.and_eq_false_imp, beq_iff_eq,
        beq_eq_false_iff_ne, ne_eq] at h
      simp only [List.isPrefixOf, Bool.and_true, Bool.and_eq_false_imp, beq_iff_eq,
        beq_eq_false_iff_ne, ne_eq]
      exact ⟨fun hc hd => h.1 hc.symm hd.symm, fun hc hd => h.2 hc.symm hd.symm⟩

theorem digitChar_ne_colon : ∀ m, m < 10 → Nat.digitChar m ≠ ':' := by
  decide

theorem toDigitsCore_no_colon : ∀ (fuel n : Nat) (ds : List Char), (∀ c ∈ ds, c ≠ ':') →
    ∀ c ∈ Nat.toDigitsCore 10 fuel n ds, c ≠ ':' := by
  intro fuel
  induction fuel with
  | zero => intro n ds h; exact h
  | succ fuel ih =>
    intro n ds h
    have hd : ∀ c ∈ Nat.digitChar (n % 10) :: ds, c ≠ ':' := by
      intro c hc
      rcases List.mem_cons.1 hc with rfl | hc
      · exact digitChar_ne_colon _ (Nat.mod_lt _ (by decide))
      · exact h c hc
    unfold Nat.toDigitsCore
    by_cases h0 : n / 10 = 0
    · simp only [h0, if_true]
      exact hd
    · simp only [h0, if_false]
      exact ih _ _ hd

theorem toString_no_colon (n : Nat) : ':' ∉ (toString n).data := by
  intro hc
  exact toDigitsCore_no_colon (n + 1) n [] (fun c hc => absurd hc (by simp)) ':' hc rfl

/-- Two texts without `c` that are each followed by `c` and of which the one
so extended starts the other are the same. -/
theorem starts_upto {c : Char} : ∀ (a b r : List Char), c ∉ a → c ∉ b →
    (a ++ [c]).isPrefixOf (b ++ c :: r) = true → a = b
  | [], [], _, _, _, _ => rfl
  | [], x :: b, r, _, hb, h => by
    simp only [List.nil_append, List.cons_append, List.isPrefixOf, Bool.and_eq_true,
      beq_iff_eq] at h
    exact absurd (List.mem_cons.2 (Or.inl h.1)) hb
  | x :: a, [], r, ha, _, h => by
    simp only [List.nil_append, List.cons_append, List.isPrefixOf, Bool.and_eq_true,
      beq_iff_eq] at h
    exact absurd (List.mem_cons.2 (Or.inl h.1.symm)) ha
  | x :: a, y :: b, r, ha, hb, h => by
    simp only [List.cons_append, List.isPrefixOf, Bool.and_eq_true, beq_iff_eq] at h
    rw [h.1, starts_upto a b r (fun hm => ha (List.mem_cons_of_mem _ hm))
      (fun hm => hb (List.mem_cons_of_mem _ hm)) h.2]

theorem Label.text_data (l : Label) : l.text.data = '.' :: 'L' :: (toString l.number).data := by
  unfold Label.text
  rw [String.data_append]
  rfl

/-- A text that starts with a label and a colon defines that label and no
other. -/
theorem definesLabel_of_data (n : Nat) (l : Label) (text : String) (rest : List Char)
    (h : text.data = l.text.data ++ ':' :: rest) :
    definesLabel n text = decide (l.number = n) := by
  unfold definesLabel startsWith
  rw [h, String.data_append, Label.text_data, Label.text_data]
  have hc : (":" : String).data = [':'] := rfl
  rw [hc]
  by_cases hn : l.number = n
  · rw [hn]
    simp only [decide_True, List.cons_append, List.isPrefixOf, beq_self_eq_true, Bool.true_and]
    rw [ List.isPrefixOf_iff_prefix]
    exact ⟨rest, by simp⟩
  · simp only [hn, decide_False]
    cases hp : ('.' :: 'L' :: (toString n).data ++ [':']).isPrefixOf
        ('.' :: 'L' :: (toString l.number).data ++ ':' :: rest) with
    | false => rfl
    | true =>
      simp only [List.cons_append, List.isPrefixOf, beq_self_eq_true, Bool.true_and] at hp
      have := starts_upto _ _ _ (toString_no_colon n) (toString_no_colon l.number) hp
      exact absurd (toString_nat_injective (String.ext this)).symm hn

theorem definesLabel_define (n : Nat) (l : Label) :
    definesLabel n (l.text ++ ":\n") = decide (l.number = n) :=
  definesLabel_of_data n l _ ['\n'] (by rw [String.data_append])

theorem definesLabel_asciz (n : Nat) (l : Label) (value : String) :
    definesLabel n (l.text ++ ":\t.asciz\t" ++ value ++ "\n") = decide (l.number = n) :=
  definesLabel_of_data n l _ ("\t.asciz\t".data ++ value.data ++ ['\n']) (by
    simp only [String.data_append, List.append_assoc]
    rfl)

theorem definesLabel_inert (n : Nat) {text : String} (h : Inert text) :
    definesLabel n text = false := by
  cases hd : definesLabel n text with
  | false => rfl
  | true =>
    unfold definesLabel startsWith at hd
    rw [String.data_append, Label.text_data] at hd
    have h1 := h.1
    unfold startsWith at h1
    have h2 : (".L" : String).data = ['.', 'L'] := rfl
    rw [h2] at h1
    cases ht : text.data with
    | nil => rw [ht] at hd; simp [List.isPrefixOf] at hd
    | cons c r =>
      cases r with
      | nil =>
        rw [ht] at hd
        simp [List.isPrefixOf] at hd
      | cons d s =>
        rw [ht] at hd h1
        simp only [List.cons_append, List.isPrefixOf, Bool.and_eq_true, beq_iff_eq] at hd
        simp [List.isPrefixOf, hd.1.symm, hd.2.1.symm] at h1

theorem Jump.jump_data (j : Jump) : ∃ c r, j.text.data = '\t' :: 'j' :: c :: r := by
  cases j
  · exact ⟨'e', ['\t'], rfl⟩
  · exact ⟨'n', ['e', '\t'], rfl⟩
  · exact ⟨'m', ['p', '\t'], rfl⟩

/-- Two jumps of the same text are the same jump to the same label. -/
theorem Jump.jump_injective (j k : Jump) (a b : Label)
    (h : j.text ++ a.text ++ "\n" = k.text ++ b.text ++ "\n") : j = k ∧ a = b := by
  have hd := congrArg String.data h
  have hje : ("\tje\t" : String).data = ['\t', 'j', 'e', '\t'] := rfl
  have hjne : ("\tjne\t" : String).data = ['\t', 'j', 'n', 'e', '\t'] := rfl
  have hjmp : ("\tjmp\t" : String).data = ['\t', 'j', 'm', 'p', '\t'] := rfl
  simp only [String.data_append, Label.text_data] at hd
  have key : (toString a.number).data = (toString b.number).data → a = b := by
    intro hx
    have := toString_nat_injective (String.ext hx)
    cases a
    cases b
    simp only at this
    rw [this]
  cases j <;> cases k <;>
    simp only [Jump.text, hje, hjne, hjmp, List.cons_append, List.nil_append, List.cons.injEq,
      true_and, List.append_cancel_right_eq, Char.reduceEq, false_and, and_false] at hd
  · exact ⟨rfl, key hd⟩
  · exact ⟨rfl, key hd⟩
  · exact ⟨rfl, key hd⟩

theorem jumpsTo_jump (n : Nat) (j : Jump) (l : Label) :
    jumpsTo n (j.text ++ l.text ++ "\n") = decide (l.number = n) := by
  unfold jumpsTo
  by_cases hn : l.number = n
  · have hl : l = Label.mk n := by cases l; simp only at hn; rw [hn]
    rw [hl]
    cases j <;> simp [Jump.text]
  · simp only [hn, decide_False, Bool.or_eq_false_iff, beq_eq_false_iff_ne, ne_eq]
    refine ⟨⟨fun h => ?_, fun h => ?_⟩, fun h => ?_⟩
    · exact hn (congrArg Label.number (Jump.jump_injective j .je l ⟨n⟩ h).2)
    · exact hn (congrArg Label.number (Jump.jump_injective j .jne l ⟨n⟩ h).2)
    · exact hn (congrArg Label.number (Jump.jump_injective j .jmp l ⟨n⟩ h).2)

theorem startsWith_jump (j : Jump) (l : Label) :
    startsWith "\tj" (j.text ++ l.text ++ "\n") = true ∧
    startsWith ".L" (j.text ++ l.text ++ "\n") = false := by
  obtain ⟨c, r, hj⟩ := Jump.jump_data j
  unfold startsWith
  simp only [String.data_append, hj]
  exact ⟨rfl, rfl⟩

theorem startsWith_define (l : Label) :
    startsWith ".L" (l.text ++ ":\n") = true ∧ startsWith "\tj" (l.text ++ ":\n") = false := by
  unfold startsWith
  simp only [String.data_append, Label.text_data]
  constructor
  · simp [List.isPrefixOf]
  · simp [List.isPrefixOf]

theorem jumpsTo_start (n : Nat) (text : String) (h : jumpsTo n text = true) :
    startsWith "\tj" text = true ∧ startsWith ".L" text = false := by
  unfold jumpsTo at h
  simp only [Bool.or_eq_true, beq_iff_eq] at h
  rcases h with (h | h) | h
  · rw [h]; exact startsWith_jump .je ⟨n⟩
  · rw [h]; exact startsWith_jump .jne ⟨n⟩
  · rw [h]; exact startsWith_jump .jmp ⟨n⟩

theorem definesLabel_start (n : Nat) (text : String) (h : definesLabel n text = true) :
    startsWith ".L" text = true := by
  cases hs : startsWith ".L" text with
  | true => rfl
  | false =>
    unfold definesLabel startsWith at h
    rw [String.data_append, Label.text_data] at h
    unfold startsWith at hs
    have h2 : (".L" : String).data = ['.', 'L'] := rfl
    rw [h2] at hs
    cases ht : text.data with
    | nil => rw [ht] at h; simp [List.isPrefixOf] at h
    | cons c r =>
      cases r with
      | nil =>
        rw [ht] at h
        simp [List.isPrefixOf] at h
      | cons d s =>
        rw [ht] at h hs
        simp only [List.cons_append, List.isPrefixOf, Bool.and_eq_true, beq_iff_eq] at h
        simp [List.isPrefixOf, h.1.symm, h.2.1.symm] at hs

/-- The text of an event defines the label that the event defines and jumps
to the label that the event jumps to. -/
theorem Event.text_spec (n : Nat) (ev : Event) (hi : ev.Inert) :
    definesLabel n ev.text = ev.defines n ∧ (jumpsTo n ev.text = true ↔ ev.target = some n) := by
  cases ev with
  | code t =>
    have hi1 : SimpleC.Inert t := hi
    refine ⟨definesLabel_inert n hi1, ?_⟩
    constructor
    · intro h
      have := (jumpsTo_start n t h).1
      rw [hi1.2] at this
      exact absurd this (by simp)
    · intro h
      exact absurd h (by simp [Event.target])
  | define l =>
    refine ⟨definesLabel_define n l, ?_⟩
    constructor
    · intro h
      have := (jumpsTo_start n _ h).1
      rw [show (Event.define l).text = l.text ++ ":\n" from rfl, (startsWith_define l).2] at this
      exact absurd this (by simp)
    · intro h
      exact absurd h (by simp [Event.target])
  | jump j l =>
    constructor
    · cases hd : definesLabel n (Event.jump j l).text with
      | false => rfl
      | true =>
        have := definesLabel_start n _ hd
        rw [show (Event.jump j l).text = j.text ++ l.text ++ "\n" from rfl,
          (startsWith_jump j l).2] at this
        exact absurd this (by simp)
    · show jumpsTo n (j.text ++ l.text ++ "\n") = true ↔ some l.number = some n
      rw [jumpsTo_jump]
      simp

theorem definitions_text (n : Nat) (evs : List Event) (hi : ∀ ev ∈ evs, ev.Inert) :
    (evs.map Event.text).countP (definesLabel n) = definitions n evs := by
  unfold definitions
  rw [List.countP_map]
  exact List.countP_congr fun ev hev => by
    show definesLabel n ev.text = true ↔ _
    rw [(Event.text_spec n ev (hi ev hev)).1]

end LabelText
section Traces

theorem definitions_nil (n : Nat) : definitions n [] = 0 := rfl

theorem definitions_append (n : Nat) (a b : List Event) :
    definitions n (a ++ b) = definitions n a + definitions n b :=
  List.countP_append _ _ _

theorem definitions_define (n : Nat) (l : Label) :
    definitions n [.define l] = if l.number = n then 1 else 0 := by
  simp [definitions, List.countP_cons, Event.defines]

theorem definitions_plain (n : Nat) (evs : List Event)
    (h : ∀ ev ∈ evs, ∀ m, ev.defines m = false) : definitions n evs = 0 := by
  unfold definitions
  rw [List.countP_eq_zero]
  intro ev hev
  rw [h ev hev n]
  exact Bool.false_ne_true

/-- Output statements that define no label and jump only to labels of `ext`
are traced by their events. -/
theorem Traced.plain (ext res : List Nat) {g g1 : Generator} (evs : List Event)
    (hout : g1.cout = g.cout ++ evs.map Event.text) (hc : g1.counter = g.counter)
    (hl : g1.Labels = g.Labels) (hi : ∀ ev ∈ evs, ev.Inert)
    (hd : ∀ ev ∈ evs, ∀ m, ev.defines m = false)
    (ht : ∀ ev ∈ evs, ∀ n, ev.target = some n → n ∈ ext) : Traced ext res g g1 evs where
  out := hout
  inert := hi
  closed := fun ev hev n hn => Or.inr (ht ev hev n hn)
  once := fun n => by rw [definitions_plain n evs hd]; omega
  fresh := fun n hn => by rw [definitions_plain n evs hd] at hn; omega
  counter := by rw [hc]
  strings := fun e he => Or.inl (by rw [← hl]; exact he)
  reserved := fun n _ => ⟨definitions_plain n evs hd, fun e he => Or.inl (by rw [← hl]; exact he)⟩

/-- A step that writes nothing and constructs labels, of which some may
enter the table `Labels`, is traced by no event. -/
theorem Traced.silent_step (ext res : List Nat) {g g1 : Generator} (hc : g1.cout = g.cout)
    (hn : g.counter ≤ g1.counter)
    (hl : ∀ e ∈ g1.Labels, e ∈ g.Labels ∨
      (g.counter ≤ e.2.number ∧ e.2.number < g1.counter ∧ e.2.number ∉ res)) :
    Traced ext res g g1 [] where
  out := by rw [hc, List.map_nil, List.append_nil]
  inert := fun ev hev => absurd hev (List.not_mem_nil _)
  closed := fun ev hev => absurd hev (List.not_mem_nil _)
  once := fun n => Nat.zero_le _
  fresh := fun n h => absurd h (Nat.lt_irrefl 0)
  counter := hn
  strings := fun e he => (hl e he).imp id (fun h => ⟨h.1, h.2.1, rfl⟩)
  reserved := fun n hn => ⟨rfl, fun e he => (hl e he).imp id
    (fun h hx => h.2.2 (by rw [hx]; exact hn))⟩

theorem Traced.traced_refl (ext res : List Nat) (g : Generator) : Traced ext res g g [] :=
  Traced.silent_step ext res rfl (le_refl _) (fun _ he => Or.inl he)

theorem Traced.traced_append {ext res : List Nat} {g g1 g2 : Generator} {a b : List Event}
    (x : Traced ext res g g1 a) (y : Traced ext res g1 g2 b) : Traced ext res g g2 (a ++ b) where
  out := by rw [y.out, x.out, List.map_append, List.append_assoc]
  inert := fun ev hev => (List.mem_append.1 hev).elim (x.inert ev) (y.inert ev)
  closed := by
    intro ev hev n hn
    rw [definitions_append]
    rcases List.mem_append.1 hev with h | h
    · exact (x.closed ev h n hn).imp (fun k => by omega) id
    · exact (y.closed ev h n hn).imp (fun k => by omega) id
  once := by
    intro n
    rw [definitions_append]
    have h1 := x.once n
    have h2 := y.once n
    have h3 := x.fresh n
    have h4 := y.fresh n
    by_cases ha : 0 < definitions n a
    · by_cases hb : 0 < definitions n b
      · have := (h3 ha).2
        have := (h4 hb).1
        omega
      · omega
    · omega
  fresh := by
    intro n hn
    rw [definitions_append] at hn
    have h3 := x.fresh n
    have h4 := y.fresh n
    have := x.counter
    have := y.counter
    by_cases ha : 0 < definitions n a
    · have := h3 ha
      omega
    · have := h4 (by omega)
      omega
  counter := le_trans x.counter y.counter
  strings := by
    intro e he
    have := x.counter
    have := y.counter
    rw [definitions_append]
    rcases y.strings e he with h | ⟨h1, h2, h3⟩
    · rcases x.strings e h with k | ⟨k1, k2, k3⟩
      · exact Or.inl k
      · refine Or.inr ⟨k1, by omega, ?_⟩
        have h4 := y.fresh e.2.number
        by_cases hb : 0 < definitions e.2.number b
        · have := (h4 hb).1
          omega
        · omega
    · refine Or.inr ⟨by omega, h2, ?_⟩
      have h4 := x.fresh e.2.number
      by_cases ha : 0 < definitions e.2.number a
      · have := (h4 ha).2
        omega
      · omega
  reserved := by
    intro n hn
    rw [definitions_append, (x.reserved n hn).1, (y.reserved n hn).1]
    refine ⟨rfl, fun e he => ?_⟩
    rcases (y.reserved n hn).2 e he with h | h
    · exact (x.reserved n hn).2 e h
    · exact Or.inr h

theorem Traced.weaken {ext ext1 res : List Nat} {g g1 : Generator} {evs : List Event}
    (x : Traced ext res g g1 evs) (h : ∀ n ∈ ext, n ∈ ext1) : Traced ext1 res g g1 evs where
  out := x.out
  inert := x.inert
  closed := fun ev hev n hn => (x.closed ev hev n hn).imp id (h n)
  once := x.once
  fresh := x.fresh
  counter := x.counter
  strings := x.strings
  reserved := x.reserved

/-- A label constructed before the first state is neither defined nor
entered in the table `Labels` from there on. -/
theorem Traced.reserve {ext res : List Nat} {g g1 : Generator} {evs : List Event}
    (x : Traced ext res g g1 evs) (m : Nat) (hm : m < g.counter) :
    Traced ext (m :: res) g g1 evs where
  out := x.out
  inert := x.inert
  closed := x.closed
  once := x.once
  fresh := x.fresh
  counter := x.counter
  strings := x.strings
  reserved := by
    intro n hn
    rcases List.mem_cons.1 hn with rfl | hn
    · constructor
      · by_cases hd : 0 < definitions n evs
        · have := (x.fresh n hd).1
          omega
        · omega
      · intro e he
        rcases x.strings e he with h | h
        · exact Or.inl h
        · exact Or.inr (by omega)
    · exact x.reserved n hn

/-- The definition of a label that was constructed during a trace in which
it was reserved, after that trace. -/
theorem Traced.define_last {ext res : List Nat} {g g1 g2 : Generator} {evs : List Event}
    {m : Nat} (x : Traced (m :: ext) (m :: res) g g1 evs)
    (hr : g.counter ≤ m ∧ m < g1.counter) (hm : m ∉ res)
    (hout : g2.cout = g1.cout ++ [(Label.mk m).text ++ ":\n"]) (hc : g2.counter = g1.counter)
    (hl : g2.Labels = g1.Labels) : Traced ext res g g2 (evs ++ [.define ⟨m⟩]) := by
  have hz := (x.reserved m (List.mem_cons_self _ _)).1
  have hdef : ∀ n, definitions n (evs ++ [.define ⟨m⟩]) =
      definitions n evs + if m = n then 1 else 0 := by
    intro n
    rw [definitions_append, definitions_define]
  refine ⟨?_, ?_, ?_, ?_, ?_, ?_, ?_, ?_⟩
  · rw [hout, x.out, List.map_append, List.append_assoc]
    rfl
  · intro ev hev
    rcases List.mem_append.1 hev with h | h
    · exact x.inert ev h
    · rw [List.mem_singleton.1 h]
      exact trivial
  · intro ev hev n hn
    rw [hdef]
    rcases List.mem_append.1 hev with h | h
    · rcases x.closed ev h n hn with k | k
      · exact Or.inl (by omega)
      · rcases List.mem_cons.1 k with rfl | k
        · exact Or.inl (by simp)
        · exact Or.inr k
    · rw [List.mem_singleton.1 h] at hn
      exact absurd hn (by simp [Event.target])
  · intro n
    rw [hdef]
    have := x.once n
    by_cases hn : m = n
    · rw [← hn, hz]
      simp
    · simp only [hn, if_false]
      omega
  · intro n hn
    rw [hdef] at hn
    rw [hc]
    by_cases hmn : m = n
    · rw [← hmn]
      exact hr
    · simp only [hmn, if_false] at hn
      exact x.fresh n hn
  · rw [hc]
    exact x.counter
  · intro e he
    rw [hl] at he
    rw [hc, hdef]
    rcases x.strings e he with h | ⟨h1, h2, h3⟩
    · exact Or.inl h
    · rcases (x.reserved m (List.mem_cons_self _ _)).2 e he with k | k
      · exact Or.inl k
      · refine Or.inr ⟨h1, h2, ?_⟩
        rw [h3, if_neg (fun hx => k hx.symm)]
  · intro n hn
    have hne : m ≠ n := fun hx => hm (by rw [hx]; exact hn)
    rw [hdef, if_neg hne, (x.reserved n (List.mem_cons_of_mem _ hn)).1]
    refine ⟨rfl, fun e he => ?_⟩
    rw [hl] at he
    exact (x.reserved n (List.mem_cons_of_mem _ hn)).2 e he

/-- A label of `ext` that is defined among the events need not be in `ext`. -/
theorem Traced.discharge {ext res : List Nat} {g g1 : Generator} {evs : List Event} {m : Nat}
    (x : Traced (m :: ext) res g g1 evs) (hd : 0 < definitions m evs) :
    Traced ext res g g1 evs where
  out := x.out
  inert := x.inert
  closed := by
    intro ev hev n hn
    rcases x.closed ev hev n hn with k | k
    · exact Or.inl k
    · rcases List.mem_cons.1 k with rfl | k
      · exact Or.inl hd
      · exact Or.inr k
  once := x.once
  fresh := x.fresh
  counter := x.counter
  strings := x.strings
  reserved := x.reserved

end Traces
section InertCode

theorem inert_nil : ∀ s ∈ ([] : List String), Inert s :=
  fun _ h => absurd h (List.not_mem_nil _)

theorem inert_append {a b : List String} (ha : ∀ s ∈ a, Inert s) (hb : ∀ s ∈ b, Inert s) :
    ∀ s ∈ a ++ b, Inert s :=
  fun s hs => (List.mem_append.1 hs).elim (ha s) (hb s)

theorem notCode_inert (real : Bool) (e t : Operand) :
    ∀ s ∈ notCode real e t, Inert s := by
  unfold notCode
  split_ifs <;>
    repeat' first
      | exact inert_nil
      | assumption
      | exact Inert.of_start (by decide)
      | exact Inert.of_start (inertStart_append _ _ (by decide))
      | exact Inert.of_start (inertStart_append _ _ (inertStart_append _ _ (by decide)))
      | exact Inert.of_start (inertStart_append _ _ (by assumption))
      | exact Inert.of_start (inertStart_append _ _ (inertStart_append _ _ (by assumption)))
      | exact Inert.of_start (inertStart_append _ _ (inertStart_append _ _
          (inertStart_append _ _ (by assumption))))
      | refine inert_append ?_ ?_
      | refine List.forall_mem_cons.2 ⟨?_, ?_⟩

theorem negateCode_inert (real : Bool) (e t : Operand) :
    ∀ s ∈ negateCode real e t, Inert s := by
  unfold negateCode
  split_ifs <;>
    repeat' first
      | exact inert_nil
      | assumption
      | exact Inert.of_start (by decide)
      | exact Inert.of_start (inertStart_append _ _ (by decide))
      | exact Inert.of_start (inertStart_append _ _ (inertStart_append _ _ (by decide)))
      | exact Inert.of_start (inertStart_append _ _ (by assumption))
      | exact Inert.of_start (inertStart_append _ _ (inertStart_append _ _ (by assumption)))
      | exact Inert.of_start (inertStart_append _ _ (inertStart_append _ _
          (inertStart_append _ _ (by assumption))))
      | refine inert_append ?_ ?_
      | refine List.forall_mem_cons.2 ⟨?_, ?_⟩

theorem dereferenceCode_inert (real : Bool) (e t : Operand) :
    ∀ s ∈ dereferenceCode real e t, Inert s := by
  unfold dereferenceCode
  split_ifs <;>
    repeat' first
      | exact inert_nil
      | assumption
      | exact Inert.of_start (by decide)
      | exact Inert.of_start (inertStart_append _ _ (by decide))
      | exact Inert.of_start (inertStart_append _ _ (inertStart_append _ _ (by decide)))
      | exact Inert.of_start (inertStart_append _ _ (by assumption))
      | exact Inert.of_start (inertStart_append _ _ (inertStart_append _ _ (by assumption)))
      | exact Inert.of_start (inertStart_append _ _ (inertStart_append _ _
          (inertStart_append _ _ (by assumption))))
      | refine inert_append ?_ ?_
      | refine List.forall_mem_cons.2 ⟨?_, ?_⟩

theorem divideCode_inert (real : Bool) (l r t : Operand) :
    ∀ s ∈ divideCode real l r t, Inert s := by
  unfold divideCode
  split_ifs <;>
    repeat' first
      | exact inert_nil
      | assumption
      | exact Inert.of_start (by decide)
      | exact Inert.of_start (inertStart_append _ _ (by decide))
      | exact Inert.of_start (inertStart_append _ _ (inertStart_append _ _ (by decide)))
      | exact Inert.of_start (inertStart_append _ _ (by assumption))
      | exact Inert.of_start (inertStart_append _ _ (inertStart_append _ _ (by assumption)))
      | exact Inert.of_start (inertStart_append _ _ (inertStart_append _ _
          (inertStart_append _ _ (by assumption))))
      | refine inert_append ?_ ?_
      | refine List.forall_mem_cons.2 ⟨?_, ?_⟩

theorem remainderCode_inert (l r t : Operand) :
    ∀ s ∈ remainderCode l r t, Inert s := by
  unfold remainderCode
  repeat' first
    | exact inert_nil
    | assumption
    | exact Inert.of_start (by decide)
    | exact Inert.of_start (inertStart_append _ _ (by decide))
    | exact Inert.of_start (inertStart_append _ _ (inertStart_append _ _ (by decide)))
    | exact Inert.of_start (inertStart_append _ _ (by assumption))
    | exact Inert.of_start (inertStart_append _ _ (inertStart_append _ _ (by assumption)))
    | exact Inert.of_start (inertStart_append _ _ (inertStart_append _ _
        (inertStart_append _ _ (by assumption))))
    | refine inert_append ?_ ?_
    | refine List.forall_mem_cons.2 ⟨?_, ?_⟩

theorem assignCode_inert (real indirect : Bool) (l r t : Operand) :
    ∀ s ∈ assignCode real indirect l r t, Inert s := by
  unfold assignCode
  split_ifs <;>
    repeat' first
      | exact inert_nil
      | assumption
      | exact Inert.of_start (by decide)
      | exact Inert.of_start (inertStart_append _ _ (by decide))
      | exact Inert.of_start (inertStart_append _ _ (inertStart_append _ _ (by decide)))
      | exact Inert.of_start (inertStart_append _ _ (by assumption))
      | exact Inert.of_start (inertStart_append _ _ (inertStart_append _ _ (by assumption)))
      | exact Inert.of_start (inertStart_append _ _ (inertStart_append _ _
          (inertStart_append _ _ (by assumption))))
      | refine inert_append ?_ ?_
      | refine List.forall_mem_cons.2 ⟨?_, ?_⟩

theorem pushCode_inert (real : Bool) (a : Operand) :
    ∀ s ∈ pushCode real a, Inert s := by
  unfold pushCode
  split_ifs <;>
    repeat' first
      | exact inert_nil
      | assumption
      | exact Inert.of_start (by decide)
      | exact Inert.of_start (inertStart_append _ _ (by decide))
      | exact Inert.of_start (inertStart_append _ _ (inertStart_append _ _ (by decide)))
      | exact Inert.of_start (inertStart_append _ _ (by assumption))
      | exact Inert.of_start (inertStart_append _ _ (inertStart_append _ _ (by assumption)))
      | exact Inert.of_start (inertStart_append _ _ (inertStart_append _ _
          (inertStart_append _ _ (by assumption))))
      | refine inert_append ?_ ?_
      | refine List.forall_mem_cons.2 ⟨?_, ?_⟩

theorem callResultCode_inert (real : Bool) (t : Operand) :
    ∀ s ∈ callResultCode real t, Inert s := by
  unfold callResultCode
  split_ifs <;>
    repeat' first
      | exact inert_nil
      | assumption
      | exact Inert.of_start (by decide)
      | exact Inert.of_start (inertStart_append _ _ (by decide))
      | exact Inert.of_start (inertStart_append _ _ (inertStart_append _ _ (by decide)))
      | exact Inert.of_start (inertStart_append _ _ (by assumption))
      | exact Inert.of_start (inertStart_append _ _ (inertStart_append _ _ (by assumption)))
      | exact Inert.of_start (inertStart_append _ _ (inertStart_append _ _
          (inertStart_append _ _ (by assumption))))
      | refine inert_append ?_ ?_
      | refine List.forall_mem_cons.2 ⟨?_, ?_⟩

theorem arithmeticCode_inert (comment realComment intComment : List String) (fop iop : String)
    (real : Bool) (l r t : Operand) (hc : ∀ s ∈ comment, Inert s)
    (hrc : ∀ s ∈ realComment, Inert s) (hic : ∀ s ∈ intComment, Inert s)
    (hf : inertStart ("\t" ++ fop) = true) (hi : inertStart ("\t" ++ iop) = true) :
    ∀ s ∈ arithmeticCode comment realComment intComment fop iop real l r t, Inert s := by
  unfold arithmeticCode
  split_ifs <;>
    repeat' first
      | exact inert_nil
      | assumption
      | exact Inert.of_start (by decide)
      | exact Inert.of_start (inertStart_append _ _ (by decide))
      | exact Inert.of_start (inertStart_append _ _ (inertStart_append _ _ (by decide)))
      | exact Inert.of_start (inertStart_append _ _ (by assumption))
      | exact Inert.of_start (inertStart_append _ _ (inertStart_append _ _ (by assumption)))
      | exact Inert.of_start (inertStart_append _ _ (inertStart_append _ _
          (inertStart_append _ _ (by assumption))))
      | refine inert_append ?_ ?_
      | refine List.forall_mem_cons.2 ⟨?_, ?_⟩

theorem compareCode_inert (comment fset iset realEnd intEnd : String) (real : Bool)
    (l r t : Operand) (hc : Inert comment) (hf : inertStart ("\t" ++ fset) = true)
    (hi : inertStart ("\t" ++ iset) = true) :
    ∀ s ∈ compareCode comment fset iset realEnd intEnd real l r t, Inert s := by
  unfold compareCode
  split_ifs <;>
    repeat' first
      | exact inert_nil
      | assumption
      | exact Inert.of_start (by decide)
      | exact Inert.of_start (inertStart_append _ _ (by decide))
      | exact Inert.of_start (inertStart_append _ _ (inertStart_append _ _ (by decide)))
      | exact Inert.of_start (inertStart_append _ _ (by assumption))
      | exact Inert.of_start (inertStart_append _ _ (inertStart_append _ _ (by assumption)))
      | exact Inert.of_start (inertStart_append _ _ (inertStart_append _ _
          (inertStart_append _ _ (by assumption))))
      | refine inert_append ?_ ?_
      | refine List.forall_mem_cons.2 ⟨?_, ?_⟩

end InertCode
section TracesOfExpressions

theorem Traced.codes (ext res : List Nat) (g : Generator) (texts : List String)
    (h : ∀ t ∈ texts, Inert t) : Traced ext res g (g.emits texts) (texts.map Event.code) := by
  refine Traced.plain ext res _ ?_ rfl rfl ?_ ?_ ?_
  · simp only [Generator.emits, List.map_map]
    congr 1
    exact (List.map_id texts).symm.trans (List.map_congr_left fun _ _ => rfl)
  · intro ev hev
    obtain ⟨t, ht, rfl⟩ := List.mem_map.1 hev
    exact h t ht
  · intro ev hev m
    obtain ⟨t, ht, rfl⟩ := List.mem_map.1 hev
    rfl
  · intro ev hev n hn
    obtain ⟨t, ht, rfl⟩ := List.mem_map.1 hev
    exact absurd hn (by simp [Event.target])

theorem Generator.Traces.traces_same (g : Generator) : Generator.Traces g g :=
  ⟨[], Traced.traced_refl _ _ g, rfl⟩

theorem Generator.Traces.traces_next {g g1 g2 : Generator} (a : Generator.Traces g g1)
    (b : Generator.Traces g1 g2) : Generator.Traces g g2 := by
  obtain ⟨ea, ta, ra⟩ := a
  obtain ⟨eb, tb, rb⟩ := b
  rw [ra] at tb
  exact ⟨ea ++ eb, ta.traced_append tb, by rw [rb, ra]⟩

theorem Generator.Traces.traces_emits (g : Generator) (texts : List String)
    (h : ∀ t ∈ texts, Inert t) : Generator.Traces g (g.emits texts) :=
  ⟨_, Traced.codes _ _ g texts h, rfl⟩

theorem Generator.Traces.traces_emit (g : Generator) (text : String) (h : Inert text) :
    Generator.Traces g (g.emit text) :=
  Generator.Traces.traces_emits g [text] (fun t ht => by rw [List.mem_singleton.1 ht]; exact h)

theorem Generator.Traces.traces_label (g : Generator) : Generator.Traces g g.newLabel.2 :=
  ⟨[], Traced.silent_step _ _ rfl (Nat.le_succ _) (fun _ he => Or.inl he), rfl⟩

theorem Generator.Traces.traces_temp {type : CType} {g g1 : Generator} {t : Operand}
    (e : assigntemp type g = some (t, g1)) : Generator.Traces g g1 := by
  unfold assigntemp at e
  cases hs : type.size with
  | none => rw [hs] at e; exact absurd e (by simp)
  | some n =>
    rw [hs] at e
    simp only [Option.some.injEq, Prod.mk.injEq] at e
    rw [← e.2]
    exact ⟨[], Traced.silent_step _ _ rfl (le_refl _) (fun _ he => Or.inl he), rfl⟩

theorem Generator.Traces.traces_string {value : String} {type : CType} {h : Heap}
    {g g1 : Generator} {op : Operand}
    (e : (Expr.String value type).generate h g = some (op, g1)) : Generator.Traces g g1 := by
  obtain ⟨_, hL, hc⟩ := String.generate_spec e
  have hout : g1.cout = g.cout ∧ g1.returnLab = g.returnLab := by
    simp only [Expr.generate, Generator.newLabel, Option.some.injEq, Prod.mk.injEq] at e
    rw [← e.2]
    exact ⟨rfl, rfl⟩
  refine ⟨[], Traced.silent_step _ _ hout.1 (by omega) (fun x hx => ?_), hout.2⟩
  rw [hL] at hx
  rcases insertLabel_mem _ _ _ x hx with h1 | h1
  · exact Or.inl h1
  · rw [h1, hc]
    exact Or.inr ⟨le_refl _, Nat.lt_succ_self _, List.not_mem_nil _⟩

theorem Tracing.tracing_congr {α : Type} {m m1 : Generator → Option (α × Generator)}
    (a : Tracing m) (h : ∀ g, m1 g = m g) : Tracing m1 := by
  intro g x g1 e
  rw [h] at e
  exact a g x g1 e

theorem unaryNode_tracing {operand : Generator → Option (Operand × Generator)}
    {type : CType} (code : Operand → Operand → List String)
    (hcode : ∀ e t, ∀ s ∈ code e t, Inert s) (a : Tracing operand) :
    Tracing (unaryNode operand type code) := by
  intro g x g1 e
  simp only [unaryNode, Option.bind_eq_bind, Option.bind_eq_some, Prod.exists,
    Option.some.injEq, Prod.mk.injEq] at e
  obtain ⟨y, g2, e1, t, g3, e2, _, rfl⟩ := e
  exact ((a _ _ _ e1).traces_next (Generator.Traces.traces_temp e2)).traces_next
    (Generator.Traces.traces_emits _ _ (hcode _ _))

theorem binaryNode_tracing {left right : Generator → Option (Operand × Generator)}
    {type : CType} (code : Operand → Operand → Operand → List String)
    (hcode : ∀ l r t, ∀ s ∈ code l r t, Inert s) (a : Tracing left) (b : Tracing right) :
    Tracing (binaryNode left right type code) := by
  intro g x g1 e
  simp only [binaryNode, Option.bind_eq_bind, Option.bind_eq_some, Prod.exists,
    Option.some.injEq, Prod.mk.injEq] at e
  obtain ⟨l, g2, e1, r, g3, e2, t, g4, e3, _, rfl⟩ := e
  exact (((a _ _ _ e1).traces_next (b _ _ _ e2)).traces_next
    (Generator.Traces.traces_temp e3)).traces_next
    (Generator.Traces.traces_emits _ _ (hcode _ _ _))

theorem addressCode_tracing (type : CType) (x : Operand) (indirect : Bool) :
    Tracing (addressCode type x indirect) := by
  intro g y g1 e
  unfold addressCode at e
  cases indirect with
  | true =>
    simp only [Bool.not_true, Bool.false_eq_true, if_false, Option.some.injEq,
      Prod.mk.injEq] at e
    rw [← e.2]
    exact Generator.Traces.traces_same g
  | false =>
    simp only [Bool.not_false, if_true] at e
    by_cases hd : x.get 0 = '.'
    · rw [if_pos hd] at e
      simp only [Option.some.injEq, Prod.mk.injEq] at e
      rw [← e.2]
      exact Generator.Traces.traces_same g
    · rw [if_neg hd] at e
      cases ha : assigntemp type g with
      | none => rw [ha] at e; exact absurd e (by simp)
      | some r =>
        obtain ⟨t, g2⟩ := r
        rw [ha] at e
        simp only [Option.some.injEq, Prod.mk.injEq] at e
        rw [← e.2]
        refine (Generator.Traces.traces_temp ha).traces_next
          (Generator.Traces.traces_emits _ _ ?_)
        repeat' first
          | exact inert_nil
          | exact Inert.of_start (by decide)
          | exact Inert.of_start (inertStart_append _ _ (by decide))
          | exact Inert.of_start (inertStart_append _ _ (inertStart_append _ _ (by decide)))
          | refine List.forall_mem_cons.2 ⟨?_, ?_⟩

theorem castCode_traces (real operandReal : Bool) (e t : Operand) (g : Generator) :
    Generator.Traces g (castCode real operandReal e t g).2 := by
  have hc : Inert "\n\t#Time to cast things!!! <3\n" := Inert.of_start (by decide)
  unfold castCode
  split_ifs
  · exact Generator.Traces.traces_emit _ _ hc
  · refine (Generator.Traces.traces_emit _ _ hc).traces_next
      (Generator.Traces.traces_emits _ _ ?_)
    repeat' first
      | exact inert_nil
      | exact Inert.of_start (inertStart_append _ _ (inertStart_append _ _ (by decide)))
      | refine List.forall_mem_cons.2 ⟨?_, ?_⟩
  · refine (Generator.Traces.traces_emit _ _ hc).traces_next
      (Generator.Traces.traces_emits _ _ ?_)
    repeat' first
      | exact inert_nil
      | exact Inert.of_start (inertStart_append _ _ (inertStart_append _ _ (by decide)))
      | refine List.forall_mem_cons.2 ⟨?_, ?_⟩
  · exact Generator.Traces.traces_emit _ _ hc

end TracesOfExpressions
section TracesOfLabels

/-- A jump to a label of `ext` after inert code. -/
theorem Traced.codes_jump (ext res : List Nat) {g g1 : Generator} (texts : List String)
    (j : Jump) (l : Label)
    (hout : g1.cout = g.cout ++ (texts ++ [j.text ++ l.text ++ "\n"]))
    (hc : g1.counter = g.counter) (hl : g1.Labels = g.Labels) (hi : ∀ t ∈ texts, Inert t)
    (hm : l.number ∈ ext) : Traced ext res g g1 (texts.map Event.code ++ [.jump j l]) := by
  refine Traced.plain ext res _ ?_ hc hl ?_ ?_ ?_
  · rw [hout, List.map_append, List.map_map]
    congr 2
    exact (List.map_id texts).symm.trans (List.map_congr_left fun _ _ => rfl)
  · intro ev hev
    rcases List.mem_append.1 hev with h | h
    · obtain ⟨t, ht, rfl⟩ := List.mem_map.1 h
      exact hi t ht
    · rw [List.mem_singleton.1 h]
      exact trivial
  · intro ev hev m
    rcases List.mem_append.1 hev with h | h
    · obtain ⟨t, ht, rfl⟩ := List.mem_map.1 h
      rfl
    · rw [List.mem_singleton.1 h]
      rfl
  · intro ev hev n hn
    rcases List.mem_append.1 hev with h | h
    · obtain ⟨t, ht, rfl⟩ := List.mem_map.1 h
      exact absurd hn (by simp [Event.target])
    · rw [List.mem_singleton.1 h] at hn
      simp only [Event.target, Option.some.injEq] at hn
      rw [← hn]
      exact hm

/-- Inert code written from `g`, with the state after it given by its
output. -/
theorem Traced.codes_to (ext res : List Nat) {g g1 : Generator} (texts : List String)
    (hout : g1.cout = g.cout ++ texts) (hc : g1.counter = g.counter)
    (hl : g1.Labels = g.Labels) (hi : ∀ t ∈ texts, Inert t) :
    Traced ext res g g1 (texts.map Event.code) := by
  have x := Traced.codes ext res g texts hi
  exact ⟨by rw [hout]; exact x.out, x.inert, x.closed, x.once,
    fun n hn => by rw [hc]; exact x.fresh n hn, by rw [hc], fun e he => by
      rw [hl] at he; rw [hc]; exact x.strings e he,
    fun n hn => ⟨(x.reserved n hn).1, fun e he => by
      rw [hl] at he; exact (x.reserved n hn).2 e he⟩⟩

theorem logicalNode_tracing {left right : Generator → Option (Operand × Generator)}
    {type : CType} (comment jump : String) (j : Jump) (hc : Inert comment)
    (hj : "\t" ++ jump ++ "\t" = j.text) (a : Tracing left) (b : Tracing right) :
    Tracing (logicalNode comment jump left right type) := by
  intro g x g1 e
  simp only [logicalNode, Option.bind_eq_bind, Option.bind_eq_some, Prod.exists,
    Option.some.injEq, Prod.mk.injEq] at e
  obtain ⟨l, g2, e1, t, g3, e2, r, g4, e3, _, rfl⟩ := e
  obtain ⟨ev1, p1, r1⟩ := ((Generator.Traces.traces_emit g comment hc).traces_next
    (a _ _ _ e1)).traces_next (Generator.Traces.traces_temp e2)
  obtain ⟨evR, p2, r2⟩ := b _ _ _ e3
  have b0 : Traced (g3.counter :: [g3.returnLab.number]) [g3.counter] g3 g3.newLabel.2 [] :=
    Traced.silent_step _ _ rfl (Nat.le_succ _) (fun _ he => Or.inl he)
  have b1 : Traced (g3.counter :: [g3.returnLab.number]) [g3.counter] g3.newLabel.2
      (g3.newLabel.2.emits (logicalTest jump l g3.newLabel.1))
      (["\tmovl\t" ++ l ++ ", %eax\n", "\ttestl\t%eax, %eax\n"].map Event.code ++
        [.jump j ⟨g3.counter⟩]) := by
    refine Traced.codes_jump _ _ _ j ⟨g3.counter⟩ ?_ rfl rfl ?_ (List.mem_cons_self _ _)
    · simp only [Generator.emits, logicalTest, Generator.newLabel, hj, List.cons_append,
        List.nil_append]
    · repeat' first
        | exact inert_nil
        | exact Inert.of_start (by decide)
        | exact Inert.of_start (inertStart_append _ _ (inertStart_append _ _ (by decide)))
        | refine List.forall_mem_cons.2 ⟨?_, ?_⟩
  have b2 : Traced (g3.counter :: [g3.returnLab.number]) [g3.counter]
      (g3.newLabel.2.emits (logicalTest jump l g3.newLabel.1)) g4 evR :=
    (p2.weaken (fun n hn => List.mem_cons_of_mem _ hn)).reserve g3.counter (Nat.lt_succ_self _)
  have b3 : Traced (g3.counter :: [g3.returnLab.number]) [g3.counter] g4
      (g4.emits ["\tmovl\t" ++ r ++ ", %eax\n", "\ttestl\t%eax, %eax\n"]) _ :=
    Traced.codes _ _ g4 _ (by
      repeat' first
        | exact inert_nil
        | exact Inert.of_start (by decide)
        | exact Inert.of_start (inertStart_append _ _ (inertStart_append _ _ (by decide)))
        | refine List.forall_mem_cons.2 ⟨?_, ?_⟩)
  have hcount : g3.counter + 1 ≤ g4.counter := p2.counter
  have d := @Traced.define_last [g3.returnLab.number] [] g3 _
    (g4.emits ["\tmovl\t" ++ r ++ ", %eax\n", "\ttestl\t%eax, %eax\n",
      (Label.mk g3.counter).text ++ ":\n"]) _ g3.counter
    (((b0.traced_append b1).traced_append b2).traced_append b3)
    ⟨le_refl _, hcount⟩ (List.not_mem_nil _)
    (by simp only [Generator.emits, List.append_assoc, List.cons_append, List.nil_append])
    rfl rfl
  have b4 : Traced [g3.returnLab.number] []
      (g4.emits ["\tmovl\t" ++ r ++ ", %eax\n", "\ttestl\t%eax, %eax\n",
        (Label.mk g3.counter).text ++ ":\n"])
      (g4.emits (logicalJoin r t g3.newLabel.1))
      (["\tsetne\t%al\n", "\tmovzbl\t%al, %eax\n", "\tmovl\t%eax, " ++ t ++ "\n"].map
        Event.code) := by
    refine Traced.codes_to _ _ _ ?_ rfl rfl ?_
    · simp only [Generator.emits, logicalJoin, Generator.newLabel, List.append_assoc,
        List.cons_append, List.nil_append]
    · repeat' first
        | exact inert_nil
        | exact Inert.of_start (by decide)
        | exact Inert.of_start (inertStart_append _ _ (inertStart_append _ _ (by decide)))
        | refine List.forall_mem_cons.2 ⟨?_, ?_⟩
  have db := d.traced_append b4
  rw [r1] at db
  refine ⟨_, p1.traced_append db, ?_⟩
  show g4.returnLab = g.returnLab
  rw [r2]
  exact r1

end TracesOfLabels
section TracesOfTrees

mutual
/-- The output of an expression is traced: its code is inert but for the jump
and the label of each short-circuit node in it. -/
theorem Expr.generate_tracing (e : Expr) (h : Heap) : Tracing (e.generate h) := by
  cases e with
  | String value type => exact fun g op g1 e => Generator.Traces.traces_string e
  | Identifier symbol type =>
    intro g x g1 e
    simp only [Expr.generate] at e
    split_ifs at e <;>
      (simp only [Option.some.injEq, Prod.mk.injEq] at e
       rw [← e.2]
       exact Generator.Traces.traces_same g)
  | Integer value =>
    intro g x g1 e
    simp only [Expr.generate, Option.some.injEq, Prod.mk.injEq] at e
    rw [← e.2]
    exact Generator.Traces.traces_same g
  | Real value label =>
    intro g x g1 e
    simp only [Expr.generate, Option.some.injEq, Prod.mk.injEq] at e
    rw [← e.2]
    exact Generator.Traces.traces_same g
  | Call id args type =>
    have ia := Expr.generateArgs_tracing args h
    intro g x g1 e
    simp only [Expr.generate, Option.bind_eq_bind, Option.bind_eq_some, Prod.exists,
      Option.some.injEq, Prod.mk.injEq] at e
    obtain ⟨n, g2, e1, t, g3, e2, _, rfl⟩ := e
    have hcall : Inert ("\tcall\t" ++ (h id).name ++ "\n") :=
      Inert.of_start (inertStart_append _ _ (inertStart_append _ _ (by decide)))
    have s2 : Generator.Traces g2 (if n > 0 then
        (g2.emit ("\tcall\t" ++ (h id).name ++ "\n")).emit
          ("\taddl\t$" ++ toString n ++ ", %esp\n")
        else g2.emit ("\tcall\t" ++ (h id).name ++ "\n")) := by
      split_ifs
      · exact (Generator.Traces.traces_emit _ _ hcall).traces_next
          (Generator.Traces.traces_emit _ _
            (Inert.of_start (inertStart_append _ _ (inertStart_append _ _ (by decide)))))
      · exact Generator.Traces.traces_emit _ _ hcall
    exact (((ia _ _ _ e1).traces_next s2).traces_next
      (Generator.Traces.traces_temp e2)).traces_next
      (Generator.Traces.traces_emits _ _ (callResultCode_inert _ _))
  | Multiply left right type =>
    have ia := Expr.generate_tracing left h
    have ib := Expr.generate_tracing right h
    intro g x g1 e
    simp only [Expr.generate] at e
    refine binaryNode_tracing _ (fun l r t => ?_) ia ib g x g1 e
    apply arithmeticCode_inert
    · repeat' first
        | exact inert_nil
        | exact Inert.of_start (by decide)
        | refine List.forall_mem_cons.2 ⟨?_, ?_⟩
    · repeat' first
        | exact inert_nil
        | exact Inert.of_start (by decide)
        | refine List.forall_mem_cons.2 ⟨?_, ?_⟩
    · repeat' first
        | exact inert_nil
        | exact Inert.of_start (by decide)
        | refine List.forall_mem_cons.2 ⟨?_, ?_⟩
    · decide
    · decide
  | Divide left right type =>
    have ia := Expr.generate_tracing left h
    have ib := Expr.generate_tracing right h
    intro g x g1 e
    simp only [Expr.generate] at e
    exact binaryNode_tracing _ (fun l r t => divideCode_inert _ l r t) ia ib g x g1 e
  | Remainder left right type =>
    have ia := Expr.generate_tracing left h
    have ib := Expr.generate_tracing right h
    intro g x g1 e
    simp only [Expr.generate] at e
    exact binaryNode_tracing _ (fun l r t => remainderCode_inert l r t) ia ib g x g1 e
  | Add left right type =>
    have ia := Expr.generate_tracing left h
    have ib := Expr.generate_tracing right h
    intro g x g1 e
    simp only [Expr.generate] at e
    refine binaryNode_tracing _ (fun l r t => ?_) ia ib g x g1 e
    apply arithmeticCode_inert
    · repeat' first
        | exact inert_nil
        | exact Inert.of_start (by decide)
        | refine List.forall_mem_cons.2 ⟨?_, ?_⟩
    · repeat' first
        | exact inert_nil
        | exact Inert.of_start (by decide)
        | refine List.forall_mem_cons.2 ⟨?_, ?_⟩
    · repeat' first
        | exact inert_nil
        | exact Inert.of_start (by decide)
        | refine List.forall_mem_cons.2 ⟨?_, ?_⟩
    · decide
    · decide
  | Subtract left right type =>
    have ia := Expr.generate_tracing left h
    have ib := Expr.generate_tracing right h
    intro g x g1 e
    simp only [Expr.generate] at e
    refine binaryNode_tracing _ (fun l r t => ?_) ia ib g x g1 e
    apply arithmeticCode_inert
    · repeat' first
        | exact inert_nil
        | exact Inert.of_start (by decide)
        | refine List.forall_mem_cons.2 ⟨?_, ?_⟩
    · exact inert_nil
    · exact inert_nil
    · decide
    · decide
  | LessThan left right type =>
    have ia := Expr.generate_tracing left h
    have ib := Expr.generate_tracing right h
    intro g x g1 e
    simp only [Expr.generate] at e
    exact binaryNode_tracing _ (fun l r t => compareCode_inert _ _ _ _ _ _ l r t
      (Inert.of_start (by decide)) (by decide) (by decide)) ia ib g x g1 e
  | GreaterThan left right type =>
    have ia := Expr.generate_tracing left h
    have ib := Expr.generate_tracing right h
    intro g x g1 e
    simp only [Expr.generate] at e
    exact binaryNode_tracing _ (fun l r t => compareCode_inert _ _ _ _ _ _ l r t
      (Inert.of_start (by decide)) (by decide) (by decide)) ia ib g x g1 e
  | LessOrEqual left right type =>
    have ia := Expr.generate_tracing left h
    have ib := Expr.generate_tracing right h
    intro g x g1 e
    simp only [Expr.generate] at e
    exact binaryNode_tracing _ (fun l r t => compareCode_inert _ _ _ _ _ _ l r t
      (Inert.of_start (by decide)) (by decide) (by decide)) ia ib g x g1 e
  | GreaterOrEqual left right type =>
    have ia := Expr.generate_tracing left h
    have ib := Expr.generate_tracing right h
    intro g x g1 e
    simp only [Expr.generate] at e
    exact binaryNode_tracing _ (fun l r t => compareCode_inert _ _ _ _ _ _ l r t
      (Inert.of_start (by decide)) (by decide) (by decide)) ia ib g x g1 e
  | Equal left right type =>
    have ia := Expr.generate_tracing left h
    have ib := Expr.generate_tracing right h
    intro g x g1 e
    simp only [Expr.generate] at e
    exact binaryNode_tracing _ (fun l r t => compareCode_inert _ _ _ _ _ _ l r t
      (Inert.of_start (by decide)) (by decide) (by decide)) ia ib g x g1 e
  | NotEqual left right type =>
    have ia := Expr.generate_tracing left h
    have ib := Expr.generate_tracing right h
    intro g x g1 e
    simp only [Expr.generate] at e
    exact binaryNode_tracing _ (fun l r t => compareCode_inert _ _ _ _ _ _ l r t
      (Inert.of_start (by decide)) (by decide) (by decide)) ia ib g x g1 e
  | LogicalAnd left right type =>
    have ia := Expr.generate_tracing left h
    have ib := Expr.generate_tracing right h
    intro g x g1 e
    simp only [Expr.generate] at e
    exact logicalNode_tracing _ _ Jump.je (Inert.of_start (by decide)) (by decide) ia ib
      g x g1 e
  | LogicalOr left right type =>
    have ia := Expr.generate_tracing left h
    have ib := Expr.generate_tracing right h
    intro g x g1 e
    simp only [Expr.generate] at e
    exact logicalNode_tracing _ _ Jump.jne (Inert.of_start (by decide)) (by decide) ia ib
      g x g1 e
  | Not expr type =>
    have ie := Expr.generate_tracing expr h
    intro g x g1 e
    simp only [Expr.generate] at e
    exact unaryNode_tracing _ (fun y t => notCode_inert _ y t) ie g x g1 e
  | Negate expr type =>
    have ie := Expr.generate_tracing expr h
    intro g x g1 e
    simp only [Expr.generate] at e
    exact unaryNode_tracing _ (fun y t => negateCode_inert _ y t) ie g x g1 e
  | Dereference expr type =>
    have ie := Expr.generate_tracing expr h
    intro g x g1 e
    simp only [Expr.generate] at e
    exact unaryNode_tracing _ (fun y t => dereferenceCode_inert _ y t) ie g x g1 e
  | Cast type expr =>
    have ie := Expr.generate_tracing expr h
    intro g x g1 e
    simp only [Expr.generate, Option.bind_eq_bind, Option.bind_eq_some, Prod.exists,
      Option.some.injEq] at e
    obtain ⟨y, g2, e1, t, g3, e2, e3⟩ := e
    have s3 := castCode_traces type.isReal expr.type.isReal y t g3
    rw [e3] at s3
    exact ((ie _ _ _ e1).traces_next (Generator.Traces.traces_temp e2)).traces_next s3
  | Address expr type =>
    by_cases hd : ∃ pointer dtype, expr = .Dereference pointer dtype
    · obtain ⟨pointer, dtype, rfl⟩ := hd
      have ip := Expr.generate_tracing pointer h
      intro g x g1 e
      simp only [Expr.generate, indirectForm, Option.bind_eq_bind, Option.bind_eq_some,
        Option.map_eq_some', Prod.exists] at e
      obtain ⟨y, ind, g2, ⟨y1, g21, e1, e2⟩, e3⟩ := e
      simp only [Prod.mk.injEq] at e2
      obtain ⟨rfl, rfl, rfl⟩ := e2
      exact (ip _ _ _ e1).traces_next (addressCode_tracing _ _ _ _ _ _ e3)
    · have hnd : ∀ p dt, expr ≠ .Dereference p dt := fun p dt he => hd ⟨p, dt, he⟩
      have ie := Expr.generate_tracing expr h
      intro g x g1 e
      rw [Expr.generate_address_plain hnd] at e
      simp only [plainForm, Option.bind_eq_some, Option.map_eq_some', Prod.exists] at e
      obtain ⟨y, ind, g2, ⟨y1, g21, e1, e2⟩, e3⟩ := e
      simp only [Prod.mk.injEq] at e2
      obtain ⟨rfl, rfl, rfl⟩ := e2
      exact (ie _ _ _ e1).traces_next (addressCode_tracing _ _ _ _ _ _ e3)
  | Assign left right type =>
    by_cases hd : ∃ pointer dtype, left = .Dereference pointer dtype
    · obtain ⟨pointer, dtype, rfl⟩ := hd
      have ip := Expr.generate_tracing pointer h
      have ib := Expr.generate_tracing right h
      intro g x g1 e
      simp only [Expr.generate] at e
      exact binaryNode_tracing _ (fun l r t => assignCode_inert _ _ l r t) ip ib g x g1 e
    · have hnd : ∀ p dt, left ≠ .Dereference p dt := fun p dt he => hd ⟨p, dt, he⟩
      have ia := Expr.generate_tracing left h
      have ib := Expr.generate_tracing right h
      intro g x g1 e
      rw [Expr.generate_assign_plain hnd right type h g] at e
      exact binaryNode_tracing _ (fun l r t => assignCode_inert _ _ l r t) ia ib g x g1 e
termination_by sizeOf e
/-- The output of the loop of `Call::generate` over the arguments is traced. -/
theorem Expr.generateArgs_tracing (args : List Expr) (h : Heap) :
    Tracing (Expr.generateArgs args h) := by
  cases args with
  | nil =>
    intro g n g1 e
    simp only [Expr.generateArgs, Option.some.injEq, Prod.mk.injEq] at e
    rw [← e.2]
    exact Generator.Traces.traces_same g
  | cons a args =>
    have ia := Expr.generateArgs_tracing args h
    have ie := Expr.generate_tracing a h
    intro g n g3 e
    obtain ⟨n1, g1, op, g2, k, e1, e2, _, _, rfl⟩ := (generateArgs_cons a args h g g3 n).1 e
    exact ((ia _ _ _ e1).traces_next (ie _ _ _ e2)).traces_next
      (Generator.Traces.traces_emits _ _ (pushCode_inert _ _))
termination_by sizeOf args
end

end TracesOfTrees
section TracesOfStatements

theorem definitions_pos (m : Nat) (evs : List Event) (h : Event.define ⟨m⟩ ∈ evs) :
    0 < definitions m evs := by
  unfold definitions
  rw [List.countP_pos_iff]
  exact ⟨_, h, by simp [Event.defines]⟩

/-- The definition of a label constructed since the state `g`, with no other
output since. -/
theorem Traced.define_first (ext res : List Nat) {g g1 : Generator} (m : Nat)
    (hr : g.counter ≤ m ∧ m < g1.counter) (hm : m ∉ res)
    (hout : g1.cout = g.cout ++ [(Label.mk m).text ++ ":\n"]) (hl : g1.Labels = g.Labels) :
    Traced ext res g g1 [.define ⟨m⟩] := by
  have q : Traced (m :: ext) (m :: res) g { g with counter := g1.counter } [] :=
    Traced.silent_step _ _ rfl (by show g.counter ≤ g1.counter; omega) (fun _ he => Or.inl he)
  exact q.define_last hr hm hout rfl hl

theorem endStatement_traces (g : Generator) : Generator.Traces g g.endStatement :=
  ⟨[], Traced.silent_step _ _ rfl (le_refl _) (fun _ he => Or.inl he), rfl⟩

theorem returnCode_traces (real : Bool) (e : Operand) (g : Generator) :
    Generator.Traces g (g.emits (returnCode real e g.returnLab)) := by
  refine ⟨_, Traced.codes_jump _ _
    [if real then "\tfldl\t" ++ e ++ "\n" else "\tmovl\t" ++ e ++ ", %eax\n"] Jump.jmp
    g.returnLab rfl rfl rfl ?_ (List.mem_singleton_self _), rfl⟩
  intro t ht
  rw [List.mem_singleton.1 ht]
  split_ifs
  · exact Inert.of_start (inertStart_append _ _ (inertStart_append _ _ (by decide)))
  · exact Inert.of_start (inertStart_append _ _ (inertStart_append _ _ (by decide)))

/-- The code of `If::generate` without an else branch, from the state after
the expression, given the trace of the branch. -/
theorem if_traces (e : Operand) (g1 g2 : Generator)
    (t : Generator.Traces (ifStart e g1).2.2 g2) :
    Generator.Traces g1 (g2.emit ((ifStart e g1).1.text ++ ":\n")) := by
  obtain ⟨evT, pT, rT⟩ := t
  have i0 : Traced (g1.counter :: [g1.returnLab.number]) [g1.counter] g1
      g1.newLabel.2.newLabel.2 [] :=
    Traced.silent_step _ _ rfl (Nat.le_add_right _ 2) (fun _ he => Or.inl he)
  have i1 : Traced (g1.counter :: [g1.returnLab.number]) [g1.counter]
      g1.newLabel.2.newLabel.2 (ifStart e g1).2.2 _ :=
    Traced.codes_jump _ _ ["#iffin and iffin and yeah! C> ice cream! C>\n",
      "\tmovl\t" ++ e ++ ", %eax\n", "\ttestl\t%eax, %eax\n"] Jump.je ⟨g1.counter⟩
      rfl rfl rfl (by
        repeat' first
          | exact inert_nil
          | exact Inert.of_start (by decide)
          | exact Inert.of_start (inertStart_append _ _ (inertStart_append _ _ (by decide)))
          | refine List.forall_mem_cons.2 ⟨?_, ?_⟩) (List.mem_cons_self _ _)
  have i2 : Traced (g1.counter :: [g1.returnLab.number]) [g1.counter] (ifStart e g1).2.2 g2
      evT :=
    (pT.weaken (fun n hn => List.mem_cons_of_mem _ hn)).reserve g1.counter
      (by show g1.counter < g1.counter + 1 + 1; omega)
  have hcount : g1.counter + 1 + 1 ≤ g2.counter := pT.counter
  have d := @Traced.define_last [g1.returnLab.number] [] g1 _
    (g2.emit ((ifStart e g1).1.text ++ ":\n")) _ g1.counter
    ((i0.traced_append i1).traced_append i2) ⟨le_refl _, by omega⟩ (List.not_mem_nil _)
    rfl rfl rfl
  exact ⟨_, d, rT⟩

/-- The code of `If::generate` with an else branch, from the state after the
expression, given the traces of the two branches. -/
theorem ifElse_traces (e : Operand) (g1 g2 g3 : Generator)
    (t : Generator.Traces (ifStart e g1).2.2 g2)
    (u : Generator.Traces (g2.emits ["\tjmp\t" ++ (ifStart e g1).2.1.text ++ "\n",
      (ifStart e g1).1.text ++ ":\n"]) g3) :
    Generator.Traces g1 (g3.emit ((ifStart e g1).2.1.text ++ ":\n")) := by
  obtain ⟨evT, pT, rT⟩ := t
  obtain ⟨evE, pE, rE⟩ := u
  have i0 : Traced (g1.counter :: (g1.counter + 1) :: [g1.returnLab.number])
      (g1.counter :: [g1.counter + 1]) g1 g1.newLabel.2.newLabel.2 [] :=
    Traced.silent_step _ _ rfl (Nat.le_add_right _ 2) (fun _ he => Or.inl he)
  have i1 : Traced (g1.counter :: (g1.counter + 1) :: [g1.returnLab.number])
      (g1.counter :: [g1.counter + 1]) g1.newLabel.2.newLabel.2 (ifStart e g1).2.2 _ :=
    Traced.codes_jump _ _ ["#iffin and iffin and yeah! C> ice cream! C>\n",
      "\tmovl\t" ++ e ++ ", %eax\n", "\ttestl\t%eax, %eax\n"] Jump.je ⟨g1.counter⟩
      rfl rfl rfl (by
        repeat' first
          | exact inert_nil
          | exact Inert.of_start (by decide)
          | exact Inert.of_start (inertStart_append _ _ (inertStart_append _ _ (by decide)))
          | refine List.forall_mem_cons.2 ⟨?_, ?_⟩) (List.mem_cons_self _ _)
  have hcount : g1.counter + 1 + 1 ≤ g2.counter := pT.counter
  have hcount3 : g2.counter ≤ g3.counter := pE.counter
  have i2 : Traced (g1.counter :: (g1.counter + 1) :: [g1.returnLab.number])
      (g1.counter :: [g1.counter + 1]) (ifStart e g1).2.2 g2 evT :=
    (((pT.weaken (fun n hn => List.mem_cons_of_mem _ (List.mem_cons_of_mem _ hn))).reserve
      (g1.counter + 1) (by show g1.counter + 1 < g1.counter + 1 + 1; omega)).reserve
      g1.counter (by show g1.counter < g1.counter + 1 + 1; omega))
  have i3 : Traced (g1.counter :: (g1.counter + 1) :: [g1.returnLab.number])
      (g1.counter :: [g1.counter + 1]) g2
      (g2.emit ("\tjmp\t" ++ (ifStart e g1).2.1.text ++ "\n")) _ :=
    Traced.codes_jump _ _ [] Jump.jmp ⟨g1.counter + 1⟩ rfl rfl rfl inert_nil
      (List.mem_cons_of_mem _ (List.mem_cons_self _ _))
  have d := @Traced.define_last ((g1.counter + 1) :: [g1.returnLab.number]) [g1.counter + 1]
    g1 _ (g2.emits ["\tjmp\t" ++ (ifStart e g1).2.1.text ++ "\n",
      (ifStart e g1).1.text ++ ":\n"]) _ g1.counter
    (((i0.traced_append i1).traced_append i2).traced_append i3) ⟨le_refl _, by
      show g1.counter < g2.counter
      omega⟩
    (by simp) (by simp only [Generator.emits, Generator.emit, List.append_assoc,
      List.cons_append, List.nil_append]; rfl) rfl rfl
  have i4 : Traced ((g1.counter + 1) :: [g1.returnLab.number]) [g1.counter + 1]
      (g2.emits ["\tjmp\t" ++ (ifStart e g1).2.1.text ++ "\n",
        (ifStart e g1).1.text ++ ":\n"]) g3 evE := by
    have hr : (g2.emits ["\tjmp\t" ++ (ifStart e g1).2.1.text ++ "\n",
        (ifStart e g1).1.text ++ ":\n"]).returnLab = g1.returnLab := rT
    rw [hr] at pE
    exact (pE.weaken (fun n hn => List.mem_cons_of_mem _ hn)).reserve (g1.counter + 1)
      (by show g1.counter + 1 < g2.counter; omega)
  have d2 := @Traced.define_last [g1.returnLab.number] [] g1 _
    (g3.emit ((ifStart e g1).2.1.text ++ ":\n")) _ (g1.counter + 1)
    (d.traced_append i4) ⟨Nat.le_succ _, by show g1.counter + 1 < g3.counter; omega⟩
    (List.not_mem_nil _) rfl rfl rfl
  exact ⟨_, d2, by
    show g3.returnLab = g1.returnLab
    rw [rE]
    exact rT⟩

/-- The code of `While::generate`, given the traces of the expression and of
the body. -/
theorem while_traces (e : Operand) (g g1 g2 : Generator)
    (t : Generator.Traces (whileStart g).2.2 g1)
    (u : Generator.Traces (g1.emits (whileTestCode e (whileStart g).2.1)) g2) :
    Generator.Traces g (g2.emits ["\tjmp\t" ++ (whileStart g).1.text ++ "\n",
      (whileStart g).2.1.text ++ ":\n"]) := by
  obtain ⟨evE, pE, rE⟩ := t
  obtain ⟨evS, pS, rS⟩ := u
  have hc1 : g.counter + 1 + 1 ≤ g1.counter := pE.counter
  have hc2 : g1.counter ≤ g2.counter := pS.counter
  have w0 : Traced ((g.counter + 1) :: g.counter :: [g.returnLab.number]) [g.counter + 1] g
      (g.emit "#while time! and i scream for all the ice and cream C> C> C> C> C> \n") _ :=
    Traced.codes _ _ g ["#while time! and i scream for all the ice and cream C> C> C> C> C> \n"]
      (by
        repeat' first
          | exact inert_nil
          | exact Inert.of_start (by decide)
          | refine List.forall_mem_cons.2 ⟨?_, ?_⟩)
  have w1 : Traced ((g.counter + 1) :: g.counter :: [g.returnLab.number]) [g.counter + 1]
      (g.emit "#while time! and i scream for all the ice and cream C> C> C> C> C> \n")
      (whileStart g).2.2 [.define ⟨g.counter⟩] :=
    Traced.define_first _ _ g.counter ⟨le_refl _, by show g.counter < g.counter + 1 + 1; omega⟩
      (by simp) rfl rfl
  have w2 : Traced ((g.counter + 1) :: g.counter :: [g.returnLab.number]) [g.counter + 1]
      (whileStart g).2.2 g1 evE :=
    (pE.weaken (fun n hn => List.mem_cons_of_mem _ (List.mem_cons_of_mem _ hn))).reserve
      (g.counter + 1) (by show g.counter + 1 < g.counter + 1 + 1; omega)
  have w3 : Traced ((g.counter + 1) :: g.counter :: [g.returnLab.number]) [g.counter + 1] g1
      (g1.emits (whileTestCode e (whileStart g).2.1)) _ :=
    Traced.codes_jump _ _ ["\tmovl\t" ++ e ++ ", %eax\n", "\ttestl\t%eax, %eax\n"] Jump.je
      ⟨g.counter + 1⟩ rfl rfl rfl (by
        repeat' first
          | exact inert_nil
          | exact Inert.of_start (by decide)
          | exact Inert.of_start (inertStart_append _ _ (inertStart_append _ _ (by decide)))
          | refine List.forall_mem_cons.2 ⟨?_, ?_⟩) (List.mem_cons_self _ _)
  have w4 : Traced ((g.counter + 1) :: g.counter :: [g.returnLab.number]) [g.counter + 1]
      (g1.emits (whileTestCode e (whileStart g).2.1)) g2 evS := by
    have hr : (g1.emits (whileTestCode e (whileStart g).2.1)).returnLab = g.returnLab := rE
    rw [hr] at pS
    exact (pS.weaken (fun n hn => List.mem_cons_of_mem _ (List.mem_cons_of_mem _ hn))).reserve
      (g.counter + 1) (by show g.counter + 1 < g1.counter; omega)
  have w5 : Traced ((g.counter + 1) :: g.counter :: [g.returnLab.number]) [g.counter + 1] g2
      (g2.emit ("\tjmp\t" ++ (whileStart g).1.text ++ "\n")) _ :=
    Traced.codes_jump _ _ [] Jump.jmp ⟨g.counter⟩ rfl rfl rfl inert_nil
      (List.mem_cons_of_mem _ (List.mem_cons_self _ _))
  have d := @Traced.define_last (g.counter :: [g.returnLab.number]) [] g _
    (g2.emits ["\tjmp\t" ++ (whileStart g).1.text ++ "\n",
      (whileStart g).2.1.text ++ ":\n"]) _ (g.counter + 1)
    (((((w0.traced_append w1).traced_append w2).traced_append w3).traced_append
      w4).traced_append w5) ⟨Nat.le_succ _, by show g.counter + 1 < g2.counter; omega⟩
    (List.not_mem_nil _) (by simp only [Generator.emits, Generator.emit, List.append_assoc,
      List.cons_append, List.nil_append]; rfl) rfl rfl
  refine ⟨_, d.discharge (definitions_pos _ _ ?_), by
    show g2.returnLab = g.returnLab
    rw [rS]
    exact rE⟩
  simp

end TracesOfStatements
section TracesOfFunctions

mutual
/-- The output of a statement is traced: every jump in it goes to a label
defined in it or to the return label. -/
theorem Stmt.generate_traces (s : Stmt) (h : Heap) (g g1 : Generator)
    (e : s.generate h g = some g1) : Generator.Traces g g1 := by
  cases s with
  | Expression expr =>
    simp only [Stmt.generate] at e
    cases he : expr.generate h g with
    | none => rw [he] at e; exact absurd e (by simp)
    | some r =>
      rw [he] at e
      simp only [Option.some.injEq] at e
      rw [← e]
      exact Expr.generate_tracing expr h g r.1 r.2 he
  | Return expr =>
    simp only [Stmt.generate] at e
    cases he : expr.generate h g with
    | none => rw [he] at e; exact absurd e (by simp)
    | some r =>
      rw [he] at e
      simp only [Option.some.injEq] at e
      rw [← e]
      exact (Expr.generate_tracing expr h g r.1 r.2 he).traces_next (returnCode_traces _ _ _)
  | Block decls stmts =>
    simp only [Stmt.generate] at e
    exact Stmt.generateStmts_traces stmts h g g1 e
  | While expr stmt =>
    simp only [Stmt.generate] at e
    cases he : expr.generate h (whileStart g).2.2 with
    | none => rw [he] at e; exact absurd e (by simp)
    | some r =>
      rw [he] at e
      simp only at e
      cases hb : stmt.generate h (r.2.emits (whileTestCode r.1 (whileStart g).2.1)) with
      | none => rw [hb] at e; exact absurd e (by simp)
      | some g2 =>
        rw [hb] at e
        simp only [Option.some.injEq] at e
        rw [← e]
        exact while_traces r.1 g r.2 g2 (Expr.generate_tracing expr h _ r.1 r.2 he)
          (Stmt.generate_traces stmt h _ g2 hb)
  | If expr thenStmt elseStmt =>
    cases elseStmt with
    | none =>
      simp only [Stmt.generate] at e
      cases he : expr.generate h g with
      | none => rw [he] at e; exact absurd e (by simp)
      | some r =>
        rw [he] at e
        simp only at e
        cases hb : thenStmt.generate h (ifStart r.1 r.2).2.2 with
        | none => rw [hb] at e; exact absurd e (by simp)
        | some g2 =>
          rw [hb] at e
          simp only [Option.some.injEq] at e
          rw [← e]
          exact (Expr.generate_tracing expr h g r.1 r.2 he).traces_next
            (if_traces r.1 r.2 g2 (Stmt.generate_traces thenStmt h _ g2 hb))
    | some elseStmt =>
      simp only [Stmt.generate] at e
      cases he : expr.generate h g with
      | none => rw [he] at e; exact absurd e (by simp)
      | some r =>
        rw [he] at e
        simp only at e
        cases hb : thenStmt.generate h (ifStart r.1 r.2).2.2 with
        | none => rw [hb] at e; exact absurd e (by simp)
        | some g2 =>
          rw [hb] at e
          simp only at e
          cases hc : elseStmt.generate h (g2.emits
              ["\tjmp\t" ++ (ifStart r.1 r.2).2.1.text ++ "\n",
                (ifStart r.1 r.2).1.text ++ ":\n"]) with
          | none => rw [hc] at e; exact absurd e (by simp)
          | some g3 =>
            rw [hc] at e
            simp only [Option.some.injEq] at e
            rw [← e]
            exact (Expr.generate_tracing expr h g r.1 r.2 he).traces_next
              (ifElse_traces r.1 r.2 g2 g3 (Stmt.generate_traces thenStmt h _ g2 hb)
                (Stmt.generate_traces elseStmt h _ g3 hc))
termination_by sizeOf s
/-- The output of the loop of `Block::generate` is traced. -/
theorem Stmt.generateStmts_traces (ss : List Stmt) (h : Heap) (g g1 : Generator)
    (e : Stmt.generateStmts ss h g = some g1) : Generator.Traces g g1 := by
  cases ss with
  | nil =>
    simp only [Stmt.generateStmts, Option.some.injEq] at e
    rw [← e]
    exact Generator.Traces.traces_same g
  | cons s ss =>
    simp only [Stmt.generateStmts] at e
    cases hs : s.generate h g with
    | none => rw [hs] at e; exact absurd e (by simp)
    | some g2 =>
      rw [hs] at e
      simp only at e
      exact ((Stmt.generate_traces s h g g2 hs).traces_next
        (endStatement_traces g2)).traces_next
        (Stmt.generateStmts_traces ss h _ g1 e)
termination_by sizeOf ss
end

end TracesOfFunctions
section NamesOfSymbols

theorem allocateSymbols_name : ∀ (ds : List Nat) (off : Int) (h : Heap) (o1 : Int) (h1 : Heap),
    allocateSymbols ds off h = some (o1, h1) → ∀ x, (h1 x).name = (h x).name
  | [], off, h, o1, h1, e, x => by
    simp only [allocateSymbols, Option.some.injEq, Prod.mk.injEq] at e
    rw [← e.2]
  | s :: ds, off, h, o1, h1, e, x => by
    unfold allocateSymbols at e
    split_ifs at e
    · split at e
      · exact absurd e (by simp)
      · rw [allocateSymbols_name ds _ _ o1 h1 e x]
        exact (Heap.setOffset_type h s x _).2
    · exact allocateSymbols_name ds _ _ o1 h1 e x

mutual
theorem Stmt.allocate_name (s : Stmt) (off : Int) (h : Heap) (o1 : Int) (h1 : Heap)
    (e : s.allocate off h = some (o1, h1)) : ∀ x, (h1 x).name = (h x).name := by
  cases s with
  | Expression expr =>
    simp only [Stmt.allocate, Option.some.injEq, Prod.mk.injEq] at e
    intro x
    rw [← e.2]
  | Return expr =>
    simp only [Stmt.allocate, Option.some.injEq, Prod.mk.injEq] at e
    intro x
    rw [← e.2]
  | Block decls stmts =>
    simp only [Stmt.allocate] at e
    split at e
    · exact absurd e (by simp)
    · rename_i o2 h2 e2
      intro x
      rw [Stmt.allocateStmts_name stmts o2 o2 h2 o1 h1 e x,
        allocateSymbols_name decls off h o2 h2 e2 x]
  | While expr stmt =>
    simp only [Stmt.allocate] at e
    exact Stmt.allocate_name stmt off h o1 h1 e
  | If expr thenStmt elseStmt =>
    cases elseStmt with
    | none =>
      simp only [Stmt.allocate] at e
      exact Stmt.allocate_name thenStmt off h o1 h1 e
    | some elseStmt =>
      simp only [Stmt.allocate] at e
      split at e
      · exact absurd e (by simp)
      · rename_i o2 h2 e2
        split at e
        · exact absurd e (by simp)
        · rename_i o3 h3 e3
          simp only [Option.some.injEq, Prod.mk.injEq] at e
          intro x
          rw [← e.2, Stmt.allocate_name elseStmt o2 h2 o3 h3 e3 x,
            Stmt.allocate_name thenStmt off h o2 h2 e2 x]
termination_by sizeOf s
theorem Stmt.allocateStmts_name (ss : List Stmt) (temp off : Int) (h : Heap) (o1 : Int)
    (h1 : Heap) (e : Stmt.allocateStmts ss temp off h = some (o1, h1)) :
    ∀ x, (h1 x).name = (h x).name := by
  cases ss with
  | nil =>
    simp only [Stmt.allocateStmts, Option.some.injEq, Prod.mk.injEq] at e
    intro x
    rw [← e.2]
  | cons s ss =>
    simp only [Stmt.allocateStmts] at e
    split at e
    · exact absurd e (by simp)
    · rename_i o2 h2 e2
      intro x
      rw [Stmt.allocateStmts_name ss _ _ h2 o1 h1 e x, Stmt.allocate_name s temp h o2 h2 e2 x]
termination_by sizeOf ss
end

theorem allocateParameters_name : ∀ (ps : Parameters) (syms : List Nat) (off : Int) (h : Heap)
    (o1 : Int) (h1 : Heap), allocateParameters ps syms off h = some (o1, h1) →
    ∀ x, (h1 x).name = (h x).name
  | [], syms, off, h, o1, h1, e, x => by
    simp only [allocateParameters, Option.some.injEq, Prod.mk.injEq] at e
    rw [← e.2]
  | p :: ps, [], off, h, o1, h1, e, x => by
    simp only [allocateParameters] at e
    exact absurd e (by simp)
  | p :: ps, s :: syms, off, h, o1, h1, e, x => by
    simp only [allocateParameters] at e
    split at e
    · exact absurd e (by simp)
    · rw [allocateParameters_name ps syms _ _ o1 h1 e x]
      exact (Heap.setOffset_type h s x _).2

theorem Function.allocation_name (f : Function) (h : Heap) (o1 : Int) (h1 : Heap)
    (e : f.allocate h = some (o1, h1)) : ∀ x, (h1 x).name = (h x).name := by
  unfold Function.allocate at e
  split at e
  · exact absurd e (by simp)
  · split at e
    · exact absurd e (by simp)
    · rename_i o2 h2 e2
      intro x
      rw [Stmt.allocate_name f.body 0 h2 o1 h1 e x, allocateParameters_name _ _ _ _ o2 h2 e2 x]

end NamesOfSymbols

section LabelsOfFunctions

theorem inert_of_identifier (name rest : String) (h : startsAsIdentifier name = true) :
    Inert (name ++ rest) := by
  apply Inert.of_start
  apply inertStart_append
  unfold startsAsIdentifier at h
  unfold inertStart
  cases hn : name.data with
  | nil => rw [hn] at h; exact absurd h (by simp)
  | cons c r =>
    rw [hn] at h
    simp only at h
    have h1 : c ≠ '.' := by
      rintro rfl
      revert h
      decide
    have h2 : c ≠ '\t' := by
      rintro rfl
      revert h
      decide
    cases r with
    | nil => simp [h1, h2]
    | cons d s => simp [h1, h2]

/-- The output of `Function::generate` for a function whose name starts as an
identifier is traced, and every jump in it goes to a label defined in it. -/
theorem Function.generate_traced (f : Function) (h h1 : Heap) (g g1 : Generator)
    (hname : startsAsIdentifier (h f.id).name = true)
    (e : f.generate h g = some (h1, g1)) : ∃ evs, Traced [] [] g g1 evs := by
  unfold Function.generate at e
  cases ha : f.allocate h with
  | none => rw [ha] at e; exact absurd e (by simp)
  | some r =>
    obtain ⟨offset, h2⟩ := r
    rw [ha] at e
    simp only at e
    have hn2 : (h2 f.id).name = (h f.id).name := Function.allocation_name f h offset h2 ha f.id
    cases hb : f.body.generate h2 (Function.start g offset (h2 f.id).name) with
    | none => rw [hb] at e; exact absurd e (by simp)
    | some g2 =>
      rw [hb] at e
      simp only [Option.some.injEq, Prod.mk.injEq] at e
      obtain ⟨_, rfl⟩ := e
      obtain ⟨evB, pB, rB⟩ := Stmt.generate_traces f.body h2 _ g2 hb
      have hc : g.counter + 1 ≤ g2.counter := pB.counter
      have f0 : Traced [g.counter] [g.counter] g
          { g.newLabel.2 with returnLab := g.newLabel.1, tempoffset := offset,
                              minoffset := offset, maxoffset := offset } [] :=
        Traced.silent_step _ _ rfl (Nat.le_succ _) (fun _ he => Or.inl he)
      have f1 : Traced [g.counter] [g.counter]
          { g.newLabel.2 with returnLab := g.newLabel.1, tempoffset := offset,
                              minoffset := offset, maxoffset := offset }
          (Function.start g offset (h2 f.id).name) _ :=
        Traced.codes _ _ _ [(h2 f.id).name ++ ":\n", "\tpushl\t%ebp\n", "\tmovl\t%esp, %ebp\n",
          "\tsubl\t$" ++ (h2 f.id).name ++ ".size, %esp\n"] (by
            repeat' first
              | exact inert_nil
              | exact inert_of_identifier _ _ (by rw [hn2]; exact hname)
              | exact Inert.of_start (by decide)
              | exact Inert.of_start (inertStart_append _ _ (inertStart_append _ _ (by decide)))
              | refine List.forall_mem_cons.2 ⟨?_, ?_⟩)
      have f2 : Traced [g.counter] [g.counter] (Function.start g offset (h2 f.id).name) g2
          evB :=
        pB.reserve g.counter (by show g.counter < g.counter + 1; omega)
      have hret : g2.returnLab = ⟨g.counter⟩ := rB
      have d := @Traced.define_last [] [] g _ (g2.emit (g2.returnLab.text ++ ":\n")) _ g.counter
        ((f0.traced_append f1).traced_append f2) ⟨le_refl _, by omega⟩ (List.not_mem_nil _)
        (by rw [hret]; rfl) rfl rfl
      have f3 : Traced [] [] (g2.emit (g2.returnLab.text ++ ":\n"))
          (g2.emits (epilogueCode (h2 f.id).name g2)) _ :=
        Traced.codes_to _ _ ["\tmovl\t%ebp, %esp\n", "\tpopl\t%ebp\n", "\tret\n\n",
          "\t.global\t" ++ (h2 f.id).name ++ "\n",
          sizeLine (h2 f.id).name (toInt32 (-g2.maxoffset)), "\n"]
          (by simp only [Generator.emits, Generator.emit, epilogueCode, List.append_assoc,
            List.cons_append, List.nil_append]) rfl rfl (by
            unfold sizeLine
            repeat' first
              | exact inert_nil
              | exact Inert.of_start (by decide)
              | exact Inert.of_start (inertStart_append _ _ (by decide))
              | exact Inert.of_start (inertStart_append _ _ (inertStart_append _ _ (by decide)))
              | exact Inert.of_start (inertStart_append _ _ (inertStart_append _ _
                  (inertStart_append _ _ (inertStart_append _ _ (by decide)))))
              | refine List.forall_mem_cons.2 ⟨?_, ?_⟩)
      exact ⟨_, d.traced_append f3⟩

end LabelsOfFunctions
section LabelsOfRuns

/-- What a trace whose jumps all go to labels defined in it says of the text:
no label is defined twice, a statement that starts as a label is the
definition of one, a statement that starts as a jump is a jump to a label,
and every label jumped to is defined once. -/
theorem Traced.output_spec {res : List Nat} {g g1 : Generator} {evs : List Event}
    (x : Traced [] res g g1 evs) :
    (∀ n, (evs.map Event.text).countP (definesLabel n) = definitions n evs) ∧
    (∀ text ∈ evs.map Event.text, startsWith ".L" text = true →
      ∃ n, definesLabel n text = true) ∧
    (∀ text ∈ evs.map Event.text, startsWith "\tj" text = true →
      ∃ n, jumpsTo n text = true) ∧
    ∀ text ∈ evs.map Event.text, ∀ n, jumpsTo n text = true →
      (evs.map Event.text).countP (definesLabel n) = 1 := by
  have hcount := fun n => definitions_text n evs x.inert
  refine ⟨hcount, ?_, ?_, ?_⟩
  · intro text ht hs
    obtain ⟨ev, hev, rfl⟩ := List.mem_map.1 ht
    cases ev with
    | code t =>
      have hi : Inert t := x.inert _ hev
      rw [show (Event.code t).text = t from rfl, hi.1] at hs
      exact absurd hs (by simp)
    | define l =>
      exact ⟨l.number, by
        rw [show (Event.define l).text = l.text ++ ":\n" from rfl, definesLabel_define]
        simp⟩
    | jump j l =>
      rw [show (Event.jump j l).text = j.text ++ l.text ++ "\n" from rfl,
        (startsWith_jump j l).2] at hs
      exact absurd hs (by simp)
  · intro text ht hs
    obtain ⟨ev, hev, rfl⟩ := List.mem_map.1 ht
    cases ev with
    | code t =>
      have hi : Inert t := x.inert _ hev
      rw [show (Event.code t).text = t from rfl, hi.2] at hs
      exact absurd hs (by simp)
    | define l =>
      rw [show (Event.define l).text = l.text ++ ":\n" from rfl, (startsWith_define l).2] at hs
      exact absurd hs (by simp)
    | jump j l =>
      exact ⟨l.number, by
        rw [show (Event.jump j l).text = j.text ++ l.text ++ "\n" from rfl, jumpsTo_jump]
        simp⟩
  · intro text ht n hj
    obtain ⟨ev, hev, rfl⟩ := List.mem_map.1 ht
    have ht := ((Event.text_spec n ev (x.inert ev hev)).2).1 hj
    rw [hcount]
    rcases x.closed ev hev n ht with h | h
    · have := x.once n
      omega
    · exact absurd h (List.not_mem_nil _)

theorem globalDeclaration_traced (p : Parsed) (s s1 : Compiler)
    (hname : ∀ f, p.function = some f → startsAsIdentifier (p.symbols f.id).name = true)
    (e : globalDeclaration p s = some s1) :
    ∃ evs, Traced [] [] s.generator s1.generator evs := by
  unfold globalDeclaration at e
  cases hf : p.function with
  | none =>
    rw [hf] at e
    simp only [Option.some.injEq] at e
    rw [← e]
    exact ⟨[], Traced.traced_refl _ _ _⟩
  | some f =>
    rw [hf] at e
    simp only at e
    by_cases h0 : (p.parse s).checker.numErrors = 0
    · rw [if_pos h0] at e
      simp only [Option.map_eq_some', Prod.exists] at e
      obtain ⟨h1, g1, e1, rfl⟩ := e
      exact Function.generate_traced f _ h1 _ g1 (hname f hf) e1
    · rw [if_neg h0] at e
      simp only [Option.some.injEq] at e
      rw [← e]
      exact ⟨[], Traced.traced_refl _ _ _⟩

theorem globalDeclarations_traced : ∀ (ps : List Parsed) (s s1 : Compiler),
    (∀ p ∈ ps, ∀ f, p.function = some f → startsAsIdentifier (p.symbols f.id).name = true) →
    globalDeclarations ps s = some s1 → ∃ evs, Traced [] [] s.generator s1.generator evs
  | [], s, s1, _, e => by
    simp only [globalDeclarations, Option.some.injEq] at e
    rw [← e]
    exact ⟨[], Traced.traced_refl _ _ _⟩
  | p :: ps, s, s1, hn, e => by
    simp only [globalDeclarations, Option.bind_eq_some] at e
    obtain ⟨s2, e1, e2⟩ := e
    obtain ⟨a, ta⟩ := globalDeclaration_traced p s s2 (hn p (List.mem_cons_self _ _)) e1
    obtain ⟨b, tb⟩ := globalDeclarations_traced ps s2 s1
      (fun q hq => hn q (List.mem_cons_of_mem _ hq)) e2
    exact ⟨a ++ b, ta.traced_append tb⟩

theorem commCode_inert (h : Heap) : ∀ (globals : List Nat) (code : List String),
    commCode h globals = some code → ∀ t ∈ code, Inert t
  | [], code, e => by
    simp only [commCode, Option.some.injEq] at e
    rw [← e]
    exact inert_nil
  | s :: rest, code, e => by
    simp only [commCode, Option.bind_eq_bind, Option.bind_eq_some, Option.some.injEq] at e
    obtain ⟨n, _, c, e1, rfl⟩ := e
    refine inert_append ?_ (commCode_inert h rest c e1)
    repeat' first
      | exact inert_nil
      | exact Inert.of_start (inertStart_append _ _ (by decide))
      | exact Inert.of_start (inertStart_append _ _ (inertStart_append _ _ (by decide)))
      | refine List.forall_mem_cons.2 ⟨?_, ?_⟩

theorem doubleCode_inert (fLabels : List fLabel) : ∀ t ∈ doubleCode fLabels, Inert t := by
  intro t ht
  obtain ⟨l, _, rfl⟩ := List.mem_map.1 ht
  unfold fLabelText
  exact Inert.of_start (inertStart_append _ _ (inertStart_append _ _
    (inertStart_append _ _ (inertStart_append _ _ (by decide)))))

/-- The output of `generateGlobals`: inert lines, then the lines of the
table `Labels`. -/
theorem generateGlobals_out (globals : List Nat) (fLabels : List fLabel) (h : Heap)
    (g g1 : Generator) (e : generateGlobals globals fLabels h g = some g1) :
    ∃ pre, g1.cout = g.cout ++ pre ++ ascizCode g.Labels ∧ ∀ t ∈ pre, Inert t := by
  simp only [generateGlobals, Option.bind_eq_bind, Option.bind_eq_some, Option.some.injEq] at e
  obtain ⟨code, e1, rfl⟩ := e
  have hc := commCode_inert h globals code e1
  have hd := doubleCode_inert fLabels
  split_ifs
  · refine ⟨["\t.data\n"] ++ code ++ doubleCode fLabels, ?_, ?_⟩
    · simp only [Generator.emits, Generator.emit, List.append_assoc]
    · exact inert_append (inert_append (List.forall_mem_cons.2
        ⟨Inert.of_start (by decide), inert_nil⟩) hc) hd
  · refine ⟨code ++ doubleCode fLabels, ?_, ?_⟩
    · simp only [Generator.emits, List.append_assoc]
    · exact inert_append hc hd

theorem countP_inert (n : Nat) (texts : List String) (h : ∀ t ∈ texts, Inert t) :
    texts.countP (definesLabel n) = 0 := by
  rw [List.countP_eq_zero]
  intro t ht
  rw [definesLabel_inert n (h t ht)]
  exact Bool.false_ne_true

theorem length_le_one_of_all_eq {α : Type} : ∀ (l : List α), l.Nodup →
    (∀ a ∈ l, ∀ b ∈ l, a = b) → l.length ≤ 1
  | [], _, _ => Nat.zero_le _
  | [_], _, _ => le_refl _
  | a :: b :: r, hn, he => by
    have := he a (List.mem_cons_self _ _) b (List.mem_cons_of_mem _ (List.mem_cons_self _ _))
    rw [this] at hn
    exact absurd (List.mem_cons_self _ _) (List.nodup_cons.1 hn).1

/-- The lines of the table `Labels` of a run define each label at most once,
and the labels they define are those of the table. -/
theorem ascizCode_count {g : Generator} {log : List (String × Operand)} (inv : Interned g log)
    (n : Nat) :
    (ascizCode g.Labels).countP (definesLabel n) ≤ 1 ∧
    (0 < (ascizCode g.Labels).countP (definesLabel n) → ∃ e ∈ g.Labels, e.2.number = n) := by
  have hcount : (ascizCode g.Labels).countP (definesLabel n) =
      g.Labels.countP (fun e => decide (e.2.number = n)) := by
    unfold ascizCode
    rw [List.countP_map]
    exact List.countP_congr fun e _ => by
      show definesLabel n (e.2.text ++ ":\t.asciz\t" ++ e.1 ++ "\n") = true ↔ _
      rw [definesLabel_asciz]
  rw [hcount]
  constructor
  · rw [List.countP_eq_length_filter]
    have hnd : g.Labels.Nodup := List.Nodup.of_map _ (sorted_keys_nodup inv.sorted)
    refine length_le_one_of_all_eq _ (hnd.filter _) ?_
    intro a ha b hb
    obtain ⟨ha1, ha2⟩ := List.mem_filter.1 ha
    obtain ⟨hb1, hb2⟩ := List.mem_filter.1 hb
    simp only [decide_eq_true_eq] at ha2 hb2
    have h2 : a.2 = b.2 := by
      cases ha3 : a.2
      cases hb3 : b.2
      rw [ha3] at ha2
      rw [hb3] at hb2
      simp only at ha2 hb2
      rw [ha2, hb2]
    exact Prod.ext (inv.distinct a ha1 b hb1 h2) h2
  · intro hp
    rw [List.countP_pos_iff] at hp
    obtain ⟨e, he, hn⟩ := hp
    exact ⟨e, he, by simpa using hn⟩

end LabelsOfRuns
section LabelWellFormedness

/-- Claim C37: label well-formedness.  Over a whole run of `main` on an input
whose function names start as identifiers do: for every number `n` at most one
output statement starts with the definition `.Ln:` of the label of that
number, in the code of the functions and in the data section together, and
every output statement that starts with `.L` is such a definition.  In the
output of every call of `Function::generate` that returns, for a function
whose name starts as an identifier: every output statement that starts with a
tab and `j` is a `je`, `jne` or `jmp` to a label, and every label that is the
target of such a jump is defined by exactly one output statement of that
output. -/
theorem C37_label_well_formedness (input : List Parsed) (s : Compiler) (status : Nat)
    (hnames : ∀ p ∈ input, ∀ f, p.function = some f →
      startsAsIdentifier (p.symbols f.id).name = true)
    (hrun : main input = some (s, status)) :
    (∀ n, s.generator.cout.countP (definesLabel n) ≤ 1) ∧
    (∀ text ∈ s.generator.cout, startsWith ".L" text = true →
      ∃ n, definesLabel n text = true) ∧
    ∀ (f : Function) (h h1 : Heap) (g g1 : Generator),
      startsAsIdentifier (h f.id).name = true → f.generate h g = some (h1, g1) →
      ∃ out, g1.cout = g.cout ++ out ∧
        (∀ text ∈ out, startsWith "\tj" text = true → ∃ n, jumpsTo n text = true) ∧
        ∀ text ∈ out, ∀ n, jumpsTo n text = true → out.countP (definesLabel n) = 1 := by
  refine ⟨?_, ?_, ?_⟩
  · simp only [main, Option.bind_eq_some] at hrun
    obtain ⟨s0, e0, e1⟩ := hrun
    obtain ⟨evs, tr⟩ := globalDeclarations_traced input Compiler.init s0 hnames e0
    obtain ⟨log, run⟩ := globalDeclarations_run input s0 e0
    have inv := run.interned
    have hout : s0.generator.cout = evs.map Event.text := by
      rw [tr.out]
      rfl
    obtain ⟨hcount, _, _, _⟩ := tr.output_spec
    intro n
    by_cases h0 : s0.checker.numErrors = 0
    · rw [if_pos h0] at e1
      simp only [Option.map_eq_some', Prod.mk.injEq] at e1
      obtain ⟨gf, eg, rfl, _⟩ := e1
      obtain ⟨pre, hpre, hin⟩ := generateGlobals_out _ _ _ _ gf eg
      show gf.cout.countP (definesLabel n) ≤ 1
      rw [hpre, hout, List.countP_append, List.countP_append, hcount, countP_inert n pre hin]
      obtain ⟨a1, a2⟩ := ascizCode_count inv n
      have := tr.once n
      by_cases hp : 0 < (ascizCode s0.generator.Labels).countP (definesLabel n)
      · obtain ⟨e, he, hn⟩ := a2 hp
        rcases tr.strings e he with k | k
        · exact absurd k (List.not_mem_nil _)
        · rw [hn] at k
          omega
      · omega
    · rw [if_neg h0] at e1
      simp only [Option.some.injEq, Prod.mk.injEq] at e1
      rw [← e1.1, hout, hcount]
      exact tr.once n
  · simp only [main, Option.bind_eq_some] at hrun
    obtain ⟨s0, e0, e1⟩ := hrun
    obtain ⟨evs, tr⟩ := globalDeclarations_traced input Compiler.init s0 hnames e0
    have hout : s0.generator.cout = evs.map Event.text := by
      rw [tr.out]
      rfl
    obtain ⟨_, hdef, _, _⟩ := tr.output_spec
    intro text ht hs
    by_cases h0 : s0.checker.numErrors = 0
    · rw [if_pos h0] at e1
      simp only [Option.map_eq_some', Prod.mk.injEq] at e1
      obtain ⟨gf, eg, rfl, _⟩ := e1
      obtain ⟨pre, hpre, hin⟩ := generateGlobals_out _ _ _ _ gf eg
      have ht2 : text ∈ gf.cout := ht
      rw [hpre, hout] at ht2
      rcases List.mem_append.1 ht2 with h1 | h1
      · rcases List.mem_append.1 h1 with h2 | h2
        · exact hdef text h2 hs
        · rw [(hin text h2).1] at hs
          exact absurd hs (by simp)
      · obtain ⟨e, _, rfl⟩ := List.mem_map.1 h1
        exact ⟨e.2.number, by rw [definesLabel_asciz]; simp⟩
    · rw [if_neg h0] at e1
      simp only [Option.some.injEq, Prod.mk.injEq] at e1
      rw [← e1.1, hout] at ht
      exact hdef text ht hs
  · intro f h h1 g g1 hname e
    obtain ⟨evs, tr⟩ := Function.generate_traced f h h1 g g1 hname e
    obtain ⟨_, _, hj, hone⟩ := tr.output_spec
    exact ⟨evs.map Event.text, tr.out, hj, hone⟩

/-- The input `int x; int puts(); int main(void) { while (x && x) { if (x)
return 1; else puts("s"); } return 0; }`: the call in it is the tree that
`checkCall` builds; the labels of the loop, of `&&`, of the `if`, the return
label and the label of the literal are defined once each, with the numbers 2,
4, 5, 6, 3, 1 and 7. -/
theorem C37_label_well_formedness_witness :
    (checkCall (Heap.ofList [Symbol.new "x" CType.integer,
        Symbol.new "puts" (.mk .INT 0 (.Function none)),
        Symbol.new "main" (.mk .INT 0 (.Function (some [])))]) 1
      [.String "\"s\"" intPointer] Checker.init).1 =
      .Call 1 [.String "\"s\"" intPointer] CType.integer ∧
    (∀ p ∈ exampleLabels, ∀ f, p.function = some f →
      startsAsIdentifier (p.symbols f.id).name = true) ∧
    ∃ s status, main exampleLabels = some (s, status) ∧
      s.generator.cout.filter (startsWith ".L") =
        [".L2:\n", ".L4:\n", ".L5:\n", ".L6:\n", ".L3:\n", ".L1:\n",
          ".L7:\t.asciz\t\"s\"\n"] ∧
      s.generator.cout.filter (startsWith "\tj") =
        ["\tje\t.L4\n", "\tje\t.L3\n", "\tje\t.L5\n", "\tjmp\t.L1\n", "\tjmp\t.L6\n",
          "\tjmp\t.L2\n", "\tjmp\t.L1\n"] ∧
      (∀ n, s.generator.cout.countP (definesLabel n) ≤ 1) ∧
      (∀ text ∈ s.generator.cout, startsWith ".L" text = true →
        ∃ n, definesLabel n text = true) := by
  have hn : ∀ p ∈ exampleLabels, ∀ f, p.function = some f →
      startsAsIdentifier (p.symbols f.id).name = true := by
    intro p hp f hf
    simp only [exampleLabels, List.mem_cons, List.mem_singleton, List.not_mem_nil,
      or_false] at hp
    rcases hp with rfl | rfl | rfl
    · exact absurd hf (by simp)
    · exact absurd hf (by simp)
    · simp only [Option.some.injEq] at hf
      rw [← hf]
      decide
  obtain ⟨p, hp, h1, h2⟩ : ∃ p, main exampleLabels = some p ∧
      p.1.generator.cout.filter (startsWith ".L") =
        [".L2:\n", ".L4:\n", ".L5:\n", ".L6:\n", ".L3:\n", ".L1:\n",
          ".L7:\t.asciz\t\"s\"\n"] ∧
      p.1.generator.cout.filter (startsWith "\tj") =
        ["\tje\t.L4\n", "\tje\t.L3\n", "\tje\t.L5\n", "\tjmp\t.L1\n", "\tjmp\t.L6\n",
          "\tjmp\t.L2\n", "\tjmp\t.L1\n"] := ⟨_, rfl, by decide, by decide⟩
  have w := C37_label_well_formedness exampleLabels p.1 p.2 hn hp
  exact ⟨rfl, hn, p.1, p.2, hp, h1, h2, w.1, w.2.1⟩

end LabelWellFormedness

section CancellationText

end CancellationText

end SimpleC
